import Mathlib

/-!
# Shared_ptr.h : shared / weak ownership runtime

A shallow embedding of `src/Shared_ptr.h`.  The C++ objects live in a `World`:

* `heap`   : the control blocks, a block's address is its index;
* `objs`   : the payload objects, a payload's address is its index;
* `shared` : the `SharedPtr` objects (named handles and temporaries);
* `weak`   : the `WeakPtr` objects (named handles, temporaries and the
             `weak_ptr` member of payloads deriving from `EnableSharedFromThis`);
* `log`    : the calls made to the virtual functions of the block, to the
             destruction strategy and to the memory source, in program order.

Every C++ member function is a state transformer `M α := World → Result α`.
A `Result` is a normal return, a C++ exception (with the state at the throw),
or a fault (undefined behaviour: null dereference, access to a released block,
access to an object whose lifetime has ended).
-/

namespace Shared_ptr

/-- The number of values of `size_t` (64 bit). -/
def SIZE_MOD : Nat := 18446744073709551616

/-- The instance obtained by default-constructing a memory source
(`BlockAllocator block_alloc;`). -/
def default_alloc : Nat := 0

/-- The instance obtained by default-constructing a destruction strategy (`Deleter()`). -/
def default_delete : Nat := 0

/-- Whether the call `deleter(pointer)` of the destruction strategy `d` runs the
destructor of the payload.  The strategy is a template parameter of the code, any
callable: `std::default_delete` is `delete pointer` and runs the destructor, and so
does every strategy with an even number; a strategy with an odd number leaves the
payload alone (a strategy that does nothing, for an object owned elsewhere, or one
that hands the object back to a pool). -/
def deleter_destroys (d : Nat) : Bool := d % 2 == 0

/-- Dynamic type of a control block, with the fields the derived class adds.
`ptr` is `ControlBlockPtr<U, Deleter, Allocator>`, `object` is
`ControlBlockObject<U, Allocator>` (the field `object` is the address of the
embedded payload). -/
inductive BlockKind where
  | ptr (pointer : Option Nat) (deleter : Nat) (alloc : Nat)
  | object (object : Nat) (alloc : Nat)
  deriving DecidableEq, Repr

/-- Control block: `struct BaseControlBlock` with its dynamic type.  `freed` is
ghost state: the storage of the block has been given back to the memory source. -/
structure BaseControlBlock where
  shared_counter : Nat
  weak_counter : Nat
  kind : BlockKind
  freed : Bool
  deriving DecidableEq, Repr

/-- Shared handle: `class SharedPtr<T>`; `none` is `nullptr`. -/
structure SharedPtr where
  pointer : Option Nat
  control_block : Option Nat
  deriving DecidableEq, Repr

/-- Weak handle: `class WeakPtr<T>`; `none` is `nullptr`. -/
structure WeakPtr where
  pointer : Option Nat
  control_block : Option Nat
  deriving DecidableEq, Repr

/-- Payload object.  `weak_ptr` is the member `EnableSharedFromThis<T>::weak_ptr`
(the index of that `WeakPtr` object), `none` when the payload type does not
derive from `EnableSharedFromThis`. -/
structure Payload where
  weak_ptr : Option Nat
  deriving DecidableEq, Repr

/-- Calls recorded in program order. -/
inductive Event where
  /-- Storage for block `b` obtained through memory source instance `a`. -/
  | allocate (a b : Nat)
  /-- Storage of block `b` returned through memory source instance `a`. -/
  | deallocate (a b : Nat)
  /-- Virtual call `control_block->delete_obj()` on block `b`. -/
  | delete_obj (b : Nat)
  /-- Virtual call `control_block->delete_block()` on block `b`. -/
  | delete_block (b : Nat)
  /-- Call `deleter(pointer)` of destruction strategy `d`. -/
  | deleter (d : Nat) (p : Option Nat)
  /-- Call `allocator_traits<Allocator>::destroy(alloc, &object)`. -/
  | destroy (a : Nat) (p : Nat)
  deriving DecidableEq, Repr

/-- The program state. -/
structure World where
  heap : List BaseControlBlock
  objs : List Payload
  shared : List (Option SharedPtr)
  weak : List (Option WeakPtr)
  log : List Event
  deriving DecidableEq, Repr

/-- The state before anything has been constructed. -/
def World.empty : World := ⟨[], [], [], [], []⟩

/-- Undefined behaviour, and the limit of the memory model. -/
inductive Fault where
  /-- A null `control_block` (or payload pointer) is dereferenced. -/
  | null_deref
  /-- A control block is accessed after `delete_block` released it. -/
  | use_after_free
  /-- A handle or payload is used after its lifetime ended, or was never constructed. -/
  | dead_object
  /-- An address that no allocation returned is dereferenced. -/
  | wild_pointer
  /-- The limit of the memory model: `2^64` handle objects of one kind would be alive at once. -/
  | address_space
  deriving DecidableEq, Repr

/-- C++ exceptions. -/
inductive Exn where
  /-- The memory source failed to allocate. -/
  | bad_alloc
  /-- Thrown by `shared_from_this`: `std::bad_exception`. -/
  | bad_exception
  /-- The constructor of the payload threw. -/
  | ctor_failure
  deriving DecidableEq, Repr

/-- Outcome of running a piece of code. -/
inductive Result (α : Type) where
  | ok (a : α) (w : World)
  | throw (e : Exn) (w : World)
  | fault (f : Fault)
  deriving DecidableEq, Repr

/-- Code: a state transformer. -/
def M (α : Type) : Type := World → Result α

/-- Return without touching the state. -/
def M.pure {α : Type} (a : α) : M α := fun w => Result.ok a w

/-- Sequencing: an exception or a fault of the first part ends the whole. -/
def M.bind {α β : Type} (m : M α) (f : α → M β) : M β := fun w =>
  match m w with
  | Result.ok a w1 => f a w1
  | Result.throw e w1 => Result.throw e w1
  | Result.fault x => Result.fault x

instance : Monad M where
  pure := M.pure
  bind := M.bind

/-- Undefined behaviour. -/
def M.fault {α : Type} (f : Fault) : M α := fun _ => Result.fault f

/-- The statement `throw e;`. -/
def M.throw {α : Type} (e : Exn) : M α := fun w => Result.throw e w

/-- Number of `SharedPtr` objects alive. -/
def liveS (w : World) : Nat := w.shared.countP Option.isSome

/-- Number of `WeakPtr` objects alive. -/
def liveW (w : World) : Nat := w.weak.countP Option.isSome

/-- Read the `SharedPtr` object `i`. -/
def get_shared (i : Nat) : M SharedPtr := fun w =>
  match w.shared[i]? with
  | some (some h) => Result.ok h w
  | _ => Result.fault Fault.dead_object

/-- Overwrite the `SharedPtr` object `i`. -/
def set_shared (i : Nat) (h : SharedPtr) : M Unit := fun w =>
  Result.ok () { w with shared := w.shared.set i (some h) }

/-- The lifetime of the `SharedPtr` object `i` ends. -/
def end_shared (i : Nat) : M Unit := fun w =>
  Result.ok () { w with shared := w.shared.set i none }

/-- A new `SharedPtr` object comes to life with the given members; its index is returned. -/
def new_shared (h : SharedPtr) : M Nat := fun w =>
  if liveS w + 1 < SIZE_MOD then
    Result.ok w.shared.length { w with shared := w.shared ++ [some h] }
  else Result.fault Fault.address_space

/-- Read the `WeakPtr` object `i`. -/
def get_weak (i : Nat) : M WeakPtr := fun w =>
  match w.weak[i]? with
  | some (some h) => Result.ok h w
  | _ => Result.fault Fault.dead_object

/-- Overwrite the `WeakPtr` object `i`. -/
def set_weak (i : Nat) (h : WeakPtr) : M Unit := fun w =>
  Result.ok () { w with weak := w.weak.set i (some h) }

/-- The lifetime of the `WeakPtr` object `i` ends. -/
def end_weak (i : Nat) : M Unit := fun w =>
  Result.ok () { w with weak := w.weak.set i none }

/-- A new `WeakPtr` object comes to life with the given members; its index is returned. -/
def new_weak (h : WeakPtr) : M Nat := fun w =>
  if liveW w + 1 < SIZE_MOD then
    Result.ok w.weak.length { w with weak := w.weak ++ [some h] }
  else Result.fault Fault.address_space

/-- Dereference `control_block` where it is the address `b`. -/
def get_block (b : Nat) : M BaseControlBlock := fun w =>
  match w.heap[b]? with
  | some blk => if blk.freed then Result.fault Fault.use_after_free else Result.ok blk w
  | none => Result.fault Fault.wild_pointer

/-- Write the members of block `b`. -/
def set_block (b : Nat) (blk : BaseControlBlock) : M Unit := fun w =>
  Result.ok () { w with heap := w.heap.set b blk }

/-- Read the whole state. -/
def get_world : M World := fun w => Result.ok w w

/-- Record a call. -/
def emit (e : Event) : M Unit := fun w =>
  Result.ok () { w with log := w.log ++ [e] }

/-- The call `BlockAllocTraits::allocate(block_alloc, 1)` followed by the construction of
the block with both counters at their default member initialiser 0.  The memory
source is a template parameter: whether it succeeds is the input `alloc_ok`. -/
def allocate_block (alloc_ok : Bool) (kind : BlockKind) : M Nat := fun w =>
  if alloc_ok then
    Result.ok w.heap.length
      { w with heap := w.heap ++ [⟨0, 0, kind, false⟩],
               log := w.log ++ [Event.allocate default_alloc w.heap.length] }
  else Result.throw Exn.bad_alloc w


/-! ## Control blocks -/

/-- Virtual `delete_block()`: `ControlBlockPtr::delete_block` and
`ControlBlockObject::delete_block` both default-construct the rebound memory source
and deallocate `this` through it. -/
def BaseControlBlock.delete_block (b : Nat) : M Unit := do
  let blk ← get_block b
  emit (Event.delete_block b)
  emit (Event.deallocate default_alloc b)
  set_block b { blk with freed := true }

/-! ## WeakPtr -/

/-- `WeakPtr() = default;` -/
def WeakPtr.ctor_default : M Nat :=
  new_weak ⟨none, none⟩

/-- `explicit WeakPtr(U* ptr, Deleter del, Allocator alloc)` -/
def WeakPtr.ctor_adopt (ptr : Option Nat) (del alloc : Nat) (alloc_ok : Bool) : M Nat := do
  let block ← allocate_block alloc_ok (BlockKind.ptr ptr del alloc)
  let this ← new_weak ⟨ptr, some block⟩
  let blk ← get_block block
  set_block block { blk with weak_counter := 1 }
  pure this

/-- `WeakPtr(const WeakPtr& other, U* ptr)` -/
def WeakPtr.ctor_alias (other : Nat) (ptr : Option Nat) : M Nat := do
  let o ← get_weak other
  let this ← new_weak ⟨ptr, o.control_block⟩
  match o.control_block with
  | none => pure this
  | some b => do
    let blk ← get_block b
    set_block b { blk with weak_counter := (blk.weak_counter + 1) % SIZE_MOD }
    pure this

/-- `WeakPtr(const WeakPtr& other)` and the converting `WeakPtr(const WeakPtr<U>& ptr)` -/
def WeakPtr.ctor_copy (other : Nat) : M Nat := do
  let o ← get_weak other
  let this ← new_weak ⟨o.pointer, o.control_block⟩
  match o.control_block with
  | none => pure this
  | some b => do
    let blk ← get_block b
    set_block b { blk with weak_counter := (blk.weak_counter + 1) % SIZE_MOD }
    pure this

/-- `WeakPtr(WeakPtr&& other)` and the converting `WeakPtr(WeakPtr<U>&& other)` -/
def WeakPtr.ctor_move (other : Nat) : M Nat := do
  let o ← get_weak other
  let this ← new_weak ⟨o.pointer, o.control_block⟩
  set_weak other ⟨none, none⟩
  pure this

/-- `WeakPtr(const SharedPtr<T>& sh_ptr)` and the converting `WeakPtr(const SharedPtr<U>& sh_ptr)`:
the body increments through `control_block` without a null test. -/
def WeakPtr.ctor_from_shared (sh_ptr : Nat) : M Nat := do
  let s ← get_shared sh_ptr
  let this ← new_weak ⟨s.pointer, s.control_block⟩
  match s.control_block with
  | none => M.fault Fault.null_deref
  | some b => do
    let blk ← get_block b
    set_block b { blk with weak_counter := (blk.weak_counter + 1) % SIZE_MOD }
    pure this

/-- `void swap(WeakPtr& other)`: the two `std::swap` calls exchange `control_block`
and `pointer` of `*this` and `other`. -/
def WeakPtr.swap (this other : Nat) : M Unit := do
  let a ← get_weak this
  let o ← get_weak other
  set_weak this ⟨o.pointer, o.control_block⟩
  set_weak other ⟨a.pointer, a.control_block⟩

/-- `~WeakPtr()`.  No other code can reach the object while its destructor runs, so
its lifetime is ended first. -/
def WeakPtr.dtor (this : Nat) : M Unit := do
  let h ← get_weak this
  end_weak this
  match h.control_block with
  | none => pure ()
  | some b => do
    let blk ← get_block b
    set_block b { blk with weak_counter := (blk.weak_counter + SIZE_MOD - 1) % SIZE_MOD }
    let blk ← get_block b
    if blk.shared_counter = 0 then
      if blk.weak_counter = 0 then
        BaseControlBlock.delete_block b
      else pure ()
    else pure ()

/-- `WeakPtr& operator=(const WeakPtr& other)` and its converting form:
`WeakPtr copy = other; swap(copy); return *this;`, then `copy` goes out of scope. -/
def WeakPtr.assign_copy (this other : Nat) : M Unit := do
  let copy ← WeakPtr.ctor_copy other
  WeakPtr.swap this copy
  WeakPtr.dtor copy

/-- `WeakPtr& operator=(WeakPtr&& other)` and its converting form:
`WeakPtr copy = std::move(other); swap(copy); return *this;`, then `copy` goes out of scope. -/
def WeakPtr.assign_move (this other : Nat) : M Unit := do
  let copy ← WeakPtr.ctor_move other
  WeakPtr.swap this copy
  WeakPtr.dtor copy

/-- `bool expired() const` -/
def WeakPtr.expired (this : Nat) : M Bool := do
  let h ← get_weak this
  match h.control_block with
  | none => pure true
  | some b => do
    let blk ← get_block b
    pure (blk.shared_counter == 0)

/-- `T* get() const` -/
def WeakPtr.get (this : Nat) : M (Option Nat) := do
  let h ← get_weak this
  pure h.pointer

/-- `size_t use_count() const` -/
def WeakPtr.use_count (this : Nat) : M Nat := do
  let h ← get_weak this
  match h.control_block with
  | none => pure 0
  | some b => do
    let blk ← get_block b
    pure blk.shared_counter

/-! ## Destruction of the payload -/

/-- The member `ptr->weak_ptr` where `std::is_base_of_v<EnableSharedFromThis<U>, U>`
holds.  The type `U` is read off the payload `ptr` designates; a null pointer
and an address outside the model designate no payload. -/
def weak_ptr_of (w : World) (ptr : Option Nat) : Option Nat :=
  match ptr with
  | none => none
  | some a =>
    match w.objs[a]? with
    | some obj => obj.weak_ptr
    | none => none

/-- The destructor of the payload at `p`, run by `allocator_traits::destroy` and by
the destruction strategies that destroy the payload (`delete pointer` of
`std::default_delete`).  The only member the model knows is
`EnableSharedFromThis<T>::weak_ptr`, whose destructor `~WeakPtr` runs.  A null pointer
and an address that is not a payload of the model have nothing to destroy. -/
def Payload.dtor (p : Option Nat) : M Unit := do
  let w ← get_world
  match weak_ptr_of w p with
  | some weak_ptr => WeakPtr.dtor weak_ptr
  | none => pure ()

/-- Virtual `delete_obj()`: `ControlBlockPtr::delete_obj` is `deleter(pointer)`, and
the destructor of the payload runs if the strategy `deleter` destroys the payload;
`ControlBlockObject::delete_obj` is `allocator_traits<Allocator>::destroy(alloc, &object)`,
the destructor call. -/
def BaseControlBlock.delete_obj (b : Nat) : M Unit := do
  let blk ← get_block b
  emit (Event.delete_obj b)
  match blk.kind with
  | BlockKind.ptr pointer deleter _ => do
    emit (Event.deleter deleter pointer)
    if deleter_destroys deleter then Payload.dtor pointer else pure ()
  | BlockKind.object object alloc => do
    emit (Event.destroy alloc object)
    Payload.dtor (some object)

/-! ## SharedPtr -/

/-- The private `SharedPtr(T* pointer, BaseControlBlock* control_block)`: the body
increments through `control_block` without a null test. -/
def SharedPtr.ctor_private (pointer control_block : Option Nat) : M Nat := do
  let this ← new_shared ⟨pointer, control_block⟩
  match control_block with
  | none => M.fault Fault.null_deref
  | some b => do
    let blk ← get_block b
    set_block b { blk with shared_counter := (blk.shared_counter + 1) % SIZE_MOD }
    pure this

/-- `SharedPtr<T> lock() const`: `return SharedPtr<T>(pointer, control_block);` -/
def WeakPtr.lock (this : Nat) : M Nat := do
  let h ← get_weak this
  SharedPtr.ctor_private h.pointer h.control_block

/-- `SharedPtr() = default;` -/
def SharedPtr.ctor_default : M Nat :=
  new_shared ⟨none, none⟩

/-- The statement `ptr->weak_ptr = *this;` of the adopting constructor, `weak_ptr`
being the member of the payload: `*this` is converted to a temporary `WeakPtr`, the
temporary is move-assigned to the member and destroyed at the end of the statement. -/
def SharedPtr.assign_weak_ptr (weak_ptr this : Nat) : M Unit := do
  let tmp ← WeakPtr.ctor_from_shared this
  WeakPtr.assign_move weak_ptr tmp
  WeakPtr.dtor tmp

/-- `explicit SharedPtr(U* ptr, Deleter del, Allocator alloc)`.  The code tests
`std::is_base_of_v<EnableSharedFromThis<U>, U>` on the static type `U` and then writes
through `ptr`; the model reads the type off the payload at `ptr`, which is the same
for a pointer to a payload of the model.  A null `ptr` of a type with the capability,
which the code dereferences, is outside the model. -/
def SharedPtr.ctor_adopt (ptr : Option Nat) (del alloc : Nat) (alloc_ok : Bool) : M Nat := do
  let block ← allocate_block alloc_ok (BlockKind.ptr ptr del alloc)
  let this ← new_shared ⟨ptr, some block⟩
  let blk ← get_block block
  set_block block { blk with shared_counter := 1 }
  let w ← get_world
  match weak_ptr_of w ptr with
  | some weak_ptr => do
    SharedPtr.assign_weak_ptr weak_ptr this
    pure this
  | none => pure this

/-- The aliasing `SharedPtr(const SharedPtr<U>& other, U* ptr)` -/
def SharedPtr.ctor_alias (other : Nat) (ptr : Option Nat) : M Nat := do
  let o ← get_shared other
  let this ← new_shared ⟨ptr, o.control_block⟩
  match o.control_block with
  | none => pure this
  | some b => do
    let blk ← get_block b
    set_block b { blk with shared_counter := (blk.shared_counter + 1) % SIZE_MOD }
    pure this

/-- `SharedPtr(const SharedPtr& other)` and the converting `SharedPtr(const SharedPtr<U>& other)` -/
def SharedPtr.ctor_copy (other : Nat) : M Nat := do
  let o ← get_shared other
  let this ← new_shared ⟨o.pointer, o.control_block⟩
  match o.control_block with
  | none => pure this
  | some b => do
    let blk ← get_block b
    set_block b { blk with shared_counter := (blk.shared_counter + 1) % SIZE_MOD }
    pure this

/-- `SharedPtr(SharedPtr&& other)` and the converting `SharedPtr(SharedPtr<U>&& other)` -/
def SharedPtr.ctor_move (other : Nat) : M Nat := do
  let o ← get_shared other
  let this ← new_shared ⟨o.pointer, o.control_block⟩
  set_shared other ⟨none, none⟩
  pure this

/-- `void swap(SharedPtr& other)`: the two `std::swap` calls exchange `control_block`
and `pointer` of `*this` and `other`. -/
def SharedPtr.swap (this other : Nat) : M Unit := do
  let a ← get_shared this
  let o ← get_shared other
  set_shared this ⟨o.pointer, o.control_block⟩
  set_shared other ⟨a.pointer, a.control_block⟩

/-- `~SharedPtr()`.  No other code can reach the object while its destructor runs, so
its lifetime is ended first. -/
def SharedPtr.dtor (this : Nat) : M Unit := do
  let h ← get_shared this
  end_shared this
  match h.control_block with
  | none => pure ()
  | some b => do
    let blk ← get_block b
    set_block b { blk with shared_counter := (blk.shared_counter + SIZE_MOD - 1) % SIZE_MOD }
    let blk ← get_block b
    if blk.shared_counter = 0 then
      if blk.weak_counter = 0 then do
        BaseControlBlock.delete_obj b
        BaseControlBlock.delete_block b
      else
        BaseControlBlock.delete_obj b
    else pure ()

/-- `SharedPtr& operator=(const SharedPtr& other)` and its converting form:
`SharedPtr copy = other; swap(copy); return *this;`, then `copy` goes out of scope. -/
def SharedPtr.assign_copy (this other : Nat) : M Unit := do
  let copy ← SharedPtr.ctor_copy other
  SharedPtr.swap this copy
  SharedPtr.dtor copy

/-- `SharedPtr& operator=(SharedPtr&& other)` and its converting form:
`SharedPtr copy = std::move(other); swap(copy); return *this;`, then `copy` goes out of scope. -/
def SharedPtr.assign_move (this other : Nat) : M Unit := do
  let copy ← SharedPtr.ctor_move other
  SharedPtr.swap this copy
  SharedPtr.dtor copy

/-- `size_t use_count() const` -/
def SharedPtr.use_count (this : Nat) : M Nat := do
  let h ← get_shared this
  match h.control_block with
  | none => pure 0
  | some b => do
    let blk ← get_block b
    pure blk.shared_counter

/-- `T* get() const` -/
def SharedPtr.get (this : Nat) : M (Option Nat) := do
  let h ← get_shared this
  pure h.pointer

/-- The public constructors of `SharedPtr`, as the argument packs `reset` forwards. -/
inductive SharedPtr.Args where
  | default
  | adopt (ptr : Option Nat) (del alloc : Nat) (alloc_ok : Bool)
  | aliasing (other : Nat) (ptr : Option Nat)
  | copy (other : Nat)
  | move (other : Nat)
  deriving DecidableEq, Repr

/-- The expression `SharedPtr(args...)`. -/
def SharedPtr.construct : SharedPtr.Args → M Nat
  | SharedPtr.Args.default => SharedPtr.ctor_default
  | SharedPtr.Args.adopt ptr del alloc alloc_ok => SharedPtr.ctor_adopt ptr del alloc alloc_ok
  | SharedPtr.Args.aliasing other ptr => SharedPtr.ctor_alias other ptr
  | SharedPtr.Args.copy other => SharedPtr.ctor_copy other
  | SharedPtr.Args.move other => SharedPtr.ctor_move other

/-- `void reset(Args&&... args)`: `*this = SharedPtr(std::forward<Args>(args)...);`, the
temporary is destroyed at the end of the statement. -/
def SharedPtr.reset (this : Nat) (args : SharedPtr.Args) : M Unit := do
  let tmp ← SharedPtr.construct args
  SharedPtr.assign_move this tmp
  SharedPtr.dtor tmp

/-- The constructor `ControlBlockObject(Allocator alloc, Args&&... args)` run by
`BlockAllocTraits::construct`: it constructs the embedded payload, whose base
`EnableSharedFromThis<T>` (when `esft`) default-constructs the member `weak_ptr`.
The payload type is a template parameter: whether its constructor throws is the
input `ctor_ok`. -/
def ControlBlockObject.ctor (esft ctor_ok : Bool) : M Nat := fun w =>
  if ctor_ok then
    if esft then
      match WeakPtr.ctor_default w with
      | Result.ok m w1 => Result.ok w1.objs.length { w1 with objs := w1.objs ++ [⟨some m⟩] }
      | Result.throw e w1 => Result.throw e w1
      | Result.fault f => Result.fault f
    else Result.ok w.objs.length { w with objs := w.objs ++ [⟨none⟩] }
  else Result.throw Exn.ctor_failure w

/-- `SharedPtr<T> allocateShared(const Allocator& alloc, Args&&... args)`.  The block is
allocated before its payload is constructed; the embedded payload gets the next
payload address. -/
def allocateShared (esft : Bool) (alloc : Nat) (alloc_ok ctor_ok : Bool) : M Nat := do
  let w ← get_world
  let block ← allocate_block alloc_ok (BlockKind.object (w.objs.length) alloc)
  let object ← ControlBlockObject.ctor esft ctor_ok
  SharedPtr.ctor_private (some object) (some block)

/-- `SharedPtr<T> makeShared(Args&&... args)` -/
def makeShared (esft : Bool) (alloc_ok ctor_ok : Bool) : M Nat :=
  allocateShared esft default_alloc alloc_ok ctor_ok

/-! ## EnableSharedFromThis -/

/-- `SharedPtr<T> shared_from_this()` called on the payload at address `p`. -/
def EnableSharedFromThis.shared_from_this (p : Nat) : M Nat := do
  let w ← get_world
  match weak_ptr_of w (some p) with
  | some weak_ptr => do
    if (← WeakPtr.expired weak_ptr) then
      M.throw Exn.bad_exception
    else
      WeakPtr.lock weak_ptr
  | none => M.fault Fault.dead_object

/-! ## Programs -/

/-- The public constructors of `WeakPtr`. -/
inductive WeakPtr.Args where
  | default
  | adopt (ptr : Option Nat) (del alloc : Nat) (alloc_ok : Bool)
  | aliasing (other : Nat) (ptr : Option Nat)
  | copy (other : Nat)
  | move (other : Nat)
  | from_shared (sh_ptr : Nat)
  deriving DecidableEq, Repr

/-- The expression `WeakPtr(args...)`. -/
def WeakPtr.construct : WeakPtr.Args → M Nat
  | WeakPtr.Args.default => WeakPtr.ctor_default
  | WeakPtr.Args.adopt ptr del alloc alloc_ok => WeakPtr.ctor_adopt ptr del alloc alloc_ok
  | WeakPtr.Args.aliasing other ptr => WeakPtr.ctor_alias other ptr
  | WeakPtr.Args.copy other => WeakPtr.ctor_copy other
  | WeakPtr.Args.move other => WeakPtr.ctor_move other
  | WeakPtr.Args.from_shared sh_ptr => WeakPtr.ctor_from_shared sh_ptr

/-- The expression `new T(args...)` of client code, for a payload type that derives
from `EnableSharedFromThis<T>` (`esft`) or not: the base class default-constructs
the member `weak_ptr`. -/
def new_payload (esft : Bool) : M Nat := fun w =>
  if esft then
    match WeakPtr.ctor_default w with
    | Result.ok m w1 => Result.ok w1.objs.length { w1 with objs := w1.objs ++ [⟨some m⟩] }
    | Result.throw e w1 => Result.throw e w1
    | Result.fault f => Result.fault f
  else Result.ok w.objs.length { w with objs := w.objs ++ [⟨none⟩] }

/-- One statement of client code.  Handles are named by the index of their object:
the `n`-th `SharedPtr` (or `WeakPtr`) object that came to life, temporaries included. -/
inductive Op where
  | new_payload (esft : Bool)
  | sp_construct (args : SharedPtr.Args)
  | sp_allocate (esft : Bool) (alloc : Nat) (alloc_ok ctor_ok : Bool)
  | sp_make (esft : Bool) (alloc_ok ctor_ok : Bool)
  | sp_assign_copy (this other : Nat)
  | sp_assign_move (this other : Nat)
  | sp_swap (this other : Nat)
  | sp_reset (this : Nat) (args : SharedPtr.Args)
  | sp_use_count (this : Nat)
  | sp_get (this : Nat)
  | sp_destroy (this : Nat)
  | wp_construct (args : WeakPtr.Args)
  | wp_assign_copy (this other : Nat)
  | wp_assign_move (this other : Nat)
  | wp_swap (this other : Nat)
  | wp_expired (this : Nat)
  | wp_use_count (this : Nat)
  | wp_get (this : Nat)
  | wp_lock (this : Nat)
  | wp_destroy (this : Nat)
  | shared_from_this (p : Nat)
  deriving DecidableEq, Repr

/-- Drop the value of an expression statement. -/
def M.discard {α : Type} (m : M α) : M Unit := fun w =>
  match m w with
  | Result.ok _ w1 => Result.ok () w1
  | Result.throw e w1 => Result.throw e w1
  | Result.fault f => Result.fault f

/-- Run one statement. -/
def step : Op → M Unit
  | Op.new_payload esft => (new_payload esft).discard
  | Op.sp_construct args => (SharedPtr.construct args).discard
  | Op.sp_allocate esft alloc alloc_ok ctor_ok => (allocateShared esft alloc alloc_ok ctor_ok).discard
  | Op.sp_make esft alloc_ok ctor_ok => (makeShared esft alloc_ok ctor_ok).discard
  | Op.sp_assign_copy this other => SharedPtr.assign_copy this other
  | Op.sp_assign_move this other => SharedPtr.assign_move this other
  | Op.sp_swap this other => SharedPtr.swap this other
  | Op.sp_reset this args => SharedPtr.reset this args
  | Op.sp_use_count this => (SharedPtr.use_count this).discard
  | Op.sp_get this => (SharedPtr.get this).discard
  | Op.sp_destroy this => SharedPtr.dtor this
  | Op.wp_construct args => (WeakPtr.construct args).discard
  | Op.wp_assign_copy this other => WeakPtr.assign_copy this other
  | Op.wp_assign_move this other => WeakPtr.assign_move this other
  | Op.wp_swap this other => WeakPtr.swap this other
  | Op.wp_expired this => (WeakPtr.expired this).discard
  | Op.wp_use_count this => (WeakPtr.use_count this).discard
  | Op.wp_get this => (WeakPtr.get this).discard
  | Op.wp_lock this => (WeakPtr.lock this).discard
  | Op.wp_destroy this => WeakPtr.dtor this
  | Op.shared_from_this p => (EnableSharedFromThis.shared_from_this p).discard

/-- Run a program from state `w`.  A statement that throws is caught by the client and
the program goes on; a fault ends the run. -/
def run : List Op → World → Except Fault World
  | [], w => Except.ok w
  | op :: ops, w =>
    match step op w with
    | Result.ok _ w1 => run ops w1
    | Result.throw _ w1 => run ops w1
    | Result.fault f => Except.error f

/-! ## The counting invariant -/

/-- The `SharedPtr` object is alive and its `control_block` is `b`. -/
def refS (b : Nat) : Option SharedPtr → Bool
  | some h => decide (h.control_block = some b)
  | none => false

/-- The `WeakPtr` object is alive and its `control_block` is `b`. -/
def refW (b : Nat) : Option WeakPtr → Bool
  | some h => decide (h.control_block = some b)
  | none => false

/-- Number of live `SharedPtr` objects whose block is `b`. -/
def cntS (w : World) (b : Nat) : Nat := w.shared.countP (refS b)

/-- Number of live `WeakPtr` objects whose block is `b` (the `weak_ptr` member of a
payload is one of them). -/
def cntW (w : World) (b : Nat) : Nat := w.weak.countP (refW b)

/-- Block `b` has been released. -/
def isFreed (w : World) (b : Nat) : Bool :=
  match w.heap[b]? with
  | some blk => blk.freed
  | none => false

/-- The invariant of the runtime: the counters of every block count the live handles
on it, a released block has no handle left, no handle names an address that was
never allocated, and `delete_block` ran once on released blocks and never on others. -/
structure Inv (w : World) : Prop where
  live_s : liveS w < SIZE_MOD
  live_w : liveW w < SIZE_MOD
  counts : ∀ (b : Nat) (blk : BaseControlBlock), w.heap[b]? = some blk →
    blk.shared_counter = cntS w b ∧ blk.weak_counter = cntW w b
  freed : ∀ (b : Nat) (blk : BaseControlBlock), w.heap[b]? = some blk → blk.freed = true →
    blk.shared_counter = 0 ∧ blk.weak_counter = 0
  fresh : ∀ b, w.heap.length ≤ b → cntS w b = 0 ∧ cntW w b = 0
  released : ∀ b, w.log.count (Event.delete_block b) = if isFreed w b then 1 else 0

/-- Blocks without a live `WeakPtr` on them in `w` are untouched in `w1`. -/
def KeptW (w w1 : World) : Prop :=
  ∀ (b : Nat) (blk : BaseControlBlock), w.heap[b]? = some blk → cntW w b = 0 →
    w1.heap[b]? = some blk

/-- Hoare triple: from a state satisfying `P`, a normal return satisfies `Q`, an
exception leaves the invariant in force, and a fault is neither an access to a
released block nor to an unallocated address. -/
def Triple {α : Type} (P : World → Prop) (m : M α) (Q : α → World → Prop) : Prop :=
  ∀ w, P w →
    match m w with
    | Result.ok a w1 => Q a w1
    | Result.throw _ w1 => Inv w1
    | Result.fault f => f ≠ Fault.use_after_free ∧ f ≠ Fault.wild_pointer

/-- The pointer a block hands to its destruction strategy: `pointer` of a
`ControlBlockPtr`, `&object` of a `ControlBlockObject`. -/
def BlockKind.payload (k : BlockKind) : Option Nat :=
  match k with
  | BlockKind.ptr p _ _ => p
  | BlockKind.object o _ => some o

/-- Whether `delete_obj` of a block of this kind runs the destructor of the payload:
a `ControlBlockObject` always does, a `ControlBlockPtr` if its destruction strategy
does. -/
def BlockKind.destroys (k : BlockKind) : Bool :=
  match k with
  | BlockKind.ptr _ d _ => deleter_destroys d
  | BlockKind.object _ _ => true

/-- The call `delete_obj` makes: `deleter(pointer)` for a `ControlBlockPtr`,
`allocator_traits<Allocator>::destroy(alloc, &object)` for a `ControlBlockObject`. -/
def BlockKind.destroy_event (k : BlockKind) : Event :=
  match k with
  | BlockKind.ptr p d _ => Event.deleter d p
  | BlockKind.object o a => Event.destroy a o

/-- A program: adopt a payload, copy the handle twice, observe it weakly, move one copy,
destroy the original. -/
def prog_copies : List Op :=
  [Op.new_payload false,
   Op.sp_construct (SharedPtr.Args.adopt (some 0) default_delete default_alloc true),
   Op.sp_construct (SharedPtr.Args.copy 0),
   Op.sp_construct (SharedPtr.Args.copy 1),
   Op.wp_construct (WeakPtr.Args.from_shared 0),
   Op.sp_construct (SharedPtr.Args.move 1),
   Op.sp_destroy 0]

/-- The state `prog_copies` ends in. -/
def world_copies : World :=
  { heap := [⟨2, 1, BlockKind.ptr (some 0) default_delete default_alloc, false⟩],
    objs := [⟨none⟩],
    shared := [none, some ⟨none, none⟩, some ⟨some 0, some 0⟩, some ⟨some 0, some 0⟩],
    weak := [some ⟨some 0, some 0⟩],
    log := [Event.allocate default_alloc 0] }

/-- A program: adopt a payload, derive a weak handle, destroy the shared handle.  The
weak handle 0 is then expired. -/
def prog_expired : List Op :=
  [Op.new_payload false,
   Op.sp_construct (SharedPtr.Args.adopt (some 0) default_delete default_alloc true),
   Op.wp_construct (WeakPtr.Args.from_shared 0),
   Op.sp_destroy 0]

/-- The state `prog_expired` ends in: the payload is destroyed, the block is kept by
the weak handle. -/
def world_expired : World :=
  { heap := [⟨0, 1, BlockKind.ptr (some 0) default_delete default_alloc, false⟩],
    objs := [⟨none⟩],
    shared := [none],
    weak := [some ⟨some 0, some 0⟩],
    log := [Event.allocate default_alloc 0, Event.delete_obj 0,
            Event.deleter default_delete (some 0)] }

/-- The state after `lock()` on the expired weak handle of `world_expired`. -/
def world_resurrected : World :=
  { heap := [⟨1, 1, BlockKind.ptr (some 0) default_delete default_alloc, false⟩],
    objs := [⟨none⟩],
    shared := [none, some ⟨some 0, some 0⟩],
    weak := [some ⟨some 0, some 0⟩],
    log := [Event.allocate default_alloc 0, Event.delete_obj 0,
            Event.deleter default_delete (some 0)] }

/-- Number of `delete_obj` calls recorded on block `b`. -/
def destroy_payload_calls (w : World) (b : Nat) : Nat := w.log.count (Event.delete_obj b)

/-- Number of `delete_block` calls recorded on block `b`. -/
def release_block_calls (w : World) (b : Nat) : Nat := w.log.count (Event.delete_block b)

/-- A state with one default-constructed weak handle. -/
def world_null_weak : World :=
  { heap := [], objs := [], shared := [], weak := [some ⟨none, none⟩], log := [] }

/-- The call is an allocation of block storage. -/
def Event.is_allocation : Event → Bool
  | Event.allocate _ _ => true
  | _ => false

/-- The call is a deallocation of block storage. -/
def Event.is_deallocation : Event → Bool
  | Event.deallocate _ _ => true
  | _ => false

/-- Number of block allocations recorded. -/
def allocations (w : World) : Nat := w.log.countP Event.is_allocation

/-- Number of block deallocations recorded. -/
def deallocations (w : World) : Nat := w.log.countP Event.is_deallocation

/-- The state after `allocateShared` whose payload constructor threw, from the empty
state: the storage of block 0 is allocated and nothing refers to it. -/
def world_leak : World :=
  { heap := [⟨0, 0, BlockKind.object 0 default_alloc, false⟩],
    objs := [], shared := [], weak := [],
    log := [Event.allocate default_alloc 0] }

/-- A payload with the self-reference capability adopted by the shared handle 0: its
member `weak_ptr` (weak handle 0) observes block 0; the weak handles 1 and 2 were
the temporaries of the assignment to the member. -/
def world_esft : World :=
  { heap := [⟨1, 1, BlockKind.ptr (some 0) default_delete default_alloc, false⟩],
    objs := [⟨some 0⟩],
    shared := [some ⟨some 0, some 0⟩],
    weak := [some ⟨some 0, some 0⟩, none, none],
    log := [Event.allocate default_alloc 0] }

/-- The state after the shared handle 0 of `world_esft` is destroyed. -/
def world_esft_end : World :=
  { heap := [⟨0, 0, BlockKind.ptr (some 0) default_delete default_alloc, true⟩],
    objs := [⟨some 0⟩],
    shared := [none],
    weak := [none, none, none],
    log := [Event.allocate default_alloc 0, Event.delete_obj 0,
            Event.deleter default_delete (some 0), Event.delete_block 0,
            Event.deallocate default_alloc 0] }

/-- A program: adopt a payload without the self-reference capability. -/
def prog_single : List Op :=
  [Op.new_payload false,
   Op.sp_construct (SharedPtr.Args.adopt (some 0) default_delete default_alloc true)]

/-- The state `prog_single` ends in. -/
def world_single : World :=
  { heap := [⟨1, 0, BlockKind.ptr (some 0) default_delete default_alloc, false⟩],
    objs := [⟨none⟩],
    shared := [some ⟨some 0, some 0⟩],
    weak := [],
    log := [Event.allocate default_alloc 0] }

/-- A program: adopt a payload, derive two weak handles. -/
def prog_two_weak : List Op :=
  [Op.new_payload false,
   Op.sp_construct (SharedPtr.Args.adopt (some 0) default_delete default_alloc true),
   Op.wp_construct (WeakPtr.Args.from_shared 0),
   Op.wp_construct (WeakPtr.Args.copy 0)]

/-- The state `prog_two_weak` ends in. -/
def world_two_weak : World :=
  { heap := [⟨1, 2, BlockKind.ptr (some 0) default_delete default_alloc, false⟩],
    objs := [⟨none⟩],
    shared := [some ⟨some 0, some 0⟩],
    weak := [some ⟨some 0, some 0⟩, some ⟨some 0, some 0⟩],
    log := [Event.allocate default_alloc 0] }

/-- The state after the shared handle of `world_two_weak` is destroyed: the payload is
destroyed, the block is kept by the two weak handles. -/
def world_two_weak_end : World :=
  { heap := [⟨0, 2, BlockKind.ptr (some 0) default_delete default_alloc, false⟩],
    objs := [⟨none⟩],
    shared := [none],
    weak := [some ⟨some 0, some 0⟩, some ⟨some 0, some 0⟩],
    log := [Event.allocate default_alloc 0, Event.delete_obj 0,
            Event.deleter default_delete (some 0)] }

/-- A program: adopt a payload, build an alias handle with pointer 7, copy the origin. -/
def prog_alias : List Op :=
  [Op.new_payload false,
   Op.sp_construct (SharedPtr.Args.adopt (some 0) default_delete default_alloc true),
   Op.sp_construct (SharedPtr.Args.aliasing 0 (some 7)),
   Op.sp_construct (SharedPtr.Args.copy 0)]

/-- The state `prog_alias` ends in: handle 1 is the alias. -/
def world_alias : World :=
  { heap := [⟨3, 0, BlockKind.ptr (some 0) default_delete default_alloc, false⟩],
    objs := [⟨none⟩],
    shared := [some ⟨some 0, some 0⟩, some ⟨some 7, some 0⟩, some ⟨some 0, some 0⟩],
    weak := [],
    log := [Event.allocate default_alloc 0] }

/-- The state after the handles 0 and 2 of `world_alias` are destroyed: the alias is
the last handle. -/
def world_alias_last : World :=
  { heap := [⟨1, 0, BlockKind.ptr (some 0) default_delete default_alloc, false⟩],
    objs := [⟨none⟩],
    shared := [none, some ⟨some 7, some 0⟩, none],
    weak := [],
    log := [Event.allocate default_alloc 0] }

/-- A property of the payloads and of the `WeakPtr` objects that the primitive state
changes keep: `okw` tells which `WeakPtr` objects may be overwritten, `okp` which
raw pointers may be adopted. -/
structure Stable (J : World → Prop) (okw : Nat → Prop) (okp : Option Nat → Prop) : Prop where
  frame : ∀ (w w1 : World), w1.objs = w.objs → w1.weak = w.weak → J w → J w1
  push : ∀ (w : World) (h : WeakPtr), J w →
    J { w with weak := w.weak ++ [some h] } ∧ okw w.weak.length
  kill : ∀ (w : World) (i : Nat), J w → J { w with weak := w.weak.set i none }
  set : ∀ (w : World) (i : Nat) (h : WeakPtr), okw i → J w →
    J { w with weak := w.weak.set i (some h) }
  new_esft : ∀ (w : World), J w →
    J { w with weak := w.weak ++ [some ⟨none, none⟩],
               objs := w.objs ++ [⟨some w.weak.length⟩] }
  new_plain : ∀ (w : World), J w → J { w with objs := w.objs ++ [⟨none⟩] }
  member : ∀ (w : World) (ptr : Option Nat) (r : Nat), J w → okp ptr →
    weak_ptr_of w ptr = some r → okw r

/-- From a state satisfying `J`, a normal return and an exception leave `J` in force,
and a returned value satisfies `Q`. -/
def Keeps {α : Type} (J : World → Prop) (m : M α) (Q : α → Prop) : Prop :=
  ∀ w, J w →
    match m w with
    | Result.ok a w1 => J w1 ∧ Q a
    | Result.throw _ w1 => J w1
    | Result.fault _ => True

/-- The raw pointer a `SharedPtr` constructor adopts satisfies `okp`. -/
def SharedPtr.Args.respects (okp : Option Nat → Prop) : SharedPtr.Args → Prop
  | SharedPtr.Args.adopt ptr _ _ _ => okp ptr
  | _ => True

/-- The `WeakPtr` object a `WeakPtr` constructor overwrites satisfies `okw`. -/
def WeakPtr.Args.respects (okw : Nat → Prop) : WeakPtr.Args → Prop
  | WeakPtr.Args.move other => okw other
  | _ => True

/-- The statement overwrites only `WeakPtr` objects that satisfy `okw` and adopts only
raw pointers that satisfy `okp`. -/
def Op.respects (okw : Nat → Prop) (okp : Option Nat → Prop) : Op → Prop
  | Op.sp_construct args => args.respects okp
  | Op.sp_reset _ args => args.respects okp
  | Op.wp_construct args => args.respects okw
  | Op.wp_assign_copy this _ => okw this
  | Op.wp_assign_move this other => okw this ∧ okw other
  | Op.wp_swap this other => okw this ∧ okw other
  | _ => True

/-- The member `weak_ptr` of every payload is a `WeakPtr` object of the state. -/
def MembersExist (w : World) : Prop :=
  ∀ (q : Nat) (pl : Payload) (r : Nat), w.objs[q]? = some pl → pl.weak_ptr = some r →
    r < w.weak.length

/-- The payload `p` has the member `weak_ptr`, no other payload has it, and the
member was never given a block: it is default-constructed, or destroyed. -/
def Unpopulated (p weak_ptr : Nat) (w : World) : Prop :=
  w.objs[p]? = some ⟨some weak_ptr⟩ ∧
  (∀ (q : Nat) (pl : Payload), w.objs[q]? = some pl → pl.weak_ptr = some weak_ptr → q = p) ∧
  (w.weak[weak_ptr]? = some (some ⟨none, none⟩) ∨ w.weak[weak_ptr]? = some none)

/-- The state after `allocateShared` (or `makeShared`) of a payload with the
self-reference capability in the empty state: the payload 0 lives in block 0, its
member `weak_ptr` is the weak handle 0, default-constructed. -/
def world_allocated : World :=
  { heap := [⟨1, 0, BlockKind.object 0 default_alloc, false⟩],
    objs := [⟨some 0⟩],
    shared := [some ⟨some 0, some 0⟩],
    weak := [some ⟨none, none⟩],
    log := [Event.allocate default_alloc 0] }

/-- The state `world_allocated` after the shared handle 0 is copied. -/
def world_allocated_copy : World :=
  { heap := [⟨2, 0, BlockKind.object 0 default_alloc, false⟩],
    objs := [⟨some 0⟩],
    shared := [some ⟨some 0, some 0⟩, some ⟨some 0, some 0⟩],
    weak := [some ⟨none, none⟩],
    log := [Event.allocate default_alloc 0] }

/-- A state with an empty shared handle 0 and a shared handle 1 on block 0. -/
def world_empty_and_owner : World :=
  { heap := [⟨1, 0, BlockKind.ptr (some 0) default_delete default_alloc, false⟩],
    objs := [⟨none⟩],
    shared := [some ⟨none, none⟩, some ⟨some 0, some 0⟩],
    weak := [],
    log := [Event.allocate default_alloc 0] }

/-- A property of the `SharedPtr` objects and of the payloads only: it does not see
the blocks, the `WeakPtr` objects or the record of calls. -/
def HandleFrame (J : World → Prop) : Prop :=
  ∀ (w w1 : World), w1.shared = w.shared → w1.objs = w.objs → J w → J w1

/-- The payloads are those of `w`, and so are the `SharedPtr` objects, but for the
object `this`. -/
def SameButShared (this : Nat) (w w1 : World) : Prop :=
  w1.objs = w.objs ∧ w1.shared.length = w.shared.length ∧
  ∀ i, i ≠ this → w1.shared[i]? = w.shared[i]?

/-- The `SharedPtr` objects of `w1` are those of `w` (none has ended its lifetime)
and one new object `tmp`, the last one. -/
def GrewBy (w w1 : World) (tmp : Nat) : Prop :=
  tmp = w.shared.length ∧ w1.shared.length = w.shared.length + 1 ∧
  (∃ t, w1.shared[tmp]? = some (some t)) ∧
  (∀ (i : Nat) (hh : SharedPtr), w.shared[i]? = some (some hh) →
    ∃ h1, w1.shared[i]? = some (some h1))

/-- A property of the blocks that the primitive state changes of the code keep: a new
block, and an update of a block that leaves its `kind` (dynamic type and constant
members) as it is. -/
structure BlockStable (J : World → Prop) : Prop where
  frame : ∀ (w w1 : World), w1.heap = w.heap → J w → J w1
  alloc : ∀ (w : World) (blk : BaseControlBlock), J w →
    J { w with heap := w.heap ++ [blk] }
  update : ∀ (w : World) (b : Nat) (cur new : BaseControlBlock), J w →
    w.heap[b]? = some cur → new.kind = cur.kind → J { w with heap := w.heap.set b new }

/-- Block `b` exists and its `kind` is `k`. -/
def HasKind (b : Nat) (k : BlockKind) (w : World) : Prop :=
  ∃ blk, w.heap[b]? = some blk ∧ blk.kind = k

/-- A state with one default-constructed (empty) shared handle. -/
def world_null_shared : World :=
  { heap := [], objs := [], shared := [some ⟨none, none⟩], weak := [], log := [] }

/-- Every `delete_obj` of the record is on an address that has been allocated. -/
def LogBound (w : World) : Prop :=
  ∀ b, Event.delete_obj b ∈ w.log → b < w.heap.length

/-- Block `b` exists, no `SharedPtr` object has it as control block, and `delete_obj`
has been recorded `n` times on it. -/
def Unowned (b n : Nat) (w : World) : Prop :=
  b < w.heap.length ∧
  (∀ (i : Nat) (h : SharedPtr), w.shared[i]? = some (some h) → h.control_block ≠ some b) ∧
  w.log.count (Event.delete_obj b) = n

/-- The statement makes no shared handle out of a weak handle: it is neither `lock()`
nor `shared_from_this()`. -/
def Op.no_lock : Op → Prop
  | Op.wp_lock _ => False
  | Op.shared_from_this _ => False
  | _ => True

/-- A program: adopt a payload with the self-reference capability, then observe it
by a weak handle of the client. -/
def prog_esft_observed : List Op :=
  [Op.new_payload true,
   Op.sp_construct (SharedPtr.Args.adopt (some 0) default_delete default_alloc true),
   Op.wp_construct (WeakPtr.Args.from_shared 0)]

/-- The state `prog_esft_observed` ends in: the weak handle 0 is the member of the
payload, the weak handle 3 is the client's. -/
def world_esft_observed : World :=
  { heap := [⟨1, 2, BlockKind.ptr (some 0) default_delete default_alloc, false⟩],
    objs := [⟨some 0⟩],
    shared := [some ⟨some 0, some 0⟩],
    weak := [some ⟨some 0, some 0⟩, none, none, some ⟨some 0, some 0⟩],
    log := [Event.allocate default_alloc 0] }

/-- The state after the shared handle of `world_esft_observed` is destroyed: the
payload and its member are destroyed, the block is kept by the client's weak handle. -/
def world_esft_observed_end : World :=
  { heap := [⟨0, 1, BlockKind.ptr (some 0) default_delete default_alloc, false⟩],
    objs := [⟨some 0⟩],
    shared := [none],
    weak := [none, none, none, some ⟨some 0, some 0⟩],
    log := [Event.allocate default_alloc 0, Event.delete_obj 0,
            Event.deleter default_delete (some 0)] }

/-! ## Lemmas on lists and on the monad -/

theorem countP_set_of_get {α : Type} (p : α → Bool) (l : List α) (i : Nat) (x y : α)
    (h : l[i]? = some y) :
    List.countP p (l.set i x) + (if p y then 1 else 0)
      = List.countP p l + (if p x then 1 else 0) := by
  induction l generalizing i with
  | nil => simp at h
  | cons a t ih =>
    cases i with
    | zero =>
      simp only [List.getElem?_cons_zero, Option.some.injEq] at h
      subst h
      simp only [List.set_cons_zero, List.countP_cons]
      omega
    | succ j =>
      simp only [List.getElem?_cons_succ] at h
      have := ih j h
      simp only [List.set_cons_succ, List.countP_cons]
      omega

theorem countP_pos_of_get {α : Type} (p : α → Bool) (l : List α) (i : Nat) (y : α)
    (h : l[i]? = some y) (hp : p y = true) : 0 < List.countP p l := by
  rw [List.countP_pos_iff]
  exact ⟨y, List.getElem?_mem h, hp⟩

theorem countP_le_live {α : Type} (p : Option α → Bool) (hp : p none = false)
    (l : List (Option α)) : List.countP p l ≤ List.countP Option.isSome l := by
  apply List.countP_mono_left
  intro x _ hx
  cases x with
  | none => simp [hp] at hx
  | some a => rfl

theorem cntS_le_liveS (w : World) (b : Nat) : cntS w b ≤ liveS w :=
  countP_le_live (refS b) rfl w.shared

theorem cntW_le_liveW (w : World) (b : Nat) : cntW w b ≤ liveW w :=
  countP_le_live (refW b) rfl w.weak

@[simp] theorem bind_apply {α β : Type} (m : M α) (f : α → M β) (w : World) :
    (m >>= f) w = match m w with
      | Result.ok a w1 => f a w1
      | Result.throw e w1 => Result.throw e w1
      | Result.fault x => Result.fault x := rfl

@[simp] theorem pure_apply {α : Type} (a : α) (w : World) :
    (pure a : M α) w = Result.ok a w := rfl

theorem Triple.bind {α β : Type} {P : World → Prop} {m : M α} {Q : α → World → Prop}
    {f : α → M β} {R : β → World → Prop}
    (hm : Triple P m Q) (hf : ∀ a, Triple (Q a) (f a) R) : Triple P (m >>= f) R := by
  intro w hP
  have h1 := hm w hP
  simp only [bind_apply]
  cases hr : m w with
  | ok a w1 =>
    rw [hr] at h1
    exact hf a w1 h1
  | throw e w1 =>
    rw [hr] at h1
    exact h1
  | fault x =>
    rw [hr] at h1
    exact h1

theorem Triple.pure {α : Type} {P : World → Prop} (a : α) :
    Triple P (pure a : M α) (fun _ w => P w) := by
  intro w hP
  exact hP

theorem Triple.weaken {α : Type} {P P1 : World → Prop} {m : M α} {Q Q1 : α → World → Prop}
    (h : Triple P1 m Q1) (hpre : ∀ w, P w → P1 w) (hpost : ∀ a w, Q1 a w → Q a w) :
    Triple P m Q := by
  intro w hP
  have h1 := h w (hpre w hP)
  cases hr : m w with
  | ok a w1 =>
    rw [hr] at h1
    exact hpost a w1 h1
  | throw e w1 =>
    rw [hr] at h1
    exact h1
  | fault x =>
    rw [hr] at h1
    exact h1

theorem Triple.elim_ok {α : Type} {P : World → Prop} {m : M α} {Q : α → World → Prop}
    (h : Triple P m Q) {w w1 : World} {a : α} (hP : P w) (hr : m w = Result.ok a w1) :
    Q a w1 := by
  have h1 := h w hP
  rw [hr] at h1
  exact h1

theorem Triple.elim_throw {α : Type} {P : World → Prop} {m : M α} {Q : α → World → Prop}
    (h : Triple P m Q) {w w1 : World} {e : Exn} (hP : P w) (hr : m w = Result.throw e w1) :
    Inv w1 := by
  have h1 := h w hP
  rw [hr] at h1
  exact h1

theorem Triple.elim_fault {α : Type} {P : World → Prop} {m : M α} {Q : α → World → Prop}
    (h : Triple P m Q) {w : World} {f : Fault} (hP : P w) (hr : m w = Result.fault f) :
    f ≠ Fault.use_after_free ∧ f ≠ Fault.wild_pointer := by
  have h1 := h w hP
  rw [hr] at h1
  exact h1

theorem Triple.discard {α : Type} {P : World → Prop} {m : M α} {Q : World → Prop}
    (h : Triple P m (fun _ w => Q w)) : Triple P m.discard (fun _ w => Q w) := by
  intro w hP
  have h1 := h w hP
  simp only [M.discard]
  cases hr : m w with
  | ok a w1 =>
    rw [hr] at h1
    exact h1
  | throw e w1 =>
    rw [hr] at h1
    exact h1
  | fault x =>
    rw [hr] at h1
    exact h1

/-! ## Lemmas on the state -/

theorem refS_none (b : Nat) : refS b none = false := rfl

theorem refW_none (b : Nat) : refW b none = false := rfl

theorem refS_mk (b : Nat) (p c : Option Nat) : refS b (some ⟨p, c⟩) = decide (c = some b) := rfl

theorem refW_mk (b : Nat) (p c : Option Nat) : refW b (some ⟨p, c⟩) = decide (c = some b) := rfl

theorem refS_of {b : Nat} {h : SharedPtr} (hcb : h.control_block = some b) (b1 : Nat) :
    refS b1 (some h) = decide (b = b1) := by
  simp only [refS, hcb, Option.some.injEq]

theorem refS_of_none {h : SharedPtr} (hcb : h.control_block = none) (b1 : Nat) :
    refS b1 (some h) = false := by
  simp [refS, hcb]

theorem refW_of {b : Nat} {h : WeakPtr} (hcb : h.control_block = some b) (b1 : Nat) :
    refW b1 (some h) = decide (b = b1) := by
  simp only [refW, hcb, Option.some.injEq]

theorem refW_of_none {h : WeakPtr} (hcb : h.control_block = none) (b1 : Nat) :
    refW b1 (some h) = false := by
  simp [refW, hcb]

theorem one_mod_size : (0 + 1) % SIZE_MOD = 1 := by
  unfold SIZE_MOD
  rfl

/-- A decrement of a counter that is at least 1 does not wrap. -/
theorem dec_mod_size {c : Nat} (h1 : 1 ≤ c) (h2 : c < SIZE_MOD) :
    (c + SIZE_MOD - 1) % SIZE_MOD = c - 1 := by
  unfold SIZE_MOD at h2 ⊢
  omega

theorem heap_lt {w : World} {b : Nat} {blk : BaseControlBlock} (hb : w.heap[b]? = some blk) :
    b < w.heap.length := by
  by_contra hc
  rw [List.getElem?_eq_none (by omega)] at hb
  cases hb

theorem isFreed_of_get {w : World} {b : Nat} {blk : BaseControlBlock}
    (hb : w.heap[b]? = some blk) : isFreed w b = blk.freed := by
  simp only [isFreed, hb]

theorem get_block_ok {w : World} {b : Nat} {blk : BaseControlBlock}
    (hb : w.heap[b]? = some blk) (hf : blk.freed = false) :
    get_block b w = Result.ok blk w := by
  simp only [get_block, hb, hf, Bool.false_eq_true, if_false]

/-- Preservation when one block is rewritten and the log and release flags stay. -/
theorem Inv.update {w w1 : World} (hI : Inv w) {b : Nat} {blk blk1 : BaseControlBlock}
    (hb : w.heap[b]? = some blk) (hheap : w1.heap = w.heap.set b blk1)
    (hlog : w1.log = w.log) (hfr : blk1.freed = blk.freed)
    (hlS : liveS w1 < SIZE_MOD) (hlW : liveW w1 < SIZE_MOD)
    (hS : ∀ b1, b1 ≠ b → cntS w1 b1 = cntS w b1)
    (hW : ∀ b1, b1 ≠ b → cntW w1 b1 = cntW w b1)
    (hSb : blk1.shared_counter = cntS w1 b) (hWb : blk1.weak_counter = cntW w1 b)
    (hz : blk1.freed = true → blk1.shared_counter = 0 ∧ blk1.weak_counter = 0) : Inv w1 := by
  have hlt := heap_lt hb
  constructor
  · exact hlS
  · exact hlW
  · intro b1 blk2 h1
    rw [hheap] at h1
    by_cases hbb : b = b1
    · subst hbb
      simp only [List.getElem?_set_self hlt, Option.some.injEq] at h1
      subst h1
      exact ⟨hSb, hWb⟩
    · rw [List.getElem?_set_ne hbb] at h1
      rw [hS b1 (Ne.symm hbb), hW b1 (Ne.symm hbb)]
      exact hI.counts b1 blk2 h1
  · intro b1 blk2 h1 hf1
    rw [hheap] at h1
    by_cases hbb : b = b1
    · subst hbb
      simp only [List.getElem?_set_self hlt, Option.some.injEq] at h1
      subst h1
      exact hz hf1
    · rw [List.getElem?_set_ne hbb] at h1
      exact hI.freed b1 blk2 h1 hf1
  · intro b1 h1
    rw [hheap, List.length_set] at h1
    have hne : b1 ≠ b := by omega
    rw [hS b1 hne, hW b1 hne]
    exact hI.fresh b1 h1
  · intro b1
    have hr := hI.released b1
    rw [hlog]
    by_cases hbb : b = b1
    · subst hbb
      have h1 : w1.heap[b]? = some blk1 := by rw [hheap, List.getElem?_set_self hlt]
      rw [isFreed_of_get h1, hfr, ← isFreed_of_get hb]
      exact hr
    · have h1 : isFreed w1 b1 = isFreed w b1 := by
        simp only [isFreed, hheap, List.getElem?_set_ne hbb]
      rw [h1]
      exact hr

/-- Preservation when the heap and the log stay. -/
theorem Inv.update0 {w w1 : World} (hI : Inv w) (hheap : w1.heap = w.heap)
    (hlog : w1.log = w.log)
    (hlS : liveS w1 < SIZE_MOD) (hlW : liveW w1 < SIZE_MOD)
    (hS : ∀ b1, cntS w1 b1 = cntS w b1) (hW : ∀ b1, cntW w1 b1 = cntW w b1) : Inv w1 := by
  constructor
  · exact hlS
  · exact hlW
  · intro b1 blk2 h1
    rw [hheap] at h1
    rw [hS, hW]
    exact hI.counts b1 blk2 h1
  · intro b1 blk2 h1 hf1
    rw [hheap] at h1
    exact hI.freed b1 blk2 h1 hf1
  · intro b1 h1
    rw [hheap] at h1
    rw [hS, hW]
    exact hI.fresh b1 h1
  · intro b1
    have h1 : isFreed w1 b1 = isFreed w b1 := by simp only [isFreed, hheap]
    rw [hlog, h1]
    exact hI.released b1

/-- Preservation when a call other than `delete_block` is recorded. -/
theorem Inv.emit {w : World} (hI : Inv w) (e : Event) (he : ∀ b, e ≠ Event.delete_block b) :
    Inv { w with log := w.log ++ [e] } := by
  constructor
  · exact hI.live_s
  · exact hI.live_w
  · exact hI.counts
  · exact hI.freed
  · exact hI.fresh
  · intro b1
    have hr := hI.released b1
    have hne : ¬ (e = Event.delete_block b1) := he b1
    simp only [List.count_append, List.count_singleton, isFreed] at hr ⊢
    simp only [beq_iff_eq, hne, if_false, Nat.add_zero]
    exact hr

/-- Preservation when a block is allocated. -/
theorem Inv.allocate {w : World} (hI : Inv w) (kind : BlockKind) (a : Nat) :
    Inv { w with heap := w.heap ++ [⟨0, 0, kind, false⟩],
                 log := w.log ++ [Event.allocate a w.heap.length] } := by
  have hfr := hI.fresh w.heap.length (Nat.le_refl _)
  constructor
  · exact hI.live_s
  · exact hI.live_w
  · intro b1 blk1 h1
    simp only [List.getElem?_append] at h1
    split at h1
    · exact hI.counts b1 blk1 h1
    · rename_i hge
      have hfr1 := hI.fresh b1 (by omega)
      cases hx : [({ shared_counter := 0, weak_counter := 0, kind := kind, freed := false } :
          BaseControlBlock)][b1 - w.heap.length]? with
      | none => rw [hx] at h1; cases h1
      | some y =>
        rw [hx] at h1
        have hy := List.getElem?_mem hx
        simp only [List.mem_singleton] at hy
        cases h1
        subst hy
        exact ⟨hfr1.1.symm, hfr1.2.symm⟩
  · intro b1 blk1 h1 hf1
    simp only [List.getElem?_append] at h1
    split at h1
    · exact hI.freed b1 blk1 h1 hf1
    · cases hx : [({ shared_counter := 0, weak_counter := 0, kind := kind, freed := false } :
          BaseControlBlock)][b1 - w.heap.length]? with
      | none => rw [hx] at h1; cases h1
      | some y =>
        rw [hx] at h1
        have hy := List.getElem?_mem hx
        simp only [List.mem_singleton] at hy
        cases h1
        subst hy
        cases hf1
  · intro b1 h1
    simp only [List.length_append, List.length_singleton] at h1
    exact hI.fresh b1 (by omega)
  · intro b1
    have hr := hI.released b1
    have hne : ¬ (Event.allocate a w.heap.length = Event.delete_block b1) := by
      intro h; cases h
    simp only [List.count_append, List.count_singleton, isFreed] at hr ⊢
    simp only [beq_iff_eq, hne, if_false, Nat.add_zero]
    rw [hr]
    by_cases hlt : b1 < w.heap.length
    · simp only [List.getElem?_append, hlt, if_true]
    · have h0 : w.heap[b1]? = none := List.getElem?_eq_none (Nat.le_of_not_lt hlt)
      simp only [List.getElem?_append, hlt, if_false, h0]
      cases hx : [({ shared_counter := 0, weak_counter := 0, kind := kind, freed := false } :
          BaseControlBlock)][b1 - w.heap.length]? with
      | none => rfl
      | some y =>
        have hy := List.getElem?_mem hx
        simp only [List.mem_singleton] at hy
        subst hy
        rfl

/-- A block with a live handle on it exists and has not been released. -/
theorem Inv.block_ok {w : World} (hI : Inv w) {b : Nat} (hb : 0 < cntS w b ∨ 0 < cntW w b) :
    ∃ blk, w.heap[b]? = some blk ∧ blk.freed = false := by
  have hlt : b < w.heap.length := by
    by_contra hc
    have := hI.fresh b (by omega)
    omega
  have hget : w.heap[b]? = some (w.heap[b]) := List.getElem?_eq_getElem hlt
  refine ⟨_, hget, ?_⟩
  cases hf : (w.heap[b]).freed with
  | false => rfl
  | true =>
    have h1 := hI.freed b _ hget hf
    have h2 := hI.counts b _ hget
    omega

theorem Inv.block_of_shared {w : World} (hI : Inv w) {i b : Nat} {h : SharedPtr}
    (hi : w.shared[i]? = some (some h)) (hcb : h.control_block = some b) :
    ∃ blk, w.heap[b]? = some blk ∧ blk.freed = false :=
  hI.block_ok (Or.inl (countP_pos_of_get (refS b) w.shared i (some h) hi
    (by simp [refS_of hcb])))

theorem Inv.block_of_weak {w : World} (hI : Inv w) {i b : Nat} {h : WeakPtr}
    (hi : w.weak[i]? = some (some h)) (hcb : h.control_block = some b) :
    ∃ blk, w.heap[b]? = some blk ∧ blk.freed = false :=
  hI.block_ok (Or.inr (countP_pos_of_get (refW b) w.weak i (some h) hi
    (by simp [refW_of hcb])))

/-! ## Preservation of the invariant: control blocks and weak handles -/

/-- `delete_block` on a block with no handle left. -/
theorem BaseControlBlock_delete_block_spec (b : Nat) (blk : BaseControlBlock) (w : World)
    (hI : Inv w) (hb : w.heap[b]? = some blk) (hf : blk.freed = false)
    (hs : blk.shared_counter = 0) (hw : blk.weak_counter = 0) :
    ∃ w1, BaseControlBlock.delete_block b w = Result.ok () w1 ∧ Inv w1 ∧
      ∀ b1, b1 ≠ b → w1.heap[b1]? = w.heap[b1]? := by
  have hlt := heap_lt hb
  have hc := hI.counts b blk hb
  simp only [BaseControlBlock.delete_block, bind_apply, get_block_ok hb hf, emit, set_block]
  refine ⟨_, rfl, ?_, ?_⟩
  · constructor
    · exact hI.live_s
    · exact hI.live_w
    · intro b1 blk1 h1
      simp only [cntS, cntW] at h1 ⊢
      by_cases hbb : b = b1
      · subst hbb
        simp only [List.getElem?_set_self hlt, Option.some.injEq] at h1
        subst h1
        exact hc
      · rw [List.getElem?_set_ne hbb] at h1
        exact hI.counts b1 blk1 h1
    · intro b1 blk1 h1 hf1
      simp only at h1
      by_cases hbb : b = b1
      · subst hbb
        simp only [List.getElem?_set_self hlt, Option.some.injEq] at h1
        subst h1
        exact ⟨hs, hw⟩
      · rw [List.getElem?_set_ne hbb] at h1
        exact hI.freed b1 blk1 h1 hf1
    · intro b1 h1
      simp only [List.length_set] at h1
      exact hI.fresh b1 h1
    · intro b1
      have hr := hI.released b1
      simp only [isFreed, List.count_append, List.count_singleton] at hr ⊢
      by_cases hbb : b = b1
      · subst hbb
        simp only [List.getElem?_set_self hlt, hb, hf] at hr ⊢
        simp at hr ⊢
        exact hr
      · simp only [List.getElem?_set_ne hbb]
        have hne : ¬ (Event.delete_block b = Event.delete_block b1) := by
          intro h; injection h with h; exact hbb h
        simp [hne, hbb]
        exact hr
  · intro b1 hne
    simp only [List.getElem?_set_ne (Ne.symm hne)]

theorem live_set_some {α : Type} (l : List (Option α)) (i : Nat) (x y : α)
    (h : l[i]? = some (some y)) :
    List.countP Option.isSome (l.set i (some x)) = List.countP Option.isSome l := by
  have := countP_set_of_get Option.isSome l i (some x) (some y) h
  simp only [Option.isSome_some, if_true] at this
  omega

theorem live_set_none {α : Type} (l : List (Option α)) (i : Nat) (y : α)
    (h : l[i]? = some (some y)) :
    List.countP Option.isSome (l.set i none) + 1 = List.countP Option.isSome l := by
  have := countP_set_of_get Option.isSome l i none (some y) h
  simp only [Option.isSome_some, Option.isSome_none, if_true, Bool.false_eq_true, if_false]
    at this
  omega

theorem get_lt {α : Type} {l : List α} {i : Nat} {y : α} (h : l[i]? = some y) :
    i < l.length := by
  by_contra hc
  rw [List.getElem?_eq_none (by omega)] at h
  cases h

theorem liveW_push {w : World} (h : WeakPtr) (hg : liveW w + 1 < SIZE_MOD) :
    List.countP Option.isSome (w.weak ++ [some h]) < SIZE_MOD := by
  simp only [liveW] at hg
  simp only [List.countP_append, List.countP_singleton, Option.isSome_some, if_true]
  exact hg

theorem liveS_push {w : World} (h : SharedPtr) (hg : liveS w + 1 < SIZE_MOD) :
    List.countP Option.isSome (w.shared ++ [some h]) < SIZE_MOD := by
  simp only [liveS] at hg
  simp only [List.countP_append, List.countP_singleton, Option.isSome_some, if_true]
  exact hg

/-- A new weak handle without a block. -/
theorem Inv.push_weak_null {w : World} (hI : Inv w) (p : Option Nat)
    (hg : liveW w + 1 < SIZE_MOD) :
    Inv { w with weak := w.weak ++ [some ⟨p, none⟩] } := by
  refine hI.update0 rfl rfl hI.live_s (liveW_push _ hg) (fun _ => rfl) ?_
  intro b1
  simp [cntW, refW_mk]

/-- A new shared handle without a block. -/
theorem Inv.push_shared_null {w : World} (hI : Inv w) (p : Option Nat)
    (hg : liveS w + 1 < SIZE_MOD) :
    Inv { w with shared := w.shared ++ [some ⟨p, none⟩] } := by
  refine hI.update0 rfl rfl (liveS_push _ hg) hI.live_w ?_ (fun _ => rfl)
  intro b1
  simp [cntS, refS_mk]

/-- A new weak handle on a live block, whose weak counter is incremented. -/
theorem Inv.push_weak_inc {w : World} (hI : Inv w) (p : Option Nat) {b : Nat}
    {blk : BaseControlBlock} (hb : w.heap[b]? = some blk) (hf : blk.freed = false)
    (hg : liveW w + 1 < SIZE_MOD) :
    Inv { w with weak := w.weak ++ [some ⟨p, some b⟩],
                 heap := w.heap.set b
                   { blk with weak_counter := (blk.weak_counter + 1) % SIZE_MOD } } := by
  have hc := hI.counts b blk hb
  have hle := cntW_le_liveW w b
  refine hI.update hb rfl rfl rfl hI.live_s (liveW_push _ hg) (fun _ _ => rfl) ?_ hc.1 ?_ ?_
  · intro b1 hne
    have : ¬ (b = b1) := fun h => hne h.symm
    simp [cntW, refW_mk, this]
  · have h1 : blk.weak_counter + 1 < SIZE_MOD := by omega
    simp only [Nat.mod_eq_of_lt h1]
    simp [cntW, refW_mk]
    exact hc.2
  · intro hf1
    simp only [hf] at hf1
    cases hf1

/-- A new shared handle on a live block, whose shared counter is incremented. -/
theorem Inv.push_shared_inc {w : World} (hI : Inv w) (p : Option Nat) {b : Nat}
    {blk : BaseControlBlock} (hb : w.heap[b]? = some blk) (hf : blk.freed = false)
    (hg : liveS w + 1 < SIZE_MOD) :
    Inv { w with shared := w.shared ++ [some ⟨p, some b⟩],
                 heap := w.heap.set b
                   { blk with shared_counter := (blk.shared_counter + 1) % SIZE_MOD } } := by
  have hc := hI.counts b blk hb
  have hle := cntS_le_liveS w b
  refine hI.update hb rfl rfl rfl (liveS_push _ hg) hI.live_w ?_ (fun _ _ => rfl) ?_ hc.2 ?_
  · intro b1 hne
    have : ¬ (b = b1) := fun h => hne h.symm
    simp [cntS, refS_mk, this]
  · have h1 : blk.shared_counter + 1 < SIZE_MOD := by omega
    simp only [Nat.mod_eq_of_lt h1]
    simp [cntS, refS_mk]
    exact hc.1
  · intro hf1
    simp only [hf] at hf1
    cases hf1

theorem WeakPtr_ctor_default_inv : Triple Inv WeakPtr.ctor_default (fun _ w => Inv w) := by
  intro w hI
  simp only [WeakPtr.ctor_default, new_weak]
  by_cases hg : liveW w + 1 < SIZE_MOD
  · simp only [hg, if_true]
    exact hI.push_weak_null none hg
  · simp [hg]

theorem WeakPtr_ctor_copy_inv (other : Nat) :
    Triple Inv (WeakPtr.ctor_copy other) (fun _ w => Inv w) := by
  intro w hI
  simp only [WeakPtr.ctor_copy, bind_apply, get_weak]
  cases hthis : w.weak[other]? with
  | none => simp
  | some s =>
    cases s with
    | none => simp
    | some o =>
      simp only [new_weak]
      by_cases hg : liveW w + 1 < SIZE_MOD
      · simp only [hg, if_true]
        cases hcb : o.control_block with
        | none =>
          simp only [pure_apply]
          exact hI.push_weak_null _ hg
        | some b =>
          obtain ⟨blk, hb, hf⟩ := hI.block_of_weak hthis hcb
          simp only [bind_apply, get_block, hb, hf, Bool.false_eq_true, if_false, set_block,
            pure_apply]
          have := hI.push_weak_inc o.pointer hb hf hg
          simp only [hf] at this
          exact this
      · simp [hg]

theorem WeakPtr_ctor_alias_inv (other : Nat) (ptr : Option Nat) :
    Triple Inv (WeakPtr.ctor_alias other ptr) (fun _ w => Inv w) := by
  intro w hI
  simp only [WeakPtr.ctor_alias, bind_apply, get_weak]
  cases hthis : w.weak[other]? with
  | none => simp
  | some s =>
    cases s with
    | none => simp
    | some o =>
      simp only [new_weak]
      by_cases hg : liveW w + 1 < SIZE_MOD
      · simp only [hg, if_true]
        cases hcb : o.control_block with
        | none =>
          simp only [pure_apply]
          exact hI.push_weak_null _ hg
        | some b =>
          obtain ⟨blk, hb, hf⟩ := hI.block_of_weak hthis hcb
          simp only [bind_apply, get_block, hb, hf, Bool.false_eq_true, if_false, set_block,
            pure_apply]
          have := hI.push_weak_inc ptr hb hf hg
          simp only [hf] at this
          exact this
      · simp [hg]

theorem WeakPtr_ctor_from_shared_inv (sh_ptr : Nat) :
    Triple Inv (WeakPtr.ctor_from_shared sh_ptr) (fun _ w => Inv w) := by
  intro w hI
  simp only [WeakPtr.ctor_from_shared, bind_apply, get_shared]
  cases hthis : w.shared[sh_ptr]? with
  | none => simp
  | some s =>
    cases s with
    | none => simp
    | some o =>
      simp only [new_weak]
      by_cases hg : liveW w + 1 < SIZE_MOD
      · simp only [hg, if_true]
        cases hcb : o.control_block with
        | none => simp [M.fault]
        | some b =>
          obtain ⟨blk, hb, hf⟩ := hI.block_of_shared hthis hcb
          simp only [bind_apply, get_block, hb, hf, Bool.false_eq_true, if_false, set_block,
            pure_apply]
          have := hI.push_weak_inc o.pointer hb hf hg
          simp only [hf] at this
          exact this
      · simp [hg]

theorem WeakPtr_ctor_move_inv (other : Nat) :
    Triple Inv (WeakPtr.ctor_move other) (fun _ w => Inv w) := by
  intro w hI
  simp only [WeakPtr.ctor_move, bind_apply, get_weak]
  cases hthis : w.weak[other]? with
  | none => simp
  | some s =>
    cases s with
    | none => simp
    | some o =>
      cases o with
      | mk op oc =>
      simp only [new_weak]
      by_cases hg : liveW w + 1 < SIZE_MOD
      · simp only [hg, if_true, set_weak, pure_apply]
        have hlt := get_lt hthis
        have hget : (w.weak ++ [some (⟨op, oc⟩ : WeakPtr)])[other]?
            = some (some ⟨op, oc⟩) := by
          rw [List.getElem?_append_left hlt]; exact hthis
        have hlw := hI.live_w
        refine hI.update0 rfl rfl hI.live_s ?_ (fun _ => rfl) ?_
        · have hl := live_set_some _ other (⟨none, none⟩ : WeakPtr) _ hget
          have hp := liveW_push (w := w) ⟨op, oc⟩ hg
          simp only [liveW]
          omega
        · intro b1
          have hc := countP_set_of_get (refW b1) _ other (some (⟨none, none⟩ : WeakPtr)) _ hget
          simp only [cntW]
          simp only [List.countP_append, List.countP_singleton, refW_mk] at hc ⊢
          have hn : (if decide ((none : Option Nat) = some b1) = true then 1 else 0) = 0 := by
            simp
          omega
      · simp [hg]

theorem WeakPtr_swap_inv (this other : Nat) :
    Triple Inv (WeakPtr.swap this other) (fun _ w => Inv w) := by
  intro w hI
  simp only [WeakPtr.swap, bind_apply, get_weak]
  cases hthis : w.weak[this]? with
  | none => simp
  | some s =>
    cases s with
    | none => simp
    | some a =>
      simp only []
      cases hother : w.weak[other]? with
      | none => simp
      | some s =>
        cases s with
        | none => simp
        | some o =>
          simp only [set_weak]
          have hlt := get_lt hthis
          cases a with
          | mk ap ac =>
          cases o with
          | mk op oc =>
          have hlw := hI.live_w
          by_cases hto : this = other
          · subst hto
            rw [hthis] at hother
            simp only [Option.some.injEq, WeakPtr.mk.injEq] at hother
            obtain ⟨h1, h2⟩ := hother
            subst h1; subst h2
            have hget2 : (w.weak.set this (some (⟨ap, ac⟩ : WeakPtr)))[this]?
                = some (some ⟨ap, ac⟩) := List.getElem?_set_self hlt
            refine hI.update0 rfl rfl hI.live_s ?_ (fun _ => rfl) ?_
            · have hl1 := live_set_some _ this (⟨ap, ac⟩ : WeakPtr) _ hthis
              have hl2 := live_set_some _ this (⟨ap, ac⟩ : WeakPtr) _ hget2
              simp only [liveW] at hlw ⊢
              omega
            · intro b1
              have hc1 := countP_set_of_get (refW b1) _ this (some (⟨ap, ac⟩ : WeakPtr)) _ hthis
              have hc2 := countP_set_of_get (refW b1) _ this (some (⟨ap, ac⟩ : WeakPtr)) _ hget2
              simp only [cntW]
              omega
          · have hget2 : (w.weak.set this (some (⟨op, oc⟩ : WeakPtr)))[other]?
                = some (some ⟨op, oc⟩) := by
              rw [List.getElem?_set_ne hto]; exact hother
            refine hI.update0 rfl rfl hI.live_s ?_ (fun _ => rfl) ?_
            · have hl1 := live_set_some _ this (⟨op, oc⟩ : WeakPtr) _ hthis
              have hl2 := live_set_some _ other (⟨ap, ac⟩ : WeakPtr) _ hget2
              simp only [liveW] at hlw ⊢
              omega
            · intro b1
              have hc1 := countP_set_of_get (refW b1) _ this (some (⟨op, oc⟩ : WeakPtr)) _ hthis
              have hc2 := countP_set_of_get (refW b1) _ other (some (⟨ap, ac⟩ : WeakPtr)) _ hget2
              simp only [cntW]
              omega

theorem WeakPtr_ctor_adopt_inv (ptr : Option Nat) (del alloc : Nat) (alloc_ok : Bool) :
    Triple Inv (WeakPtr.ctor_adopt ptr del alloc alloc_ok) (fun _ w => Inv w) := by
  intro w hI
  simp only [WeakPtr.ctor_adopt, bind_apply, allocate_block]
  cases alloc_ok with
  | false =>
    simp only [Bool.false_eq_true, if_false]
    exact hI
  | true =>
    simp only [if_true, new_weak, liveW]
    have hI1 := hI.allocate (BlockKind.ptr ptr del alloc) default_alloc
    have hb : (w.heap ++ [(⟨0, 0, BlockKind.ptr ptr del alloc, false⟩ : BaseControlBlock)])[
        w.heap.length]? = some ⟨0, 0, BlockKind.ptr ptr del alloc, false⟩ := by
      simp
    by_cases hg : List.countP Option.isSome w.weak + 1 < SIZE_MOD
    · simp only [hg, if_true, get_block, hb, Bool.false_eq_true, if_false, set_block,
        pure_apply]
      have h1 := hI1.push_weak_inc ptr hb rfl hg
      simp only [one_mod_size] at h1
      exact h1
    · simp [hg]

/-- `~WeakPtr` keeps the invariant and leaves alone the blocks it has no handle on. -/
theorem WeakPtr_dtor_spec (this : Nat) (w : World) (hI : Inv w) :
    match WeakPtr.dtor this w with
    | Result.ok _ w1 => Inv w1 ∧ KeptW w w1
    | Result.throw _ w1 => Inv w1
    | Result.fault f => f ≠ Fault.use_after_free ∧ f ≠ Fault.wild_pointer := by
  simp only [WeakPtr.dtor, bind_apply, get_weak]
  cases hthis : w.weak[this]? with
  | none => simp
  | some s =>
    cases s with
    | none => simp
    | some h =>
      simp only [end_weak]
      have hlw := hI.live_w
      have hl := live_set_none w.weak this h hthis
      cases hcb : h.control_block with
      | none =>
        simp only [pure_apply]
        refine ⟨hI.update0 rfl rfl hI.live_s ?_ (fun _ => rfl) ?_, fun b blk hb _ => hb⟩
        · simp only [liveW] at hlw ⊢
          omega
        · intro b1
          have hc := countP_set_of_get (refW b1) w.weak this none (some h) hthis
          simp only [cntW]
          simp only [refW_none, refW_of_none hcb, Bool.false_eq_true, if_false] at hc
          omega
      | some b =>
        have hpos : 0 < cntW w b :=
          countP_pos_of_get (refW b) w.weak this (some h) hthis (by simp [refW_of hcb])
        obtain ⟨⟨sc, wc, k, fr⟩, hb, hf⟩ := hI.block_ok (Or.inr hpos)
        simp only at hf
        subst hf
        have hlt := heap_lt hb
        have hc := hI.counts b _ hb
        simp only at hc
        have hle := cntW_le_liveW w b
        have hcn := countP_set_of_get (refW b) w.weak this none (some h) hthis
        simp only [refW_none, refW_of hcb, decide_True, if_true, Bool.false_eq_true, if_false]
          at hcn
        have hI2 : Inv { heap := w.heap.set b ⟨sc, (wc + SIZE_MOD - 1) % SIZE_MOD, k, false⟩,
                         objs := w.objs, shared := w.shared, weak := w.weak.set this none,
                         log := w.log } := by
          refine hI.update hb rfl rfl rfl hI.live_s ?_ (fun _ _ => rfl) ?_ hc.1 ?_ ?_
          · simp only [liveW] at hlw ⊢; omega
          · intro b1 hne
            have hc1 := countP_set_of_get (refW b1) w.weak this none (some h) hthis
            have hne1 : ¬ (b = b1) := fun h => hne h.symm
            simp only [cntW]
            simp only [refW_none, refW_of hcb, hne1, decide_False, Bool.false_eq_true, if_false]
              at hc1
            omega
          · simp only [cntW, liveW, SIZE_MOD] at *
            omega
          · intro hf1
            cases hf1
        have hk : ∀ (w1 : World), (∀ b1, b1 ≠ b → w1.heap[b1]? =
            (w.heap.set b ⟨sc, (wc + SIZE_MOD - 1) % SIZE_MOD, k, false⟩)[b1]?) → KeptW w w1 := by
          intro w1 hw1 b1 blk1 hb1 hz
          have hne : b1 ≠ b := by
            intro h; subst h; omega
          rw [hw1 b1 hne, List.getElem?_set_ne (Ne.symm hne)]
          exact hb1
        simp only [bind_apply, get_block, hb, set_block, List.getElem?_set_self hlt,
          Bool.false_eq_true, if_false]
        by_cases hs0 : sc = 0
        · by_cases hw0 : (wc + SIZE_MOD - 1) % SIZE_MOD = 0
          · simp only [hs0, hw0, if_true]
            obtain ⟨w1, hr, hI3, hfr⟩ := BaseControlBlock_delete_block_spec b ⟨0, 0, k, false⟩ _
              (hs0 ▸ hw0 ▸ hI2) (by simp only [List.getElem?_set_self hlt]) rfl rfl rfl
            rw [hr]
            refine ⟨hI3, hk w1 ?_⟩
            intro b1 hne
            rw [hfr b1 hne]
            simp only [hs0, hw0]
          · simp only [hs0, hw0, if_true, if_false, pure_apply]
            exact ⟨hs0 ▸ hI2, hk _ (fun b1 _ => by simp only [hs0])⟩
        · simp only [hs0, if_false, pure_apply]
          exact ⟨hI2, hk _ (fun b1 _ => rfl)⟩

theorem WeakPtr_dtor_inv (this : Nat) : Triple Inv (WeakPtr.dtor this) (fun _ w => Inv w) := by
  intro w hI
  have h := WeakPtr_dtor_spec this w hI
  cases hr : WeakPtr.dtor this w with
  | ok a w1 =>
    rw [hr] at h
    exact h.1
  | throw e w1 =>
    rw [hr] at h
    exact h
  | fault f =>
    rw [hr] at h
    exact h

theorem WeakPtr_assign_copy_inv (this other : Nat) :
    Triple Inv (WeakPtr.assign_copy this other) (fun _ w => Inv w) :=
  Triple.bind (WeakPtr_ctor_copy_inv other) (fun copy =>
    Triple.bind (WeakPtr_swap_inv this copy) (fun _ => WeakPtr_dtor_inv copy))

theorem WeakPtr_assign_move_inv (this other : Nat) :
    Triple Inv (WeakPtr.assign_move this other) (fun _ w => Inv w) :=
  Triple.bind (WeakPtr_ctor_move_inv other) (fun copy =>
    Triple.bind (WeakPtr_swap_inv this copy) (fun _ => WeakPtr_dtor_inv copy))

theorem WeakPtr_expired_inv (this : Nat) :
    Triple Inv (WeakPtr.expired this) (fun _ w => Inv w) := by
  intro w hI
  simp only [WeakPtr.expired, bind_apply, get_weak]
  cases hthis : w.weak[this]? with
  | none => simp
  | some s =>
    cases s with
    | none => simp
    | some h =>
      simp only []
      cases hcb : h.control_block with
      | none => exact hI
      | some b =>
        obtain ⟨blk, hb, hf⟩ := hI.block_of_weak hthis hcb
        simp only [bind_apply, get_block_ok hb hf, pure_apply]
        exact hI

theorem WeakPtr_use_count_inv (this : Nat) :
    Triple Inv (WeakPtr.use_count this) (fun _ w => Inv w) := by
  intro w hI
  simp only [WeakPtr.use_count, bind_apply, get_weak]
  cases hthis : w.weak[this]? with
  | none => simp
  | some s =>
    cases s with
    | none => simp
    | some h =>
      simp only []
      cases hcb : h.control_block with
      | none => exact hI
      | some b =>
        obtain ⟨blk, hb, hf⟩ := hI.block_of_weak hthis hcb
        simp only [bind_apply, get_block_ok hb hf, pure_apply]
        exact hI

theorem WeakPtr_get_inv (this : Nat) :
    Triple Inv (WeakPtr.get this) (fun _ w => Inv w) := by
  intro w hI
  simp only [WeakPtr.get, bind_apply, get_weak]
  cases hthis : w.weak[this]? with
  | none => simp
  | some s =>
    cases s with
    | none => simp
    | some h => exact hI

/-! ## Preservation of the invariant: destruction of the payload and shared handles -/

theorem KeptW.refl (w : World) : KeptW w w := fun _ _ hb _ => hb

theorem Payload_dtor_spec (p : Option Nat) (w : World) (hI : Inv w) :
    match Payload.dtor p w with
    | Result.ok _ w1 => Inv w1 ∧ KeptW w w1
    | Result.throw _ w1 => Inv w1
    | Result.fault f => f ≠ Fault.use_after_free ∧ f ≠ Fault.wild_pointer := by
  simp only [Payload.dtor, bind_apply, get_world]
  cases weak_ptr_of w p with
  | none => exact ⟨hI, KeptW.refl w⟩
  | some m => exact WeakPtr_dtor_spec m w hI

theorem BaseControlBlock_delete_obj_spec (b : Nat) (w : World) (hI : Inv w)
    {blk : BaseControlBlock} (hb : w.heap[b]? = some blk) (hf : blk.freed = false) :
    match BaseControlBlock.delete_obj b w with
    | Result.ok _ w1 => Inv w1 ∧ KeptW w w1
    | Result.throw _ w1 => Inv w1
    | Result.fault f => f ≠ Fault.use_after_free ∧ f ≠ Fault.wild_pointer := by
  simp only [BaseControlBlock.delete_obj, bind_apply, get_block_ok hb hf, emit]
  have hI1 := hI.emit (Event.delete_obj b) (by intro b1 h; cases h)
  cases hk : blk.kind with
  | ptr pointer deleter alloc =>
    simp only [bind_apply, emit]
    have hI2 := hI1.emit (Event.deleter deleter pointer) (by intro b1 h; cases h)
    cases hd : deleter_destroys deleter with
    | true =>
      simp only [hd, if_true]
      exact Payload_dtor_spec pointer _ hI2
    | false =>
      simp only [hd, Bool.false_eq_true, if_false, pure_apply]
      exact ⟨hI2, fun _ _ hb1 _ => hb1⟩
  | object object alloc =>
    simp only [bind_apply, emit]
    have hI2 := hI1.emit (Event.destroy alloc object) (by intro b1 h; cases h)
    exact Payload_dtor_spec (some object) _ hI2

theorem SharedPtr_ctor_private_inv (pointer control_block : Option Nat) :
    Triple (fun w => Inv w ∧ ∀ b, control_block = some b →
        ∃ blk, w.heap[b]? = some blk ∧ blk.freed = false)
      (SharedPtr.ctor_private pointer control_block) (fun _ w => Inv w) := by
  intro w ⟨hI, hcb⟩
  simp only [SharedPtr.ctor_private, bind_apply, new_shared]
  by_cases hg : liveS w + 1 < SIZE_MOD
  · simp only [hg, if_true]
    cases control_block with
    | none => simp [M.fault]
    | some b =>
      obtain ⟨blk, hb, hf⟩ := hcb b rfl
      simp only [bind_apply, get_block, hb, hf, Bool.false_eq_true, if_false, set_block,
        pure_apply]
      have := hI.push_shared_inc pointer hb hf hg
      simp only [hf] at this
      exact this
  · simp [hg]

theorem WeakPtr_lock_inv (this : Nat) :
    Triple Inv (WeakPtr.lock this) (fun _ w => Inv w) := by
  intro w hI
  simp only [WeakPtr.lock, bind_apply, get_weak]
  cases hthis : w.weak[this]? with
  | none => simp
  | some s =>
    cases s with
    | none => simp
    | some h =>
      simp only []
      exact SharedPtr_ctor_private_inv h.pointer h.control_block w
        ⟨hI, fun b hcb => hI.block_of_weak hthis hcb⟩

theorem SharedPtr_ctor_default_inv : Triple Inv SharedPtr.ctor_default (fun _ w => Inv w) := by
  intro w hI
  simp only [SharedPtr.ctor_default, new_shared]
  by_cases hg : liveS w + 1 < SIZE_MOD
  · simp only [hg, if_true]
    exact hI.push_shared_null none hg
  · simp [hg]

theorem SharedPtr_ctor_copy_inv (other : Nat) :
    Triple Inv (SharedPtr.ctor_copy other) (fun _ w => Inv w) := by
  intro w hI
  simp only [SharedPtr.ctor_copy, bind_apply, get_shared]
  cases hthis : w.shared[other]? with
  | none => simp
  | some s =>
    cases s with
    | none => simp
    | some o =>
      simp only [new_shared]
      by_cases hg : liveS w + 1 < SIZE_MOD
      · simp only [hg, if_true]
        cases hcb : o.control_block with
        | none =>
          simp only [pure_apply]
          exact hI.push_shared_null _ hg
        | some b =>
          obtain ⟨blk, hb, hf⟩ := hI.block_of_shared hthis hcb
          simp only [bind_apply, get_block, hb, hf, Bool.false_eq_true, if_false, set_block,
            pure_apply]
          have := hI.push_shared_inc o.pointer hb hf hg
          simp only [hf] at this
          exact this
      · simp [hg]

theorem SharedPtr_ctor_alias_inv (other : Nat) (ptr : Option Nat) :
    Triple Inv (SharedPtr.ctor_alias other ptr) (fun _ w => Inv w) := by
  intro w hI
  simp only [SharedPtr.ctor_alias, bind_apply, get_shared]
  cases hthis : w.shared[other]? with
  | none => simp
  | some s =>
    cases s with
    | none => simp
    | some o =>
      simp only [new_shared]
      by_cases hg : liveS w + 1 < SIZE_MOD
      · simp only [hg, if_true]
        cases hcb : o.control_block with
        | none =>
          simp only [pure_apply]
          exact hI.push_shared_null _ hg
        | some b =>
          obtain ⟨blk, hb, hf⟩ := hI.block_of_shared hthis hcb
          simp only [bind_apply, get_block, hb, hf, Bool.false_eq_true, if_false, set_block,
            pure_apply]
          have := hI.push_shared_inc ptr hb hf hg
          simp only [hf] at this
          exact this
      · simp [hg]

theorem SharedPtr_ctor_move_inv (other : Nat) :
    Triple Inv (SharedPtr.ctor_move other) (fun _ w => Inv w) := by
  intro w hI
  simp only [SharedPtr.ctor_move, bind_apply, get_shared]
  cases hthis : w.shared[other]? with
  | none => simp
  | some s =>
    cases s with
    | none => simp
    | some o =>
      cases o with
      | mk op oc =>
      simp only [new_shared]
      by_cases hg : liveS w + 1 < SIZE_MOD
      · simp only [hg, if_true, set_shared, pure_apply]
        have hlt := get_lt hthis
        have hget : (w.shared ++ [some (⟨op, oc⟩ : SharedPtr)])[other]?
            = some (some ⟨op, oc⟩) := by
          rw [List.getElem?_append_left hlt]; exact hthis
        have hlw := hI.live_s
        refine hI.update0 rfl rfl ?_ hI.live_w ?_ (fun _ => rfl)
        · have hl := live_set_some _ other (⟨none, none⟩ : SharedPtr) _ hget
          have hp := liveS_push (w := w) ⟨op, oc⟩ hg
          simp only [liveS]
          omega
        · intro b1
          have hc := countP_set_of_get (refS b1) _ other (some (⟨none, none⟩ : SharedPtr)) _ hget
          simp only [cntS]
          simp only [List.countP_append, List.countP_singleton, refS_mk] at hc ⊢
          have hn : (if decide ((none : Option Nat) = some b1) = true then 1 else 0) = 0 := by
            simp
          omega
      · simp [hg]

theorem SharedPtr_swap_inv (this other : Nat) :
    Triple Inv (SharedPtr.swap this other) (fun _ w => Inv w) := by
  intro w hI
  simp only [SharedPtr.swap, bind_apply, get_shared]
  cases hthis : w.shared[this]? with
  | none => simp
  | some s =>
    cases s with
    | none => simp
    | some a =>
      simp only []
      cases hother : w.shared[other]? with
      | none => simp
      | some s =>
        cases s with
        | none => simp
        | some o =>
          simp only [set_shared]
          have hlt := get_lt hthis
          cases a with
          | mk ap ac =>
          cases o with
          | mk op oc =>
          have hlw := hI.live_s
          by_cases hto : this = other
          · subst hto
            rw [hthis] at hother
            simp only [Option.some.injEq, SharedPtr.mk.injEq] at hother
            obtain ⟨h1, h2⟩ := hother
            subst h1; subst h2
            have hget2 : (w.shared.set this (some (⟨ap, ac⟩ : SharedPtr)))[this]?
                = some (some ⟨ap, ac⟩) := List.getElem?_set_self hlt
            refine hI.update0 rfl rfl ?_ hI.live_w ?_ (fun _ => rfl)
            · have hl1 := live_set_some _ this (⟨ap, ac⟩ : SharedPtr) _ hthis
              have hl2 := live_set_some _ this (⟨ap, ac⟩ : SharedPtr) _ hget2
              simp only [liveS] at hlw ⊢
              omega
            · intro b1
              have hc1 := countP_set_of_get (refS b1) _ this (some (⟨ap, ac⟩ : SharedPtr)) _ hthis
              have hc2 := countP_set_of_get (refS b1) _ this (some (⟨ap, ac⟩ : SharedPtr)) _ hget2
              simp only [cntS]
              omega
          · have hget2 : (w.shared.set this (some (⟨op, oc⟩ : SharedPtr)))[other]?
                = some (some ⟨op, oc⟩) := by
              rw [List.getElem?_set_ne hto]; exact hother
            refine hI.update0 rfl rfl ?_ hI.live_w ?_ (fun _ => rfl)
            · have hl1 := live_set_some _ this (⟨op, oc⟩ : SharedPtr) _ hthis
              have hl2 := live_set_some _ other (⟨ap, ac⟩ : SharedPtr) _ hget2
              simp only [liveS] at hlw ⊢
              omega
            · intro b1
              have hc1 := countP_set_of_get (refS b1) _ this (some (⟨op, oc⟩ : SharedPtr)) _ hthis
              have hc2 := countP_set_of_get (refS b1) _ other (some (⟨ap, ac⟩ : SharedPtr)) _ hget2
              simp only [cntS]
              omega

theorem SharedPtr_dtor_inv (this : Nat) : Triple Inv (SharedPtr.dtor this) (fun _ w => Inv w) := by
  intro w hI
  simp only [SharedPtr.dtor, bind_apply, get_shared]
  cases hthis : w.shared[this]? with
  | none => simp
  | some s =>
    cases s with
    | none => simp
    | some h =>
      simp only [end_shared]
      have hls := hI.live_s
      have hl := live_set_none w.shared this h hthis
      cases hcb : h.control_block with
      | none =>
        simp only [pure_apply]
        refine hI.update0 rfl rfl ?_ hI.live_w ?_ (fun _ => rfl)
        · simp only [liveS] at hls ⊢
          omega
        · intro b1
          have hc := countP_set_of_get (refS b1) w.shared this none (some h) hthis
          simp only [cntS]
          simp only [refS_none, refS_of_none hcb, Bool.false_eq_true, if_false] at hc
          omega
      | some b =>
        have hpos : 0 < cntS w b :=
          countP_pos_of_get (refS b) w.shared this (some h) hthis (by simp [refS_of hcb])
        obtain ⟨⟨sc, wc, k, fr⟩, hb, hf⟩ := hI.block_ok (Or.inl hpos)
        simp only at hf
        subst hf
        have hlt := heap_lt hb
        have hc := hI.counts b _ hb
        simp only at hc
        have hle := cntS_le_liveS w b
        have hcn := countP_set_of_get (refS b) w.shared this none (some h) hthis
        simp only [refS_none, refS_of hcb, decide_True, if_true, Bool.false_eq_true, if_false]
          at hcn
        have hI2 : Inv { heap := w.heap.set b ⟨(sc + SIZE_MOD - 1) % SIZE_MOD, wc, k, false⟩,
                         objs := w.objs, shared := w.shared.set this none, weak := w.weak,
                         log := w.log } := by
          refine hI.update hb rfl rfl rfl ?_ hI.live_w ?_ (fun _ _ => rfl) ?_ hc.2 ?_
          · simp only [liveS] at hls ⊢; omega
          · intro b1 hne
            have hc1 := countP_set_of_get (refS b1) w.shared this none (some h) hthis
            have hne1 : ¬ (b = b1) := fun h => hne h.symm
            simp only [cntS]
            simp only [refS_none, refS_of hcb, hne1, decide_False, Bool.false_eq_true, if_false]
              at hc1
            omega
          · simp only [cntS, liveS, SIZE_MOD] at *
            omega
          · intro hf1
            cases hf1
        have hdec : (sc + SIZE_MOD - 1) % SIZE_MOD = sc - 1 :=
          dec_mod_size (by omega) (by omega)
        rw [hdec] at hI2
        have hb2 : (w.heap.set b ⟨sc - 1, wc, k, false⟩)[b]?
            = some ⟨sc - 1, wc, k, false⟩ := List.getElem?_set_self hlt
        simp only [bind_apply, get_block, hb, set_block, Bool.false_eq_true, if_false]
        simp only [hdec]
        simp only [hb2, Bool.false_eq_true, if_false]
        generalize sc - 1 = sc1 at hI2 hb2 ⊢
        by_cases hs0 : sc1 = 0
        · subst hs0
          have hdo := BaseControlBlock_delete_obj_spec b _ hI2 hb2 rfl
          by_cases hw0 : wc = 0
          · subst hw0
            simp only [if_true, bind_apply]
            cases hr : BaseControlBlock.delete_obj b
                { heap := w.heap.set b ⟨0, 0, k, false⟩, objs := w.objs,
                  shared := w.shared.set this none, weak := w.weak, log := w.log } with
            | ok a w3 =>
              rw [hr] at hdo
              simp only []
              have hz := (hI2.counts b _ hb2).2
              have hb3 := hdo.2 b _ hb2 hz.symm
              obtain ⟨w4, hr4, hI4, _⟩ := BaseControlBlock_delete_block_spec b _ w3 hdo.1 hb3
                rfl rfl rfl
              rw [hr4]
              exact hI4
            | throw e w3 =>
              rw [hr] at hdo
              exact hdo
            | fault f =>
              rw [hr] at hdo
              exact hdo
          · simp only [hw0, if_true, if_false]
            cases hr : BaseControlBlock.delete_obj b
                { heap := w.heap.set b ⟨0, wc, k, false⟩, objs := w.objs,
                  shared := w.shared.set this none, weak := w.weak, log := w.log } with
            | ok a w3 =>
              rw [hr] at hdo
              exact hdo.1
            | throw e w3 =>
              rw [hr] at hdo
              exact hdo
            | fault f =>
              rw [hr] at hdo
              exact hdo
        · simp only [hs0, if_false, pure_apply]
          exact hI2

theorem SharedPtr_assign_weak_ptr_inv (weak_ptr this : Nat) :
    Triple Inv (SharedPtr.assign_weak_ptr weak_ptr this) (fun _ w => Inv w) :=
  Triple.bind (WeakPtr_ctor_from_shared_inv this) (fun tmp =>
    Triple.bind (WeakPtr_assign_move_inv weak_ptr tmp) (fun _ => WeakPtr_dtor_inv tmp))

theorem SharedPtr_ctor_adopt_inv (ptr : Option Nat) (del alloc : Nat) (alloc_ok : Bool) :
    Triple Inv (SharedPtr.ctor_adopt ptr del alloc alloc_ok) (fun _ w => Inv w) := by
  intro w hI
  simp only [SharedPtr.ctor_adopt, bind_apply, allocate_block]
  cases alloc_ok with
  | false =>
    simp only [Bool.false_eq_true, if_false]
    exact hI
  | true =>
    simp only [if_true, new_shared, liveS]
    have hI1 := hI.allocate (BlockKind.ptr ptr del alloc) default_alloc
    have hb : (w.heap ++ [(⟨0, 0, BlockKind.ptr ptr del alloc, false⟩ : BaseControlBlock)])[
        w.heap.length]? = some ⟨0, 0, BlockKind.ptr ptr del alloc, false⟩ := by
      simp
    by_cases hg : List.countP Option.isSome w.shared + 1 < SIZE_MOD
    · simp only [hg, if_true, get_block, hb, Bool.false_eq_true, if_false, set_block,
        get_world]
      have hI2 := hI1.push_shared_inc ptr hb rfl hg
      simp only [one_mod_size] at hI2
      cases hwp : weak_ptr_of
          { heap := (w.heap ++ [(⟨0, 0, BlockKind.ptr ptr del alloc, false⟩ :
                BaseControlBlock)]).set w.heap.length ⟨1, 0, BlockKind.ptr ptr del alloc, false⟩,
            objs := w.objs,
            shared := w.shared ++ [some ⟨ptr, some w.heap.length⟩], weak := w.weak,
            log := w.log ++ [Event.allocate default_alloc w.heap.length] } ptr with
      | none =>
        simp only [pure_apply]
        exact hI2
      | some m =>
        simp only []
        exact Triple.bind (SharedPtr_assign_weak_ptr_inv m w.shared.length)
          (fun _ => Triple.pure w.shared.length) _ hI2
    · simp [hg]

theorem SharedPtr_assign_copy_inv (this other : Nat) :
    Triple Inv (SharedPtr.assign_copy this other) (fun _ w => Inv w) :=
  Triple.bind (SharedPtr_ctor_copy_inv other) (fun copy =>
    Triple.bind (SharedPtr_swap_inv this copy) (fun _ => SharedPtr_dtor_inv copy))

theorem SharedPtr_assign_move_inv (this other : Nat) :
    Triple Inv (SharedPtr.assign_move this other) (fun _ w => Inv w) :=
  Triple.bind (SharedPtr_ctor_move_inv other) (fun copy =>
    Triple.bind (SharedPtr_swap_inv this copy) (fun _ => SharedPtr_dtor_inv copy))

theorem SharedPtr_use_count_inv (this : Nat) :
    Triple Inv (SharedPtr.use_count this) (fun _ w => Inv w) := by
  intro w hI
  simp only [SharedPtr.use_count, bind_apply, get_shared]
  cases hthis : w.shared[this]? with
  | none => simp
  | some s =>
    cases s with
    | none => simp
    | some h =>
      simp only []
      cases hcb : h.control_block with
      | none => exact hI
      | some b =>
        obtain ⟨blk, hb, hf⟩ := hI.block_of_shared hthis hcb
        simp only [bind_apply, get_block_ok hb hf, pure_apply]
        exact hI

theorem SharedPtr_get_inv (this : Nat) :
    Triple Inv (SharedPtr.get this) (fun _ w => Inv w) := by
  intro w hI
  simp only [SharedPtr.get, bind_apply, get_shared]
  cases hthis : w.shared[this]? with
  | none => simp
  | some s =>
    cases s with
    | none => simp
    | some h => exact hI

theorem SharedPtr_construct_inv (args : SharedPtr.Args) :
    Triple Inv (SharedPtr.construct args) (fun _ w => Inv w) := by
  cases args with
  | default => exact SharedPtr_ctor_default_inv
  | adopt ptr del alloc alloc_ok => exact SharedPtr_ctor_adopt_inv ptr del alloc alloc_ok
  | aliasing other ptr => exact SharedPtr_ctor_alias_inv other ptr
  | copy other => exact SharedPtr_ctor_copy_inv other
  | move other => exact SharedPtr_ctor_move_inv other

theorem WeakPtr_construct_inv (args : WeakPtr.Args) :
    Triple Inv (WeakPtr.construct args) (fun _ w => Inv w) := by
  cases args with
  | default => exact WeakPtr_ctor_default_inv
  | adopt ptr del alloc alloc_ok => exact WeakPtr_ctor_adopt_inv ptr del alloc alloc_ok
  | aliasing other ptr => exact WeakPtr_ctor_alias_inv other ptr
  | copy other => exact WeakPtr_ctor_copy_inv other
  | move other => exact WeakPtr_ctor_move_inv other
  | from_shared sh_ptr => exact WeakPtr_ctor_from_shared_inv sh_ptr

theorem SharedPtr_reset_inv (this : Nat) (args : SharedPtr.Args) :
    Triple Inv (SharedPtr.reset this args) (fun _ w => Inv w) :=
  Triple.bind (SharedPtr_construct_inv args) (fun tmp =>
    Triple.bind (SharedPtr_assign_move_inv this tmp) (fun _ => SharedPtr_dtor_inv tmp))

/-- The invariant does not read the payloads. -/
theorem Inv.objs {w : World} (hI : Inv w) (objs : List Payload) :
    Inv { w with objs := objs } :=
  ⟨hI.live_s, hI.live_w, hI.counts, hI.freed, hI.fresh, hI.released⟩

theorem ControlBlockObject_ctor_spec (esft ctor_ok : Bool)
    (P : List BaseControlBlock → Prop) :
    Triple (fun w => Inv w ∧ P w.heap) (ControlBlockObject.ctor esft ctor_ok)
      (fun _ w => Inv w ∧ P w.heap) := by
  intro w ⟨hI, hP⟩
  simp only [ControlBlockObject.ctor]
  cases ctor_ok with
  | false =>
    simp only [Bool.false_eq_true, if_false]
    exact hI
  | true =>
    cases esft with
    | false =>
      simp only [Bool.false_eq_true, if_false, if_true]
      exact ⟨hI.objs _, hP⟩
    | true =>
      simp only [if_true, WeakPtr.ctor_default, new_weak]
      by_cases hg : liveW w + 1 < SIZE_MOD
      · simp only [hg, if_true]
        exact ⟨(hI.push_weak_null none hg).objs _, hP⟩
      · simp [hg]

theorem new_payload_inv (esft : Bool) : Triple Inv (new_payload esft) (fun _ w => Inv w) := by
  intro w hI
  simp only [new_payload]
  cases esft with
  | false =>
    simp only [Bool.false_eq_true, if_false]
    exact hI.objs _
  | true =>
    simp only [if_true, WeakPtr.ctor_default, new_weak]
    by_cases hg : liveW w + 1 < SIZE_MOD
    · simp only [hg, if_true]
      exact (hI.push_weak_null none hg).objs _
    · simp [hg]

theorem allocate_block_spec (alloc_ok : Bool) (kind : BlockKind) :
    Triple Inv (allocate_block alloc_ok kind)
      (fun b w => Inv w ∧ ∃ blk, w.heap[b]? = some blk ∧ blk.freed = false) := by
  intro w hI
  simp only [allocate_block]
  cases alloc_ok with
  | false =>
    simp only [Bool.false_eq_true, if_false]
    exact hI
  | true =>
    simp only [if_true]
    exact ⟨hI.allocate kind default_alloc, ⟨0, 0, kind, false⟩, by simp, rfl⟩

theorem allocateShared_inv (esft : Bool) (alloc : Nat) (alloc_ok ctor_ok : Bool) :
    Triple Inv (allocateShared esft alloc alloc_ok ctor_ok) (fun _ w => Inv w) := by
  intro w hI
  simp only [allocateShared, bind_apply, get_world]
  exact Triple.bind (allocate_block_spec alloc_ok (BlockKind.object w.objs.length alloc))
    (fun block => Triple.bind
      (ControlBlockObject_ctor_spec esft ctor_ok
        (fun heap => ∃ blk, heap[block]? = some blk ∧ blk.freed = false))
      (fun object => Triple.weaken
        (SharedPtr_ctor_private_inv (some object) (some block))
        (fun w1 h => ⟨h.1, fun b hb => by cases hb; exact h.2⟩)
        (fun _ _ h => h))) w hI

theorem makeShared_inv (esft : Bool) (alloc_ok ctor_ok : Bool) :
    Triple Inv (makeShared esft alloc_ok ctor_ok) (fun _ w => Inv w) :=
  allocateShared_inv esft default_alloc alloc_ok ctor_ok

theorem EnableSharedFromThis_shared_from_this_inv (p : Nat) :
    Triple Inv (EnableSharedFromThis.shared_from_this p) (fun _ w => Inv w) := by
  intro w hI
  simp only [EnableSharedFromThis.shared_from_this, bind_apply, get_world]
  cases weak_ptr_of w (some p) with
  | none => simp [M.fault]
  | some m =>
    simp only []
    refine Triple.bind (WeakPtr_expired_inv m) (fun e => ?_) w hI
    cases e with
    | true =>
      intro w1 hI1
      simp only [if_true, M.throw]
      exact hI1
    | false =>
      simp only [Bool.false_eq_true, if_false]
      exact WeakPtr_lock_inv m

theorem step_inv (op : Op) : Triple Inv (step op) (fun _ w => Inv w) := by
  cases op with
  | new_payload esft => exact Triple.discard (new_payload_inv esft)
  | sp_construct args => exact Triple.discard (SharedPtr_construct_inv args)
  | sp_allocate esft alloc alloc_ok ctor_ok =>
    exact Triple.discard (allocateShared_inv esft alloc alloc_ok ctor_ok)
  | sp_make esft alloc_ok ctor_ok => exact Triple.discard (makeShared_inv esft alloc_ok ctor_ok)
  | sp_assign_copy this other => exact SharedPtr_assign_copy_inv this other
  | sp_assign_move this other => exact SharedPtr_assign_move_inv this other
  | sp_swap this other => exact SharedPtr_swap_inv this other
  | sp_reset this args => exact SharedPtr_reset_inv this args
  | sp_use_count this => exact Triple.discard (SharedPtr_use_count_inv this)
  | sp_get this => exact Triple.discard (SharedPtr_get_inv this)
  | sp_destroy this => exact SharedPtr_dtor_inv this
  | wp_construct args => exact Triple.discard (WeakPtr_construct_inv args)
  | wp_assign_copy this other => exact WeakPtr_assign_copy_inv this other
  | wp_assign_move this other => exact WeakPtr_assign_move_inv this other
  | wp_swap this other => exact WeakPtr_swap_inv this other
  | wp_expired this => exact Triple.discard (WeakPtr_expired_inv this)
  | wp_use_count this => exact Triple.discard (WeakPtr_use_count_inv this)
  | wp_get this => exact Triple.discard (WeakPtr_get_inv this)
  | wp_lock this => exact Triple.discard (WeakPtr_lock_inv this)
  | wp_destroy this => exact WeakPtr_dtor_inv this
  | shared_from_this p => exact Triple.discard (EnableSharedFromThis_shared_from_this_inv p)

theorem Inv.empty : Inv World.empty := by
  constructor
  · unfold SIZE_MOD; decide
  · unfold SIZE_MOD; decide
  · intro b blk h; simp [World.empty] at h
  · intro b blk h; simp [World.empty] at h
  · intro b _; exact ⟨rfl, rfl⟩
  · intro b; rfl

/-- Every run from a state satisfying the invariant ends in a state satisfying it, or
in a fault that is neither an access to a released block nor to an unallocated
address. -/
theorem run_inv (ops : List Op) : ∀ (w : World), Inv w →
    match run ops w with
    | Except.ok w1 => Inv w1
    | Except.error f => f ≠ Fault.use_after_free ∧ f ≠ Fault.wild_pointer := by
  induction ops with
  | nil =>
    intro w hI
    exact hI
  | cons op ops ih =>
    intro w hI
    have hs := step_inv op w hI
    simp only [run]
    cases hr : step op w with
    | ok a w1 =>
      rw [hr] at hs
      exact ih w1 hs
    | throw e w1 =>
      rw [hr] at hs
      exact ih w1 hs
    | fault f =>
      rw [hr] at hs
      exact hs

/-! ## What single operations do -/

theorem get_shared_ok {w : World} {i : Nat} {h : SharedPtr}
    (hi : w.shared[i]? = some (some h)) : get_shared i w = Result.ok h w := by
  simp only [get_shared, hi]

theorem get_weak_ok {w : World} {i : Nat} {h : WeakPtr}
    (hi : w.weak[i]? = some (some h)) : get_weak i w = Result.ok h w := by
  simp only [get_weak, hi]

/-- `delete_block` on a block that has not been released: both calls are recorded and
the storage is gone. -/
theorem delete_block_eq {w : World} {b : Nat} {blk : BaseControlBlock}
    (hb : w.heap[b]? = some blk) (hf : blk.freed = false) :
    BaseControlBlock.delete_block b w = Result.ok ()
      { w with log := w.log ++ [Event.delete_block b, Event.deallocate default_alloc b],
               heap := w.heap.set b { blk with freed := true } } := by
  simp only [BaseControlBlock.delete_block, bind_apply, get_block_ok hb hf, emit, set_block,
    List.append_assoc, List.singleton_append]

/-- `delete_obj` on a block whose payload stores no weak handle: the call and the
call to the destruction strategy are recorded, nothing else changes. -/
theorem delete_obj_eq {w : World} {b : Nat} {blk : BaseControlBlock}
    (hb : w.heap[b]? = some blk) (hf : blk.freed = false)
    (hp : weak_ptr_of w blk.kind.payload = none) :
    BaseControlBlock.delete_obj b w = Result.ok ()
      { w with log := w.log ++ [Event.delete_obj b, blk.kind.destroy_event] } := by
  simp only [BaseControlBlock.delete_obj, bind_apply, get_block_ok hb hf, emit]
  cases hk : blk.kind with
  | ptr pointer deleter alloc =>
    rw [hk] at hp
    simp only [BlockKind.payload, weak_ptr_of] at hp
    cases hd : deleter_destroys deleter with
    | true =>
      simp only [hd, bind_apply, emit, Payload.dtor, get_world, weak_ptr_of, hp, pure_apply,
        BlockKind.destroy_event, List.append_assoc, List.singleton_append, if_true]
    | false =>
      simp only [hd, bind_apply, emit, pure_apply, Bool.false_eq_true, if_false,
        BlockKind.destroy_event, List.append_assoc, List.singleton_append]
  | object object alloc =>
    rw [hk] at hp
    simp only [BlockKind.payload, weak_ptr_of] at hp
    simp only [bind_apply, emit, Payload.dtor, get_world, weak_ptr_of, hp, pure_apply,
      BlockKind.destroy_event, List.append_assoc, List.singleton_append]

/-- `delete_obj` where no stored weak handle is destroyed: the payload stores none,
or the destruction strategy leaves the payload alone.  The call and the call to the
destruction strategy are recorded, nothing else changes. -/
theorem delete_obj_plain_eq {w : World} {b : Nat} {blk : BaseControlBlock}
    (hb : w.heap[b]? = some blk) (hf : blk.freed = false)
    (hp : blk.kind.destroys = true → weak_ptr_of w blk.kind.payload = none) :
    BaseControlBlock.delete_obj b w = Result.ok ()
      { w with log := w.log ++ [Event.delete_obj b, blk.kind.destroy_event] } := by
  cases hd : blk.kind.destroys with
  | true => exact delete_obj_eq hb hf (hp hd)
  | false =>
    simp only [BaseControlBlock.delete_obj, bind_apply, get_block_ok hb hf, emit]
    cases hk : blk.kind with
    | ptr pointer deleter alloc =>
      rw [hk] at hd
      simp only [BlockKind.destroys] at hd
      simp only [bind_apply, emit, pure_apply, hd, Bool.false_eq_true, if_false,
        BlockKind.destroy_event, List.append_assoc, List.singleton_append]
    | object object alloc =>
      rw [hk] at hd
      cases hd

/-- `~SharedPtr` on a handle without a block. -/
theorem SharedPtr_dtor_null {w : World} {this : Nat} {h : SharedPtr}
    (hthis : w.shared[this]? = some (some h)) (hcb : h.control_block = none) :
    SharedPtr.dtor this w = Result.ok () { w with shared := w.shared.set this none } := by
  simp only [SharedPtr.dtor, bind_apply, get_shared_ok hthis, end_shared, hcb, pure_apply]

/-- `~SharedPtr` on a handle with a block: the counter goes down by one, then the
branches of the destructor run in the state so reached. -/
theorem SharedPtr_dtor_eq {w : World} {this b : Nat} {h : SharedPtr} {blk : BaseControlBlock}
    (hthis : w.shared[this]? = some (some h)) (hcb : h.control_block = some b)
    (hb : w.heap[b]? = some blk) (hf : blk.freed = false)
    (h1 : 1 ≤ blk.shared_counter) (h2 : blk.shared_counter < SIZE_MOD) :
    SharedPtr.dtor this w =
      (if blk.shared_counter = 1 then
        if blk.weak_counter = 0 then
          (BaseControlBlock.delete_obj b >>= fun _ => BaseControlBlock.delete_block b)
        else BaseControlBlock.delete_obj b
      else pure ())
      { w with shared := w.shared.set this none,
               heap := w.heap.set b { blk with shared_counter := blk.shared_counter - 1 } } := by
  obtain ⟨sc, wc, k, fr⟩ := blk
  simp only at hf h1 h2
  subst hf
  have hlt := heap_lt hb
  have hdec := dec_mod_size h1 h2
  have hb2 : (w.heap.set b ⟨sc - 1, wc, k, false⟩)[b]? = some ⟨sc - 1, wc, k, false⟩ :=
    List.getElem?_set_self hlt
  simp only [SharedPtr.dtor, bind_apply, get_shared_ok hthis, end_shared, hcb, get_block, hb,
    set_block, Bool.false_eq_true, if_false]
  simp only [hdec]
  simp only [hb2, Bool.false_eq_true, if_false]
  have hiff : (sc - 1 = 0) ↔ (sc = 1) := by omega
  by_cases hs : sc = 1
  · subst hs
    simp only [Nat.sub_self, if_true]
  · have hs2 : ¬ (sc - 1 = 0) := fun h => hs (hiff.1 h)
    simp only [hs, hs2, if_false]

/-- `~WeakPtr` on a handle without a block. -/
theorem WeakPtr_dtor_null {w : World} {this : Nat} {h : WeakPtr}
    (hthis : w.weak[this]? = some (some h)) (hcb : h.control_block = none) :
    WeakPtr.dtor this w = Result.ok () { w with weak := w.weak.set this none } := by
  simp only [WeakPtr.dtor, bind_apply, get_weak_ok hthis, end_weak, hcb, pure_apply]

/-- `~WeakPtr` on a handle with a block. -/
theorem WeakPtr_dtor_eq {w : World} {this b : Nat} {h : WeakPtr} {blk : BaseControlBlock}
    (hthis : w.weak[this]? = some (some h)) (hcb : h.control_block = some b)
    (hb : w.heap[b]? = some blk) (hf : blk.freed = false)
    (h1 : 1 ≤ blk.weak_counter) (h2 : blk.weak_counter < SIZE_MOD) :
    WeakPtr.dtor this w = Result.ok ()
      { w with weak := w.weak.set this none,
               heap := w.heap.set b
                 { blk with weak_counter := blk.weak_counter - 1,
                            freed := decide (blk.shared_counter = 0 ∧ blk.weak_counter = 1) },
               log := w.log ++
                 (if blk.shared_counter = 0 ∧ blk.weak_counter = 1 then
                   [Event.delete_block b, Event.deallocate default_alloc b] else []) } := by
  obtain ⟨sc, wc, k, fr⟩ := blk
  simp only at hf h1 h2
  subst hf
  have hlt := heap_lt hb
  have hdec := dec_mod_size h1 h2
  have hb2 : (w.heap.set b ⟨sc, wc - 1, k, false⟩)[b]? = some ⟨sc, wc - 1, k, false⟩ :=
    List.getElem?_set_self hlt
  simp only [WeakPtr.dtor, bind_apply, get_weak_ok hthis, end_weak, hcb, get_block, hb,
    set_block, Bool.false_eq_true, if_false]
  simp only [hdec]
  simp only [hb2, Bool.false_eq_true, if_false]
  by_cases hs : sc = 0
  · subst hs
    by_cases hw : wc = 1
    · subst hw
      have hb3 : (w.heap.set b ⟨0, 0, k, false⟩)[b]? = some ⟨0, 0, k, false⟩ :=
        List.getElem?_set_self hlt
      simp only [Nat.sub_self, if_true, and_self, decide_True]
      rw [delete_block_eq hb3 rfl]
      simp only [List.set_set]
    · have hw2 : ¬ (wc - 1 = 0) := by omega
      simp only [hw, hw2, if_true, if_false, and_false, true_and, pure_apply, decide_False,
        List.append_nil]
  · simp only [hs, if_false, false_and, pure_apply, decide_False, List.append_nil]

/-! ## The claims -/

theorem inv_of_run {ops : List Op} {w : World}
    (hrun : run ops World.empty = Except.ok w) : Inv w := by
  have h := run_inv ops World.empty Inv.empty
  rw [hrun] at h
  exact h

/-- C1: after every program that runs without a fault, `use_count()` on a live
`SharedPtr` with a control block returns the number of live `SharedPtr` objects
whose control block is that block. -/
theorem C1_use_count_is_number_of_live_shared_handles (ops : List Op) (w : World)
    (this b : Nat) (h : SharedPtr)
    (hrun : run ops World.empty = Except.ok w)
    (hthis : w.shared[this]? = some (some h))
    (hcb : h.control_block = some b) :
    SharedPtr.use_count this w = Result.ok (cntS w b) w := by
  have hI := inv_of_run hrun
  obtain ⟨blk, hb, hf⟩ := hI.block_of_shared hthis hcb
  have hc := hI.counts b blk hb
  simp only [SharedPtr.use_count, bind_apply, get_shared_ok hthis, hcb, get_block_ok hb hf,
    pure_apply, hc.1]

/-- Witness of C1: after `prog_copies` two handles are live on block 0 and
`use_count()` is 2. -/
theorem C1_use_count_witness :
    run prog_copies World.empty = Except.ok world_copies ∧
    SharedPtr.use_count 2 world_copies = Result.ok 2 world_copies :=
  ⟨rfl, C1_use_count_is_number_of_live_shared_handles prog_copies world_copies 2 0
    ⟨some 0, some 0⟩ rfl rfl rfl⟩

/-- C2 (the code at the failing input): `lock()` on the expired weak handle hands out
a handle, and destroying that handle calls `delete_obj` on block 0 a second time. -/
theorem C2_delete_obj_called_twice :
    run (prog_expired ++ [Op.wp_lock 0, Op.sp_destroy 1]) World.empty =
      Except.ok
        { heap := [⟨0, 1, BlockKind.ptr (some 0) default_delete default_alloc, false⟩],
          objs := [⟨none⟩],
          shared := [none, none],
          weak := [some ⟨some 0, some 0⟩],
          log := [Event.allocate default_alloc 0,
                  Event.delete_obj 0, Event.deleter default_delete (some 0),
                  Event.delete_obj 0, Event.deleter default_delete (some 0)] } :=
  rfl

/-- C3 (the code at the failing input): `strong_count` is 0 after `prog_expired`, and
`lock()` on the weak handle makes it 1 again. -/
theorem C3_lock_makes_strong_count_positive_again :
    run prog_expired World.empty = Except.ok world_expired ∧
    WeakPtr.use_count 0 world_expired = Result.ok 0 world_expired ∧
    step (Op.wp_lock 0) world_expired = Result.ok () world_resurrected ∧
    WeakPtr.use_count 0 world_resurrected = Result.ok 1 world_resurrected :=
  ⟨rfl, rfl, rfl, rfl⟩

/-- C4 (the code at the failing input): the weak handle is expired, yet `lock()`
returns the handle 1 with a non-null control block and increments `strong_count`;
on an expired handle without a block `lock()` dereferences null. -/
theorem C4_lock_on_expired_returns_nonempty :
    WeakPtr.expired 0 world_expired = Result.ok true world_expired ∧
    WeakPtr.lock 0 world_expired = Result.ok 1 world_resurrected ∧
    world_resurrected.shared[1]? = some (some ⟨some 0, some 0⟩) ∧
    WeakPtr.expired 0 world_null_weak = Result.ok true world_null_weak ∧
    WeakPtr.lock 0 world_null_weak = Result.fault Fault.null_deref :=
  ⟨rfl, rfl, rfl, rfl, rfl⟩

/-- C5: in every run, a block is released at most once, a released block has both
counters at 0 (the values they had when it was released, no later access being
possible), and no run ends in an access to a released block. -/
theorem C5_block_released_once_and_never_used_after (ops : List Op) :
    match run ops World.empty with
    | Except.ok w => ∀ b, release_block_calls w b ≤ 1 ∧
        (release_block_calls w b = 1 → ∃ blk, w.heap[b]? = some blk ∧ blk.freed = true ∧
          blk.shared_counter = 0 ∧ blk.weak_counter = 0 ∧ cntS w b = 0 ∧ cntW w b = 0)
    | Except.error f => f ≠ Fault.use_after_free := by
  have h := run_inv ops World.empty Inv.empty
  cases hr : run ops World.empty with
  | error f =>
    rw [hr] at h
    exact h.1
  | ok w =>
    rw [hr] at h
    intro b
    have hrel := h.released b
    simp only [release_block_calls]
    cases hb : w.heap[b]? with
    | none =>
      simp only [isFreed, hb, Bool.false_eq_true, if_false] at hrel
      rw [hrel]
      exact ⟨Nat.zero_le 1, fun h0 => absurd h0 (by decide)⟩
    | some blk =>
      cases hf : blk.freed with
      | false =>
        simp only [isFreed, hb, hf, Bool.false_eq_true, if_false] at hrel
        rw [hrel]
        exact ⟨Nat.zero_le 1, fun h0 => absurd h0 (by decide)⟩
      | true =>
        simp only [isFreed, hb, hf, if_true] at hrel
        rw [hrel]
        have hz := h.freed b blk hb hf
        have hc := h.counts b blk hb
        exact ⟨Nat.le_refl 1, fun _ => ⟨blk, rfl, hf, hz.1, hz.2,
          hc.1 ▸ hz.1, hc.2 ▸ hz.2⟩⟩

/-- Witness of C5: a run that releases block 0, once, with both counters at 0. -/
theorem C5_release_witness :
    run (prog_expired ++ [Op.wp_destroy 0]) World.empty = Except.ok
      { heap := [⟨0, 0, BlockKind.ptr (some 0) default_delete default_alloc, true⟩],
        objs := [⟨none⟩], shared := [none], weak := [none],
        log := [Event.allocate default_alloc 0, Event.delete_obj 0,
                Event.deleter default_delete (some 0), Event.delete_block 0,
                Event.deallocate default_alloc 0] } ∧
    (match run (prog_expired ++ [Op.wp_destroy 0]) World.empty with
      | Except.ok w => ∀ b, release_block_calls w b ≤ 1 ∧
        (release_block_calls w b = 1 → ∃ blk, w.heap[b]? = some blk ∧ blk.freed = true ∧
          blk.shared_counter = 0 ∧ blk.weak_counter = 0 ∧ cntS w b = 0 ∧ cntW w b = 0)
      | Except.error f => f ≠ Fault.use_after_free) :=
  ⟨rfl, C5_block_released_once_and_never_used_after (prog_expired ++ [Op.wp_destroy 0])⟩

/-- C6 (the code at the failing input): `lock()` on a default-constructed weak handle,
and on a weak handle emptied by a move, dereferences the null control block. -/
theorem C6_lock_on_null_block_faults :
    run [Op.wp_construct WeakPtr.Args.default, Op.wp_lock 0] World.empty
      = Except.error Fault.null_deref ∧
    run (prog_expired ++ [Op.wp_construct (WeakPtr.Args.move 0), Op.wp_lock 0]) World.empty
      = Except.error Fault.null_deref :=
  ⟨rfl, rfl⟩

/-- C7 (the code at the failing input): after adopt, one weak handle and the
destruction of the shared handle, `expired()` is true but `lock()` returns a handle
with a control block; when that handle and the weak handle are destroyed the block
has been released once and `delete_obj` has been called twice. -/
theorem C7_scenario_lock_not_empty :
    run prog_expired World.empty = Except.ok world_expired ∧
    WeakPtr.expired 0 world_expired = Result.ok true world_expired ∧
    WeakPtr.lock 0 world_expired = Result.ok 1 world_resurrected ∧
    SharedPtr.use_count 1 world_resurrected = Result.ok 1 world_resurrected ∧
    (run [Op.sp_destroy 1, Op.wp_destroy 0] world_resurrected).map
        (fun w => (destroy_payload_calls w 0, release_block_calls w 0)) = Except.ok (2, 1) :=
  ⟨rfl, rfl, rfl, rfl, rfl⟩

/-- C8: `makeShared` from the initial state, for a payload type with or without the
self-reference capability: `use_count()` is 1; after a copy it is 2 on both handles;
after the original is destroyed it is 1 on the copy and nothing has been destroyed;
after the copy is destroyed the payload has been destroyed once (`delete_obj`,
`destroy`) and the block released once (`delete_block`, `deallocate`). -/
theorem C8_make_copy_destroy_scenario (esft : Bool) :
    ∃ w1 w2 w3 w4 : World,
      makeShared esft true true World.empty = Result.ok 0 w1 ∧
      SharedPtr.use_count 0 w1 = Result.ok 1 w1 ∧
      SharedPtr.ctor_copy 0 w1 = Result.ok 1 w2 ∧
      SharedPtr.use_count 0 w2 = Result.ok 2 w2 ∧
      SharedPtr.use_count 1 w2 = Result.ok 2 w2 ∧
      SharedPtr.dtor 0 w2 = Result.ok () w3 ∧
      SharedPtr.use_count 1 w3 = Result.ok 1 w3 ∧
      w3.log = [Event.allocate default_alloc 0] ∧
      SharedPtr.dtor 1 w3 = Result.ok () w4 ∧
      w4.log = [Event.allocate default_alloc 0, Event.delete_obj 0,
                Event.destroy default_alloc 0, Event.delete_block 0,
                Event.deallocate default_alloc 0] ∧
      isFreed w4 0 = true := by
  cases esft with
  | false => exact ⟨_, _, _, _, rfl, rfl, rfl, rfl, rfl, rfl, rfl, rfl, rfl, rfl, rfl⟩
  | true => exact ⟨_, _, _, _, rfl, rfl, rfl, rfl, rfl, rfl, rfl, rfl, rfl, rfl, rfl⟩

/-- C9 as stated fails: when the payload constructor throws inside `allocateShared`,
the exception leaves one allocation and no deallocation behind. -/
theorem C9_block_not_released_on_failure :
    allocateShared false default_alloc true false World.empty
      = Result.throw Exn.ctor_failure world_leak ∧
    allocations world_leak = 1 ∧ deallocations world_leak = 0 ∧
    ¬ (allocations world_leak = deallocations world_leak) :=
  ⟨rfl, rfl, rfl, by decide⟩

/-- C9 amended: when the payload constructor throws inside `allocateShared` (or
`makeShared`), the exception propagates, no handle is produced, and the only effect
is the allocation of the block, which `allocateShared` does not release. -/
theorem C9_failure_propagates_block_kept (esft : Bool) (alloc : Nat) (w : World) :
    allocateShared esft alloc true false w = Result.throw Exn.ctor_failure
      { w with heap := w.heap ++ [⟨0, 0, BlockKind.object w.objs.length alloc, false⟩],
               log := w.log ++ [Event.allocate default_alloc w.heap.length] } ∧
    makeShared esft true false w = Result.throw Exn.ctor_failure
      { w with heap := w.heap ++ [⟨0, 0, BlockKind.object w.objs.length default_alloc, false⟩],
               log := w.log ++ [Event.allocate default_alloc w.heap.length] } := by
  constructor
  · simp only [allocateShared, bind_apply, get_world, allocate_block, if_true,
      ControlBlockObject.ctor, Bool.false_eq_true, if_false]
  · simp only [makeShared, allocateShared, bind_apply, get_world, allocate_block, if_true,
      ControlBlockObject.ctor, Bool.false_eq_true, if_false]

/-- C10 as stated fails: the payload of `world_esft` stores a weak handle on its own
block.  Destroying the last shared handle finds `weak_count` = 1, not 0, yet the block
is released within the operation and `weak_count` ends at 0. -/
theorem C10_weak_count_modified_by_payload_destruction :
    WeakPtr.use_count 0 world_esft = Result.ok 1 world_esft ∧
    world_esft.heap[0]? = some ⟨1, 1, BlockKind.ptr (some 0) default_delete default_alloc, false⟩ ∧
    SharedPtr.dtor 0 world_esft = Result.ok () world_esft_end ∧
    world_esft_end.heap[0]? = some ⟨0, 0, BlockKind.ptr (some 0) default_delete default_alloc, true⟩ ∧
    release_block_calls world_esft_end 0 = 1 :=
  ⟨rfl, rfl, rfl, rfl, rfl⟩

/-- C11: in every reachable state, destroying a weak handle without a block changes
nothing but the handle; with a block, `weak_count` goes down by exactly 1,
`delete_block` is called if and only if the new `weak_count` is 0 and `strong_count`
is 0, `delete_obj` is not called and `strong_count` is not modified. -/
theorem C11_destroy_weak_handle (ops : List Op) (w : World) (this : Nat) (h : WeakPtr)
    (hrun : run ops World.empty = Except.ok w)
    (hthis : w.weak[this]? = some (some h)) :
    (h.control_block = none →
      WeakPtr.dtor this w = Result.ok () { w with weak := w.weak.set this none }) ∧
    (∀ b, h.control_block = some b → ∃ blk, w.heap[b]? = some blk ∧
      1 ≤ blk.weak_counter ∧
      WeakPtr.dtor this w = Result.ok ()
        { w with weak := w.weak.set this none,
                 heap := w.heap.set b
                   { blk with weak_counter := blk.weak_counter - 1,
                              freed := decide (blk.shared_counter = 0 ∧ blk.weak_counter = 1) },
                 log := w.log ++
                   (if blk.shared_counter = 0 ∧ blk.weak_counter = 1 then
                     [Event.delete_block b, Event.deallocate default_alloc b] else []) }) := by
  have hI := inv_of_run hrun
  refine ⟨fun hcb => WeakPtr_dtor_null hthis hcb, ?_⟩
  intro b hcb
  obtain ⟨blk, hb, hf⟩ := hI.block_of_weak hthis hcb
  have hc := hI.counts b blk hb
  have hpos : 0 < cntW w b :=
    countP_pos_of_get (refW b) w.weak this (some h) hthis (by simp [refW_of hcb])
  have hle := cntW_le_liveW w b
  have hl := hI.live_w
  exact ⟨blk, hb, by omega, WeakPtr_dtor_eq hthis hcb hb hf (by omega) (by omega)⟩

/-- Witness of C11: one of the two weak handles of `world_two_weak` is destroyed;
`weak_count` goes from 2 to 1 and nothing is released. -/
theorem C11_destroy_weak_handle_witness :
    run prog_two_weak World.empty = Except.ok world_two_weak ∧
    WeakPtr.dtor 1 world_two_weak = Result.ok ()
      { heap := [⟨1, 1, BlockKind.ptr (some 0) default_delete default_alloc, false⟩],
        objs := [⟨none⟩], shared := [some ⟨some 0, some 0⟩],
        weak := [some ⟨some 0, some 0⟩, none],
        log := [Event.allocate default_alloc 0] } := by
  refine ⟨rfl, ?_⟩
  obtain ⟨blk, hb, _, hd⟩ := (C11_destroy_weak_handle prog_two_weak world_two_weak 1
    ⟨some 0, some 0⟩ rfl rfl).2 0 rfl
  have hblk : blk = ⟨1, 2, BlockKind.ptr (some 0) default_delete default_alloc, false⟩ := by
    have h0 : world_two_weak.heap[0]? =
        some ⟨1, 2, BlockKind.ptr (some 0) default_delete default_alloc, false⟩ := rfl
    rw [h0] at hb
    exact (Option.some.inj hb).symm
  subst hblk
  exact hd

/-- The private constructor on a live block: a new handle, the counter one higher. -/
theorem SharedPtr_ctor_private_eq {w : World} (pointer : Option Nat) {b : Nat}
    {blk : BaseControlBlock} (hb : w.heap[b]? = some blk) (hf : blk.freed = false)
    (hg : liveS w + 1 < SIZE_MOD) (h2 : blk.shared_counter + 1 < SIZE_MOD) :
    SharedPtr.ctor_private pointer (some b) w = Result.ok w.shared.length
      { w with shared := w.shared ++ [some ⟨pointer, some b⟩],
               heap := w.heap.set b { blk with shared_counter := blk.shared_counter + 1 } } := by
  simp only [SharedPtr.ctor_private, bind_apply, new_shared, hg, if_true, get_block, hb, hf,
    Bool.false_eq_true, if_false, set_block, pure_apply, Nat.mod_eq_of_lt h2]

/-- C12: in every reachable state, `lock()` on a weak handle that is not expired
returns a new shared handle with the pointer and the control block of the weak
handle, `strong_count` is one higher and nothing else changes (`weak_count`
included).  The memory model has room for one more `SharedPtr` object. -/
theorem C12_lock_on_live_payload (ops : List Op) (w : World) (this : Nat) (h : WeakPtr)
    (hrun : run ops World.empty = Except.ok w)
    (hthis : w.weak[this]? = some (some h))
    (hexp : WeakPtr.expired this w = Result.ok false w)
    (hroom : liveS w + 1 < SIZE_MOD) :
    ∃ b blk, h.control_block = some b ∧ w.heap[b]? = some blk ∧
      WeakPtr.lock this w = Result.ok w.shared.length
        { w with shared := w.shared ++ [some ⟨h.pointer, some b⟩],
                 heap := w.heap.set b
                   { blk with shared_counter := blk.shared_counter + 1 } } := by
  have hI := inv_of_run hrun
  cases hcb : h.control_block with
  | none =>
    simp only [WeakPtr.expired, bind_apply, get_weak_ok hthis, hcb, pure_apply] at hexp
    cases hexp
  | some b =>
    obtain ⟨blk, hb, hf⟩ := hI.block_of_weak hthis hcb
    have hc := hI.counts b blk hb
    have hle := cntS_le_liveS w b
    refine ⟨b, blk, rfl, hb, ?_⟩
    simp only [WeakPtr.lock, bind_apply, get_weak_ok hthis, hcb]
    exact SharedPtr_ctor_private_eq h.pointer hb hf hroom (by omega)

/-- Witness of C12: `lock()` on a weak handle of `world_two_weak`. -/
theorem C12_lock_witness :
    run prog_two_weak World.empty = Except.ok world_two_weak ∧
    ∃ b blk, (⟨some 0, some 0⟩ : WeakPtr).control_block = some b ∧
      world_two_weak.heap[b]? = some blk ∧
      WeakPtr.lock 0 world_two_weak = Result.ok world_two_weak.shared.length
        { world_two_weak with
            shared := world_two_weak.shared ++ [some ⟨some 0, some b⟩],
            heap := world_two_weak.heap.set b
              { blk with shared_counter := blk.shared_counter + 1 } } :=
  ⟨rfl, C12_lock_on_live_payload prog_two_weak world_two_weak 0 ⟨some 0, some 0⟩ rfl rfl rfl
    (by unfold SIZE_MOD; decide)⟩

/-- C14: in every reachable state, `weak_count` of every block is the number of live
`WeakPtr` objects whose control block it is, the `weak_ptr` member of a payload
being one of them; `SharedPtr` objects are not counted. -/
theorem C14_weak_count_is_number_of_live_weak_handles (ops : List Op) (w : World) (b : Nat)
    (blk : BaseControlBlock)
    (hrun : run ops World.empty = Except.ok w)
    (hb : w.heap[b]? = some blk) :
    blk.weak_counter = (w.weak.filter (fun s =>
      match s with
      | some h => decide (h.control_block = some b)
      | none => false)).length := by
  have hI := inv_of_run hrun
  have hc := (hI.counts b blk hb).2
  rw [hc, cntW, List.countP_eq_length_filter]
  congr 1

/-- Witness of C14: in `world_esft` the member of the payload is the one weak handle on
block 0, and `weak_count` is 1 while a shared handle is live. -/
theorem C14_weak_count_witness :
    run [Op.new_payload true,
         Op.sp_construct (SharedPtr.Args.adopt (some 0) default_delete default_alloc true)]
      World.empty = Except.ok world_esft ∧
    (1 : Nat) = (world_esft.weak.filter (fun s =>
      match s with
      | some h => decide (h.control_block = some 0)
      | none => false)).length :=
  ⟨rfl, C14_weak_count_is_number_of_live_weak_handles
    [Op.new_payload true,
     Op.sp_construct (SharedPtr.Args.adopt (some 0) default_delete default_alloc true)]
    world_esft 0 ⟨1, 1, BlockKind.ptr (some 0) default_delete default_alloc, false⟩ rfl rfl⟩

/-- C19: in every reachable state, the aliasing constructor on an origin handle with a
block returns a new handle with that block and the pointer `ptr`; `strong_count` is
one higher and nothing else changes (`weak_count` and the origin handle included).
The memory model has room for one more `SharedPtr` object. -/
theorem C19_alias_construction (ops : List Op) (w : World) (other b : Nat) (o : SharedPtr)
    (ptr : Option Nat)
    (hrun : run ops World.empty = Except.ok w)
    (hother : w.shared[other]? = some (some o))
    (hcb : o.control_block = some b)
    (hroom : liveS w + 1 < SIZE_MOD) :
    ∃ blk w1, w.heap[b]? = some blk ∧
      w1 = { w with shared := w.shared ++ [some ⟨ptr, some b⟩],
                    heap := w.heap.set b
                      { blk with shared_counter := blk.shared_counter + 1 } } ∧
      SharedPtr.ctor_alias other ptr w = Result.ok w.shared.length w1 ∧
      SharedPtr.get w.shared.length w1 = Result.ok ptr w1 ∧
      SharedPtr.get other w1 = Result.ok o.pointer w1 := by
  have hI := inv_of_run hrun
  obtain ⟨blk, hb, hf⟩ := hI.block_of_shared hother hcb
  have hc := hI.counts b blk hb
  have hle := cntS_le_liveS w b
  have h2 : blk.shared_counter + 1 < SIZE_MOD := by omega
  have hlt := get_lt hother
  refine ⟨blk, _, hb, rfl, ?_, ?_, ?_⟩
  · simp only [SharedPtr.ctor_alias, bind_apply, get_shared_ok hother, new_shared, hroom,
      if_true, hcb, get_block, hb, hf, Bool.false_eq_true, if_false, set_block, pure_apply,
      Nat.mod_eq_of_lt h2]
  · simp only [SharedPtr.get, bind_apply, get_shared, List.getElem?_concat_length, pure_apply]
  · simp only [SharedPtr.get, bind_apply, get_shared, List.getElem?_append_left hlt, hother,
      pure_apply]

/-- Witness of C19: an alias of the handle of `world_single` with pointer 7. -/
theorem C19_alias_witness :
    run prog_single World.empty = Except.ok world_single ∧
    SharedPtr.ctor_alias 0 (some 7) world_single = Result.ok 1
      { heap := [⟨2, 0, BlockKind.ptr (some 0) default_delete default_alloc, false⟩],
        objs := [⟨none⟩],
        shared := [some ⟨some 0, some 0⟩, some ⟨some 7, some 0⟩],
        weak := [],
        log := [Event.allocate default_alloc 0] } := by
  refine ⟨rfl, ?_⟩
  obtain ⟨blk, w1, hb, hw1, hr, _, _⟩ := C19_alias_construction prog_single world_single 0 0
    ⟨some 0, some 0⟩ (some 7) rfl rfl rfl (by unfold SIZE_MOD; decide)
  have hblk : blk = ⟨1, 0, BlockKind.ptr (some 0) default_delete default_alloc, false⟩ := by
    have h0 : world_single.heap[0]? =
        some ⟨1, 0, BlockKind.ptr (some 0) default_delete default_alloc, false⟩ := rfl
    rw [h0] at hb
    exact (Option.some.inj hb).symm
  subst hblk
  subst hw1
  exact hr

/-- C20: adopting the raw pointer `ptr` of a payload without the self-reference
capability, when the allocation succeeds, returns a new handle with `get()` = `ptr`
on a new `ControlBlockPtr` that stores `ptr`, with `strong_count` 1 and `weak_count`
0, so `use_count()` is 1.  The memory model has room for one more `SharedPtr`. -/
theorem C20_adopt_raw_pointer (w : World) (ptr : Option Nat) (del alloc : Nat)
    (hplain : weak_ptr_of w ptr = none)
    (hroom : liveS w + 1 < SIZE_MOD) :
    ∃ w1, w1 = { w with heap := w.heap ++ [⟨1, 0, BlockKind.ptr ptr del alloc, false⟩],
                        shared := w.shared ++ [some ⟨ptr, some w.heap.length⟩],
                        log := w.log ++ [Event.allocate default_alloc w.heap.length] } ∧
      SharedPtr.ctor_adopt ptr del alloc true w = Result.ok w.shared.length w1 ∧
      SharedPtr.get w.shared.length w1 = Result.ok ptr w1 ∧
      SharedPtr.use_count w.shared.length w1 = Result.ok 1 w1 := by
  have hg : List.countP Option.isSome w.shared + 1 < SIZE_MOD := hroom
  have hb : (w.heap ++ [(⟨0, 0, BlockKind.ptr ptr del alloc, false⟩ : BaseControlBlock)])[
      w.heap.length]? = some ⟨0, 0, BlockKind.ptr ptr del alloc, false⟩ := by
    simp
  have hset : (w.heap ++ [(⟨0, 0, BlockKind.ptr ptr del alloc, false⟩ : BaseControlBlock)]).set
      w.heap.length ⟨1, 0, BlockKind.ptr ptr del alloc, false⟩
      = w.heap ++ [⟨1, 0, BlockKind.ptr ptr del alloc, false⟩] := by
    simp
  have hp2 : ∀ (hp : List BaseControlBlock) (sh : List (Option SharedPtr)) (lg : List Event),
      weak_ptr_of { heap := hp, objs := w.objs, shared := sh, weak := w.weak, log := lg } ptr
        = none := fun _ _ _ => hplain
  refine ⟨_, rfl, ?_, ?_, ?_⟩
  · simp only [SharedPtr.ctor_adopt, bind_apply, allocate_block, if_true, new_shared, liveS, hg,
      get_block, hb, Bool.false_eq_true, if_false, set_block, get_world, hp2, pure_apply, hset]
  · simp only [SharedPtr.get, bind_apply, get_shared, List.getElem?_concat_length, pure_apply]
  · have hb1 : (w.heap ++ [(⟨1, 0, BlockKind.ptr ptr del alloc, false⟩ : BaseControlBlock)])[
        w.heap.length]? = some ⟨1, 0, BlockKind.ptr ptr del alloc, false⟩ := by
      simp
    simp only [SharedPtr.use_count, bind_apply, get_shared, List.getElem?_concat_length,
      get_block, hb1, Bool.false_eq_true, if_false, pure_apply]

/-- Witness of C20: the adoption that makes `world_single`. -/
theorem C20_adopt_witness :
    SharedPtr.ctor_adopt (some 0) default_delete default_alloc true
      { heap := [], objs := [⟨none⟩], shared := [], weak := [], log := [] }
      = Result.ok 0 world_single := by
  obtain ⟨w1, hw1, hr, _, _⟩ := C20_adopt_raw_pointer
    { heap := [], objs := [⟨none⟩], shared := [], weak := [], log := [] }
    (some 0) default_delete default_alloc rfl (by unfold SIZE_MOD; decide)
  subst hw1
  exact hr

/-- `~SharedPtr` on a handle with a block whose payload stores no weak handle. -/
theorem SharedPtr_dtor_plain_eq {w : World} {this b : Nat} {h : SharedPtr}
    {blk : BaseControlBlock}
    (hthis : w.shared[this]? = some (some h)) (hcb : h.control_block = some b)
    (hb : w.heap[b]? = some blk) (hf : blk.freed = false)
    (h1 : 1 ≤ blk.shared_counter) (h2 : blk.shared_counter < SIZE_MOD)
    (hp : weak_ptr_of w blk.kind.payload = none) :
    SharedPtr.dtor this w = Result.ok ()
      { w with shared := w.shared.set this none,
               heap := w.heap.set b
                 ⟨blk.shared_counter - 1, blk.weak_counter, blk.kind,
                  decide (blk.shared_counter = 1 ∧ blk.weak_counter = 0)⟩,
               log := w.log ++
                 (if blk.shared_counter = 1 then
                   [Event.delete_obj b, blk.kind.destroy_event] ++
                     (if blk.weak_counter = 0 then
                       [Event.delete_block b, Event.deallocate default_alloc b]
                     else [])
                 else []) } := by
  rw [SharedPtr_dtor_eq hthis hcb hb hf h1 h2]
  obtain ⟨sc, wc, k, fr⟩ := blk
  simp only at hf hp
  subst hf
  have hlt := heap_lt hb
  by_cases hs : sc = 1
  · subst hs
    have hb2 : (w.heap.set b ⟨0, wc, k, false⟩)[b]? = some ⟨0, wc, k, false⟩ :=
      List.getElem?_set_self hlt
    by_cases hw : wc = 0
    · subst hw
      simp only [if_true, bind_apply, Nat.sub_self, and_self, decide_True]
      rw [delete_obj_eq hb2 rfl hp]
      simp only []
      have hb3 : (w.heap.set b ⟨0, 0, k, false⟩)[b]? = some ⟨0, 0, k, false⟩ :=
        List.getElem?_set_self hlt
      rw [delete_block_eq hb3 rfl]
      simp only [List.set_set, List.append_assoc, List.cons_append, List.nil_append]
    · simp only [hw, if_true, if_false, Nat.sub_self, and_false, decide_False,
        List.append_nil]
      rw [delete_obj_eq hb2 rfl hp]
  · simp only [hs, if_false, pure_apply, false_and, decide_False, List.append_nil]

/-- C13 as stated fails: in `world_esft` the block has `weak_count` 1 (the weak handle
stored in the payload), and destroying the last shared handle releases it. -/
theorem C13_block_released_with_weak_count_one :
    world_esft.heap[0]? = some ⟨1, 1, BlockKind.ptr (some 0) default_delete default_alloc, false⟩ ∧
    world_esft.weak[0]? = some (some ⟨some 0, some 0⟩) ∧
    SharedPtr.dtor 0 world_esft = Result.ok () world_esft_end ∧
    isFreed world_esft_end 0 = true :=
  ⟨rfl, rfl, rfl, rfl⟩

/-- `~WeakPtr` on a live handle in a state satisfying the invariant: it returns, and
touches only the handle, the block of the handle and the log, where it records no
`delete_obj`. -/
theorem WeakPtr_dtor_reach {w : World} {this : Nat} {h : WeakPtr} (hI : Inv w)
    (hthis : w.weak[this]? = some (some h)) :
    ∃ w1 tail, WeakPtr.dtor this w = Result.ok () w1 ∧ Inv w1 ∧ KeptW w w1 ∧
      w1.weak = w.weak.set this none ∧ w1.shared = w.shared ∧ w1.objs = w.objs ∧
      (∀ b, h.control_block ≠ some b → w1.heap[b]? = w.heap[b]?) ∧
      w1.log = w.log ++ tail ∧ (∀ b, tail.count (Event.delete_obj b) = 0) := by
  have hspec := WeakPtr_dtor_spec this w hI
  cases hcb : h.control_block with
  | none =>
    have heq := WeakPtr_dtor_null hthis hcb
    rw [heq] at hspec
    exact ⟨_, [], heq, hspec.1, hspec.2, rfl, rfl, rfl, fun _ _ => rfl,
      (List.append_nil _).symm, fun _ => rfl⟩
  | some b =>
    obtain ⟨blk, hb, hf⟩ := hI.block_of_weak hthis hcb
    have hc := hI.counts b blk hb
    have hpos : 0 < cntW w b :=
      countP_pos_of_get (refW b) w.weak this (some h) hthis (by simp [refW_of hcb])
    have hle := cntW_le_liveW w b
    have hl := hI.live_w
    have heq := WeakPtr_dtor_eq hthis hcb hb hf (by omega) (by omega)
    rw [heq] at hspec
    refine ⟨_, _, heq, hspec.1, hspec.2, rfl, rfl, rfl, ?_, rfl, ?_⟩
    · intro b1 hne
      have hne1 : b ≠ b1 := fun hbb => hne (by rw [hbb])
      simp only [List.getElem?_set_ne hne1]
    · intro b1
      split
      · simp [List.count_cons]
      · rfl

/-- The state after the decrement in `~SharedPtr` satisfies the invariant. -/
theorem Inv.dec_shared {w : World} {this b : Nat} {h : SharedPtr} {blk : BaseControlBlock}
    (hI : Inv w) (hthis : w.shared[this]? = some (some h)) (hcb : h.control_block = some b)
    (hb : w.heap[b]? = some blk) :
    Inv { w with shared := w.shared.set this none,
                 heap := w.heap.set b { blk with shared_counter := blk.shared_counter - 1 } } := by
  have hc := hI.counts b blk hb
  have hls := hI.live_s
  have hl := live_set_none w.shared this h hthis
  have hcn := countP_set_of_get (refS b) w.shared this none (some h) hthis
  simp only [refS_none, refS_of hcb, decide_True, if_true, Bool.false_eq_true, if_false]
    at hcn
  refine hI.update hb rfl rfl rfl ?_ hI.live_w ?_ (fun _ _ => rfl) ?_ hc.2 ?_
  · simp only [liveS] at hls ⊢; omega
  · intro b1 hne
    have hc1 := countP_set_of_get (refS b1) w.shared this none (some h) hthis
    have hne1 : ¬ (b = b1) := fun h => hne h.symm
    simp only [cntS]
    simp only [refS_none, refS_of hcb, hne1, decide_False, Bool.false_eq_true, if_false]
      at hc1
    omega
  · simp only [cntS] at hc ⊢
    omega
  · intro hf1
    exact hI.freed b blk hb hf1 |>.elim (fun h0 h1 => by
      constructor
      · simp only [h0]
      · exact h1)

/-- `delete_obj` in a state satisfying the invariant, on a block whose payload has not
been destroyed: it returns, records itself and the call to the destruction strategy,
and after them no further `delete_obj`. -/
theorem delete_obj_reach {w : World} {b : Nat} {blk : BaseControlBlock} (hI : Inv w)
    (hb : w.heap[b]? = some blk) (hf : blk.freed = false)
    (halive : ∀ m, weak_ptr_of w blk.kind.payload = some m →
      ∃ hm, w.weak[m]? = some (some hm)) :
    ∃ w1 tail, BaseControlBlock.delete_obj b w = Result.ok () w1 ∧ Inv w1 ∧ KeptW w w1 ∧
      w1.shared = w.shared ∧
      w1.log = w.log ++ [Event.delete_obj b, blk.kind.destroy_event] ++ tail ∧
      (∀ b1, tail.count (Event.delete_obj b1) = 0) := by
  by_cases hpl : blk.kind.destroys = true → weak_ptr_of w blk.kind.payload = none
  · have heq := delete_obj_plain_eq hb hf hpl
    have hspec := BaseControlBlock_delete_obj_spec b w hI hb hf
    rw [heq] at hspec
    exact ⟨_, [], heq, hspec.1, hspec.2, rfl, (List.append_nil _).symm, fun _ => rfl⟩
  · have hd : blk.kind.destroys = true := by
      by_contra hc
      exact hpl (fun h => False.elim (hc h))
    obtain ⟨m, hp⟩ : ∃ m, weak_ptr_of w blk.kind.payload = some m := by
      cases hq : weak_ptr_of w blk.kind.payload with
      | none => exact False.elim (hpl (fun _ => hq))
      | some m => exact ⟨m, rfl⟩
    obtain ⟨hm, hslot⟩ := halive m hp
    have hI1 := (hI.emit (Event.delete_obj b) (by intro b1 h; cases h)).emit
      blk.kind.destroy_event (by
        intro b1 h
        cases hk : blk.kind with
        | ptr p d a => rw [hk] at h; cases h
        | object o a => rw [hk] at h; cases h)
    obtain ⟨w1, tail, heq, hI2, hk, _, hsh, _, _, hlog, hcnt⟩ :=
      WeakPtr_dtor_reach hI1 hslot
    refine ⟨w1, tail, ?_, hI2, hk, hsh, ?_, hcnt⟩
    · simp only [BaseControlBlock.delete_obj, bind_apply, get_block_ok hb hf, emit]
      cases hkind : blk.kind with
      | ptr p d a =>
        rw [hkind] at hp heq hd
        simp only [BlockKind.payload, weak_ptr_of] at hp
        simp only [BlockKind.destroy_event] at heq
        simp only [BlockKind.destroys] at hd
        simp only [bind_apply, emit, Payload.dtor, get_world, weak_ptr_of, hp, hd, if_true]
        exact heq
      | object o a =>
        rw [hkind] at hp heq
        simp only [BlockKind.payload, weak_ptr_of] at hp
        simp only [BlockKind.destroy_event] at heq
        simp only [bind_apply, emit, Payload.dtor, get_world, weak_ptr_of, hp]
        exact heq
    · rw [hlog]
      simp only [List.append_assoc, List.singleton_append]

/-- `~SharedPtr` on the last handle of a block whose payload has not been destroyed,
in a state satisfying the invariant: it returns, and what it records starts with
`delete_obj` and the call to the destruction strategy and has no other `delete_obj`. -/
theorem SharedPtr_dtor_last_reach {w : World} {this b : Nat} {h : SharedPtr}
    {blk : BaseControlBlock} (hI : Inv w)
    (hthis : w.shared[this]? = some (some h)) (hcb : h.control_block = some b)
    (hb : w.heap[b]? = some blk) (hs : blk.shared_counter = 1)
    (halive : ∀ m, weak_ptr_of w blk.kind.payload = some m →
      ∃ hm, w.weak[m]? = some (some hm)) :
    ∃ w1 tail, SharedPtr.dtor this w = Result.ok () w1 ∧
      w1.log = w.log ++ [Event.delete_obj b, blk.kind.destroy_event] ++ tail ∧
      (∀ b1, tail.count (Event.delete_obj b1) = 0) := by
  obtain ⟨blk1, hb1, hf⟩ := hI.block_of_shared hthis hcb
  rw [hb] at hb1
  cases hb1
  have h2 : blk.shared_counter < SIZE_MOD := by
    rw [hs]; unfold SIZE_MOD; decide
  rw [SharedPtr_dtor_eq hthis hcb hb hf (by omega) h2]
  have hI2 := hI.dec_shared hthis hcb hb
  obtain ⟨sc, wc, k, fr⟩ := blk
  simp only at hf hs halive
  subst hf
  subst hs
  have hlt := heap_lt hb
  have hb2 : (w.heap.set b ⟨0, wc, k, false⟩)[b]? = some ⟨0, wc, k, false⟩ :=
    List.getElem?_set_self hlt
  simp only [Nat.sub_self] at hI2
  obtain ⟨w1, tail, heq, hI3, hk, _, hlog, hcnt⟩ := delete_obj_reach hI2 hb2 rfl halive
  by_cases hw : wc = 0
  · subst hw
    simp only [if_true, bind_apply, Nat.sub_self, heq]
    have hz := (hI2.counts b _ hb2).2
    have hb3 := hk b _ hb2 hz.symm
    rw [delete_block_eq hb3 rfl]
    refine ⟨_, tail ++ [Event.delete_block b, Event.deallocate default_alloc b], rfl, ?_, ?_⟩
    · simp only [hlog, List.append_assoc]
    · intro b1
      simp only [List.count_append, hcnt b1, Nat.zero_add]
      simp [List.count_cons]
  · simp only [hw, if_true, if_false, Nat.sub_self, heq]
    exact ⟨w1, tail, rfl, hlog, hcnt⟩

/-- Two live handles on a block: the counter is at least 2. -/
theorem cntS_two {w : World} {i j b : Nat} {hi hj : SharedPtr} (hne : i ≠ j)
    (h1 : w.shared[i]? = some (some hi)) (h2 : w.shared[j]? = some (some hj))
    (hc1 : hi.control_block = some b) (hc2 : hj.control_block = some b) :
    2 ≤ cntS w b := by
  have hcn := countP_set_of_get (refS b) w.shared i none (some hi) h1
  simp only [refS_none, refS_of hc1, decide_True, if_true, Bool.false_eq_true, if_false]
    at hcn
  have hget : (w.shared.set i none)[j]? = some (some hj) := by
    rw [List.getElem?_set_ne hne]; exact h2
  have hpos := countP_pos_of_get (refS b) (w.shared.set i none) j (some hj) hget
    (by simp [refS_of hc2])
  simp only [cntS]
  omega

/-- C18: in every reachable state with a live shared handle `a` on block `b` (the
alias): destroying any other shared handle on `b` returns, records no call at all
and leaves `a` as it is; and when `a` is the last handle on `b` (`strong_count` 1) and
the payload has not been destroyed, destroying `a` returns and records `delete_obj`
on `b` once, followed by the destruction strategy on the block's own pointer. -/
theorem C18_alias_keeps_payload_alive (ops : List Op) (w : World) (alias_ b : Nat)
    (a : SharedPtr)
    (hrun : run ops World.empty = Except.ok w)
    (ha : w.shared[alias_]? = some (some a))
    (hcb : a.control_block = some b) :
    (∀ (other : Nat) (o : SharedPtr), other ≠ alias_ → w.shared[other]? = some (some o) →
      o.control_block = some b →
      ∃ w1, SharedPtr.dtor other w = Result.ok () w1 ∧ w1.log = w.log ∧
        w1.shared[alias_]? = some (some a)) ∧
    (∀ (blk : BaseControlBlock), w.heap[b]? = some blk → blk.shared_counter = 1 →
      (∀ m, weak_ptr_of w blk.kind.payload = some m → ∃ hm, w.weak[m]? = some (some hm)) →
      ∃ w1 tail, SharedPtr.dtor alias_ w = Result.ok () w1 ∧
        w1.log = w.log ++ [Event.delete_obj b, blk.kind.destroy_event] ++ tail ∧
        (∀ b1, tail.count (Event.delete_obj b1) = 0)) := by
  have hI := inv_of_run hrun
  constructor
  · intro other o hne ho hco
    obtain ⟨blk, hb, hf⟩ := hI.block_of_shared ho hco
    have hc := hI.counts b blk hb
    have h2 := cntS_two hne ho ha hco hcb
    have hle := cntS_le_liveS w b
    have hl := hI.live_s
    have hs : ¬ (blk.shared_counter = 1) := by omega
    rw [SharedPtr_dtor_eq ho hco hb hf (by omega) (by omega)]
    simp only [hs, if_false, pure_apply]
    refine ⟨_, rfl, rfl, ?_⟩
    simp only [List.getElem?_set_ne hne]
    exact ha
  · intro blk hb hs halive
    exact SharedPtr_dtor_last_reach hI ha hcb hb hs halive

/-- Witness of C18: in `world_alias` the origin handle 0 is destroyed without any call;
in `world_alias_last` the alias (pointer 7) is the last handle and its destruction
calls the destruction strategy on the block's pointer 0. -/
theorem C18_alias_witness :
    run prog_alias World.empty = Except.ok world_alias ∧
    (∃ w1, SharedPtr.dtor 0 world_alias = Result.ok () w1 ∧ w1.log = world_alias.log ∧
      w1.shared[1]? = some (some ⟨some 7, some 0⟩)) ∧
    run (prog_alias ++ [Op.sp_destroy 0, Op.sp_destroy 2]) World.empty
      = Except.ok world_alias_last ∧
    (∃ w1 tail, SharedPtr.dtor 1 world_alias_last = Result.ok () w1 ∧
      w1.log = world_alias_last.log ++
        [Event.delete_obj 0, Event.deleter default_delete (some 0)] ++ tail ∧
      (∀ b1, tail.count (Event.delete_obj b1) = 0)) :=
  ⟨rfl,
   (C18_alias_keeps_payload_alive prog_alias world_alias 1 0 ⟨some 7, some 0⟩ rfl rfl rfl).1
     0 ⟨some 0, some 0⟩ (by decide) rfl rfl,
   rfl,
   (C18_alias_keeps_payload_alive (prog_alias ++ [Op.sp_destroy 0, Op.sp_destroy 2])
     world_alias_last 1 0 ⟨some 7, some 0⟩ rfl rfl rfl).2
     ⟨1, 0, BlockKind.ptr (some 0) default_delete default_alloc, false⟩ rfl rfl
     (fun m hm => by cases hm)⟩

theorem Keeps_bind {α β : Type} {J : World → Prop} {m : M α} {f : α → M β} {Q : α → Prop}
    {R : β → Prop} (h1 : Keeps J m Q) (h2 : ∀ a, Q a → Keeps J (f a) R) :
    Keeps J (m >>= f) R := by
  intro w hJ
  have h := h1 w hJ
  simp only [bind_apply]
  cases hm : m w with
  | ok a w1 =>
    rw [hm] at h
    exact h2 a h.2 w1 h.1
  | throw e w1 =>
    rw [hm] at h
    exact h
  | fault f => trivial

theorem Keeps_pure {α : Type} {J : World → Prop} {Q : α → Prop} {a : α} (h : Q a) :
    Keeps J (Pure.pure a : M α) Q := by
  intro w hJ
  exact ⟨hJ, h⟩

theorem Keeps_discard {α : Type} {J : World → Prop} {m : M α} {Q : α → Prop}
    (h1 : Keeps J m Q) : Keeps J m.discard (fun _ => True) := by
  intro w hJ
  have h := h1 w hJ
  simp only [M.discard]
  cases hm : m w with
  | ok a w1 =>
    rw [hm] at h
    exact ⟨h.1, trivial⟩
  | throw e w1 =>
    rw [hm] at h
    exact h
  | fault f => trivial

theorem Keeps_fault {α : Type} {J : World → Prop} {Q : α → Prop} (f : Fault) :
    Keeps J (M.fault f : M α) Q := by
  intro w _
  trivial

theorem Keeps_throw {α : Type} {J : World → Prop} {Q : α → Prop} (e : Exn) :
    Keeps J (M.throw e : M α) Q := by
  intro w hJ
  exact hJ

theorem get_shared_keeps {J : World → Prop}
    (i : Nat) : Keeps J (get_shared i) (fun _ => True) := by
  intro w hJ
  simp only [get_shared]
  cases h : w.shared[i]? with
  | none => trivial
  | some s =>
    cases s with
    | none => trivial
    | some x => exact ⟨hJ, trivial⟩

theorem set_shared_keeps {J : World → Prop} {okw : Nat → Prop} {okp : Option Nat → Prop}
    (hC : Stable J okw okp) (i : Nat) (h : SharedPtr) :
    Keeps J (set_shared i h) (fun _ => True) := by
  intro w hJ
  exact ⟨hC.frame w _ rfl rfl hJ, trivial⟩

theorem end_shared_keeps {J : World → Prop} {okw : Nat → Prop} {okp : Option Nat → Prop}
    (hC : Stable J okw okp) (i : Nat) :
    Keeps J (end_shared i) (fun _ => True) := by
  intro w hJ
  exact ⟨hC.frame w _ rfl rfl hJ, trivial⟩

theorem new_shared_keeps {J : World → Prop} {okw : Nat → Prop} {okp : Option Nat → Prop}
    (hC : Stable J okw okp) (h : SharedPtr) :
    Keeps J (new_shared h) (fun _ => True) := by
  intro w hJ
  by_cases hg : liveS w + 1 < SIZE_MOD
  · simp only [new_shared, hg, if_true]
    exact ⟨hC.frame w _ rfl rfl hJ, trivial⟩
  · simp only [new_shared, hg, if_false]

theorem get_weak_keeps {J : World → Prop}
    (i : Nat) : Keeps J (get_weak i) (fun _ => True) := by
  intro w hJ
  simp only [get_weak]
  cases h : w.weak[i]? with
  | none => trivial
  | some s =>
    cases s with
    | none => trivial
    | some x => exact ⟨hJ, trivial⟩

theorem set_weak_keeps {J : World → Prop} {okw : Nat → Prop} {okp : Option Nat → Prop}
    (hC : Stable J okw okp) {i : Nat} (hi : okw i) (h : WeakPtr) :
    Keeps J (set_weak i h) (fun _ => True) := by
  intro w hJ
  exact ⟨hC.set w i h hi hJ, trivial⟩

theorem end_weak_keeps {J : World → Prop} {okw : Nat → Prop} {okp : Option Nat → Prop}
    (hC : Stable J okw okp) (i : Nat) :
    Keeps J (end_weak i) (fun _ => True) := by
  intro w hJ
  exact ⟨hC.kill w i hJ, trivial⟩

theorem new_weak_keeps {J : World → Prop} {okw : Nat → Prop} {okp : Option Nat → Prop}
    (hC : Stable J okw okp) (h : WeakPtr) :
    Keeps J (new_weak h) okw := by
  intro w hJ
  by_cases hg : liveW w + 1 < SIZE_MOD
  · simp only [new_weak, hg, if_true]
    exact hC.push w h hJ
  · simp only [new_weak, hg, if_false]

theorem get_block_keeps {J : World → Prop}
    (b : Nat) : Keeps J (get_block b) (fun _ => True) := by
  intro w hJ
  simp only [get_block]
  cases h : w.heap[b]? with
  | none => trivial
  | some blk =>
    cases hf : blk.freed with
    | true => simp only [hf, if_true]
    | false =>
      simp only [hf, Bool.false_eq_true, if_false]
      exact ⟨hJ, trivial⟩

theorem set_block_keeps {J : World → Prop} {okw : Nat → Prop} {okp : Option Nat → Prop}
    (hC : Stable J okw okp) (b : Nat) (blk : BaseControlBlock) :
    Keeps J (set_block b blk) (fun _ => True) := by
  intro w hJ
  exact ⟨hC.frame w _ rfl rfl hJ, trivial⟩

theorem get_world_keeps {J : World → Prop} : Keeps J get_world J := by
  intro w hJ
  exact ⟨hJ, hJ⟩

theorem emit_keeps {J : World → Prop} {okw : Nat → Prop} {okp : Option Nat → Prop}
    (hC : Stable J okw okp) (e : Event) :
    Keeps J (emit e) (fun _ => True) := by
  intro w hJ
  exact ⟨hC.frame w _ rfl rfl hJ, trivial⟩

theorem allocate_block_keeps {J : World → Prop} {okw : Nat → Prop} {okp : Option Nat → Prop}
    (hC : Stable J okw okp) (alloc_ok : Bool) (kind : BlockKind) :
    Keeps J (allocate_block alloc_ok kind) (fun _ => True) := by
  intro w hJ
  cases alloc_ok with
  | true => exact ⟨hC.frame w _ rfl rfl hJ, trivial⟩
  | false => exact hJ

theorem delete_block_keeps {J : World → Prop} {okw : Nat → Prop} {okp : Option Nat → Prop}
    (hC : Stable J okw okp) (b : Nat) :
    Keeps J (BaseControlBlock.delete_block b) (fun _ => True) := by
  unfold BaseControlBlock.delete_block
  repeat' first
    | exact get_block_keeps _
    | exact set_block_keeps hC _ _
    | exact emit_keeps hC _
    | apply Keeps_bind
    | intro _ _

theorem WeakPtr_dtor_keeps {J : World → Prop} {okw : Nat → Prop} {okp : Option Nat → Prop}
    (hC : Stable J okw okp) (this : Nat) :
    Keeps J (WeakPtr.dtor this) (fun _ => True) := by
  unfold WeakPtr.dtor
  repeat' first
    | exact Keeps_pure trivial
    | exact Keeps_pure (by assumption)
    | exact get_weak_keeps _
    | exact end_weak_keeps hC _
    | exact get_block_keeps _
    | exact set_block_keeps hC _ _
    | exact delete_block_keeps hC _
    | apply Keeps_bind
    | split
    | intro _ _

theorem WeakPtr_ctor_default_keeps {J : World → Prop} {okw : Nat → Prop} {okp : Option Nat → Prop}
    (hC : Stable J okw okp) :
    Keeps J (WeakPtr.ctor_default) okw := by
  exact new_weak_keeps hC _

theorem WeakPtr_ctor_adopt_keeps {J : World → Prop} {okw : Nat → Prop} {okp : Option Nat → Prop}
    (hC : Stable J okw okp) (ptr : Option Nat) (del alloc : Nat)
    (alloc_ok : Bool) :
    Keeps J (WeakPtr.ctor_adopt ptr del alloc alloc_ok) okw := by
  unfold WeakPtr.ctor_adopt
  repeat' first
    | exact Keeps_pure trivial
    | exact Keeps_pure (by assumption)
    | exact new_weak_keeps hC _
    | exact get_block_keeps _
    | exact set_block_keeps hC _ _
    | exact allocate_block_keeps hC _ _
    | apply Keeps_bind
    | intro _ _

theorem WeakPtr_ctor_alias_keeps {J : World → Prop} {okw : Nat → Prop} {okp : Option Nat → Prop}
    (hC : Stable J okw okp) (other : Nat) (ptr : Option Nat) :
    Keeps J (WeakPtr.ctor_alias other ptr) okw := by
  unfold WeakPtr.ctor_alias
  repeat' first
    | exact Keeps_pure trivial
    | exact Keeps_pure (by assumption)
    | exact get_weak_keeps _
    | exact new_weak_keeps hC _
    | exact get_block_keeps _
    | exact set_block_keeps hC _ _
    | apply Keeps_bind
    | split
    | intro _ _

theorem WeakPtr_ctor_copy_keeps {J : World → Prop} {okw : Nat → Prop} {okp : Option Nat → Prop}
    (hC : Stable J okw okp) (other : Nat) :
    Keeps J (WeakPtr.ctor_copy other) okw := by
  unfold WeakPtr.ctor_copy
  repeat' first
    | exact Keeps_pure trivial
    | exact Keeps_pure (by assumption)
    | exact get_weak_keeps _
    | exact new_weak_keeps hC _
    | exact get_block_keeps _
    | exact set_block_keeps hC _ _
    | apply Keeps_bind
    | split
    | intro _ _

theorem WeakPtr_ctor_move_keeps {J : World → Prop} {okw : Nat → Prop} {okp : Option Nat → Prop}
    (hC : Stable J okw okp) {other : Nat} (hother : okw other) :
    Keeps J (WeakPtr.ctor_move other) okw := by
  unfold WeakPtr.ctor_move
  repeat' first
    | exact Keeps_pure trivial
    | exact Keeps_pure (by assumption)
    | exact get_weak_keeps _
    | exact set_weak_keeps hC (by assumption) _
    | exact new_weak_keeps hC _
    | apply Keeps_bind
    | intro _ _

theorem WeakPtr_ctor_from_shared_keeps {J : World → Prop} {okw : Nat → Prop}
    {okp : Option Nat → Prop}
    (hC : Stable J okw okp) (sh_ptr : Nat) :
    Keeps J (WeakPtr.ctor_from_shared sh_ptr) okw := by
  unfold WeakPtr.ctor_from_shared
  repeat' first
    | exact Keeps_pure trivial
    | exact Keeps_pure (by assumption)
    | exact Keeps_fault _
    | exact get_shared_keeps _
    | exact new_weak_keeps hC _
    | exact get_block_keeps _
    | exact set_block_keeps hC _ _
    | apply Keeps_bind
    | split
    | intro _ _

theorem WeakPtr_swap_keeps {J : World → Prop} {okw : Nat → Prop} {okp : Option Nat → Prop}
    (hC : Stable J okw okp) {this other : Nat} (hthis : okw this)
    (hother : okw other) :
    Keeps J (WeakPtr.swap this other) (fun _ => True) := by
  unfold WeakPtr.swap
  repeat' first
    | exact get_weak_keeps _
    | exact set_weak_keeps hC (by assumption) _
    | apply Keeps_bind
    | intro _ _

theorem WeakPtr_assign_copy_keeps {J : World → Prop} {okw : Nat → Prop} {okp : Option Nat → Prop}
    (hC : Stable J okw okp) {this : Nat} (hthis : okw this)
    (other : Nat) :
    Keeps J (WeakPtr.assign_copy this other) (fun _ => True) := by
  unfold WeakPtr.assign_copy
  repeat' first
    | exact WeakPtr_dtor_keeps hC _
    | exact WeakPtr_swap_keeps hC (by assumption) (by assumption)
    | exact WeakPtr_ctor_copy_keeps hC _
    | apply Keeps_bind
    | intro _ _

theorem WeakPtr_assign_move_keeps {J : World → Prop} {okw : Nat → Prop} {okp : Option Nat → Prop}
    (hC : Stable J okw okp) {this other : Nat}
    (hthis : okw this) (hother : okw other) :
    Keeps J (WeakPtr.assign_move this other) (fun _ => True) := by
  unfold WeakPtr.assign_move
  repeat' first
    | exact WeakPtr_dtor_keeps hC _
    | exact WeakPtr_swap_keeps hC (by assumption) (by assumption)
    | exact WeakPtr_ctor_move_keeps hC (by assumption)
    | apply Keeps_bind
    | intro _ _

theorem WeakPtr_expired_keeps {J : World → Prop}
    (this : Nat) :
    Keeps J (WeakPtr.expired this) (fun _ => True) := by
  unfold WeakPtr.expired
  repeat' first
    | exact Keeps_pure trivial
    | exact Keeps_pure (by assumption)
    | exact get_weak_keeps _
    | exact get_block_keeps _
    | apply Keeps_bind
    | split
    | intro _ _

theorem WeakPtr_get_keeps {J : World → Prop}
    (this : Nat) :
    Keeps J (WeakPtr.get this) (fun _ => True) := by
  unfold WeakPtr.get
  repeat' first
    | exact Keeps_pure trivial
    | exact Keeps_pure (by assumption)
    | exact get_weak_keeps _
    | apply Keeps_bind
    | intro _ _

theorem WeakPtr_use_count_keeps {J : World → Prop}
    (this : Nat) :
    Keeps J (WeakPtr.use_count this) (fun _ => True) := by
  unfold WeakPtr.use_count
  repeat' first
    | exact Keeps_pure trivial
    | exact Keeps_pure (by assumption)
    | exact get_weak_keeps _
    | exact get_block_keeps _
    | apply Keeps_bind
    | split
    | intro _ _

theorem Payload_dtor_keeps {J : World → Prop} {okw : Nat → Prop} {okp : Option Nat → Prop}
    (hC : Stable J okw okp) (p : Option Nat) :
    Keeps J (Payload.dtor p) (fun _ => True) := by
  unfold Payload.dtor
  repeat' first
    | exact Keeps_pure trivial
    | exact Keeps_pure (by assumption)
    | exact get_world_keeps
    | exact WeakPtr_dtor_keeps hC _
    | apply Keeps_bind
    | split
    | intro _ _

theorem BaseControlBlock_delete_obj_keeps {J : World → Prop} {okw : Nat → Prop}
    {okp : Option Nat → Prop}
    (hC : Stable J okw okp) (b : Nat) :
    Keeps J (BaseControlBlock.delete_obj b) (fun _ => True) := by
  unfold BaseControlBlock.delete_obj
  repeat' first
    | exact get_block_keeps _
    | exact emit_keeps hC _
    | exact Payload_dtor_keeps hC _
    | apply Keeps_bind
    | split
    | intro _ _

theorem SharedPtr_ctor_private_keeps {J : World → Prop} {okw : Nat → Prop} {okp : Option Nat → Prop}
    (hC : Stable J okw okp)
    (pointer control_block : Option Nat) :
    Keeps J (SharedPtr.ctor_private pointer control_block) (fun _ => True) := by
  unfold SharedPtr.ctor_private
  repeat' first
    | exact Keeps_pure trivial
    | exact Keeps_pure (by assumption)
    | exact Keeps_fault _
    | exact new_shared_keeps hC _
    | exact get_block_keeps _
    | exact set_block_keeps hC _ _
    | apply Keeps_bind
    | split
    | intro _ _

theorem WeakPtr_lock_keeps {J : World → Prop} {okw : Nat → Prop} {okp : Option Nat → Prop}
    (hC : Stable J okw okp) (this : Nat) :
    Keeps J (WeakPtr.lock this) (fun _ => True) := by
  unfold WeakPtr.lock
  repeat' first
    | exact get_weak_keeps _
    | exact SharedPtr_ctor_private_keeps hC _ _
    | apply Keeps_bind
    | intro _ _

theorem SharedPtr_ctor_default_keeps {J : World → Prop} {okw : Nat → Prop} {okp : Option Nat → Prop}
    (hC : Stable J okw okp) :
    Keeps J (SharedPtr.ctor_default) (fun _ => True) := by
  exact new_shared_keeps hC _

theorem SharedPtr_assign_weak_ptr_keeps {J : World → Prop} {okw : Nat → Prop}
    {okp : Option Nat → Prop}
    (hC : Stable J okw okp) {weak_ptr : Nat}
    (hm : okw weak_ptr) (this : Nat) :
    Keeps J (SharedPtr.assign_weak_ptr weak_ptr this) (fun _ => True) := by
  unfold SharedPtr.assign_weak_ptr
  repeat' first
    | exact WeakPtr_dtor_keeps hC _
    | exact WeakPtr_ctor_from_shared_keeps hC _
    | exact WeakPtr_assign_move_keeps hC (by assumption) (by assumption)
    | apply Keeps_bind
    | intro _ _

theorem SharedPtr_ctor_adopt_keeps {J : World → Prop} {okw : Nat → Prop} {okp : Option Nat → Prop}
    (hC : Stable J okw okp) {ptr : Option Nat} (hptr : okp ptr)
    (del alloc : Nat) (alloc_ok : Bool) :
    Keeps J (SharedPtr.ctor_adopt ptr del alloc alloc_ok) (fun _ => True) := by
  unfold SharedPtr.ctor_adopt
  refine Keeps_bind (allocate_block_keeps hC _ _) (fun block _ => ?_)
  refine Keeps_bind (new_shared_keeps hC _) (fun this _ => ?_)
  refine Keeps_bind (get_block_keeps _) (fun blk _ => ?_)
  refine Keeps_bind (set_block_keeps hC _ _) (fun _ _ => ?_)
  refine Keeps_bind get_world_keeps (fun w hJ => ?_)
  cases hwp : weak_ptr_of w ptr with
  | none => exact Keeps_pure trivial
  | some weak_ptr =>
    exact Keeps_bind (SharedPtr_assign_weak_ptr_keeps hC (hC.member w ptr weak_ptr hJ hptr hwp) _)
      (fun _ _ => Keeps_pure trivial)

theorem SharedPtr_ctor_alias_keeps {J : World → Prop} {okw : Nat → Prop} {okp : Option Nat → Prop}
    (hC : Stable J okw okp) (other : Nat) (ptr : Option Nat) :
    Keeps J (SharedPtr.ctor_alias other ptr) (fun _ => True) := by
  unfold SharedPtr.ctor_alias
  repeat' first
    | exact Keeps_pure trivial
    | exact Keeps_pure (by assumption)
    | exact get_shared_keeps _
    | exact new_shared_keeps hC _
    | exact get_block_keeps _
    | exact set_block_keeps hC _ _
    | apply Keeps_bind
    | split
    | intro _ _

theorem SharedPtr_ctor_copy_keeps {J : World → Prop} {okw : Nat → Prop} {okp : Option Nat → Prop}
    (hC : Stable J okw okp) (other : Nat) :
    Keeps J (SharedPtr.ctor_copy other) (fun _ => True) := by
  unfold SharedPtr.ctor_copy
  repeat' first
    | exact Keeps_pure trivial
    | exact Keeps_pure (by assumption)
    | exact get_shared_keeps _
    | exact new_shared_keeps hC _
    | exact get_block_keeps _
    | exact set_block_keeps hC _ _
    | apply Keeps_bind
    | split
    | intro _ _

theorem SharedPtr_ctor_move_keeps {J : World → Prop} {okw : Nat → Prop} {okp : Option Nat → Prop}
    (hC : Stable J okw okp) (other : Nat) :
    Keeps J (SharedPtr.ctor_move other) (fun _ => True) := by
  unfold SharedPtr.ctor_move
  repeat' first
    | exact Keeps_pure trivial
    | exact Keeps_pure (by assumption)
    | exact get_shared_keeps _
    | exact set_shared_keeps hC _ _
    | exact new_shared_keeps hC _
    | apply Keeps_bind
    | intro _ _

theorem SharedPtr_swap_keeps {J : World → Prop} {okw : Nat → Prop} {okp : Option Nat → Prop}
    (hC : Stable J okw okp) (this other : Nat) :
    Keeps J (SharedPtr.swap this other) (fun _ => True) := by
  unfold SharedPtr.swap
  repeat' first
    | exact get_shared_keeps _
    | exact set_shared_keeps hC _ _
    | apply Keeps_bind
    | intro _ _

theorem SharedPtr_dtor_keeps {J : World → Prop} {okw : Nat → Prop} {okp : Option Nat → Prop}
    (hC : Stable J okw okp) (this : Nat) :
    Keeps J (SharedPtr.dtor this) (fun _ => True) := by
  unfold SharedPtr.dtor
  repeat' first
    | exact Keeps_pure trivial
    | exact Keeps_pure (by assumption)
    | exact get_shared_keeps _
    | exact end_shared_keeps hC _
    | exact get_block_keeps _
    | exact set_block_keeps hC _ _
    | exact delete_block_keeps hC _
    | exact BaseControlBlock_delete_obj_keeps hC _
    | apply Keeps_bind
    | split
    | intro _ _

theorem SharedPtr_assign_copy_keeps {J : World → Prop} {okw : Nat → Prop} {okp : Option Nat → Prop}
    (hC : Stable J okw okp) (this other : Nat) :
    Keeps J (SharedPtr.assign_copy this other) (fun _ => True) := by
  unfold SharedPtr.assign_copy
  repeat' first
    | exact SharedPtr_dtor_keeps hC _
    | exact SharedPtr_swap_keeps hC _ _
    | exact SharedPtr_ctor_copy_keeps hC _
    | apply Keeps_bind
    | intro _ _

theorem SharedPtr_assign_move_keeps {J : World → Prop} {okw : Nat → Prop} {okp : Option Nat → Prop}
    (hC : Stable J okw okp) (this other : Nat) :
    Keeps J (SharedPtr.assign_move this other) (fun _ => True) := by
  unfold SharedPtr.assign_move
  repeat' first
    | exact SharedPtr_dtor_keeps hC _
    | exact SharedPtr_swap_keeps hC _ _
    | exact SharedPtr_ctor_move_keeps hC _
    | apply Keeps_bind
    | intro _ _

theorem SharedPtr_use_count_keeps {J : World → Prop}
    (this : Nat) :
    Keeps J (SharedPtr.use_count this) (fun _ => True) := by
  unfold SharedPtr.use_count
  repeat' first
    | exact Keeps_pure trivial
    | exact Keeps_pure (by assumption)
    | exact get_shared_keeps _
    | exact get_block_keeps _
    | apply Keeps_bind
    | split
    | intro _ _

theorem SharedPtr_get_keeps {J : World → Prop}
    (this : Nat) :
    Keeps J (SharedPtr.get this) (fun _ => True) := by
  unfold SharedPtr.get
  repeat' first
    | exact Keeps_pure trivial
    | exact Keeps_pure (by assumption)
    | exact get_shared_keeps _
    | apply Keeps_bind
    | intro _ _

theorem SharedPtr_construct_keeps {J : World → Prop} {okw : Nat → Prop} {okp : Option Nat → Prop}
    (hC : Stable J okw okp) {args : SharedPtr.Args}
    (hargs : args.respects okp) :
    Keeps J (SharedPtr.construct args) (fun _ => True) := by
  cases args with
  | default => exact SharedPtr_ctor_default_keeps hC
  | adopt ptr del alloc alloc_ok => exact SharedPtr_ctor_adopt_keeps hC hargs del alloc alloc_ok
  | aliasing other ptr => exact SharedPtr_ctor_alias_keeps hC other ptr
  | copy other => exact SharedPtr_ctor_copy_keeps hC other
  | move other => exact SharedPtr_ctor_move_keeps hC other

theorem SharedPtr_reset_keeps {J : World → Prop} {okw : Nat → Prop} {okp : Option Nat → Prop}
    (hC : Stable J okw okp) (this : Nat) {args : SharedPtr.Args}
    (hargs : args.respects okp) :
    Keeps J (SharedPtr.reset this args) (fun _ => True) :=
  Keeps_bind (SharedPtr_construct_keeps hC hargs) (fun tmp _ =>
    Keeps_bind (SharedPtr_assign_move_keeps hC this tmp) (fun _ _ =>
      SharedPtr_dtor_keeps hC tmp))

theorem ControlBlockObject_ctor_keeps {J : World → Prop} {okw : Nat → Prop}
    {okp : Option Nat → Prop}
    (hC : Stable J okw okp) (esft ctor_ok : Bool) :
    Keeps J (ControlBlockObject.ctor esft ctor_ok) (fun _ => True) := by
  intro w hJ
  cases ctor_ok with
  | false => exact hJ
  | true =>
    cases esft with
    | false => exact ⟨hC.new_plain w hJ, trivial⟩
    | true =>
      by_cases hg : liveW w + 1 < SIZE_MOD
      · simp only [ControlBlockObject.ctor, if_true, WeakPtr.ctor_default, new_weak, hg]
        exact ⟨hC.new_esft w hJ, trivial⟩
      · simp only [ControlBlockObject.ctor, if_true, WeakPtr.ctor_default, new_weak, hg,
          if_false]

theorem new_payload_keeps {J : World → Prop} {okw : Nat → Prop} {okp : Option Nat → Prop}
    (hC : Stable J okw okp) (esft : Bool) :
    Keeps J (new_payload esft) (fun _ => True) := by
  intro w hJ
  cases esft with
  | false => exact ⟨hC.new_plain w hJ, trivial⟩
  | true =>
    by_cases hg : liveW w + 1 < SIZE_MOD
    · simp only [new_payload, if_true, WeakPtr.ctor_default, new_weak, hg]
      exact ⟨hC.new_esft w hJ, trivial⟩
    · simp only [new_payload, if_true, WeakPtr.ctor_default, new_weak, hg, if_false]

theorem allocateShared_keeps {J : World → Prop} {okw : Nat → Prop} {okp : Option Nat → Prop}
    (hC : Stable J okw okp) (esft : Bool) (alloc : Nat)
    (alloc_ok ctor_ok : Bool) :
    Keeps J (allocateShared esft alloc alloc_ok ctor_ok) (fun _ => True) := by
  unfold allocateShared
  repeat' first
    | exact get_world_keeps
    | exact allocate_block_keeps hC _ _
    | exact SharedPtr_ctor_private_keeps hC _ _
    | exact ControlBlockObject_ctor_keeps hC _ _
    | apply Keeps_bind
    | intro _ _

theorem makeShared_keeps {J : World → Prop} {okw : Nat → Prop} {okp : Option Nat → Prop}
    (hC : Stable J okw okp) (esft : Bool) (alloc_ok ctor_ok : Bool) :
    Keeps J (makeShared esft alloc_ok ctor_ok) (fun _ => True) :=
  allocateShared_keeps hC esft default_alloc alloc_ok ctor_ok

theorem EnableSharedFromThis_shared_from_this_keeps {J : World → Prop} {okw : Nat → Prop}
    {okp : Option Nat → Prop}
    (hC : Stable J okw okp) (p : Nat) :
    Keeps J (EnableSharedFromThis.shared_from_this p) (fun _ => True) := by
  unfold EnableSharedFromThis.shared_from_this
  repeat' first
    | exact Keeps_fault _
    | exact Keeps_throw _
    | exact get_world_keeps
    | exact WeakPtr_expired_keeps _
    | exact WeakPtr_lock_keeps hC _
    | apply Keeps_bind
    | split
    | intro _ _

theorem WeakPtr_construct_keeps {J : World → Prop} {okw : Nat → Prop} {okp : Option Nat → Prop}
    (hC : Stable J okw okp) {args : WeakPtr.Args}
    (hargs : args.respects okw) :
    Keeps J (WeakPtr.construct args) okw := by
  cases args with
  | default => exact WeakPtr_ctor_default_keeps hC
  | adopt ptr del alloc alloc_ok => exact WeakPtr_ctor_adopt_keeps hC ptr del alloc alloc_ok
  | aliasing other ptr => exact WeakPtr_ctor_alias_keeps hC other ptr
  | copy other => exact WeakPtr_ctor_copy_keeps hC other
  | move other => exact WeakPtr_ctor_move_keeps hC hargs
  | from_shared sh_ptr => exact WeakPtr_ctor_from_shared_keeps hC sh_ptr

theorem step_keeps {J : World → Prop} {okw : Nat → Prop} {okp : Option Nat → Prop}
    (hC : Stable J okw okp) {op : Op} (hop : op.respects okw okp) :
    Keeps J (step op) (fun _ => True) := by
  cases op with
  | new_payload esft => exact Keeps_discard (new_payload_keeps hC esft)
  | sp_construct args => exact Keeps_discard (SharedPtr_construct_keeps hC hop)
  | sp_allocate esft alloc alloc_ok ctor_ok =>
    exact Keeps_discard (allocateShared_keeps hC esft alloc alloc_ok ctor_ok)
  | sp_make esft alloc_ok ctor_ok => exact Keeps_discard (makeShared_keeps hC esft alloc_ok ctor_ok)
  | sp_assign_copy this other => exact SharedPtr_assign_copy_keeps hC this other
  | sp_assign_move this other => exact SharedPtr_assign_move_keeps hC this other
  | sp_swap this other => exact SharedPtr_swap_keeps hC this other
  | sp_reset this args => exact SharedPtr_reset_keeps hC this hop
  | sp_use_count this => exact Keeps_discard (SharedPtr_use_count_keeps this)
  | sp_get this => exact Keeps_discard (SharedPtr_get_keeps this)
  | sp_destroy this => exact SharedPtr_dtor_keeps hC this
  | wp_construct args => exact Keeps_discard (WeakPtr_construct_keeps hC hop)
  | wp_assign_copy this other => exact WeakPtr_assign_copy_keeps hC hop other
  | wp_assign_move this other => exact WeakPtr_assign_move_keeps hC hop.1 hop.2
  | wp_swap this other => exact WeakPtr_swap_keeps hC hop.1 hop.2
  | wp_expired this => exact Keeps_discard (WeakPtr_expired_keeps this)
  | wp_use_count this => exact Keeps_discard (WeakPtr_use_count_keeps this)
  | wp_get this => exact Keeps_discard (WeakPtr_get_keeps this)
  | wp_lock this => exact Keeps_discard (WeakPtr_lock_keeps hC this)
  | wp_destroy this => exact WeakPtr_dtor_keeps hC this
  | shared_from_this p => exact Keeps_discard (EnableSharedFromThis_shared_from_this_keeps hC p)

/-- A program whose statements respect `okw` and `okp` keeps a stable property. -/
theorem run_keeps {J : World → Prop} {okw : Nat → Prop} {okp : Option Nat → Prop}
    (hC : Stable J okw okp) (ops : List Op) :
    ∀ (w w1 : World), (∀ op, op ∈ ops → op.respects okw okp) → J w →
      run ops w = Except.ok w1 → J w1 := by
  induction ops with
  | nil =>
    intro w w1 _ hJ hrun
    simp only [run, Except.ok.injEq] at hrun
    rw [← hrun]
    exact hJ
  | cons op ops ih =>
    intro w w1 hops hJ hrun
    have hs := step_keeps hC (hops op (List.mem_cons_self _ _)) w hJ
    simp only [run] at hrun
    cases hst : step op w with
    | ok a w2 =>
      rw [hst] at hs hrun
      exact ih w2 w1 (fun o ho => hops o (List.mem_cons_of_mem _ ho)) hs.1 hrun
    | throw e w2 =>
      rw [hst] at hs hrun
      exact ih w2 w1 (fun o ho => hops o (List.mem_cons_of_mem _ ho)) hs hrun
    | fault f =>
      rw [hst] at hrun
      cases hrun

theorem MembersExist_stable : Stable MembersExist (fun _ => True) (fun _ => True) := by
  refine ⟨?_, ?_, ?_, ?_, ?_, ?_, fun _ _ _ _ _ _ => trivial⟩
  · intro w w1 ho hw hJ q pl r hq hr
    rw [ho] at hq
    rw [hw]
    exact hJ q pl r hq hr
  · intro w h hJ
    refine ⟨?_, trivial⟩
    intro q pl r hq hr
    have := hJ q pl r hq hr
    simp only [List.length_append, List.length_singleton]
    omega
  · intro w i hJ q pl r hq hr
    have := hJ q pl r hq hr
    simp only [List.length_set]
    exact this
  · intro w i h _ hJ q pl r hq hr
    have := hJ q pl r hq hr
    simp only [List.length_set]
    exact this
  · intro w hJ q pl r hq hr
    simp only [List.length_append, List.length_singleton]
    by_cases hlt : q < w.objs.length
    · simp only [List.getElem?_append_left hlt] at hq
      have := hJ q pl r hq hr
      omega
    · have hq1 := hq
      simp only [List.getElem?_append_right (Nat.le_of_not_lt hlt)] at hq1
      have hmem := List.getElem?_mem hq1
      simp only [List.mem_singleton] at hmem
      rw [hmem] at hr
      simp only [Option.some.injEq] at hr
      omega
  · intro w hJ q pl r hq hr
    by_cases hlt : q < w.objs.length
    · simp only [List.getElem?_append_left hlt] at hq
      exact hJ q pl r hq hr
    · have hq1 := hq
      simp only [List.getElem?_append_right (Nat.le_of_not_lt hlt)] at hq1
      have hmem := List.getElem?_mem hq1
      simp only [List.mem_singleton] at hmem
      rw [hmem] at hr
      cases hr

theorem Unpopulated_stable (p weak_ptr : Nat) :
    Stable (Unpopulated p weak_ptr) (fun i => i ≠ weak_ptr) (fun ptr => ptr ≠ some p) := by
  refine ⟨?_, ?_, ?_, ?_, ?_, ?_, ?_⟩
  · intro w w1 ho hw hJ
    unfold Unpopulated
    rw [ho, hw]
    exact hJ
  · intro w h hJ
    obtain ⟨h1, h2, h3⟩ := hJ
    have hlt : weak_ptr < w.weak.length := by
      rcases h3 with h3 | h3
      · exact get_lt h3
      · exact get_lt h3
    refine ⟨⟨h1, h2, ?_⟩, by omega⟩
    simp only [List.getElem?_append_left hlt]
    exact h3
  · intro w i hJ
    obtain ⟨h1, h2, h3⟩ := hJ
    have hlt : weak_ptr < w.weak.length := by
      rcases h3 with h3 | h3
      · exact get_lt h3
      · exact get_lt h3
    refine ⟨h1, h2, ?_⟩
    by_cases hi : i = weak_ptr
    · right
      rw [hi]
      exact List.getElem?_set_self hlt
    · simp only [List.getElem?_set_ne hi]
      exact h3
  · intro w i h hi hJ
    obtain ⟨h1, h2, h3⟩ := hJ
    refine ⟨h1, h2, ?_⟩
    simp only [List.getElem?_set_ne hi]
    exact h3
  · intro w hJ
    obtain ⟨h1, h2, h3⟩ := hJ
    have hlt : weak_ptr < w.weak.length := by
      rcases h3 with h3 | h3
      · exact get_lt h3
      · exact get_lt h3
    have hp := get_lt h1
    refine ⟨?_, ?_, ?_⟩
    · simp only [List.getElem?_append_left hp]
      exact h1
    · intro q pl hq hr
      by_cases hq0 : q < w.objs.length
      · simp only [List.getElem?_append_left hq0] at hq
        exact h2 q pl hq hr
      · have hq1 := hq
        simp only [List.getElem?_append_right (Nat.le_of_not_lt hq0)] at hq1
        have hmem := List.getElem?_mem hq1
        simp only [List.mem_singleton] at hmem
        rw [hmem] at hr
        simp only [Option.some.injEq] at hr
        omega
    · simp only [List.getElem?_append_left hlt]
      exact h3
  · intro w hJ
    obtain ⟨h1, h2, h3⟩ := hJ
    have hp := get_lt h1
    refine ⟨?_, ?_, h3⟩
    · simp only [List.getElem?_append_left hp]
      exact h1
    · intro q pl hq hr
      by_cases hq0 : q < w.objs.length
      · simp only [List.getElem?_append_left hq0] at hq
        exact h2 q pl hq hr
      · have hq1 := hq
        simp only [List.getElem?_append_right (Nat.le_of_not_lt hq0)] at hq1
        have hmem := List.getElem?_mem hq1
        simp only [List.mem_singleton] at hmem
        rw [hmem] at hr
        cases hr
  · intro w ptr r hJ hptr hwp hr
    obtain ⟨h1, h2, h3⟩ := hJ
    cases ptr with
    | none => cases hwp
    | some a =>
      simp only [weak_ptr_of] at hwp
      cases ho : w.objs[a]? with
      | none =>
        rw [ho] at hwp
        cases hwp
      | some obj =>
        rw [ho] at hwp
        simp only [] at hwp
        rw [hr] at hwp
        have := h2 a obj ho hwp
        exact hptr (by rw [this])

/-- Every reachable state has the member of every payload among its `WeakPtr` objects. -/
theorem members_of_run {ops : List Op} {w : World}
    (hrun : run ops World.empty = Except.ok w) : MembersExist w := by
  refine run_keeps MembersExist_stable ops World.empty w ?_ ?_ hrun
  · intro op _
    cases op with
    | sp_construct args => cases args <;> trivial
    | sp_reset this args => cases args <;> trivial
    | wp_construct args => cases args <;> trivial
    | wp_assign_move this other => exact ⟨trivial, trivial⟩
    | wp_swap this other => exact ⟨trivial, trivial⟩
    | _ => trivial
  · intro q pl r hq _
    cases hq

/-- `allocateShared` of a payload with the self-reference capability, when the
allocation and the payload constructor succeed. -/
theorem allocateShared_esft_eq {w : World} (alloc : Nat) (hS : liveS w + 1 < SIZE_MOD)
    (hW : liveW w + 1 < SIZE_MOD) :
    allocateShared true alloc true true w = Result.ok w.shared.length
      ⟨w.heap ++ [⟨1, 0, BlockKind.object w.objs.length alloc, false⟩],
       w.objs ++ [⟨some w.weak.length⟩],
       w.shared ++ [some ⟨some w.objs.length, some w.heap.length⟩],
       w.weak ++ [some ⟨none, none⟩],
       w.log ++ [Event.allocate default_alloc w.heap.length]⟩ := by
  have hS1 : List.countP Option.isSome w.shared + 1 < SIZE_MOD := hS
  have hW1 : List.countP Option.isSome w.weak + 1 < SIZE_MOD := hW
  have hb : (w.heap ++ [(⟨0, 0, BlockKind.object w.objs.length alloc, false⟩ :
      BaseControlBlock)])[w.heap.length]?
      = some ⟨0, 0, BlockKind.object w.objs.length alloc, false⟩ := by
    simp
  have hset : (w.heap ++ [(⟨0, 0, BlockKind.object w.objs.length alloc, false⟩ :
      BaseControlBlock)]).set w.heap.length
        ⟨1, 0, BlockKind.object w.objs.length alloc, false⟩
      = w.heap ++ [⟨1, 0, BlockKind.object w.objs.length alloc, false⟩] := by
    simp
  simp only [allocateShared, bind_apply, get_world, allocate_block, if_true,
    ControlBlockObject.ctor, WeakPtr.ctor_default, new_weak, liveW, hW1,
    SharedPtr.ctor_private, new_shared, liveS, hS1, get_block, hb, Bool.false_eq_true, if_false,
    set_block, pure_apply, one_mod_size, hset, Nat.zero_add]

/-- C17: in every reachable state with room for one more `SharedPtr` and one more
`WeakPtr` object, `allocateShared` (and `makeShared`, which is `allocateShared` with
the default memory source) of a payload with the self-reference capability returns a
handle with `use_count()` 1 and leaves the member `weak_ptr` of the payload
default-constructed.  In every state a program reaches from there without adopting
the raw pointer of the payload and without overwriting the private member, the member
is still default-constructed or already destroyed with the payload; while it is alive
`expired()` is true and `shared_from_this` throws `std::bad_exception`; and
`shared_from_this` never returns a handle. -/
theorem C17_allocated_payload_never_populated (ops0 : List Op) (w0 : World) (alloc : Nat)
    (h0 : run ops0 World.empty = Except.ok w0)
    (hS : liveS w0 + 1 < SIZE_MOD) (hW : liveW w0 + 1 < SIZE_MOD) :
    ∃ w1, allocateShared true alloc true true w0 = Result.ok w0.shared.length w1 ∧
      (alloc = default_alloc →
        makeShared true true true w0 = Result.ok w0.shared.length w1) ∧
      w1.shared[w0.shared.length]?
        = some (some ⟨some w0.objs.length, some w0.heap.length⟩) ∧
      SharedPtr.use_count w0.shared.length w1 = Result.ok 1 w1 ∧
      w1.weak[w0.weak.length]? = some (some ⟨none, none⟩) ∧
      ∀ (ops : List Op) (w : World),
        (∀ op, op ∈ ops →
          op.respects (fun i => i ≠ w0.weak.length) (fun ptr => ptr ≠ some w0.objs.length)) →
        run ops w1 = Except.ok w →
        weak_ptr_of w (some w0.objs.length) = some w0.weak.length ∧
        (w.weak[w0.weak.length]? = some (some ⟨none, none⟩) ∨
          w.weak[w0.weak.length]? = some none) ∧
        (w.weak[w0.weak.length]? = some (some ⟨none, none⟩) →
          WeakPtr.expired w0.weak.length w = Result.ok true w ∧
          EnableSharedFromThis.shared_from_this w0.objs.length w
            = Result.throw Exn.bad_exception w) ∧
        (∀ r w2, EnableSharedFromThis.shared_from_this w0.objs.length w ≠ Result.ok r w2) := by
  have hM := members_of_run h0
  have ha := allocateShared_esft_eq alloc hS hW
  have hsl : (w0.shared ++ [some (⟨some w0.objs.length, some w0.heap.length⟩ : SharedPtr)])[
      w0.shared.length]? = some (some ⟨some w0.objs.length, some w0.heap.length⟩) :=
    List.getElem?_concat_length _ _
  have hwl : (w0.weak ++ [some (⟨none, none⟩ : WeakPtr)])[w0.weak.length]?
      = some (some ⟨none, none⟩) := List.getElem?_concat_length _ _
  have hol : (w0.objs ++ [(⟨some w0.weak.length⟩ : Payload)])[w0.objs.length]?
      = some ⟨some w0.weak.length⟩ := List.getElem?_concat_length _ _
  have hbl : (w0.heap ++ [(⟨1, 0, BlockKind.object w0.objs.length alloc, false⟩ :
      BaseControlBlock)])[w0.heap.length]?
      = some ⟨1, 0, BlockKind.object w0.objs.length alloc, false⟩ :=
    List.getElem?_concat_length _ _
  refine ⟨_, ha, ?_, hsl, ?_, hwl, ?_⟩
  · intro halloc
    subst halloc
    exact ha
  · simp only [SharedPtr.use_count, bind_apply, get_shared, hsl, get_block, hbl,
      Bool.false_eq_true, if_false, pure_apply]
  · intro ops w hops hrun
    have hJ1 : Unpopulated w0.objs.length w0.weak.length
        ⟨w0.heap ++ [⟨1, 0, BlockKind.object w0.objs.length alloc, false⟩],
         w0.objs ++ [⟨some w0.weak.length⟩],
         w0.shared ++ [some ⟨some w0.objs.length, some w0.heap.length⟩],
         w0.weak ++ [some ⟨none, none⟩],
         w0.log ++ [Event.allocate default_alloc w0.heap.length]⟩ := by
      refine ⟨hol, ?_, Or.inl hwl⟩
      intro q pl hq hr
      by_cases hq0 : q < w0.objs.length
      · simp only [List.getElem?_append_left hq0] at hq
        have := hM q pl w0.weak.length hq hr
        omega
      · have hq1 := get_lt hq
        simp only [List.length_append, List.length_singleton] at hq1
        omega
    obtain ⟨h1, _, h3⟩ :=
      run_keeps (Unpopulated_stable w0.objs.length w0.weak.length) ops _ w hops hJ1 hrun
    have hmem : weak_ptr_of w (some w0.objs.length) = some w0.weak.length := by
      simp only [weak_ptr_of, h1]
    refine ⟨hmem, h3, ?_, ?_⟩
    · intro hslot
      have hexp : WeakPtr.expired w0.weak.length w = Result.ok true w := by
        simp only [WeakPtr.expired, bind_apply, get_weak_ok hslot, pure_apply]
      refine ⟨hexp, ?_⟩
      simp only [EnableSharedFromThis.shared_from_this, bind_apply, get_world, hmem, hexp,
        if_true, M.throw]
    · intro r w2 hr
      rcases h3 with hslot | hslot
      · simp only [EnableSharedFromThis.shared_from_this, bind_apply, get_world, hmem,
          WeakPtr.expired, get_weak_ok hslot, pure_apply, if_true, M.throw] at hr
        cases hr
      · simp only [EnableSharedFromThis.shared_from_this, bind_apply, get_world, hmem,
          WeakPtr.expired, get_weak, hslot] at hr
        cases hr

/-- Witness of C17: `makeShared` in the empty state gives `world_allocated`; after the
handle is copied `use_count()` is 2 and `shared_from_this` throws
`std::bad_exception`. -/
theorem C17_allocated_payload_witness :
    makeShared true true true World.empty = Result.ok 0 world_allocated ∧
    run [Op.sp_construct (SharedPtr.Args.copy 0)] world_allocated
      = Except.ok world_allocated_copy ∧
    SharedPtr.use_count 1 world_allocated_copy = Result.ok 2 world_allocated_copy ∧
    EnableSharedFromThis.shared_from_this 0 world_allocated_copy
      = Result.throw Exn.bad_exception world_allocated_copy := by
  obtain ⟨w1, ha, hm, _, _, _, hall⟩ :=
    C17_allocated_payload_never_populated [] World.empty default_alloc rfl
      (by unfold SIZE_MOD; decide) (by unfold SIZE_MOD; decide)
  have he : allocateShared true default_alloc true true World.empty
      = Result.ok 0 world_allocated := rfl
  rw [he] at ha
  have hw : world_allocated = w1 := by
    injection ha
  subst hw
  have hres := hall [Op.sp_construct (SharedPtr.Args.copy 0)] world_allocated_copy
    (by
      intro op hop
      simp only [List.mem_singleton] at hop
      rw [hop]
      trivial)
    rfl
  exact ⟨hm rfl, rfl, rfl, (hres.2.2.1 rfl).2⟩

/-- `allocateShared` of a payload without the self-reference capability, when the
allocation and the payload constructor succeed. -/
theorem allocateShared_plain_eq {w : World} (alloc : Nat) (hS : liveS w + 1 < SIZE_MOD) :
    allocateShared false alloc true true w = Result.ok w.shared.length
      ⟨w.heap ++ [⟨1, 0, BlockKind.object w.objs.length alloc, false⟩],
       w.objs ++ [⟨none⟩],
       w.shared ++ [some ⟨some w.objs.length, some w.heap.length⟩],
       w.weak,
       w.log ++ [Event.allocate default_alloc w.heap.length]⟩ := by
  have hS1 : List.countP Option.isSome w.shared + 1 < SIZE_MOD := hS
  have hb : (w.heap ++ [(⟨0, 0, BlockKind.object w.objs.length alloc, false⟩ :
      BaseControlBlock)])[w.heap.length]?
      = some ⟨0, 0, BlockKind.object w.objs.length alloc, false⟩ := by
    simp
  have hset : (w.heap ++ [(⟨0, 0, BlockKind.object w.objs.length alloc, false⟩ :
      BaseControlBlock)]).set w.heap.length
        ⟨1, 0, BlockKind.object w.objs.length alloc, false⟩
      = w.heap ++ [⟨1, 0, BlockKind.object w.objs.length alloc, false⟩] := by
    simp
  simp only [allocateShared, bind_apply, get_world, allocate_block, if_true,
    ControlBlockObject.ctor, Bool.false_eq_true, if_false,
    SharedPtr.ctor_private, new_shared, liveS, hS1, get_block, hb,
    set_block, pure_apply, one_mod_size, hset, Nat.zero_add]

/-- C21: when the allocation and the payload constructor succeed, `allocateShared`
returns a new handle on a new `ControlBlockObject` (an address that held no block)
whose embedded payload is a new payload; `get()` of the handle is the address of the
embedded payload, `strong_count` is 1 and `weak_count` is 0, and nothing else changes
but the record of the allocation (and, for a payload with the self-reference
capability, its default-constructed member).  `makeShared` is `allocateShared` with
the default memory source.  The memory model has room for one more `SharedPtr` (and
`WeakPtr`) object. -/
theorem C21_allocateShared_fresh_object_block (w : World) (esft : Bool) (alloc : Nat)
    (hS : liveS w + 1 < SIZE_MOD) (hW : esft = true → liveW w + 1 < SIZE_MOD) :
    ∃ w1, allocateShared esft alloc true true w = Result.ok w.shared.length w1 ∧
      makeShared esft true true w = allocateShared esft default_alloc true true w ∧
      w.heap[w.heap.length]? = none ∧ w.objs[w.objs.length]? = none ∧
      w1.heap = w.heap ++ [⟨1, 0, BlockKind.object w.objs.length alloc, false⟩] ∧
      w1.objs = w.objs ++ [⟨if esft then some w.weak.length else none⟩] ∧
      w1.shared = w.shared ++ [some ⟨some w.objs.length, some w.heap.length⟩] ∧
      w1.weak = (if esft then w.weak ++ [some ⟨none, none⟩] else w.weak) ∧
      w1.log = w.log ++ [Event.allocate default_alloc w.heap.length] ∧
      SharedPtr.get w.shared.length w1 = Result.ok (some w.objs.length) w1 ∧
      SharedPtr.use_count w.shared.length w1 = Result.ok 1 w1 := by
  have hsl : (w.shared ++ [some (⟨some w.objs.length, some w.heap.length⟩ : SharedPtr)])[
      w.shared.length]? = some (some ⟨some w.objs.length, some w.heap.length⟩) :=
    List.getElem?_concat_length _ _
  have hbl : (w.heap ++ [(⟨1, 0, BlockKind.object w.objs.length alloc, false⟩ :
      BaseControlBlock)])[w.heap.length]?
      = some ⟨1, 0, BlockKind.object w.objs.length alloc, false⟩ :=
    List.getElem?_concat_length _ _
  cases esft with
  | false =>
    refine ⟨_, allocateShared_plain_eq alloc hS, rfl, List.getElem?_eq_none (Nat.le_refl _),
      List.getElem?_eq_none (Nat.le_refl _), rfl, rfl, rfl, rfl, rfl, ?_, ?_⟩
    · simp only [SharedPtr.get, bind_apply, get_shared, hsl, pure_apply]
    · simp only [SharedPtr.use_count, bind_apply, get_shared, hsl, get_block, hbl,
        Bool.false_eq_true, if_false, pure_apply]
  | true =>
    refine ⟨_, allocateShared_esft_eq alloc hS (hW rfl), rfl,
      List.getElem?_eq_none (Nat.le_refl _), List.getElem?_eq_none (Nat.le_refl _), rfl, rfl,
      rfl, rfl, rfl, ?_, ?_⟩
    · simp only [SharedPtr.get, bind_apply, get_shared, hsl, pure_apply]
    · simp only [SharedPtr.use_count, bind_apply, get_shared, hsl, get_block, hbl,
        Bool.false_eq_true, if_false, pure_apply]

/-- Witness of C21: `allocateShared` in `world_single`. -/
theorem C21_allocateShared_witness :
    ∃ w1, allocateShared false 5 true true world_single = Result.ok 1 w1 ∧
      w1.heap = world_single.heap ++ [⟨1, 0, BlockKind.object 1 5, false⟩] ∧
      SharedPtr.get 1 w1 = Result.ok (some 1) w1 ∧
      SharedPtr.use_count 1 w1 = Result.ok 1 w1 := by
  obtain ⟨w1, h1, _, _, _, h2, _, _, _, _, h3, h4⟩ :=
    C21_allocateShared_fresh_object_block world_single false 5 (by unfold SIZE_MOD; decide)
      (fun h => by cases h)
  exact ⟨w1, h1, h2, h3, h4⟩

/-- C22: when the allocation of the block fails in the adopting constructor, the
exception propagates and the state is the one before the call: no handle, no block,
and no call recorded (the destruction strategy is not invoked on the raw pointer).
The same holds when the constructor runs inside `reset`, and the client that catches
the exception goes on from the unchanged state. -/
theorem C22_adopt_allocation_failure (w : World) (ptr : Option Nat) (del alloc : Nat) :
    SharedPtr.ctor_adopt ptr del alloc false w = Result.throw Exn.bad_alloc w ∧
    (∀ this, SharedPtr.reset this (SharedPtr.Args.adopt ptr del alloc false) w
      = Result.throw Exn.bad_alloc w) ∧
    run [Op.sp_construct (SharedPtr.Args.adopt ptr del alloc false)] w = Except.ok w := by
  have h : SharedPtr.ctor_adopt ptr del alloc false w = Result.throw Exn.bad_alloc w := by
    simp only [SharedPtr.ctor_adopt, bind_apply, allocate_block, Bool.false_eq_true, if_false]
  refine ⟨h, ?_, ?_⟩
  · intro this
    simp only [SharedPtr.reset, bind_apply, SharedPtr.construct, h]
  · simp only [run, step, M.discard, SharedPtr.construct, h]

/-- C23: in every reachable state, copy-constructing from a handle without a block
gives a new handle with the same pointer and no block and changes nothing else;
copy-constructing from a handle with a block gives a new handle with the same pointer
and block, `strong_count` of that block is one higher and nothing else changes
(`weak_count` included).  The memory model has room for one more `SharedPtr` object. -/
theorem C23_copy_construct (ops : List Op) (w : World) (other : Nat) (o : SharedPtr)
    (hrun : run ops World.empty = Except.ok w)
    (hother : w.shared[other]? = some (some o))
    (hroom : liveS w + 1 < SIZE_MOD) :
    (o.control_block = none →
      SharedPtr.ctor_copy other w = Result.ok w.shared.length
        { w with shared := w.shared ++ [some ⟨o.pointer, none⟩] }) ∧
    (∀ b, o.control_block = some b → ∃ blk, w.heap[b]? = some blk ∧
      SharedPtr.ctor_copy other w = Result.ok w.shared.length
        { w with shared := w.shared ++ [some ⟨o.pointer, some b⟩],
                 heap := w.heap.set b
                   { blk with shared_counter := blk.shared_counter + 1 } }) := by
  have hI := inv_of_run hrun
  constructor
  · intro hcb
    simp only [SharedPtr.ctor_copy, bind_apply, get_shared_ok hother, new_shared, hroom,
      if_true, hcb, pure_apply]
  · intro b hcb
    obtain ⟨blk, hb, hf⟩ := hI.block_of_shared hother hcb
    have hc := hI.counts b blk hb
    have hle := cntS_le_liveS w b
    have h2 : blk.shared_counter + 1 < SIZE_MOD := by omega
    refine ⟨blk, hb, ?_⟩
    simp only [SharedPtr.ctor_copy, bind_apply, get_shared_ok hother, new_shared, hroom,
      if_true, hcb, get_block, hb, hf, Bool.false_eq_true, if_false, set_block, pure_apply,
      Nat.mod_eq_of_lt h2]

/-- Witness of C23: the two handles of `world_empty_and_owner` are copied. -/
theorem C23_copy_construct_witness :
    run [Op.sp_construct SharedPtr.Args.default, Op.new_payload false,
         Op.sp_construct (SharedPtr.Args.adopt (some 0) default_delete default_alloc true)]
      World.empty = Except.ok world_empty_and_owner ∧
    SharedPtr.ctor_copy 0 world_empty_and_owner = Result.ok 2
      { world_empty_and_owner with
        shared := world_empty_and_owner.shared ++ [some ⟨none, none⟩] } ∧
    ∃ blk, world_empty_and_owner.heap[0]? = some blk ∧
      SharedPtr.ctor_copy 1 world_empty_and_owner = Result.ok 2
        { world_empty_and_owner with
          shared := world_empty_and_owner.shared ++ [some ⟨some 0, some 0⟩],
          heap := world_empty_and_owner.heap.set 0
            { blk with shared_counter := blk.shared_counter + 1 } } :=
  ⟨rfl,
   (C23_copy_construct
     [Op.sp_construct SharedPtr.Args.default, Op.new_payload false,
      Op.sp_construct (SharedPtr.Args.adopt (some 0) default_delete default_alloc true)]
     world_empty_and_owner 0 ⟨none, none⟩ rfl rfl (by unfold SIZE_MOD; decide)).1 rfl,
   (C23_copy_construct
     [Op.sp_construct SharedPtr.Args.default, Op.new_payload false,
      Op.sp_construct (SharedPtr.Args.adopt (some 0) default_delete default_alloc true)]
     world_empty_and_owner 1 ⟨some 0, some 0⟩ rfl rfl (by unfold SIZE_MOD; decide)).2 0 rfl⟩

/-- C24: move-constructing from a live handle gives a new handle with the pointer and
the block the source had, leaves the source with null pointer and null block
(`get()` null, `use_count()` 0) and changes no block and records no call; the
destructor of the moved-from source then only ends the lifetime of that object.
The memory model has room for one more `SharedPtr` object. -/
theorem C24_move_construct (w : World) (other : Nat) (o : SharedPtr)
    (hother : w.shared[other]? = some (some o))
    (hroom : liveS w + 1 < SIZE_MOD) :
    ∃ w1, SharedPtr.ctor_move other w = Result.ok w.shared.length w1 ∧
      w1.shared = (w.shared ++ [some o]).set other (some ⟨none, none⟩) ∧
      w1.heap = w.heap ∧ w1.objs = w.objs ∧ w1.weak = w.weak ∧ w1.log = w.log ∧
      w1.shared[w.shared.length]? = some (some o) ∧
      w1.shared[other]? = some (some ⟨none, none⟩) ∧
      SharedPtr.get other w1 = Result.ok none w1 ∧
      SharedPtr.use_count other w1 = Result.ok 0 w1 ∧
      SharedPtr.dtor other w1 = Result.ok () { w1 with shared := w1.shared.set other none } := by
  have hlt := get_lt hother
  have e : SharedPtr.ctor_move other w = Result.ok w.shared.length
      ⟨w.heap, w.objs, (w.shared ++ [some o]).set other (some ⟨none, none⟩), w.weak,
       w.log⟩ := by
    cases o with
    | mk op oc =>
    simp only [SharedPtr.ctor_move, bind_apply, get_shared_ok hother, new_shared, hroom,
      if_true, set_shared, pure_apply]
  have hnew : ((w.shared ++ [some o]).set other (some ⟨none, none⟩))[w.shared.length]?
      = some (some o) := by
    rw [List.getElem?_set_ne (by omega)]
    exact List.getElem?_concat_length _ _
  have hsrc : ((w.shared ++ [some o]).set other (some ⟨none, none⟩))[other]?
      = some (some ⟨none, none⟩) := by
    rw [List.getElem?_set_self (by simp; omega)]
  refine ⟨_, e, rfl, rfl, rfl, rfl, rfl, hnew, hsrc, ?_, ?_, ?_⟩
  · simp only [SharedPtr.get, bind_apply, get_shared, hsrc, pure_apply]
  · simp only [SharedPtr.use_count, bind_apply, get_shared, hsrc, pure_apply]
  · exact SharedPtr_dtor_null hsrc rfl

/-- Witness of C24: the handle of `world_single` is moved from. -/
theorem C24_move_construct_witness :
    ∃ w1, SharedPtr.ctor_move 0 world_single = Result.ok 1 w1 ∧
      w1.shared = [some ⟨none, none⟩, some ⟨some 0, some 0⟩] ∧
      w1.heap = world_single.heap ∧
      SharedPtr.use_count 0 w1 = Result.ok 0 w1 := by
  obtain ⟨w1, h1, h2, h3, _, _, _, _, _, _, h4, _⟩ :=
    C24_move_construct world_single 0 ⟨some 0, some 0⟩ rfl (by unfold SIZE_MOD; decide)
  exact ⟨w1, h1, h2, h3, h4⟩

/-- C26: in every reachable state with room for one more `WeakPtr` object:
constructing a weak handle from a shared handle with a block gives a new weak handle
with the same pointer and block, `weak_count` of the block is one higher and nothing
else changes; copying a weak handle with a block does the same, and copying one
without a block changes no block; moving a weak handle gives the new handle the
pointer and block of the source, leaves the source null and changes no block. -/
theorem C26_weak_construction (ops : List Op) (w : World)
    (hrun : run ops World.empty = Except.ok w)
    (hroom : liveW w + 1 < SIZE_MOD) :
    (∀ (sh_ptr : Nat) (s : SharedPtr) (b : Nat), w.shared[sh_ptr]? = some (some s) →
      s.control_block = some b → ∃ blk, w.heap[b]? = some blk ∧
        WeakPtr.ctor_from_shared sh_ptr w = Result.ok w.weak.length
          { w with weak := w.weak ++ [some ⟨s.pointer, some b⟩],
                   heap := w.heap.set b
                     { blk with weak_counter := blk.weak_counter + 1 } }) ∧
    (∀ (other : Nat) (o : WeakPtr) (b : Nat), w.weak[other]? = some (some o) →
      o.control_block = some b → ∃ blk, w.heap[b]? = some blk ∧
        WeakPtr.ctor_copy other w = Result.ok w.weak.length
          { w with weak := w.weak ++ [some ⟨o.pointer, some b⟩],
                   heap := w.heap.set b
                     { blk with weak_counter := blk.weak_counter + 1 } }) ∧
    (∀ (other : Nat) (o : WeakPtr), w.weak[other]? = some (some o) →
      o.control_block = none →
        WeakPtr.ctor_copy other w = Result.ok w.weak.length
          { w with weak := w.weak ++ [some ⟨o.pointer, none⟩] }) ∧
    (∀ (other : Nat) (o : WeakPtr), w.weak[other]? = some (some o) →
      WeakPtr.ctor_move other w = Result.ok w.weak.length
        { w with weak := (w.weak ++ [some o]).set other (some ⟨none, none⟩) }) := by
  have hI := inv_of_run hrun
  refine ⟨?_, ?_, ?_, ?_⟩
  · intro sh_ptr s b hs hcb
    obtain ⟨blk, hb, hf⟩ := hI.block_of_shared hs hcb
    have hc := hI.counts b blk hb
    have hle := cntW_le_liveW w b
    have h2 : blk.weak_counter + 1 < SIZE_MOD := by omega
    refine ⟨blk, hb, ?_⟩
    simp only [WeakPtr.ctor_from_shared, bind_apply, get_shared_ok hs, new_weak, hroom, if_true,
      hcb, get_block, hb, hf, Bool.false_eq_true, if_false, set_block, pure_apply,
      Nat.mod_eq_of_lt h2]
  · intro other o b ho hcb
    obtain ⟨blk, hb, hf⟩ := hI.block_of_weak ho hcb
    have hc := hI.counts b blk hb
    have hle := cntW_le_liveW w b
    have h2 : blk.weak_counter + 1 < SIZE_MOD := by omega
    refine ⟨blk, hb, ?_⟩
    simp only [WeakPtr.ctor_copy, bind_apply, get_weak_ok ho, new_weak, hroom, if_true,
      hcb, get_block, hb, hf, Bool.false_eq_true, if_false, set_block, pure_apply,
      Nat.mod_eq_of_lt h2]
  · intro other o ho hcb
    simp only [WeakPtr.ctor_copy, bind_apply, get_weak_ok ho, new_weak, hroom, if_true,
      hcb, pure_apply]
  · intro other o ho
    cases o with
    | mk op oc =>
    simp only [WeakPtr.ctor_move, bind_apply, get_weak_ok ho, new_weak, hroom, if_true,
      set_weak, pure_apply]

/-- Witness of C26: in `world_two_weak` a weak handle is made from the shared handle 0,
and the weak handle 0 is moved from. -/
theorem C26_weak_construction_witness :
    run prog_two_weak World.empty = Except.ok world_two_weak ∧
    (∃ blk, world_two_weak.heap[0]? = some blk ∧
      WeakPtr.ctor_from_shared 0 world_two_weak = Result.ok world_two_weak.weak.length
        { world_two_weak with
          weak := world_two_weak.weak ++ [some ⟨some 0, some 0⟩],
          heap := world_two_weak.heap.set 0
            { blk with weak_counter := blk.weak_counter + 1 } }) ∧
    WeakPtr.ctor_move 0 world_two_weak = Result.ok world_two_weak.weak.length
      { world_two_weak with
        weak := (world_two_weak.weak ++ [some (⟨some 0, some 0⟩ : WeakPtr)]).set 0
                  (some ⟨none, none⟩) } :=
  ⟨rfl,
   (C26_weak_construction prog_two_weak world_two_weak rfl (by unfold SIZE_MOD; decide)).1
     0 ⟨some 0, some 0⟩ 0 rfl rfl,
   (C26_weak_construction prog_two_weak world_two_weak rfl (by unfold SIZE_MOD; decide)).2.2.2
     0 ⟨some 0, some 0⟩ rfl⟩

/-- C27: in every reachable state, `expired()` on a live weak handle returns, changes
nothing, and its value is true exactly when the control block of the handle is null
or `strong_count` of the block is 0. -/
theorem C27_expired (ops : List Op) (w : World) (this : Nat) (h : WeakPtr)
    (hrun : run ops World.empty = Except.ok w)
    (hthis : w.weak[this]? = some (some h)) :
    ∃ e, WeakPtr.expired this w = Result.ok e w ∧
      (e = true ↔ (h.control_block = none ∨
        ∃ b blk, h.control_block = some b ∧ w.heap[b]? = some blk ∧
          blk.shared_counter = 0)) := by
  have hI := inv_of_run hrun
  cases hcb : h.control_block with
  | none =>
    refine ⟨true, ?_, ?_⟩
    · simp only [WeakPtr.expired, bind_apply, get_weak_ok hthis, hcb, pure_apply]
    · exact ⟨fun _ => Or.inl rfl, fun _ => rfl⟩
  | some b =>
    obtain ⟨blk, hb, hf⟩ := hI.block_of_weak hthis hcb
    refine ⟨blk.shared_counter == 0, ?_, ?_⟩
    · simp only [WeakPtr.expired, bind_apply, get_weak_ok hthis, hcb, get_block_ok hb hf,
        pure_apply]
    · constructor
      · intro he
        right
        refine ⟨b, blk, rfl, hb, ?_⟩
        simpa using he
      · intro hor
        rcases hor with hnone | ⟨b1, blk1, hb1, hblk1, hz⟩
        · cases hnone
        · cases hb1
          rw [hb] at hblk1
          cases hblk1
          simp [hz]

/-- Witness of C27: the weak handle of `world_expired` is expired, its block has
`strong_count` 0. -/
theorem C27_expired_witness :
    run prog_expired World.empty = Except.ok world_expired ∧
    ∃ e, WeakPtr.expired 0 world_expired = Result.ok e world_expired ∧
      (e = true ↔ ((⟨some 0, some 0⟩ : WeakPtr).control_block = none ∨
        ∃ b blk, (⟨some 0, some 0⟩ : WeakPtr).control_block = some b ∧
          world_expired.heap[b]? = some blk ∧ blk.shared_counter = 0)) :=
  ⟨rfl, C27_expired prog_expired world_expired 0 ⟨some 0, some 0⟩ rfl rfl⟩

/-- C28: when the allocation succeeds, the adopting constructor of `WeakPtr` returns a
new weak handle with pointer `ptr` on a new `ControlBlockPtr` (an address that held
no block) that stores `ptr`, with `weak_count` 1 and `strong_count` 0, and changes
nothing else but the record of the allocation; `expired()` is then true and
`use_count()` is 0.  The memory model has room for one more `WeakPtr` object. -/
theorem C28_weak_adopt (w : World) (ptr : Option Nat) (del alloc : Nat)
    (hroom : liveW w + 1 < SIZE_MOD) :
    ∃ w1, WeakPtr.ctor_adopt ptr del alloc true w = Result.ok w.weak.length w1 ∧
      w.heap[w.heap.length]? = none ∧
      w1.heap = w.heap ++ [⟨0, 1, BlockKind.ptr ptr del alloc, false⟩] ∧
      w1.weak = w.weak ++ [some ⟨ptr, some w.heap.length⟩] ∧
      w1.shared = w.shared ∧ w1.objs = w.objs ∧
      w1.log = w.log ++ [Event.allocate default_alloc w.heap.length] ∧
      WeakPtr.expired w.weak.length w1 = Result.ok true w1 ∧
      WeakPtr.use_count w.weak.length w1 = Result.ok 0 w1 := by
  have hg : List.countP Option.isSome w.weak + 1 < SIZE_MOD := hroom
  have hb : (w.heap ++ [(⟨0, 0, BlockKind.ptr ptr del alloc, false⟩ : BaseControlBlock)])[
      w.heap.length]? = some ⟨0, 0, BlockKind.ptr ptr del alloc, false⟩ := by
    simp
  have hset : (w.heap ++ [(⟨0, 0, BlockKind.ptr ptr del alloc, false⟩ : BaseControlBlock)]).set
      w.heap.length ⟨0, 1, BlockKind.ptr ptr del alloc, false⟩
      = w.heap ++ [⟨0, 1, BlockKind.ptr ptr del alloc, false⟩] := by
    simp
  have e : WeakPtr.ctor_adopt ptr del alloc true w = Result.ok w.weak.length
      ⟨w.heap ++ [⟨0, 1, BlockKind.ptr ptr del alloc, false⟩], w.objs, w.shared,
       w.weak ++ [some ⟨ptr, some w.heap.length⟩],
       w.log ++ [Event.allocate default_alloc w.heap.length]⟩ := by
    simp only [WeakPtr.ctor_adopt, bind_apply, allocate_block, if_true, new_weak, liveW, hg,
      get_block, hb, Bool.false_eq_true, if_false, set_block, pure_apply, hset]
  have hwl : (w.weak ++ [some (⟨ptr, some w.heap.length⟩ : WeakPtr)])[w.weak.length]?
      = some (some ⟨ptr, some w.heap.length⟩) := List.getElem?_concat_length _ _
  have hbl : (w.heap ++ [(⟨0, 1, BlockKind.ptr ptr del alloc, false⟩ : BaseControlBlock)])[
      w.heap.length]? = some ⟨0, 1, BlockKind.ptr ptr del alloc, false⟩ :=
    List.getElem?_concat_length _ _
  refine ⟨_, e, List.getElem?_eq_none (Nat.le_refl _), rfl, rfl, rfl, rfl, rfl, ?_, ?_⟩
  · simp only [WeakPtr.expired, bind_apply, get_weak, hwl, get_block, hbl, Bool.false_eq_true,
      if_false, pure_apply]
    rfl
  · simp only [WeakPtr.use_count, bind_apply, get_weak, hwl, get_block, hbl, Bool.false_eq_true,
      if_false, pure_apply]

/-- Witness of C28: a weak handle adopts the payload 0 in a state with no handle. -/
theorem C28_weak_adopt_witness :
    ∃ w1, WeakPtr.ctor_adopt (some 0) default_delete default_alloc true
        { heap := [], objs := [⟨none⟩], shared := [], weak := [], log := [] }
        = Result.ok 0 w1 ∧
      w1.heap = [⟨0, 1, BlockKind.ptr (some 0) default_delete default_alloc, false⟩] ∧
      WeakPtr.expired 0 w1 = Result.ok true w1 ∧
      WeakPtr.use_count 0 w1 = Result.ok 0 w1 := by
  obtain ⟨w1, h1, _, h2, _, _, _, _, h3, h4⟩ :=
    C28_weak_adopt { heap := [], objs := [⟨none⟩], shared := [], weak := [], log := [] }
      (some 0) default_delete default_alloc (by unfold SIZE_MOD; decide)
  exact ⟨w1, h1, h2, h3, h4⟩

theorem set_weak_side {J : World → Prop} (hC : HandleFrame J) (i : Nat) (h : WeakPtr) :
    Keeps J (set_weak i h) (fun _ => True) := by
  intro w hJ
  exact ⟨hC w _ rfl rfl hJ, trivial⟩

theorem end_weak_side {J : World → Prop} (hC : HandleFrame J) (i : Nat) :
    Keeps J (end_weak i) (fun _ => True) := by
  intro w hJ
  exact ⟨hC w _ rfl rfl hJ, trivial⟩

theorem new_weak_side {J : World → Prop} (hC : HandleFrame J) (h : WeakPtr) :
    Keeps J (new_weak h) (fun _ => True) := by
  intro w hJ
  by_cases hg : liveW w + 1 < SIZE_MOD
  · simp only [new_weak, hg, if_true]
    exact ⟨hC w _ rfl rfl hJ, trivial⟩
  · simp only [new_weak, hg, if_false]

theorem set_block_side {J : World → Prop} (hC : HandleFrame J) (b : Nat)
    (blk : BaseControlBlock) :
    Keeps J (set_block b blk) (fun _ => True) := by
  intro w hJ
  exact ⟨hC w _ rfl rfl hJ, trivial⟩

theorem emit_side {J : World → Prop} (hC : HandleFrame J) (e : Event) :
    Keeps J (emit e) (fun _ => True) := by
  intro w hJ
  exact ⟨hC w _ rfl rfl hJ, trivial⟩

theorem get_world_side {J : World → Prop} : Keeps J get_world (fun _ => True) := by
  intro w hJ
  exact ⟨hJ, trivial⟩

theorem delete_block_side {J : World → Prop} (hC : HandleFrame J) (b : Nat) :
    Keeps J (BaseControlBlock.delete_block b) (fun _ => True) := by
  unfold BaseControlBlock.delete_block
  repeat' first
    | exact get_block_keeps _
    | exact set_block_side hC _ _
    | exact emit_side hC _
    | apply Keeps_bind
    | intro _ _

theorem WeakPtr_dtor_side {J : World → Prop} (hC : HandleFrame J) (this : Nat) :
    Keeps J (WeakPtr.dtor this) (fun _ => True) := by
  unfold WeakPtr.dtor
  repeat' first
    | exact Keeps_pure trivial
    | exact get_weak_keeps _
    | exact end_weak_side hC _
    | exact get_block_keeps _
    | exact set_block_side hC _ _
    | exact delete_block_side hC _
    | apply Keeps_bind
    | split
    | intro _ _

theorem WeakPtr_ctor_from_shared_side {J : World → Prop} (hC : HandleFrame J) (sh_ptr : Nat) :
    Keeps J (WeakPtr.ctor_from_shared sh_ptr) (fun _ => True) := by
  unfold WeakPtr.ctor_from_shared
  repeat' first
    | exact Keeps_pure trivial
    | exact Keeps_fault _
    | exact get_shared_keeps _
    | exact new_weak_side hC _
    | exact get_block_keeps _
    | exact set_block_side hC _ _
    | apply Keeps_bind
    | split
    | intro _ _

theorem WeakPtr_ctor_move_side {J : World → Prop} (hC : HandleFrame J) (other : Nat) :
    Keeps J (WeakPtr.ctor_move other) (fun _ => True) := by
  unfold WeakPtr.ctor_move
  repeat' first
    | exact Keeps_pure trivial
    | exact get_weak_keeps _
    | exact set_weak_side hC _ _
    | exact new_weak_side hC _
    | apply Keeps_bind
    | intro _ _

theorem WeakPtr_swap_side {J : World → Prop} (hC : HandleFrame J) (this other : Nat) :
    Keeps J (WeakPtr.swap this other) (fun _ => True) := by
  unfold WeakPtr.swap
  repeat' first
    | exact get_weak_keeps _
    | exact set_weak_side hC _ _
    | apply Keeps_bind
    | intro _ _

theorem WeakPtr_assign_move_side {J : World → Prop} (hC : HandleFrame J) (this other : Nat) :
    Keeps J (WeakPtr.assign_move this other) (fun _ => True) := by
  unfold WeakPtr.assign_move
  repeat' first
    | exact WeakPtr_dtor_side hC _
    | exact WeakPtr_swap_side hC _ _
    | exact WeakPtr_ctor_move_side hC _
    | apply Keeps_bind
    | intro _ _

theorem Payload_dtor_side {J : World → Prop} (hC : HandleFrame J) (p : Option Nat) :
    Keeps J (Payload.dtor p) (fun _ => True) := by
  unfold Payload.dtor
  repeat' first
    | exact Keeps_pure trivial
    | exact get_world_side
    | exact WeakPtr_dtor_side hC _
    | apply Keeps_bind
    | split
    | intro _ _

theorem BaseControlBlock_delete_obj_side {J : World → Prop} (hC : HandleFrame J) (b : Nat) :
    Keeps J (BaseControlBlock.delete_obj b) (fun _ => True) := by
  unfold BaseControlBlock.delete_obj
  repeat' first
    | exact get_block_keeps _
    | exact emit_side hC _
    | exact Payload_dtor_side hC _
    | apply Keeps_bind
    | split
    | intro _ _

theorem SharedPtr_assign_weak_ptr_side {J : World → Prop} (hC : HandleFrame J) (weak_ptr this : Nat) :
    Keeps J (SharedPtr.assign_weak_ptr weak_ptr this) (fun _ => True) := by
  unfold SharedPtr.assign_weak_ptr
  repeat' first
    | exact WeakPtr_dtor_side hC _
    | exact WeakPtr_ctor_from_shared_side hC _
    | exact WeakPtr_assign_move_side hC _ _
    | apply Keeps_bind
    | intro _ _


theorem SameButShared_frame (this : Nat) (w0 : World) :
    HandleFrame (SameButShared this w0) := by
  intro w w1 hs ho hJ
  unfold SameButShared
  rw [hs, ho]
  exact hJ

theorem SameButShared_refl (this : Nat) (w : World) : SameButShared this w w :=
  ⟨rfl, rfl, fun _ _ => rfl⟩

theorem end_shared_same (this : Nat) (w0 : World) :
    Keeps (SameButShared this w0) (end_shared this) (fun _ => True) := by
  intro w hJ
  refine ⟨⟨hJ.1, ?_, ?_⟩, trivial⟩
  · simp only [List.length_set]
    exact hJ.2.1
  · intro i hi
    simp only [List.getElem?_set_ne (Ne.symm hi)]
    exact hJ.2.2 i hi

/-- `~SharedPtr` leaves the payloads and every other `SharedPtr` object as they are. -/
theorem SharedPtr_dtor_same (this : Nat) (w0 : World) :
    Keeps (SameButShared this w0) (SharedPtr.dtor this) (fun _ => True) := by
  have hC := SameButShared_frame this w0
  unfold SharedPtr.dtor
  refine Keeps_bind (get_shared_keeps _) (fun h _ => ?_)
  refine Keeps_bind (end_shared_same this w0) (fun _ _ => ?_)
  repeat' first
    | exact Keeps_pure trivial
    | exact get_block_keeps _
    | exact set_block_side hC _ _
    | exact BaseControlBlock_delete_obj_side hC _
    | exact delete_block_side hC _
    | apply Keeps_bind
    | split
    | intro _ _

theorem SharedPtr_dtor_frame {this : Nat} {w w1 : World}
    (h : SharedPtr.dtor this w = Result.ok () w1) : SameButShared this w w1 := by
  have hk := SharedPtr_dtor_same this w w (SameButShared_refl this w)
  rw [h] at hk
  exact hk.1

/-- The statement `ptr->weak_ptr = *this;` changes no `SharedPtr` object. -/
theorem SharedPtr_assign_weak_ptr_frame {weak_ptr this : Nat} {w w1 : World}
    (h : SharedPtr.assign_weak_ptr weak_ptr this w = Result.ok () w1) :
    w1.shared = w.shared := by
  have hC : HandleFrame (fun w2 => w2.shared = w.shared) := by
    intro w2 w3 hs _ hJ
    rw [hs]
    exact hJ
  have hk := SharedPtr_assign_weak_ptr_side hC weak_ptr this w rfl
  rw [h] at hk
  exact hk.1

/-- A sequence returns only if its first statement returns. -/
theorem ok_of_match {α β : Type} {r : Result α} {f : α → World → Result β} {b : β}
    {w1 : World}
    (h : (match r with
      | Result.ok a w2 => f a w2
      | Result.throw e w2 => Result.throw e w2
      | Result.fault x => Result.fault x) = Result.ok b w1) :
    ∃ a w2, r = Result.ok a w2 ∧ f a w2 = Result.ok b w1 := by
  cases r with
  | ok a w2 => exact ⟨a, w2, rfl, h⟩
  | throw e w2 => cases h
  | fault x => cases h

theorem GrewBy_push {w w1 : World} (s : SharedPtr) (hs : w1.shared = w.shared ++ [some s]) :
    GrewBy w w1 w.shared.length := by
  refine ⟨rfl, ?_, ⟨s, ?_⟩, ?_⟩
  · rw [hs]; simp
  · rw [hs]; exact List.getElem?_concat_length _ _
  · intro i hh hi
    refine ⟨hh, ?_⟩
    rw [hs, List.getElem?_append_left (get_lt hi)]
    exact hi

theorem GrewBy_push_set {w w1 : World} (s x : SharedPtr) {other : Nat}
    (hlt : other < w.shared.length)
    (hs : w1.shared = (w.shared ++ [some s]).set other (some x)) :
    GrewBy w w1 w.shared.length := by
  refine ⟨rfl, ?_, ⟨s, ?_⟩, ?_⟩
  · rw [hs]; simp
  · rw [hs, List.getElem?_set_ne (by omega)]; exact List.getElem?_concat_length _ _
  · intro i hh hi
    by_cases hio : other = i
    · refine ⟨x, ?_⟩
      rw [hs, hio, List.getElem?_set_self (by simp; have := get_lt hi; omega)]
    · refine ⟨hh, ?_⟩
      rw [hs, List.getElem?_set_ne hio, List.getElem?_append_left (get_lt hi)]
      exact hi

/-- A constructor of `SharedPtr` that returns has made one new object, the last one,
and has ended the lifetime of none. -/
theorem SharedPtr_construct_shape {args : SharedPtr.Args} {w w1 : World} {tmp : Nat}
    (h : SharedPtr.construct args w = Result.ok tmp w1) : GrewBy w w1 tmp := by
  cases args with
  | default =>
    simp only [SharedPtr.construct, SharedPtr.ctor_default, new_shared] at h
    by_cases hg : liveS w + 1 < SIZE_MOD
    · simp only [hg, if_true, Result.ok.injEq] at h
      obtain ⟨h1, h2⟩ := h
      subst h1
      subst h2
      exact GrewBy_push _ rfl
    · simp only [hg, if_false] at h
      cases h
  | adopt ptr del alloc alloc_ok =>
    cases alloc_ok with
    | false =>
      simp only [SharedPtr.construct, SharedPtr.ctor_adopt, bind_apply, allocate_block,
        Bool.false_eq_true, if_false] at h
      cases h
    | true =>
      have hb : (w.heap ++ [(⟨0, 0, BlockKind.ptr ptr del alloc, false⟩ : BaseControlBlock)])[
          w.heap.length]? = some ⟨0, 0, BlockKind.ptr ptr del alloc, false⟩ := by
        simp
      by_cases hg : List.countP Option.isSome w.shared + 1 < SIZE_MOD
      · have hp2 : ∀ (hp : List BaseControlBlock) (sh : List (Option SharedPtr))
            (lg : List Event),
            weak_ptr_of { heap := hp, objs := w.objs, shared := sh, weak := w.weak, log := lg }
              ptr = weak_ptr_of w ptr := fun _ _ _ => rfl
        simp only [SharedPtr.construct, SharedPtr.ctor_adopt, bind_apply, allocate_block,
          if_true, new_shared, liveS, hg, get_block, hb, Bool.false_eq_true, if_false,
          set_block, get_world, hp2] at h
        cases hwp : weak_ptr_of w ptr with
        | none =>
          simp only [hwp, pure_apply, Result.ok.injEq] at h
          obtain ⟨h1, h2⟩ := h
          subst h1
          subst h2
          exact GrewBy_push _ rfl
        | some m =>
          simp only [hwp] at h
          obtain ⟨a, w2, heq, h⟩ := ok_of_match h
          simp only [pure_apply, Result.ok.injEq] at h
          obtain ⟨h1, h2⟩ := h
          subst h1
          subst h2
          exact GrewBy_push _ (SharedPtr_assign_weak_ptr_frame heq)
      · simp only [SharedPtr.construct, SharedPtr.ctor_adopt, bind_apply, allocate_block,
          if_true, new_shared, liveS, hg, if_false] at h
        cases h
  | aliasing other ptr =>
    simp only [SharedPtr.construct, SharedPtr.ctor_alias, bind_apply, get_shared] at h
    cases ho : w.shared[other]? with
    | none => simp only [ho] at h; cases h
    | some s =>
      cases s with
      | none => simp only [ho] at h; cases h
      | some o =>
        simp only [ho, new_shared] at h
        by_cases hg : liveS w + 1 < SIZE_MOD
        · simp only [hg, if_true] at h
          cases hcb : o.control_block with
          | none =>
            simp only [hcb, pure_apply, Result.ok.injEq] at h
            obtain ⟨h1, h2⟩ := h
            subst h1
            subst h2
            exact GrewBy_push _ rfl
          | some b =>
            simp only [hcb, bind_apply, get_block] at h
            cases hb : w.heap[b]? with
            | none => simp only [hb] at h; cases h
            | some blk =>
              simp only [hb] at h
              cases hf : blk.freed with
              | true => simp only [hf, if_true] at h; cases h
              | false =>
                simp only [hf, Bool.false_eq_true, if_false, set_block, pure_apply,
                  Result.ok.injEq] at h
                obtain ⟨h1, h2⟩ := h
                subst h1
                subst h2
                exact GrewBy_push _ rfl
        · simp only [hg, if_false] at h
          cases h
  | copy other =>
    simp only [SharedPtr.construct, SharedPtr.ctor_copy, bind_apply, get_shared] at h
    cases ho : w.shared[other]? with
    | none => simp only [ho] at h; cases h
    | some s =>
      cases s with
      | none => simp only [ho] at h; cases h
      | some o =>
        simp only [ho, new_shared] at h
        by_cases hg : liveS w + 1 < SIZE_MOD
        · simp only [hg, if_true] at h
          cases hcb : o.control_block with
          | none =>
            simp only [hcb, pure_apply, Result.ok.injEq] at h
            obtain ⟨h1, h2⟩ := h
            subst h1
            subst h2
            exact GrewBy_push _ rfl
          | some b =>
            simp only [hcb, bind_apply, get_block] at h
            cases hb : w.heap[b]? with
            | none => simp only [hb] at h; cases h
            | some blk =>
              simp only [hb] at h
              cases hf : blk.freed with
              | true => simp only [hf, if_true] at h; cases h
              | false =>
                simp only [hf, Bool.false_eq_true, if_false, set_block, pure_apply,
                  Result.ok.injEq] at h
                obtain ⟨h1, h2⟩ := h
                subst h1
                subst h2
                exact GrewBy_push _ rfl
        · simp only [hg, if_false] at h
          cases h
  | move other =>
    simp only [SharedPtr.construct, SharedPtr.ctor_move, bind_apply, get_shared] at h
    cases ho : w.shared[other]? with
    | none => simp only [ho] at h; cases h
    | some s =>
      cases s with
      | none => simp only [ho] at h; cases h
      | some o =>
        simp only [ho, new_shared] at h
        by_cases hg : liveS w + 1 < SIZE_MOD
        · simp only [hg, if_true, set_shared, pure_apply, Result.ok.injEq] at h
          obtain ⟨h1, h2⟩ := h
          subst h1
          subst h2
          exact GrewBy_push_set _ _ (get_lt ho) rfl
        · simp only [hg, if_false] at h
          cases h

/-- `SharedPtr(SharedPtr&&)`. -/
theorem SharedPtr_ctor_move_eq {w : World} {other : Nat} {o : SharedPtr}
    (ho : w.shared[other]? = some (some o)) (hg : liveS w + 1 < SIZE_MOD) :
    SharedPtr.ctor_move other w = Result.ok w.shared.length
      ⟨w.heap, w.objs, (w.shared ++ [some o]).set other (some ⟨none, none⟩), w.weak,
       w.log⟩ := by
  cases o with
  | mk op oc =>
  simp only [SharedPtr.ctor_move, bind_apply, get_shared_ok ho, new_shared, hg, if_true,
    set_shared, pure_apply]

/-- `SharedPtr::swap`. -/
theorem SharedPtr_swap_eq {w : World} {this other : Nat} {a o : SharedPtr}
    (ha : w.shared[this]? = some (some a)) (ho : w.shared[other]? = some (some o)) :
    SharedPtr.swap this other w = Result.ok ()
      ⟨w.heap, w.objs, (w.shared.set this (some o)).set other (some a), w.weak, w.log⟩ := by
  cases o with
  | mk op oc =>
  cases a with
  | mk ap ac =>
  simp only [SharedPtr.swap, bind_apply, get_shared_ok ha, get_shared_ok ho, set_shared]

/-- C25: in every reachable state, for a live handle `this` and an argument pack whose
constructor returns the temporary `tmp` (room for one more `SharedPtr` object being
left): with `t` the members of the temporary and `h1` the members of `this` at that
point, `reset` is the destructor `~SharedPtr` run on an object that holds `h1`, in
the state the constructor left, where `this` already holds `t`; then the lifetime
of the emptied temporary ends.  So when `reset` returns `this` holds `t` (null
pointer and null block for `reset()`), and what happened to the block of `h1` is what
`~SharedPtr` does: nothing for a null block; otherwise, for a payload that stores no
weak handle, `strong_count` one lower, `delete_obj` if it reached 0 and `delete_block`
if `weak_count` is 0 as well. -/
theorem C25_reset (ops : List Op) (w w1 : World) (this tmp : Nat) (h : SharedPtr)
    (args : SharedPtr.Args)
    (hrun : run ops World.empty = Except.ok w)
    (hthis : w.shared[this]? = some (some h))
    (hcons : SharedPtr.construct args w = Result.ok tmp w1)
    (hroom : liveS w1 + 1 < SIZE_MOD) :
    ∃ t h1 w3, w1.shared[tmp]? = some (some t) ∧ w1.shared[this]? = some (some h1) ∧
      (args = SharedPtr.Args.default → t = ⟨none, none⟩) ∧
      w3 = ⟨w1.heap, w1.objs,
            (((w1.shared ++ [some t]).set tmp (some ⟨none, none⟩)).set this (some t)).set
              w1.shared.length (some h1),
            w1.weak, w1.log⟩ ∧
      w3.shared[this]? = some (some t) ∧
      w3.shared[w1.shared.length]? = some (some h1) ∧
      SharedPtr.reset this args w
        = (SharedPtr.dtor w1.shared.length >>= fun _ => SharedPtr.dtor tmp) w3 ∧
      (∀ w4, SharedPtr.dtor w1.shared.length w3 = Result.ok () w4 →
        SharedPtr.reset this args w
          = Result.ok () { w4 with shared := w4.shared.set tmp none } ∧
        (w4.shared.set tmp none)[this]? = some (some t) ∧
        SharedPtr.get this { w4 with shared := w4.shared.set tmp none }
          = Result.ok t.pointer { w4 with shared := w4.shared.set tmp none } ∧
        (t.control_block = none →
          SharedPtr.use_count this { w4 with shared := w4.shared.set tmp none }
            = Result.ok 0 { w4 with shared := w4.shared.set tmp none })) ∧
      (h1.control_block = none →
        SharedPtr.dtor w1.shared.length w3
          = Result.ok () { w3 with shared := w3.shared.set w1.shared.length none }) ∧
      (∀ b, h1.control_block = some b → ∃ blk, w1.heap[b]? = some blk ∧
        1 ≤ blk.shared_counter ∧
        (weak_ptr_of w1 blk.kind.payload = none →
          SharedPtr.dtor w1.shared.length w3 = Result.ok ()
            { w3 with shared := w3.shared.set w1.shared.length none,
                      heap := w1.heap.set b
                        ⟨blk.shared_counter - 1, blk.weak_counter, blk.kind,
                         decide (blk.shared_counter = 1 ∧ blk.weak_counter = 0)⟩,
                      log := w1.log ++
                        (if blk.shared_counter = 1 then
                          [Event.delete_obj b, blk.kind.destroy_event] ++
                            (if blk.weak_counter = 0 then
                              [Event.delete_block b, Event.deallocate default_alloc b]
                            else [])
                        else []) })) := by
  have hI := inv_of_run hrun
  have hI1 := (SharedPtr_construct_inv args).elim_ok hI hcons
  obtain ⟨htmp, hlen, ⟨t, ht⟩, hkeep⟩ := SharedPtr_construct_shape hcons
  obtain ⟨h1, hh1⟩ := hkeep this h hthis
  have hlt := get_lt hthis
  have hne : this ≠ tmp := by omega
  have e2 := SharedPtr_ctor_move_eq ht hroom
  have hI2 := (SharedPtr_ctor_move_inv tmp).elim_ok hI1 e2
  have hthis2 : ((w1.shared ++ [some t]).set tmp (some (⟨none, none⟩ : SharedPtr)))[this]?
      = some (some h1) := by
    rw [List.getElem?_set_ne (Ne.symm hne), List.getElem?_append_left (by omega)]
    exact hh1
  have hcopy2 : ((w1.shared ++ [some t]).set tmp (some (⟨none, none⟩ : SharedPtr)))[
      w1.shared.length]? = some (some t) := by
    rw [List.getElem?_set_ne (by omega)]
    exact List.getElem?_concat_length _ _
  have e3 : SharedPtr.swap this w1.shared.length
      ⟨w1.heap, w1.objs, (w1.shared ++ [some t]).set tmp (some ⟨none, none⟩), w1.weak, w1.log⟩
      = Result.ok () ⟨w1.heap, w1.objs,
          (((w1.shared ++ [some t]).set tmp (some ⟨none, none⟩)).set this (some t)).set
            w1.shared.length (some h1), w1.weak, w1.log⟩ :=
    SharedPtr_swap_eq hthis2 hcopy2
  have hI3 := (SharedPtr_swap_inv this w1.shared.length).elim_ok hI2 e3
  have hs3this : ((((w1.shared ++ [some t]).set tmp (some (⟨none, none⟩ : SharedPtr))).set this
      (some t)).set w1.shared.length (some h1))[this]? = some (some t) := by
    rw [List.getElem?_set_ne (by omega), List.getElem?_set_self (by simp; omega)]
  have hs3tmp : ((((w1.shared ++ [some t]).set tmp (some (⟨none, none⟩ : SharedPtr))).set this
      (some t)).set w1.shared.length (some h1))[tmp]? = some (some ⟨none, none⟩) := by
    rw [List.getElem?_set_ne (by omega), List.getElem?_set_ne hne,
      List.getElem?_set_self (by simp; omega)]
  have hs3copy : ((((w1.shared ++ [some t]).set tmp (some (⟨none, none⟩ : SharedPtr))).set this
      (some t)).set w1.shared.length (some h1))[w1.shared.length]? = some (some h1) := by
    rw [List.getElem?_set_self (by simp)]
  have hreset : SharedPtr.reset this args w
      = (SharedPtr.dtor w1.shared.length >>= fun _ => SharedPtr.dtor tmp)
          ⟨w1.heap, w1.objs,
            (((w1.shared ++ [some t]).set tmp (some ⟨none, none⟩)).set this (some t)).set
              w1.shared.length (some h1), w1.weak, w1.log⟩ := by
    simp only [SharedPtr.reset, SharedPtr.assign_move, bind_apply, hcons, e2, e3]
  refine ⟨t, h1, _, ht, hh1, ?_, rfl, hs3this, hs3copy, hreset, ?_, ?_, ?_⟩
  · intro hargs
    subst hargs
    simp only [SharedPtr.construct, SharedPtr.ctor_default, new_shared] at hcons
    by_cases hg : liveS w + 1 < SIZE_MOD
    · simp only [hg, if_true, Result.ok.injEq] at hcons
      obtain ⟨c1, c2⟩ := hcons
      subst c1
      subst c2
      simp only [List.getElem?_concat_length, Option.some.injEq] at ht
      exact ht.symm
    · simp only [hg, if_false] at hcons
      cases hcons
  · intro w4 hd
    obtain ⟨_, hl4, hsame⟩ := SharedPtr_dtor_frame hd
    have h4tmp : w4.shared[tmp]? = some (some ⟨none, none⟩) := by
      rw [hsame tmp (by omega)]
      exact hs3tmp
    have h4this : w4.shared[this]? = some (some t) := by
      rw [hsame this (by omega)]
      exact hs3this
    have hfin : (w4.shared.set tmp none)[this]? = some (some t) := by
      rw [List.getElem?_set_ne (Ne.symm hne)]
      exact h4this
    refine ⟨?_, hfin, ?_, ?_⟩
    · rw [hreset]
      simp only [bind_apply, hd]
      exact SharedPtr_dtor_null h4tmp rfl
    · simp only [SharedPtr.get, bind_apply, get_shared, hfin, pure_apply]
    · intro htn
      simp only [SharedPtr.use_count, bind_apply, get_shared, hfin, htn, pure_apply]
  · intro hcb
    exact SharedPtr_dtor_null hs3copy hcb
  · intro b hcb
    obtain ⟨blk, hb, hf⟩ := hI3.block_of_shared hs3copy hcb
    have hc := hI3.counts b blk hb
    have hpos : 0 < cntS
        (⟨w1.heap, w1.objs,
          (((w1.shared ++ [some t]).set tmp (some ⟨none, none⟩)).set this (some t)).set
            w1.shared.length (some h1), w1.weak, w1.log⟩ : World) b :=
      countP_pos_of_get (refS b) _ w1.shared.length (some h1) hs3copy (by simp [refS_of hcb])
    have hle := cntS_le_liveS
      (⟨w1.heap, w1.objs,
        (((w1.shared ++ [some t]).set tmp (some ⟨none, none⟩)).set this (some t)).set
          w1.shared.length (some h1), w1.weak, w1.log⟩ : World) b
    have hl := hI3.live_s
    refine ⟨blk, hb, by omega, ?_⟩
    intro hp
    exact SharedPtr_dtor_plain_eq hs3copy hcb hb hf (by omega) (by omega) hp

/-- Witness of C25: `reset()` on the handle of `world_single`: the handle is empty
afterwards, the payload is destroyed and the block released, as `~SharedPtr` does. -/
theorem C25_reset_witness :
    run prog_single World.empty = Except.ok world_single ∧
    SharedPtr.reset 0 SharedPtr.Args.default world_single = Result.ok ()
      { heap := [⟨0, 0, BlockKind.ptr (some 0) default_delete default_alloc, true⟩],
        objs := [⟨none⟩],
        shared := [some ⟨none, none⟩, none, none],
        weak := [],
        log := [Event.allocate default_alloc 0, Event.delete_obj 0,
                Event.deleter default_delete (some 0), Event.delete_block 0,
                Event.deallocate default_alloc 0] } := by
  refine ⟨rfl, ?_⟩
  obtain ⟨t, h1, w3, ht, hh1, hdef, hw3, _, _, _, hall, _, hblk⟩ :=
    C25_reset prog_single world_single
      { world_single with shared := [some ⟨some 0, some 0⟩, some ⟨none, none⟩] }
      0 1 ⟨some 0, some 0⟩ SharedPtr.Args.default rfl rfl rfl (by unfold SIZE_MOD; decide)
  have ht1 : t = ⟨none, none⟩ := hdef rfl
  have hh2 : h1 = ⟨some 0, some 0⟩ := by
    have h0 : ({ world_single with
        shared := [some ⟨some 0, some 0⟩, some ⟨none, none⟩] } : World).shared[0]?
        = some (some ⟨some 0, some 0⟩) := rfl
    rw [h0] at hh1
    exact (Option.some.inj (Option.some.inj hh1)).symm
  subst ht1
  subst hh2
  subst hw3
  obtain ⟨blk, hb, _, hd⟩ := hblk 0 rfl
  have hblk0 : blk = ⟨1, 0, BlockKind.ptr (some 0) default_delete default_alloc, false⟩ := by
    have h0 : ({ world_single with
        shared := [some ⟨some 0, some 0⟩, some ⟨none, none⟩] } : World).heap[0]?
        = some ⟨1, 0, BlockKind.ptr (some 0) default_delete default_alloc, false⟩ := rfl
    rw [h0] at hb
    exact (Option.some.inj hb).symm
  subst hblk0
  exact (hall _ (hd rfl)).1

theorem frame_kind {J : World → Prop} (hC : BlockStable J) {α : Type} (m : M α)
    (hm : ∀ w, match m w with
      | Result.ok _ w1 => w1.heap = w.heap
      | Result.throw _ w1 => w1.heap = w.heap
      | Result.fault _ => True) :
    Keeps J m (fun _ => True) := by
  intro w hJ
  have h := hm w
  cases hr : m w with
  | ok a w1 =>
    rw [hr] at h
    exact ⟨hC.frame w w1 h hJ, trivial⟩
  | throw e w1 =>
    rw [hr] at h
    exact hC.frame w w1 h hJ
  | fault f => trivial

theorem set_shared_kind {J : World → Prop} (hC : BlockStable J) (i : Nat) (h : SharedPtr) :
    Keeps J (set_shared i h) (fun _ => True) :=
  frame_kind hC _ (fun _ => rfl)

theorem end_shared_kind {J : World → Prop} (hC : BlockStable J) (i : Nat) :
    Keeps J (end_shared i) (fun _ => True) :=
  frame_kind hC _ (fun _ => rfl)

theorem new_shared_kind {J : World → Prop} (hC : BlockStable J) (h : SharedPtr) :
    Keeps J (new_shared h) (fun _ => True) := by
  refine frame_kind hC _ (fun w => ?_)
  by_cases hg : liveS w + 1 < SIZE_MOD
  · simp only [new_shared, hg, if_true]
  · simp only [new_shared, hg, if_false]

theorem set_weak_kind {J : World → Prop} (hC : BlockStable J) (i : Nat) (h : WeakPtr) :
    Keeps J (set_weak i h) (fun _ => True) :=
  frame_kind hC _ (fun _ => rfl)

theorem end_weak_kind {J : World → Prop} (hC : BlockStable J) (i : Nat) :
    Keeps J (end_weak i) (fun _ => True) :=
  frame_kind hC _ (fun _ => rfl)

theorem new_weak_kind {J : World → Prop} (hC : BlockStable J) (h : WeakPtr) :
    Keeps J (new_weak h) (fun _ => True) := by
  refine frame_kind hC _ (fun w => ?_)
  by_cases hg : liveW w + 1 < SIZE_MOD
  · simp only [new_weak, hg, if_true]
  · simp only [new_weak, hg, if_false]

theorem emit_kind {J : World → Prop} (hC : BlockStable J) (e : Event) :
    Keeps J (emit e) (fun _ => True) :=
  frame_kind hC _ (fun _ => rfl)

theorem allocate_block_kind {J : World → Prop} (hC : BlockStable J) (alloc_ok : Bool)
    (kind : BlockKind) :
    Keeps J (allocate_block alloc_ok kind) (fun _ => True) := by
  intro w hJ
  cases alloc_ok with
  | true =>
    have h1 := hC.alloc w ⟨0, 0, kind, false⟩ hJ
    exact ⟨hC.frame ⟨w.heap ++ [⟨0, 0, kind, false⟩], w.objs, w.shared, w.weak, w.log⟩
      ⟨w.heap ++ [⟨0, 0, kind, false⟩], w.objs, w.shared, w.weak,
       w.log ++ [Event.allocate default_alloc w.heap.length]⟩ rfl h1, trivial⟩
  | false => exact hJ

/-- A block is read and written back with the same `kind`. -/
theorem update_block_kind {J : World → Prop} (hC : BlockStable J) {β : Type} (b : Nat)
    (g : BaseControlBlock → BaseControlBlock) (rest : BaseControlBlock → M β)
    {R : β → Prop} (hg : ∀ blk, (g blk).kind = blk.kind)
    (hrest : ∀ blk, Keeps J (rest blk) R) :
    Keeps J (get_block b >>= fun blk => set_block b (g blk) >>= fun _ => rest blk) R := by
  intro w hJ
  simp only [bind_apply, get_block]
  cases hb : w.heap[b]? with
  | none => trivial
  | some blk =>
    cases hf : blk.freed with
    | true => simp only [hf, if_true]
    | false =>
      simp only [hf, Bool.false_eq_true, if_false, set_block]
      exact hrest blk _ (hC.update w b blk (g blk) hJ hb (hg blk))

theorem delete_block_kind {J : World → Prop} (hC : BlockStable J) (b : Nat) :
    Keeps J (BaseControlBlock.delete_block b) (fun _ => True) := by
  intro w hJ
  simp only [BaseControlBlock.delete_block, bind_apply, get_block]
  cases hb : w.heap[b]? with
  | none => trivial
  | some blk =>
    cases hf : blk.freed with
    | true => simp only [hf, if_true]
    | false =>
      simp only [hf, Bool.false_eq_true, if_false, emit, set_block]
      have h1 := hC.frame w
        { w with log := w.log ++ [Event.delete_block b] ++ [Event.deallocate default_alloc b] }
        rfl hJ
      exact ⟨hC.update _ b blk { blk with freed := true } h1 hb rfl, trivial⟩

theorem WeakPtr_dtor_kind {J : World → Prop} (hC : BlockStable J) (this : Nat) :
    Keeps J (WeakPtr.dtor this) (fun _ => True) := by
  unfold WeakPtr.dtor
  repeat' first
    | exact Keeps_pure trivial
    | exact get_weak_keeps _
    | exact end_weak_kind hC _
    | exact get_block_keeps _
    | exact delete_block_kind hC _
    | refine update_block_kind hC _ _ _ (fun _ => rfl) (fun _ => ?_)
    | apply Keeps_bind
    | split
    | intro _ _


theorem WeakPtr_ctor_adopt_kind {J : World → Prop} (hC : BlockStable J)
    (ptr : Option Nat) (del alloc : Nat) (alloc_ok : Bool) :
    Keeps J (WeakPtr.ctor_adopt ptr del alloc alloc_ok) (fun _ => True) := by
  unfold WeakPtr.ctor_adopt
  repeat' first
    | exact Keeps_pure trivial
    | exact new_weak_kind hC _
    | exact get_block_keeps _
    | exact allocate_block_kind hC _ _
    | refine update_block_kind hC _ _ _ (fun _ => rfl) (fun _ => ?_)
    | apply Keeps_bind
    | intro _ _

theorem WeakPtr_ctor_alias_kind {J : World → Prop} (hC : BlockStable J)
    (other : Nat) (ptr : Option Nat) :
    Keeps J (WeakPtr.ctor_alias other ptr) (fun _ => True) := by
  unfold WeakPtr.ctor_alias
  repeat' first
    | exact Keeps_pure trivial
    | exact get_weak_keeps _
    | exact new_weak_kind hC _
    | exact get_block_keeps _
    | refine update_block_kind hC _ _ _ (fun _ => rfl) (fun _ => ?_)
    | apply Keeps_bind
    | split
    | intro _ _

theorem WeakPtr_ctor_copy_kind {J : World → Prop} (hC : BlockStable J) (other : Nat) :
    Keeps J (WeakPtr.ctor_copy other) (fun _ => True) := by
  unfold WeakPtr.ctor_copy
  repeat' first
    | exact Keeps_pure trivial
    | exact get_weak_keeps _
    | exact new_weak_kind hC _
    | exact get_block_keeps _
    | refine update_block_kind hC _ _ _ (fun _ => rfl) (fun _ => ?_)
    | apply Keeps_bind
    | split
    | intro _ _

theorem WeakPtr_ctor_move_kind {J : World → Prop} (hC : BlockStable J) (other : Nat) :
    Keeps J (WeakPtr.ctor_move other) (fun _ => True) := by
  unfold WeakPtr.ctor_move
  repeat' first
    | exact Keeps_pure trivial
    | exact get_weak_keeps _
    | exact set_weak_kind hC _ _
    | exact new_weak_kind hC _
    | apply Keeps_bind
    | intro _ _

theorem WeakPtr_ctor_from_shared_kind {J : World → Prop} (hC : BlockStable J) (sh_ptr : Nat) :
    Keeps J (WeakPtr.ctor_from_shared sh_ptr) (fun _ => True) := by
  unfold WeakPtr.ctor_from_shared
  repeat' first
    | exact Keeps_pure trivial
    | exact Keeps_fault _
    | exact get_shared_keeps _
    | exact new_weak_kind hC _
    | exact get_block_keeps _
    | refine update_block_kind hC _ _ _ (fun _ => rfl) (fun _ => ?_)
    | apply Keeps_bind
    | split
    | intro _ _

theorem WeakPtr_swap_kind {J : World → Prop} (hC : BlockStable J) (this other : Nat) :
    Keeps J (WeakPtr.swap this other) (fun _ => True) := by
  unfold WeakPtr.swap
  repeat' first
    | exact get_weak_keeps _
    | exact set_weak_kind hC _ _
    | apply Keeps_bind
    | intro _ _

theorem WeakPtr_assign_copy_kind {J : World → Prop} (hC : BlockStable J) (this other : Nat) :
    Keeps J (WeakPtr.assign_copy this other) (fun _ => True) := by
  unfold WeakPtr.assign_copy
  repeat' first
    | exact WeakPtr_dtor_kind hC _
    | exact WeakPtr_swap_kind hC _ _
    | exact WeakPtr_ctor_copy_kind hC _
    | apply Keeps_bind
    | intro _ _

theorem WeakPtr_assign_move_kind {J : World → Prop} (hC : BlockStable J) (this other : Nat) :
    Keeps J (WeakPtr.assign_move this other) (fun _ => True) := by
  unfold WeakPtr.assign_move
  repeat' first
    | exact WeakPtr_dtor_kind hC _
    | exact WeakPtr_swap_kind hC _ _
    | exact WeakPtr_ctor_move_kind hC _
    | apply Keeps_bind
    | intro _ _

theorem WeakPtr_expired_kind {J : World → Prop} (_hC : BlockStable J) (this : Nat) :
    Keeps J (WeakPtr.expired this) (fun _ => True) := by
  unfold WeakPtr.expired
  repeat' first
    | exact Keeps_pure trivial
    | exact get_weak_keeps _
    | exact get_block_keeps _
    | apply Keeps_bind
    | split
    | intro _ _

theorem WeakPtr_get_kind {J : World → Prop} (_hC : BlockStable J) (this : Nat) :
    Keeps J (WeakPtr.get this) (fun _ => True) := by
  unfold WeakPtr.get
  repeat' first
    | exact Keeps_pure trivial
    | exact get_weak_keeps _
    | apply Keeps_bind
    | intro _ _

theorem WeakPtr_use_count_kind {J : World → Prop} (_hC : BlockStable J) (this : Nat) :
    Keeps J (WeakPtr.use_count this) (fun _ => True) := by
  unfold WeakPtr.use_count
  repeat' first
    | exact Keeps_pure trivial
    | exact get_weak_keeps _
    | exact get_block_keeps _
    | apply Keeps_bind
    | split
    | intro _ _

theorem Payload_dtor_kind {J : World → Prop} (hC : BlockStable J) (p : Option Nat) :
    Keeps J (Payload.dtor p) (fun _ => True) := by
  unfold Payload.dtor
  repeat' first
    | exact Keeps_pure trivial
    | exact get_world_keeps
    | exact WeakPtr_dtor_kind hC _
    | apply Keeps_bind
    | split
    | intro _ _

theorem BaseControlBlock_delete_obj_kind {J : World → Prop} (hC : BlockStable J) (b : Nat) :
    Keeps J (BaseControlBlock.delete_obj b) (fun _ => True) := by
  unfold BaseControlBlock.delete_obj
  repeat' first
    | exact get_block_keeps _
    | exact emit_kind hC _
    | exact Payload_dtor_kind hC _
    | apply Keeps_bind
    | split
    | intro _ _

theorem SharedPtr_ctor_private_kind {J : World → Prop} (hC : BlockStable J)
    (pointer control_block : Option Nat) :
    Keeps J (SharedPtr.ctor_private pointer control_block) (fun _ => True) := by
  unfold SharedPtr.ctor_private
  repeat' first
    | exact Keeps_pure trivial
    | exact Keeps_fault _
    | exact new_shared_kind hC _
    | exact get_block_keeps _
    | refine update_block_kind hC _ _ _ (fun _ => rfl) (fun _ => ?_)
    | apply Keeps_bind
    | split
    | intro _ _

theorem WeakPtr_lock_kind {J : World → Prop} (hC : BlockStable J) (this : Nat) :
    Keeps J (WeakPtr.lock this) (fun _ => True) := by
  unfold WeakPtr.lock
  repeat' first
    | exact get_weak_keeps _
    | exact SharedPtr_ctor_private_kind hC _ _
    | apply Keeps_bind
    | intro _ _

theorem SharedPtr_assign_weak_ptr_kind {J : World → Prop} (hC : BlockStable J)
    (weak_ptr this : Nat) :
    Keeps J (SharedPtr.assign_weak_ptr weak_ptr this) (fun _ => True) := by
  unfold SharedPtr.assign_weak_ptr
  repeat' first
    | exact WeakPtr_dtor_kind hC _
    | exact WeakPtr_ctor_from_shared_kind hC _
    | exact WeakPtr_assign_move_kind hC _ _
    | apply Keeps_bind
    | intro _ _

theorem SharedPtr_ctor_adopt_kind {J : World → Prop} (hC : BlockStable J)
    (ptr : Option Nat) (del alloc : Nat) (alloc_ok : Bool) :
    Keeps J (SharedPtr.ctor_adopt ptr del alloc alloc_ok) (fun _ => True) := by
  unfold SharedPtr.ctor_adopt
  repeat' first
    | exact Keeps_pure trivial
    | exact new_shared_kind hC _
    | exact get_block_keeps _
    | exact get_world_keeps
    | exact allocate_block_kind hC _ _
    | exact SharedPtr_assign_weak_ptr_kind hC _ _
    | refine update_block_kind hC _ _ _ (fun _ => rfl) (fun _ => ?_)
    | apply Keeps_bind
    | split
    | intro _ _

theorem SharedPtr_ctor_alias_kind {J : World → Prop} (hC : BlockStable J)
    (other : Nat) (ptr : Option Nat) :
    Keeps J (SharedPtr.ctor_alias other ptr) (fun _ => True) := by
  unfold SharedPtr.ctor_alias
  repeat' first
    | exact Keeps_pure trivial
    | exact get_shared_keeps _
    | exact new_shared_kind hC _
    | exact get_block_keeps _
    | refine update_block_kind hC _ _ _ (fun _ => rfl) (fun _ => ?_)
    | apply Keeps_bind
    | split
    | intro _ _

theorem SharedPtr_ctor_copy_kind {J : World → Prop} (hC : BlockStable J) (other : Nat) :
    Keeps J (SharedPtr.ctor_copy other) (fun _ => True) := by
  unfold SharedPtr.ctor_copy
  repeat' first
    | exact Keeps_pure trivial
    | exact get_shared_keeps _
    | exact new_shared_kind hC _
    | exact get_block_keeps _
    | refine update_block_kind hC _ _ _ (fun _ => rfl) (fun _ => ?_)
    | apply Keeps_bind
    | split
    | intro _ _

theorem SharedPtr_ctor_move_kind {J : World → Prop} (hC : BlockStable J) (other : Nat) :
    Keeps J (SharedPtr.ctor_move other) (fun _ => True) := by
  unfold SharedPtr.ctor_move
  repeat' first
    | exact Keeps_pure trivial
    | exact get_shared_keeps _
    | exact set_shared_kind hC _ _
    | exact new_shared_kind hC _
    | apply Keeps_bind
    | intro _ _

theorem SharedPtr_swap_kind {J : World → Prop} (hC : BlockStable J) (this other : Nat) :
    Keeps J (SharedPtr.swap this other) (fun _ => True) := by
  unfold SharedPtr.swap
  repeat' first
    | exact get_shared_keeps _
    | exact set_shared_kind hC _ _
    | apply Keeps_bind
    | intro _ _

theorem SharedPtr_dtor_kind {J : World → Prop} (hC : BlockStable J) (this : Nat) :
    Keeps J (SharedPtr.dtor this) (fun _ => True) := by
  unfold SharedPtr.dtor
  repeat' first
    | exact Keeps_pure trivial
    | exact get_shared_keeps _
    | exact end_shared_kind hC _
    | exact get_block_keeps _
    | exact delete_block_kind hC _
    | exact BaseControlBlock_delete_obj_kind hC _
    | refine update_block_kind hC _ _ _ (fun _ => rfl) (fun _ => ?_)
    | apply Keeps_bind
    | split
    | intro _ _

theorem SharedPtr_assign_copy_kind {J : World → Prop} (hC : BlockStable J) (this other : Nat) :
    Keeps J (SharedPtr.assign_copy this other) (fun _ => True) := by
  unfold SharedPtr.assign_copy
  repeat' first
    | exact SharedPtr_dtor_kind hC _
    | exact SharedPtr_swap_kind hC _ _
    | exact SharedPtr_ctor_copy_kind hC _
    | apply Keeps_bind
    | intro _ _

theorem SharedPtr_assign_move_kind {J : World → Prop} (hC : BlockStable J) (this other : Nat) :
    Keeps J (SharedPtr.assign_move this other) (fun _ => True) := by
  unfold SharedPtr.assign_move
  repeat' first
    | exact SharedPtr_dtor_kind hC _
    | exact SharedPtr_swap_kind hC _ _
    | exact SharedPtr_ctor_move_kind hC _
    | apply Keeps_bind
    | intro _ _

theorem SharedPtr_use_count_kind {J : World → Prop} (_hC : BlockStable J) (this : Nat) :
    Keeps J (SharedPtr.use_count this) (fun _ => True) := by
  unfold SharedPtr.use_count
  repeat' first
    | exact Keeps_pure trivial
    | exact get_shared_keeps _
    | exact get_block_keeps _
    | apply Keeps_bind
    | split
    | intro _ _

theorem SharedPtr_get_kind {J : World → Prop} (_hC : BlockStable J) (this : Nat) :
    Keeps J (SharedPtr.get this) (fun _ => True) := by
  unfold SharedPtr.get
  repeat' first
    | exact Keeps_pure trivial
    | exact get_shared_keeps _
    | apply Keeps_bind
    | intro _ _

theorem SharedPtr_construct_kind {J : World → Prop} (hC : BlockStable J)
    (args : SharedPtr.Args) :
    Keeps J (SharedPtr.construct args) (fun _ => True) := by
  cases args with
  | default => exact new_shared_kind hC _
  | adopt ptr del alloc alloc_ok => exact SharedPtr_ctor_adopt_kind hC ptr del alloc alloc_ok
  | aliasing other ptr => exact SharedPtr_ctor_alias_kind hC other ptr
  | copy other => exact SharedPtr_ctor_copy_kind hC other
  | move other => exact SharedPtr_ctor_move_kind hC other

theorem WeakPtr_construct_kind {J : World → Prop} (hC : BlockStable J)
    (args : WeakPtr.Args) :
    Keeps J (WeakPtr.construct args) (fun _ => True) := by
  cases args with
  | default => exact new_weak_kind hC _
  | adopt ptr del alloc alloc_ok => exact WeakPtr_ctor_adopt_kind hC ptr del alloc alloc_ok
  | aliasing other ptr => exact WeakPtr_ctor_alias_kind hC other ptr
  | copy other => exact WeakPtr_ctor_copy_kind hC other
  | move other => exact WeakPtr_ctor_move_kind hC other
  | from_shared sh_ptr => exact WeakPtr_ctor_from_shared_kind hC sh_ptr

theorem SharedPtr_reset_kind {J : World → Prop} (hC : BlockStable J)
    (this : Nat) (args : SharedPtr.Args) :
    Keeps J (SharedPtr.reset this args) (fun _ => True) := by
  unfold SharedPtr.reset
  repeat' first
    | exact SharedPtr_dtor_kind hC _
    | exact SharedPtr_construct_kind hC _
    | exact SharedPtr_assign_move_kind hC _ _
    | apply Keeps_bind
    | intro _ _

theorem ControlBlockObject_ctor_kind {J : World → Prop} (hC : BlockStable J)
    (esft ctor_ok : Bool) :
    Keeps J (ControlBlockObject.ctor esft ctor_ok) (fun _ => True) := by
  refine frame_kind hC _ (fun w => ?_)
  cases ctor_ok with
  | false => rfl
  | true =>
    cases esft with
    | false => rfl
    | true =>
      by_cases hg : liveW w + 1 < SIZE_MOD
      · simp only [ControlBlockObject.ctor, if_true, WeakPtr.ctor_default, new_weak, hg]
      · simp only [ControlBlockObject.ctor, if_true, WeakPtr.ctor_default, new_weak, hg,
          if_false]

theorem new_payload_kind {J : World → Prop} (hC : BlockStable J) (esft : Bool) :
    Keeps J (new_payload esft) (fun _ => True) := by
  refine frame_kind hC _ (fun w => ?_)
  cases esft with
  | false => rfl
  | true =>
    by_cases hg : liveW w + 1 < SIZE_MOD
    · simp only [new_payload, if_true, WeakPtr.ctor_default, new_weak, hg]
    · simp only [new_payload, if_true, WeakPtr.ctor_default, new_weak, hg, if_false]

theorem allocateShared_kind {J : World → Prop} (hC : BlockStable J)
    (esft : Bool) (alloc : Nat) (alloc_ok ctor_ok : Bool) :
    Keeps J (allocateShared esft alloc alloc_ok ctor_ok) (fun _ => True) := by
  unfold allocateShared
  repeat' first
    | exact get_world_keeps
    | exact allocate_block_kind hC _ _
    | exact SharedPtr_ctor_private_kind hC _ _
    | exact ControlBlockObject_ctor_kind hC _ _
    | apply Keeps_bind
    | intro _ _

theorem EnableSharedFromThis_shared_from_this_kind {J : World → Prop} (hC : BlockStable J)
    (p : Nat) :
    Keeps J (EnableSharedFromThis.shared_from_this p) (fun _ => True) := by
  unfold EnableSharedFromThis.shared_from_this
  repeat' first
    | exact Keeps_fault _
    | exact Keeps_throw _
    | exact get_world_keeps
    | exact WeakPtr_expired_kind hC _
    | exact WeakPtr_lock_kind hC _
    | apply Keeps_bind
    | split
    | intro _ _

theorem step_kind {J : World → Prop} (hC : BlockStable J) (op : Op) :
    Keeps J (step op) (fun _ => True) := by
  cases op with
  | new_payload esft => exact Keeps_discard (new_payload_kind hC esft)
  | sp_construct args => exact Keeps_discard (SharedPtr_construct_kind hC args)
  | sp_allocate esft alloc alloc_ok ctor_ok =>
    exact Keeps_discard (allocateShared_kind hC esft alloc alloc_ok ctor_ok)
  | sp_make esft alloc_ok ctor_ok =>
    exact Keeps_discard (allocateShared_kind hC esft default_alloc alloc_ok ctor_ok)
  | sp_assign_copy this other => exact SharedPtr_assign_copy_kind hC this other
  | sp_assign_move this other => exact SharedPtr_assign_move_kind hC this other
  | sp_swap this other => exact SharedPtr_swap_kind hC this other
  | sp_reset this args => exact SharedPtr_reset_kind hC this args
  | sp_use_count this => exact Keeps_discard (SharedPtr_use_count_kind hC this)
  | sp_get this => exact Keeps_discard (SharedPtr_get_kind hC this)
  | sp_destroy this => exact SharedPtr_dtor_kind hC this
  | wp_construct args => exact Keeps_discard (WeakPtr_construct_kind hC args)
  | wp_assign_copy this other => exact WeakPtr_assign_copy_kind hC this other
  | wp_assign_move this other => exact WeakPtr_assign_move_kind hC this other
  | wp_swap this other => exact WeakPtr_swap_kind hC this other
  | wp_expired this => exact Keeps_discard (WeakPtr_expired_kind hC this)
  | wp_use_count this => exact Keeps_discard (WeakPtr_use_count_kind hC this)
  | wp_get this => exact Keeps_discard (WeakPtr_get_kind hC this)
  | wp_lock this => exact Keeps_discard (WeakPtr_lock_kind hC this)
  | wp_destroy this => exact WeakPtr_dtor_kind hC this
  | shared_from_this p =>
    exact Keeps_discard (EnableSharedFromThis_shared_from_this_kind hC p)

/-- Every program keeps a property of the blocks that is stable. -/
theorem run_kind {J : World → Prop} (hC : BlockStable J) (ops : List Op) :
    ∀ (w w1 : World), J w → run ops w = Except.ok w1 → J w1 := by
  induction ops with
  | nil =>
    intro w w1 hJ hrun
    simp only [run, Except.ok.injEq] at hrun
    rw [← hrun]
    exact hJ
  | cons op ops ih =>
    intro w w1 hJ hrun
    have hs := step_kind hC op w hJ
    simp only [run] at hrun
    cases hst : step op w with
    | ok a w2 =>
      rw [hst] at hs hrun
      exact ih w2 w1 hs.1 hrun
    | throw e w2 =>
      rw [hst] at hs hrun
      exact ih w2 w1 hs hrun
    | fault f =>
      rw [hst] at hrun
      cases hrun

theorem HasKind_stable (b : Nat) (k : BlockKind) : BlockStable (HasKind b k) := by
  refine ⟨?_, ?_, ?_⟩
  · intro w w1 hh hJ
    unfold HasKind
    rw [hh]
    exact hJ
  · intro w blk hJ
    obtain ⟨blk1, hb, hk⟩ := hJ
    refine ⟨blk1, ?_, hk⟩
    simp only [List.getElem?_append_left (heap_lt hb)]
    exact hb
  · intro w b1 cur new hJ hcur hnew
    obtain ⟨blk1, hb, hk⟩ := hJ
    by_cases hbb : b1 = b
    · subst hbb
      rw [hb] at hcur
      cases hcur
      refine ⟨new, ?_, by rw [hnew, hk]⟩
      exact List.getElem?_set_self (heap_lt hb)
    · refine ⟨blk1, ?_, hk⟩
      simp only [List.getElem?_set_ne hbb]
      exact hb


/-- What a kept property gives for a call that returns. -/
theorem Keeps_ok {α : Type} {J : World → Prop} {m : M α} {Q : α → Prop} (hk : Keeps J m Q)
    {w w1 : World} {a : α} (h : m w = Result.ok a w1) (hJ : J w) : J w1 := by
  have h1 := hk w hJ
  rw [h] at h1
  exact h1.1

/-- `~WeakPtr` on a live handle in a state satisfying the invariant: it returns, and
what it records is nothing, or the release of the block of the handle. -/
theorem WeakPtr_dtor_log {w : World} {this : Nat} {h : WeakPtr} (hI : Inv w)
    (hthis : w.weak[this]? = some (some h)) :
    ∃ w1 tail, WeakPtr.dtor this w = Result.ok () w1 ∧ Inv w1 ∧ KeptW w w1 ∧
      w1.shared = w.shared ∧ w1.log = w.log ++ tail ∧
      (tail = [] ∨ ∃ bm, h.control_block = some bm ∧
        tail = [Event.delete_block bm, Event.deallocate default_alloc bm]) := by
  have hspec := WeakPtr_dtor_spec this w hI
  cases hcb : h.control_block with
  | none =>
    have heq := WeakPtr_dtor_null hthis hcb
    rw [heq] at hspec
    exact ⟨_, [], heq, hspec.1, hspec.2, rfl, (List.append_nil _).symm, Or.inl rfl⟩
  | some b =>
    obtain ⟨blk, hb, hf⟩ := hI.block_of_weak hthis hcb
    have hc := hI.counts b blk hb
    have hpos : 0 < cntW w b :=
      countP_pos_of_get (refW b) w.weak this (some h) hthis (by simp [refW_of hcb])
    have hle := cntW_le_liveW w b
    have hl := hI.live_w
    have heq := WeakPtr_dtor_eq hthis hcb hb hf (by omega) (by omega)
    rw [heq] at hspec
    refine ⟨_, _, heq, hspec.1, hspec.2, rfl, rfl, ?_⟩
    by_cases hc0 : blk.shared_counter = 0 ∧ blk.weak_counter = 1
    · right
      exact ⟨b, rfl, by simp only [hc0, and_self, if_true]⟩
    · left
      simp only [hc0, if_false]

/-- `delete_obj` in a state satisfying the invariant, on a block whose payload has not
been destroyed: it returns; it records itself, the call to the destruction strategy
and, when the payload stores a weak handle that was the last handle of its block,
the release of that block. -/
theorem delete_obj_log {w : World} {b : Nat} {blk : BaseControlBlock} (hI : Inv w)
    (hb : w.heap[b]? = some blk) (hf : blk.freed = false)
    (halive : ∀ m, weak_ptr_of w blk.kind.payload = some m →
      ∃ hm, w.weak[m]? = some (some hm)) :
    ∃ w1 tail, BaseControlBlock.delete_obj b w = Result.ok () w1 ∧ Inv w1 ∧ KeptW w w1 ∧
      w1.shared = w.shared ∧
      w1.log = w.log ++ [Event.delete_obj b, blk.kind.destroy_event] ++ tail ∧
      (tail = [] ∨ ∃ bm, 0 < cntW w bm ∧
        tail = [Event.delete_block bm, Event.deallocate default_alloc bm]) := by
  by_cases hpl : blk.kind.destroys = true → weak_ptr_of w blk.kind.payload = none
  · have heq := delete_obj_plain_eq hb hf hpl
    have hspec := BaseControlBlock_delete_obj_spec b w hI hb hf
    rw [heq] at hspec
    exact ⟨_, [], heq, hspec.1, hspec.2, rfl, (List.append_nil _).symm, Or.inl rfl⟩
  · have hd : blk.kind.destroys = true := by
      by_contra hc
      exact hpl (fun h => False.elim (hc h))
    obtain ⟨m, hp⟩ : ∃ m, weak_ptr_of w blk.kind.payload = some m := by
      cases hq : weak_ptr_of w blk.kind.payload with
      | none => exact False.elim (hpl (fun _ => hq))
      | some m => exact ⟨m, rfl⟩
    obtain ⟨hm, hslot⟩ := halive m hp
    have hI1 := (hI.emit (Event.delete_obj b) (by intro b1 h; cases h)).emit
      blk.kind.destroy_event (by
        intro b1 h
        cases hk : blk.kind with
        | ptr p d a => rw [hk] at h; cases h
        | object o a => rw [hk] at h; cases h)
    obtain ⟨w1, tail, heq, hI2, hk, hsh, hlog, htail⟩ := WeakPtr_dtor_log hI1 hslot
    refine ⟨w1, tail, ?_, hI2, hk, hsh, ?_, ?_⟩
    · simp only [BaseControlBlock.delete_obj, bind_apply, get_block_ok hb hf, emit]
      cases hkind : blk.kind with
      | ptr p d a =>
        rw [hkind] at hp heq hd
        simp only [BlockKind.payload, weak_ptr_of] at hp
        simp only [BlockKind.destroy_event] at heq
        simp only [BlockKind.destroys] at hd
        simp only [bind_apply, emit, Payload.dtor, get_world, weak_ptr_of, hp, hd, if_true]
        exact heq
      | object o a =>
        rw [hkind] at hp heq
        simp only [BlockKind.payload, weak_ptr_of] at hp
        simp only [BlockKind.destroy_event] at heq
        simp only [bind_apply, emit, Payload.dtor, get_world, weak_ptr_of, hp]
        exact heq
    · rw [hlog]
      simp only [List.append_assoc, List.singleton_append]
    · rcases htail with ht | ⟨bm, hbm, ht⟩
      · exact Or.inl ht
      · right
        refine ⟨bm, ?_, ht⟩
        exact countP_pos_of_get (refW bm) w.weak m (some hm) hslot (by simp [refW_of hbm])

/-- `~SharedPtr` on the last handle of a block whose payload has not been destroyed,
in a state satisfying the invariant: it returns; it records `delete_obj`, the call to
the destruction strategy, what the destructor of the payload records, and last, when
`weak_count` is 0, the release of the block, which is then left as released. -/
theorem SharedPtr_dtor_last_log {w : World} {this b : Nat} {h : SharedPtr}
    {blk : BaseControlBlock} (hI : Inv w)
    (hthis : w.shared[this]? = some (some h)) (hcb : h.control_block = some b)
    (hb : w.heap[b]? = some blk) (hs : blk.shared_counter = 1)
    (halive : ∀ m, weak_ptr_of w blk.kind.payload = some m →
      ∃ hm, w.weak[m]? = some (some hm)) :
    ∃ w1 mid, SharedPtr.dtor this w = Result.ok () w1 ∧
      w1.log = w.log ++ [Event.delete_obj b, blk.kind.destroy_event] ++ mid ++
        (if blk.weak_counter = 0 then
          [Event.delete_block b, Event.deallocate default_alloc b] else []) ∧
      (mid = [] ∨ ∃ bm, 0 < cntW w bm ∧
        mid = [Event.delete_block bm, Event.deallocate default_alloc bm]) ∧
      (blk.weak_counter = 0 → w1.heap[b]? = some ⟨0, 0, blk.kind, true⟩) := by
  obtain ⟨blk1, hb1, hf⟩ := hI.block_of_shared hthis hcb
  rw [hb] at hb1
  cases hb1
  have h2 : blk.shared_counter < SIZE_MOD := by
    rw [hs]; unfold SIZE_MOD; decide
  rw [SharedPtr_dtor_eq hthis hcb hb hf (by omega) h2]
  have hI2 := hI.dec_shared hthis hcb hb
  obtain ⟨sc, wc, k, fr⟩ := blk
  simp only at hf hs halive
  subst hf
  subst hs
  have hlt := heap_lt hb
  have hb2 : (w.heap.set b ⟨0, wc, k, false⟩)[b]? = some ⟨0, wc, k, false⟩ :=
    List.getElem?_set_self hlt
  simp only [Nat.sub_self] at hI2
  obtain ⟨w1, tail, heq, hI3, hk, _, hlog, htail⟩ := delete_obj_log hI2 hb2 rfl halive
  by_cases hw : wc = 0
  · subst hw
    simp only [if_true, bind_apply, Nat.sub_self, heq]
    have hz := (hI2.counts b _ hb2).2
    have hb3 := hk b _ hb2 hz.symm
    rw [delete_block_eq hb3 rfl]
    refine ⟨_, tail, rfl, ?_, htail, ?_⟩
    · simp only [hlog, List.append_assoc]
    · intro _
      have hlt1 := heap_lt hb3
      simp only [List.getElem?_set_self hlt1]
  · simp only [hw, if_true, if_false, Nat.sub_self, heq, List.append_nil]
    exact ⟨w1, tail, rfl, hlog, htail, fun h0 => False.elim h0⟩

/-- The block the adopting constructor allocates stores the raw pointer, the
destruction strategy and the memory source it was given. -/
theorem SharedPtr_ctor_adopt_has_kind {w w1 : World} {ptr : Option Nat} {del alloc s : Nat}
    {alloc_ok : Bool}
    (h : SharedPtr.ctor_adopt ptr del alloc alloc_ok w = Result.ok s w1) :
    HasKind w.heap.length (BlockKind.ptr ptr del alloc) w1 := by
  cases alloc_ok with
  | false =>
    simp only [SharedPtr.ctor_adopt, bind_apply, allocate_block, Bool.false_eq_true,
      if_false] at h
    cases h
  | true =>
    have hb : (w.heap ++ [(⟨0, 0, BlockKind.ptr ptr del alloc, false⟩ : BaseControlBlock)])[
        w.heap.length]? = some ⟨0, 0, BlockKind.ptr ptr del alloc, false⟩ := by
      simp
    have hset : (w.heap ++ [(⟨0, 0, BlockKind.ptr ptr del alloc, false⟩ :
        BaseControlBlock)]).set w.heap.length ⟨1, 0, BlockKind.ptr ptr del alloc, false⟩
        = w.heap ++ [⟨1, 0, BlockKind.ptr ptr del alloc, false⟩] := by
      simp
    have hb1 : (w.heap ++ [(⟨1, 0, BlockKind.ptr ptr del alloc, false⟩ : BaseControlBlock)])[
        w.heap.length]? = some ⟨1, 0, BlockKind.ptr ptr del alloc, false⟩ := by
      simp
    by_cases hg : List.countP Option.isSome w.shared + 1 < SIZE_MOD
    · have hp2 : ∀ (hp : List BaseControlBlock) (sh : List (Option SharedPtr))
          (lg : List Event),
          weak_ptr_of { heap := hp, objs := w.objs, shared := sh, weak := w.weak, log := lg }
            ptr = weak_ptr_of w ptr := fun _ _ _ => rfl
      simp only [SharedPtr.ctor_adopt, bind_apply, allocate_block, if_true, new_shared, liveS,
        hg, get_block, hb, Bool.false_eq_true, if_false, set_block, get_world, hp2, hset] at h
      cases hwp : weak_ptr_of w ptr with
      | none =>
        simp only [hwp, pure_apply, Result.ok.injEq] at h
        obtain ⟨_, h2⟩ := h
        subst h2
        exact ⟨⟨1, 0, BlockKind.ptr ptr del alloc, false⟩, hb1, rfl⟩
      | some m =>
        simp only [hwp] at h
        obtain ⟨a, w2, heq, h⟩ := ok_of_match h
        simp only [pure_apply, Result.ok.injEq] at h
        obtain ⟨_, h2⟩ := h
        subst h2
        exact Keeps_ok (SharedPtr_assign_weak_ptr_kind
          (HasKind_stable w.heap.length (BlockKind.ptr ptr del alloc)) m w.shared.length) heq
          ⟨⟨1, 0, BlockKind.ptr ptr del alloc, false⟩, hb1, rfl⟩
    · simp only [SharedPtr.ctor_adopt, bind_apply, allocate_block, if_true, new_shared, liveS,
        hg, if_false] at h
      cases h

/-- C29: a block allocated by the adopting constructor for the raw pointer `p` and
the destruction strategy `d` keeps them in every state a program reaches afterwards;
and when the last shared handle on that block is destroyed (the payload not having
been destroyed before), whatever pointer that handle shows, `delete_obj` is recorded
once, followed by the call of `d` on `p`, and the rest of what the destructor records
are releases of blocks only. -/
theorem C29_deleter_invoked_on_stored_pointer (ops0 ops : List Op) (w0 w1 w : World)
    (p : Option Nat) (d a s this : Nat) (h : SharedPtr) (blk : BaseControlBlock)
    (h0 : run ops0 World.empty = Except.ok w0)
    (hadopt : SharedPtr.ctor_adopt p d a true w0 = Result.ok s w1)
    (hrun : run ops w1 = Except.ok w)
    (hthis : w.shared[this]? = some (some h))
    (hcb : h.control_block = some w0.heap.length)
    (hb : w.heap[w0.heap.length]? = some blk)
    (hs : blk.shared_counter = 1)
    (halive : ∀ m, weak_ptr_of w p = some m → ∃ hm, w.weak[m]? = some (some hm)) :
    blk.kind = BlockKind.ptr p d a ∧
    ∃ w2 tail, SharedPtr.dtor this w = Result.ok () w2 ∧
      w2.log = w.log ++ [Event.delete_obj w0.heap.length, Event.deleter d p] ++ tail ∧
      (∀ e, e ∈ tail →
        ∃ b1, e = Event.delete_block b1 ∨ e = Event.deallocate default_alloc b1) := by
  have hI0 := inv_of_run h0
  have hI1 := (SharedPtr_ctor_adopt_inv p d a true).elim_ok hI0 hadopt
  have hI : Inv w := by
    have hr := run_inv ops w1 hI1
    rw [hrun] at hr
    exact hr
  have hk1 := SharedPtr_ctor_adopt_has_kind hadopt
  obtain ⟨blk2, hb2, hk⟩ :=
    run_kind (HasKind_stable w0.heap.length (BlockKind.ptr p d a)) ops w1 w hk1 hrun
  rw [hb] at hb2
  cases hb2
  refine ⟨hk, ?_⟩
  have halive2 : ∀ m, weak_ptr_of w blk.kind.payload = some m →
      ∃ hm, w.weak[m]? = some (some hm) := by
    rw [hk]
    exact halive
  obtain ⟨w2, mid, hd, hlog, hmid, _⟩ := SharedPtr_dtor_last_log hI hthis hcb hb hs halive2
  refine ⟨w2, mid ++ (if blk.weak_counter = 0 then
      [Event.delete_block w0.heap.length, Event.deallocate default_alloc w0.heap.length]
    else []), hd, ?_, ?_⟩
  · rw [hlog, hk]
    simp only [BlockKind.destroy_event, List.append_assoc]
  · intro e he
    simp only [List.mem_append] at he
    rcases he with he | he
    · rcases hmid with hm | ⟨bm, _, hm⟩
      · rw [hm] at he
        cases he
      · rw [hm] at he
        simp only [List.mem_cons, List.mem_singleton, List.not_mem_nil, or_false] at he
        rcases he with he | he
        · exact ⟨bm, Or.inl he⟩
        · exact ⟨bm, Or.inr he⟩
    · by_cases hw : blk.weak_counter = 0
      · simp only [hw, if_true, List.mem_cons, List.mem_singleton, List.not_mem_nil,
          or_false] at he
        rcases he with he | he
        · exact ⟨_, Or.inl he⟩
        · exact ⟨_, Or.inr he⟩
      · simp only [hw, if_false, List.not_mem_nil] at he

/-- Witness of C29: the alias with pointer 7 is the last handle of the block that
adopted the payload 0, and its destruction calls the destruction strategy on 0. -/
theorem C29_deleter_witness :
    run [Op.new_payload false] World.empty
      = Except.ok { heap := [], objs := [⟨none⟩], shared := [], weak := [], log := [] } ∧
    ∃ w2 tail, SharedPtr.dtor 1 world_alias_last = Result.ok () w2 ∧
      w2.log = world_alias_last.log ++
        [Event.delete_obj 0, Event.deleter default_delete (some 0)] ++ tail ∧
      (∀ e, e ∈ tail →
        ∃ b1, e = Event.delete_block b1 ∨ e = Event.deallocate default_alloc b1) :=
  ⟨rfl,
   (C29_deleter_invoked_on_stored_pointer [Op.new_payload false]
     [Op.sp_construct (SharedPtr.Args.aliasing 0 (some 7)),
      Op.sp_construct (SharedPtr.Args.copy 0), Op.sp_destroy 0, Op.sp_destroy 2]
     { heap := [], objs := [⟨none⟩], shared := [], weak := [], log := [] }
     world_single world_alias_last (some 0) default_delete default_alloc 0 1
     ⟨some 7, some 0⟩ ⟨1, 0, BlockKind.ptr (some 0) default_delete default_alloc, false⟩
     rfl rfl rfl rfl rfl rfl rfl (fun m hm => by cases hm)).2⟩

/-- C30: in every reachable state, when the last shared handle of a block with
`weak_count` 0 is destroyed (the payload not having been destroyed before), the
destructor returns; it records `delete_obj` on the block and the call to the
destruction strategy first, then what the destructor of the payload records (no call
on this block), and last `delete_block` on the block and the deallocation; the block
is left as `delete_block` left it, and it was not released before. -/
theorem C30_destroy_before_release (ops : List Op) (w : World) (this b : Nat)
    (h : SharedPtr) (blk : BaseControlBlock)
    (hrun : run ops World.empty = Except.ok w)
    (hthis : w.shared[this]? = some (some h))
    (hcb : h.control_block = some b)
    (hb : w.heap[b]? = some blk)
    (hs : blk.shared_counter = 1) (hw : blk.weak_counter = 0)
    (halive : ∀ m, weak_ptr_of w blk.kind.payload = some m →
      ∃ hm, w.weak[m]? = some (some hm)) :
    ∃ w1 mid, SharedPtr.dtor this w = Result.ok () w1 ∧
      w1.log = w.log ++ [Event.delete_obj b, blk.kind.destroy_event] ++ mid ++
        [Event.delete_block b, Event.deallocate default_alloc b] ∧
      mid.count (Event.delete_obj b) = 0 ∧ mid.count (Event.delete_block b) = 0 ∧
      blk.freed = false ∧
      w1.heap[b]? = some ⟨0, 0, blk.kind, true⟩ := by
  have hI := inv_of_run hrun
  obtain ⟨blk1, hb1, hf⟩ := hI.block_of_shared hthis hcb
  rw [hb] at hb1
  cases hb1
  have hc := (hI.counts b blk hb).2
  obtain ⟨w1, mid, hd, hlog, hmid, hfin⟩ := SharedPtr_dtor_last_log hI hthis hcb hb hs halive
  simp only [hw, if_true] at hlog
  refine ⟨w1, mid, hd, hlog, ?_, ?_, hf, hfin hw⟩
  · rcases hmid with hm | ⟨bm, _, hm⟩
    · rw [hm]; rfl
    · rw [hm]
      simp [List.count_cons]
  · rcases hmid with hm | ⟨bm, hpos, hm⟩
    · rw [hm]; rfl
    · have hne : bm ≠ b := by
        intro hbb
        rw [hbb] at hpos
        omega
      rw [hm]
      simp [List.count_cons, hne]

/-- Witness of C30: the handle of `world_single` is destroyed: `delete_obj`, the
destruction strategy, `delete_block`, the deallocation, in that order. -/
theorem C30_destroy_before_release_witness :
    run prog_single World.empty = Except.ok world_single ∧
    ∃ w1 mid, SharedPtr.dtor 0 world_single = Result.ok () w1 ∧
      w1.log = world_single.log ++
        [Event.delete_obj 0, Event.deleter default_delete (some 0)] ++ mid ++
        [Event.delete_block 0, Event.deallocate default_alloc 0] ∧
      mid.count (Event.delete_obj 0) = 0 ∧ mid.count (Event.delete_block 0) = 0 ∧
      false = false ∧
      w1.heap[0]? = some ⟨0, 0, BlockKind.ptr (some 0) default_delete default_alloc, true⟩ :=
  ⟨rfl, C30_destroy_before_release prog_single world_single 0 0 ⟨some 0, some 0⟩
    ⟨1, 0, BlockKind.ptr (some 0) default_delete default_alloc, false⟩ rfl rfl rfl rfl rfl rfl
    (fun m hm => by cases hm)⟩

/-- C31 (the code at the failing input): `allocateShared` with the memory source 5
stores it in the block, but the storage of the block is allocated through the
default-constructed instance `default_alloc`, which is another one; when the handle
is destroyed the payload is destroyed through the stored instance 5 and the storage
is deallocated through `default_alloc` again.  The adopting constructor does the
same. -/
theorem C31_block_storage_through_default_source :
    (5 : Nat) ≠ default_alloc ∧
    allocateShared false 5 true true World.empty = Result.ok 0
      { heap := [⟨1, 0, BlockKind.object 0 5, false⟩], objs := [⟨none⟩],
        shared := [some ⟨some 0, some 0⟩], weak := [],
        log := [Event.allocate default_alloc 0] } ∧
    SharedPtr.dtor 0
      { heap := [⟨1, 0, BlockKind.object 0 5, false⟩], objs := [⟨none⟩],
        shared := [some ⟨some 0, some 0⟩], weak := [],
        log := [Event.allocate default_alloc 0] } = Result.ok ()
      { heap := [⟨0, 0, BlockKind.object 0 5, true⟩], objs := [⟨none⟩],
        shared := [none], weak := [],
        log := [Event.allocate default_alloc 0, Event.delete_obj 0, Event.destroy 5 0,
                Event.delete_block 0, Event.deallocate default_alloc 0] } ∧
    SharedPtr.ctor_adopt (some 0) default_delete 5 true
      { heap := [], objs := [⟨none⟩], shared := [], weak := [], log := [] } = Result.ok 0
      { heap := [⟨1, 0, BlockKind.ptr (some 0) default_delete 5, false⟩], objs := [⟨none⟩],
        shared := [some ⟨some 0, some 0⟩], weak := [],
        log := [Event.allocate default_alloc 0] } ∧
    SharedPtr.dtor 0
      { heap := [⟨1, 0, BlockKind.ptr (some 0) default_delete 5, false⟩], objs := [⟨none⟩],
        shared := [some ⟨some 0, some 0⟩], weak := [],
        log := [Event.allocate default_alloc 0] } = Result.ok ()
      { heap := [⟨0, 0, BlockKind.ptr (some 0) default_delete 5, true⟩], objs := [⟨none⟩],
        shared := [none], weak := [],
        log := [Event.allocate default_alloc 0, Event.delete_obj 0,
                Event.deleter default_delete (some 0),
                Event.delete_block 0, Event.deallocate default_alloc 0] } :=
  ⟨by decide, rfl, rfl, rfl, rfl⟩

/-- C36 (the code at the failing input): `WeakPtr(const SharedPtr&)` on an empty shared
handle dereferences the null control block, whatever pointer the handle holds; the
copy constructors of `WeakPtr` and of `SharedPtr` on an empty handle return. -/
theorem C36_weak_from_empty_shared_faults (p : Option Nat) :
    WeakPtr.ctor_from_shared 0
      { heap := [], objs := [], shared := [some ⟨p, none⟩], weak := [], log := [] }
      = Result.fault Fault.null_deref ∧
    run [Op.sp_construct SharedPtr.Args.default,
         Op.wp_construct (WeakPtr.Args.from_shared 0)] World.empty
      = Except.error Fault.null_deref ∧
    SharedPtr.ctor_copy 0 world_null_shared = Result.ok 1
      { world_null_shared with shared := [some ⟨none, none⟩, some ⟨none, none⟩] } ∧
    WeakPtr.ctor_copy 0 world_null_weak = Result.ok 1
      { world_null_weak with weak := [some ⟨none, none⟩, some ⟨none, none⟩] } :=
  ⟨rfl, rfl, rfl, rfl⟩

/-- C32: `makeShared` is `allocateShared` with the default memory source, in every
state and for every outcome of the allocation and of the payload constructor.  For
every memory source: a failed allocation throws from the unchanged state; a payload
constructor that throws propagates after the block was allocated; and when both
succeed (with room for one more `SharedPtr` and `WeakPtr` object) the result is a
new handle on a new `ControlBlockObject` with `strong_count` 1 and `weak_count` 0.
The memory source occurs in the result only as the instance stored in the block. -/
theorem C32_makeShared_is_allocateShared (esft : Bool) (w : World) :
    (∀ alloc_ok ctor_ok, makeShared esft alloc_ok ctor_ok w
      = allocateShared esft default_alloc alloc_ok ctor_ok w) ∧
    (∀ alloc ctor_ok, allocateShared esft alloc false ctor_ok w
      = Result.throw Exn.bad_alloc w) ∧
    (∀ alloc, allocateShared esft alloc true false w = Result.throw Exn.ctor_failure
      ⟨w.heap ++ [⟨0, 0, BlockKind.object w.objs.length alloc, false⟩], w.objs, w.shared,
       w.weak, w.log ++ [Event.allocate default_alloc w.heap.length]⟩) ∧
    (∀ alloc, liveS w + 1 < SIZE_MOD → liveW w + 1 < SIZE_MOD →
      allocateShared esft alloc true true w = Result.ok w.shared.length
        ⟨w.heap ++ [⟨1, 0, BlockKind.object w.objs.length alloc, false⟩],
         w.objs ++ [⟨if esft then some w.weak.length else none⟩],
         w.shared ++ [some ⟨some w.objs.length, some w.heap.length⟩],
         (if esft then w.weak ++ [some ⟨none, none⟩] else w.weak),
         w.log ++ [Event.allocate default_alloc w.heap.length]⟩) := by
  refine ⟨fun _ _ => rfl, ?_, ?_, ?_⟩
  · intro alloc ctor_ok
    simp only [allocateShared, bind_apply, get_world, allocate_block, Bool.false_eq_true,
      if_false]
  · intro alloc
    simp only [allocateShared, bind_apply, get_world, allocate_block, if_true,
      ControlBlockObject.ctor, Bool.false_eq_true, if_false]
  · intro alloc hS hW
    cases esft with
    | false => exact allocateShared_plain_eq alloc hS
    | true => exact allocateShared_esft_eq alloc hS hW

/-- Witness of C32: `makeShared` and `allocateShared` with the default memory source
in `world_single`. -/
theorem C32_makeShared_witness :
    makeShared false true true world_single = Result.ok 1
      ⟨world_single.heap ++ [⟨1, 0, BlockKind.object 1 default_alloc, false⟩],
       world_single.objs ++ [⟨none⟩],
       world_single.shared ++ [some ⟨some 1, some 1⟩],
       world_single.weak,
       world_single.log ++ [Event.allocate default_alloc 1]⟩ := by
  have h := C32_makeShared_is_allocateShared false world_single
  rw [h.1 true true]
  exact h.2.2.2 default_alloc (by unfold SIZE_MOD; decide) (by unfold SIZE_MOD; decide)

/-- C33: in every reachable state, on a live shared handle: `get()` returns the stored
pointer and `use_count()` returns 0 when the control block is null and
`strong_count` of the block otherwise, and neither changes the state; a
default-constructed handle has a null pointer and `use_count()` 0. -/
theorem C33_use_count_and_get (ops : List Op) (w : World) (this : Nat) (h : SharedPtr)
    (hrun : run ops World.empty = Except.ok w)
    (hthis : w.shared[this]? = some (some h)) :
    SharedPtr.get this w = Result.ok h.pointer w ∧
    (h.control_block = none → SharedPtr.use_count this w = Result.ok 0 w) ∧
    (∀ b, h.control_block = some b → ∃ blk, w.heap[b]? = some blk ∧
      SharedPtr.use_count this w = Result.ok blk.shared_counter w) ∧
    (liveS w + 1 < SIZE_MOD → ∃ w1,
      SharedPtr.ctor_default w = Result.ok w.shared.length w1 ∧
      SharedPtr.get w.shared.length w1 = Result.ok none w1 ∧
      SharedPtr.use_count w.shared.length w1 = Result.ok 0 w1) := by
  have hI := inv_of_run hrun
  refine ⟨?_, ?_, ?_, ?_⟩
  · simp only [SharedPtr.get, bind_apply, get_shared_ok hthis, pure_apply]
  · intro hcb
    simp only [SharedPtr.use_count, bind_apply, get_shared_ok hthis, hcb, pure_apply]
  · intro b hcb
    obtain ⟨blk, hb, hf⟩ := hI.block_of_shared hthis hcb
    refine ⟨blk, hb, ?_⟩
    simp only [SharedPtr.use_count, bind_apply, get_shared_ok hthis, hcb, get_block_ok hb hf,
      pure_apply]
  · intro hroom
    have hsl : (w.shared ++ [some (⟨none, none⟩ : SharedPtr)])[w.shared.length]?
        = some (some ⟨none, none⟩) := List.getElem?_concat_length _ _
    have e : SharedPtr.ctor_default w = Result.ok w.shared.length
        ⟨w.heap, w.objs, w.shared ++ [some ⟨none, none⟩], w.weak, w.log⟩ := by
      simp only [SharedPtr.ctor_default, new_shared, hroom, if_true]
    refine ⟨_, e, ?_, ?_⟩
    · simp only [SharedPtr.get, bind_apply, get_shared, hsl, pure_apply]
    · simp only [SharedPtr.use_count, bind_apply, get_shared, hsl, pure_apply]

/-- Witness of C33: the handle 2 of `world_copies`. -/
theorem C33_use_count_and_get_witness :
    run prog_copies World.empty = Except.ok world_copies ∧
    SharedPtr.get 2 world_copies = Result.ok (some 0) world_copies ∧
    ∃ blk, world_copies.heap[0]? = some blk ∧
      SharedPtr.use_count 2 world_copies = Result.ok blk.shared_counter world_copies :=
  ⟨rfl,
   (C33_use_count_and_get prog_copies world_copies 2 ⟨some 0, some 0⟩ rfl rfl).1,
   (C33_use_count_and_get prog_copies world_copies 2 ⟨some 0, some 0⟩ rfl rfl).2.2.1 0 rfl⟩

/-- Writing back the element that is there changes nothing. -/
theorem set_same {α : Type} {l : List α} {i : Nat} {x : α} (h : l[i]? = some x) :
    l.set i x = l := by
  apply List.ext_getElem?
  intro k
  by_cases hk : i = k
  · subst hk
    rw [List.getElem?_set_self (get_lt h), h]
  · rw [List.getElem?_set_ne hk]

/-- Exchanging two elements twice changes nothing. -/
theorem set_swap_swap {α : Type} {l : List α} {i j : Nat} {a o : α}
    (ha : l[i]? = some a) (ho : l[j]? = some o) :
    (((l.set i o).set j a).set i a).set j o = l := by
  have hi := get_lt ha
  have hj := get_lt ho
  apply List.ext_getElem?
  intro k
  by_cases hkj : j = k
  · subst hkj
    rw [List.getElem?_set_self (by simp; omega), ho]
  · rw [List.getElem?_set_ne hkj]
    by_cases hki : i = k
    · subst hki
      rw [List.getElem?_set_self (by simp; omega), ha]
    · rw [List.getElem?_set_ne hki, List.getElem?_set_ne hkj, List.getElem?_set_ne hki]

/-- `WeakPtr::swap` on two live handles. -/
theorem WeakPtr_swap_eq {w : World} {this other : Nat} {a o : WeakPtr}
    (ha : w.weak[this]? = some (some a)) (ho : w.weak[other]? = some (some o)) :
    WeakPtr.swap this other w = Result.ok ()
      ⟨w.heap, w.objs, w.shared, (w.weak.set this (some o)).set other (some a), w.log⟩ := by
  cases o with
  | mk op oc =>
  cases a with
  | mk ap ac =>
  simp only [WeakPtr.swap, bind_apply, get_weak_ok ha, get_weak_ok ho, set_weak]

/-- C38: `reset` constructs the replacement before it touches `*this`: when that
constructor throws, `reset` throws the same exception from the state the constructor
left; and the adopting constructor on a failed allocation throws from the state as
it was, so the handle keeps its pointer and its block, no counter changes and no
call is recorded.  A client that catches the exception goes on from the unchanged
state. -/
theorem C38_reset_construction_failure (w : World) (this : Nat) :
    (∀ (args : SharedPtr.Args) (e : Exn) (w1 : World),
      SharedPtr.construct args w = Result.throw e w1 →
      SharedPtr.reset this args w = Result.throw e w1) ∧
    (∀ (ptr : Option Nat) (del alloc : Nat),
      SharedPtr.construct (SharedPtr.Args.adopt ptr del alloc false) w
        = Result.throw Exn.bad_alloc w ∧
      SharedPtr.reset this (SharedPtr.Args.adopt ptr del alloc false) w
        = Result.throw Exn.bad_alloc w ∧
      run [Op.sp_reset this (SharedPtr.Args.adopt ptr del alloc false)] w = Except.ok w) := by
  have hprop : ∀ (args : SharedPtr.Args) (e : Exn) (w1 : World),
      SharedPtr.construct args w = Result.throw e w1 →
      SharedPtr.reset this args w = Result.throw e w1 := by
    intro args e w1 h
    simp only [SharedPtr.reset, bind_apply, h]
  refine ⟨hprop, ?_⟩
  intro ptr del alloc
  have h : SharedPtr.construct (SharedPtr.Args.adopt ptr del alloc false) w
      = Result.throw Exn.bad_alloc w := by
    simp only [SharedPtr.construct, SharedPtr.ctor_adopt, bind_apply, allocate_block,
      Bool.false_eq_true, if_false]
  refine ⟨h, hprop _ _ _ h, ?_⟩
  simp only [run, step, hprop _ _ _ h]

/-- Witness of C38: `reset` with a failing allocation on the handle of `world_single`. -/
theorem C38_reset_failure_witness :
    SharedPtr.construct (SharedPtr.Args.adopt (some 1) default_delete default_alloc false)
      world_single = Result.throw Exn.bad_alloc world_single ∧
    SharedPtr.reset 0 (SharedPtr.Args.adopt (some 1) default_delete default_alloc false)
      world_single = Result.throw Exn.bad_alloc world_single :=
  ⟨rfl, (C38_reset_construction_failure world_single 0).1
    (SharedPtr.Args.adopt (some 1) default_delete default_alloc false) Exn.bad_alloc
    world_single rfl⟩

/-- C40: `swap` on two live shared handles (they may be the same object) exchanges
their pointers and control blocks and changes nothing else: no block, no record of a
call; and a second `swap` gives back the state before the first.  The same holds for
weak handles. -/
theorem C40_swap (w : World) :
    (∀ (this other : Nat) (a o : SharedPtr), w.shared[this]? = some (some a) →
      w.shared[other]? = some (some o) →
      ∃ w1, SharedPtr.swap this other w = Result.ok () w1 ∧
        w1.shared = (w.shared.set this (some o)).set other (some a) ∧
        w1.shared[other]? = some (some a) ∧
        (this ≠ other → w1.shared[this]? = some (some o)) ∧
        w1.heap = w.heap ∧ w1.objs = w.objs ∧ w1.weak = w.weak ∧ w1.log = w.log ∧
        SharedPtr.swap this other w1 = Result.ok () w) ∧
    (∀ (this other : Nat) (a o : WeakPtr), w.weak[this]? = some (some a) →
      w.weak[other]? = some (some o) →
      ∃ w1, WeakPtr.swap this other w = Result.ok () w1 ∧
        w1.weak = (w.weak.set this (some o)).set other (some a) ∧
        w1.weak[other]? = some (some a) ∧
        (this ≠ other → w1.weak[this]? = some (some o)) ∧
        w1.heap = w.heap ∧ w1.objs = w.objs ∧ w1.shared = w.shared ∧ w1.log = w.log ∧
        WeakPtr.swap this other w1 = Result.ok () w) := by
  constructor
  · intro this other a o ha ho
    have hi := get_lt ha
    have hj := get_lt ho
    have e1 := SharedPtr_swap_eq ha ho
    have hother : ((w.shared.set this (some o)).set other (some a))[other]?
        = some (some a) := List.getElem?_set_self (by simp; omega)
    refine ⟨_, e1, rfl, hother, ?_, rfl, rfl, rfl, rfl, ?_⟩
    · intro hne
      show ((w.shared.set this (some o)).set other (some a))[this]? = some (some o)
      rw [List.getElem?_set_ne (Ne.symm hne), List.getElem?_set_self hi]
    · by_cases hne : this = other
      · subst hne
        rw [ha] at ho
        cases ho
        have hthis : ((w.shared.set this (some a)).set this (some a))[this]?
            = some (some a) := List.getElem?_set_self (by simp; omega)
        rw [SharedPtr_swap_eq hthis hthis]
        simp only [List.set_set, set_same ha]
      · have hthis : ((w.shared.set this (some o)).set other (some a))[this]?
            = some (some o) := by
          rw [List.getElem?_set_ne (Ne.symm hne), List.getElem?_set_self hi]
        rw [SharedPtr_swap_eq hthis hother]
        simp only [set_swap_swap ha ho]
  · intro this other a o ha ho
    have hi := get_lt ha
    have hj := get_lt ho
    have e1 := WeakPtr_swap_eq ha ho
    have hother : ((w.weak.set this (some o)).set other (some a))[other]?
        = some (some a) := List.getElem?_set_self (by simp; omega)
    refine ⟨_, e1, rfl, hother, ?_, rfl, rfl, rfl, rfl, ?_⟩
    · intro hne
      show ((w.weak.set this (some o)).set other (some a))[this]? = some (some o)
      rw [List.getElem?_set_ne (Ne.symm hne), List.getElem?_set_self hi]
    · by_cases hne : this = other
      · subst hne
        rw [ha] at ho
        cases ho
        have hthis : ((w.weak.set this (some a)).set this (some a))[this]?
            = some (some a) := List.getElem?_set_self (by simp; omega)
        rw [WeakPtr_swap_eq hthis hthis]
        simp only [List.set_set, set_same ha]
      · have hthis : ((w.weak.set this (some o)).set other (some a))[this]?
            = some (some o) := by
          rw [List.getElem?_set_ne (Ne.symm hne), List.getElem?_set_self hi]
        rw [WeakPtr_swap_eq hthis hother]
        simp only [set_swap_swap ha ho]

/-- Witness of C40: the handles 0 and 1 of `world_empty_and_owner` are swapped, and
swapped back. -/
theorem C40_swap_witness :
    ∃ w1, SharedPtr.swap 0 1 world_empty_and_owner = Result.ok () w1 ∧
      w1.shared = [some ⟨some 0, some 0⟩, some ⟨none, none⟩] ∧
      w1.heap = world_empty_and_owner.heap ∧
      SharedPtr.swap 0 1 w1 = Result.ok () world_empty_and_owner := by
  obtain ⟨w1, h1, h2, _, _, h3, _, _, _, h4⟩ :=
    (C40_swap world_empty_and_owner).1 0 1 ⟨none, none⟩ ⟨some 0, some 0⟩ rfl rfl
  exact ⟨w1, h1, h2, h3, h4⟩

/-- C34 as stated fails: a payload with the self-reference capability is adopted from
a raw pointer together with the destruction strategy 9, which leaves the payload
alone.  Destroying the last shared handle calls `delete_obj` and the strategy; the
payload is not destroyed, its stored weak handle stays alive, `weak_count` stays 1
and the block is not released. -/
theorem C34_block_kept_by_strategy_without_destruction :
    deleter_destroys 9 = false ∧
    run [Op.new_payload true,
         Op.sp_construct (SharedPtr.Args.adopt (some 0) 9 default_alloc true)]
      World.empty
      = Except.ok ⟨[⟨1, 1, BlockKind.ptr (some 0) 9 default_alloc, false⟩], [⟨some 0⟩],
          [some ⟨some 0, some 0⟩], [some ⟨some 0, some 0⟩, none, none],
          [Event.allocate default_alloc 0]⟩ ∧
    SharedPtr.dtor 0
        ⟨[⟨1, 1, BlockKind.ptr (some 0) 9 default_alloc, false⟩], [⟨some 0⟩],
          [some ⟨some 0, some 0⟩], [some ⟨some 0, some 0⟩, none, none],
          [Event.allocate default_alloc 0]⟩
      = Result.ok ()
        ⟨[⟨0, 1, BlockKind.ptr (some 0) 9 default_alloc, false⟩], [⟨some 0⟩],
          [none], [some ⟨some 0, some 0⟩, none, none],
          [Event.allocate default_alloc 0, Event.delete_obj 0,
           Event.deleter 9 (some 0)]⟩ :=
  ⟨rfl, rfl, rfl⟩

/-- C34 amended: in every reachable state, when the last shared handle of a block is
destroyed and the only weak handle on the block is the member `weak_ptr` of its payload
(`strong_count` 1, `weak_count` 1).  If `delete_obj` destroys the payload (the
destruction strategy does, as the default one), the destructor returns and records
`delete_obj` once, the destruction strategy, and `delete_block` with the deallocation
once: the `else` branch of `~SharedPtr` calls `delete_obj` only, and the release is
made by `~WeakPtr` of the member while the payload is destroyed; the block is left as
that destructor left it (both counters 0, released) and the member's lifetime has
ended.  If the destruction strategy leaves the payload alone, the destructor returns
and records `delete_obj` and the strategy only: the member stays alive, `weak_count`
stays 1 and the block is not released. -/
theorem C34_release_by_stored_weak_handle (ops : List Op) (w : World) (this b weak_ptr : Nat)
    (h : SharedPtr) (blk : BaseControlBlock) (hm : WeakPtr)
    (hrun : run ops World.empty = Except.ok w)
    (hthis : w.shared[this]? = some (some h))
    (hcb : h.control_block = some b)
    (hb : w.heap[b]? = some blk)
    (hs : blk.shared_counter = 1) (hw : blk.weak_counter = 1)
    (hmem : weak_ptr_of w blk.kind.payload = some weak_ptr)
    (hslot : w.weak[weak_ptr]? = some (some hm))
    (hmb : hm.control_block = some b) :
    (blk.kind.destroys = true →
      SharedPtr.dtor this w = Result.ok ()
        ⟨w.heap.set b ⟨0, 0, blk.kind, true⟩, w.objs, w.shared.set this none,
         w.weak.set weak_ptr none,
         w.log ++ [Event.delete_obj b, blk.kind.destroy_event, Event.delete_block b,
                   Event.deallocate default_alloc b]⟩) ∧
    (blk.kind.destroys = false →
      SharedPtr.dtor this w = Result.ok ()
        ⟨w.heap.set b ⟨0, 1, blk.kind, false⟩, w.objs, w.shared.set this none, w.weak,
         w.log ++ [Event.delete_obj b, blk.kind.destroy_event]⟩) := by
  have hI := inv_of_run hrun
  obtain ⟨blk1, hb1, hf⟩ := hI.block_of_shared hthis hcb
  rw [hb] at hb1
  cases hb1
  have h2 : blk.shared_counter < SIZE_MOD := by
    rw [hs]; unfold SIZE_MOD; decide
  rw [SharedPtr_dtor_eq hthis hcb hb hf (by omega) h2]
  obtain ⟨sc, wc, k, fr⟩ := blk
  simp only at hf hs hw hmem
  subst hf
  subst hs
  subst hw
  have hlt := heap_lt hb
  have hb2 : (w.heap.set b ⟨0, 1, k, false⟩)[b]? = some ⟨0, 1, k, false⟩ :=
    List.getElem?_set_self hlt
  have hone : ¬ ((1 : Nat) = 0) := by decide
  simp only [if_true, hone, if_false, Nat.sub_self]
  constructor
  · intro hdel
    have hwd : ∀ (lg : List Event),
        WeakPtr.dtor weak_ptr
          ⟨w.heap.set b ⟨0, 1, k, false⟩, w.objs, w.shared.set this none, w.weak, lg⟩
        = Result.ok ()
          ⟨w.heap.set b ⟨0, 0, k, true⟩, w.objs, w.shared.set this none,
           w.weak.set weak_ptr none,
           lg ++ [Event.delete_block b, Event.deallocate default_alloc b]⟩ := by
      intro lg
      have hq : (1 : Nat) < SIZE_MOD := by unfold SIZE_MOD; decide
      have hslot2 : (⟨w.heap.set b ⟨0, 1, k, false⟩, w.objs, w.shared.set this none, w.weak,
          lg⟩ : World).weak[weak_ptr]? = some (some hm) := hslot
      rw [WeakPtr_dtor_eq hslot2 hmb hb2 rfl (Nat.le_refl 1) hq]
      simp only [and_self, if_true, decide_True, Nat.sub_self, List.set_set]
    simp only [BaseControlBlock.delete_obj, bind_apply, get_block, hb2, Bool.false_eq_true,
      if_false, emit]
    cases hk : k with
    | ptr p d a =>
      rw [hk] at hmem hdel
      simp only [BlockKind.payload] at hmem
      simp only [BlockKind.destroys] at hdel
      have hmem2 : ∀ (hp : List BaseControlBlock) (sh : List (Option SharedPtr))
          (lg : List Event),
          weak_ptr_of { heap := hp, objs := w.objs, shared := sh, weak := w.weak, log := lg } p
            = some weak_ptr := fun _ _ _ => hmem
      simp only [bind_apply, emit, Payload.dtor, get_world, hmem2, BlockKind.destroy_event,
        hdel, if_true]
      rw [← hk, hwd]
      simp only [List.append_assoc, List.singleton_append, List.cons_append, List.nil_append]
    | object o a =>
      rw [hk] at hmem
      simp only [BlockKind.payload] at hmem
      have hmem2 : ∀ (hp : List BaseControlBlock) (sh : List (Option SharedPtr))
          (lg : List Event),
          weak_ptr_of { heap := hp, objs := w.objs, shared := sh, weak := w.weak, log := lg }
            (some o) = some weak_ptr := fun _ _ _ => hmem
      simp only [bind_apply, emit, Payload.dtor, get_world, hmem2, BlockKind.destroy_event]
      rw [← hk, hwd]
      simp only [List.append_assoc, List.singleton_append, List.cons_append, List.nil_append]
  · intro hdel
    have hb3 : (⟨w.heap.set b ⟨0, 1, k, false⟩, w.objs, w.shared.set this none, w.weak,
        w.log⟩ : World).heap[b]? = some ⟨0, 1, k, false⟩ := hb2
    rw [delete_obj_plain_eq hb3 rfl (fun hd => by
      simp only at hd
      rw [hdel] at hd
      cases hd)]

/-- Witness of C34: the shared handle of `world_esft`, adopted with the default
destruction strategy, is destroyed. -/
theorem C34_release_witness :
    run [Op.new_payload true,
         Op.sp_construct (SharedPtr.Args.adopt (some 0) default_delete default_alloc true)]
      World.empty = Except.ok world_esft ∧
    SharedPtr.dtor 0 world_esft = Result.ok () world_esft_end :=
  ⟨rfl, (C34_release_by_stored_weak_handle
    [Op.new_payload true,
     Op.sp_construct (SharedPtr.Args.adopt (some 0) default_delete default_alloc true)]
    world_esft 0 0 0 ⟨some 0, some 0⟩
    ⟨1, 1, BlockKind.ptr (some 0) default_delete default_alloc, false⟩ ⟨some 0, some 0⟩
    rfl rfl rfl rfl rfl rfl rfl rfl rfl).1 rfl⟩

/-- C37: every reachable state satisfies the counting invariant `Inv`, and so does
every state a statement leaves when it starts from a state that satisfies it (the
destructors of temporaries and of stored weak handles run in such states).  In every
state that satisfies `Inv`: the block of a live `SharedPtr` has `strong_count` at
least 1, so the decrement `shared_counter--` of `~SharedPtr`, computed modulo 2^64,
is `strong_count - 1`, and the destructor continues from the state with that value;
and the same for a live `WeakPtr`, `weak_count` and `~WeakPtr`. -/
theorem C37_no_counter_underflow (ops : List Op) (w : World)
    (hrun : run ops World.empty = Except.ok w) :
    Inv w ∧
    (∀ (op : Op) (w1 : World), Inv w1 →
      match step op w1 with
      | Result.ok _ w2 => Inv w2
      | Result.throw _ w2 => Inv w2
      | Result.fault _ => True) ∧
    (∀ (w1 : World) (this b : Nat) (h : SharedPtr), Inv w1 →
      w1.shared[this]? = some (some h) → h.control_block = some b →
      ∃ blk, w1.heap[b]? = some blk ∧ blk.freed = false ∧ 1 ≤ blk.shared_counter ∧
        (blk.shared_counter + SIZE_MOD - 1) % SIZE_MOD = blk.shared_counter - 1 ∧
        SharedPtr.dtor this w1 =
          (if blk.shared_counter = 1 then
            if blk.weak_counter = 0 then
              (BaseControlBlock.delete_obj b >>= fun _ => BaseControlBlock.delete_block b)
            else BaseControlBlock.delete_obj b
          else pure ())
          { w1 with shared := w1.shared.set this none,
                    heap := w1.heap.set b
                      { blk with shared_counter := blk.shared_counter - 1 } }) ∧
    (∀ (w1 : World) (this b : Nat) (h : WeakPtr), Inv w1 →
      w1.weak[this]? = some (some h) → h.control_block = some b →
      ∃ blk, w1.heap[b]? = some blk ∧ blk.freed = false ∧ 1 ≤ blk.weak_counter ∧
        (blk.weak_counter + SIZE_MOD - 1) % SIZE_MOD = blk.weak_counter - 1 ∧
        WeakPtr.dtor this w1 = Result.ok ()
          { w1 with weak := w1.weak.set this none,
                    heap := w1.heap.set b
                      { blk with weak_counter := blk.weak_counter - 1,
                                 freed := decide (blk.shared_counter = 0 ∧
                                   blk.weak_counter = 1) },
                    log := w1.log ++
                      (if blk.shared_counter = 0 ∧ blk.weak_counter = 1 then
                        [Event.delete_block b, Event.deallocate default_alloc b]
                      else []) }) := by
  refine ⟨inv_of_run hrun, ?_, ?_, ?_⟩
  · intro op w1 hI1
    have hs := step_inv op w1 hI1
    cases hst : step op w1 with
    | ok a w2 =>
      rw [hst] at hs
      exact hs
    | throw e w2 =>
      rw [hst] at hs
      exact hs
    | fault f => trivial
  · intro w1 this b h hI1 hthis hcb
    obtain ⟨blk, hb, hf⟩ := hI1.block_of_shared hthis hcb
    have hc := hI1.counts b blk hb
    have hpos : 0 < cntS w1 b :=
      countP_pos_of_get (refS b) w1.shared this (some h) hthis (by simp [refS_of hcb])
    have hle := cntS_le_liveS w1 b
    have hl := hI1.live_s
    exact ⟨blk, hb, hf, by omega, dec_mod_size (by omega) (by omega),
      SharedPtr_dtor_eq hthis hcb hb hf (by omega) (by omega)⟩
  · intro w1 this b h hI1 hthis hcb
    obtain ⟨blk, hb, hf⟩ := hI1.block_of_weak hthis hcb
    have hc := hI1.counts b blk hb
    have hpos : 0 < cntW w1 b :=
      countP_pos_of_get (refW b) w1.weak this (some h) hthis (by simp [refW_of hcb])
    have hle := cntW_le_liveW w1 b
    have hl := hI1.live_w
    exact ⟨blk, hb, hf, by omega, dec_mod_size (by omega) (by omega),
      WeakPtr_dtor_eq hthis hcb hb hf (by omega) (by omega)⟩

/-- Witness of C37: in `world_resurrected`, reached through `lock()` on an expired weak
handle, the counters still count the live handles: `strong_count` 1 is decremented to
0 by the destructor of the handle `lock()` returned. -/
theorem C37_no_underflow_witness :
    run (prog_expired ++ [Op.wp_lock 0]) World.empty = Except.ok world_resurrected ∧
    ∃ blk, world_resurrected.heap[0]? = some blk ∧ blk.freed = false ∧
      1 ≤ blk.shared_counter ∧
      (blk.shared_counter + SIZE_MOD - 1) % SIZE_MOD = blk.shared_counter - 1 := by
  refine ⟨rfl, ?_⟩
  obtain ⟨blk, h1, h2, h3, h4, _⟩ :=
    (C37_no_counter_underflow (prog_expired ++ [Op.wp_lock 0]) world_resurrected rfl).2.2.1
      world_resurrected 1 0 ⟨some 0, some 0⟩
      (C37_no_counter_underflow (prog_expired ++ [Op.wp_lock 0]) world_resurrected rfl).1
      rfl rfl
  exact ⟨blk, h1, h2, h3, h4⟩

/-- `SharedPtr(const SharedPtr&)` in a state satisfying the invariant: a new handle with
the members of the source; with a block, its `strong_count` is one higher. -/
theorem SharedPtr_ctor_copy_reach {w : World} {other : Nat} {o : SharedPtr} (hI : Inv w)
    (ho : w.shared[other]? = some (some o)) (hroom : liveS w + 1 < SIZE_MOD) :
    ∃ hp, SharedPtr.ctor_copy other w = Result.ok w.shared.length
        ⟨hp, w.objs, w.shared ++ [some o], w.weak, w.log⟩ ∧
      (o.control_block = none → hp = w.heap) ∧
      (∀ b, o.control_block = some b → ∃ blk, w.heap[b]? = some blk ∧
        hp = w.heap.set b { blk with shared_counter := blk.shared_counter + 1 }) := by
  cases o with
  | mk op oc =>
  cases oc with
  | none =>
    refine ⟨w.heap, ?_, fun _ => rfl, (fun b hb => by cases hb)⟩
    simp only [SharedPtr.ctor_copy, bind_apply, get_shared_ok ho, new_shared, hroom,
      if_true, pure_apply]
  | some b =>
    obtain ⟨blk, hb, hf⟩ := hI.block_of_shared ho rfl
    have hc := hI.counts b blk hb
    have hle := cntS_le_liveS w b
    have h2 : blk.shared_counter + 1 < SIZE_MOD := by omega
    refine ⟨w.heap.set b { blk with shared_counter := blk.shared_counter + 1 }, ?_,
      (fun h => by cases h), ?_⟩
    · simp only [SharedPtr.ctor_copy, bind_apply, get_shared_ok ho, new_shared, hroom,
        if_true, get_block, hb, hf, Bool.false_eq_true, if_false, set_block, pure_apply,
        Nat.mod_eq_of_lt h2]
    · intro b1 hb1
      cases hb1
      exact ⟨blk, hb, rfl⟩

/-- C35: in every reachable state with room for one more `SharedPtr` object, for live
handles `this` (members `a`) and `other` (members `o`), which may be the same object:
the copy assignment is the copy constructor on `other`, which gives the temporary
`copy` the members `o` and raises `strong_count` of the block of `o` by one, followed
by `~SharedPtr` run on an object that holds `a`, in a state where `this` already holds
`o`.  So when the assignment returns `this` holds `o` and `other` still does; with `a`
without a block nothing else changes; when `a` and `o` have the same block the
assignment returns, every block is as before and no call is recorded; and otherwise
the block of `a` gets what `~SharedPtr` does, for a payload that stores no weak
handle: `strong_count` one lower, `delete_obj` if it reached 0 and `delete_block` if
`weak_count` is 0 as well. -/
theorem C35_copy_assignment (ops : List Op) (w : World) (this other : Nat) (a o : SharedPtr)
    (hrun : run ops World.empty = Except.ok w)
    (ha : w.shared[this]? = some (some a))
    (ho : w.shared[other]? = some (some o))
    (hroom : liveS w + 1 < SIZE_MOD) :
    ∃ hp w3,
      SharedPtr.ctor_copy other w = Result.ok w.shared.length
        ⟨hp, w.objs, w.shared ++ [some o], w.weak, w.log⟩ ∧
      (o.control_block = none → hp = w.heap) ∧
      (∀ b, o.control_block = some b → ∃ blk, w.heap[b]? = some blk ∧
        hp = w.heap.set b { blk with shared_counter := blk.shared_counter + 1 }) ∧
      w3 = ⟨hp, w.objs,
            ((w.shared ++ [some o]).set this (some o)).set w.shared.length (some a),
            w.weak, w.log⟩ ∧
      SharedPtr.assign_copy this other w = SharedPtr.dtor w.shared.length w3 ∧
      w3.shared[this]? = some (some o) ∧ w3.shared[other]? = some (some o) ∧
      w3.shared[w.shared.length]? = some (some a) ∧
      (∀ w4, SharedPtr.dtor w.shared.length w3 = Result.ok () w4 →
        w4.shared[this]? = some (some o) ∧ w4.shared[other]? = some (some o) ∧
        w4.objs = w.objs) ∧
      (a.control_block = none →
        SharedPtr.assign_copy this other w
          = Result.ok () { w3 with shared := w3.shared.set w.shared.length none }) ∧
      (∀ b, a.control_block = some b → o.control_block = some b →
        SharedPtr.assign_copy this other w
          = Result.ok () ⟨w.heap, w.objs, w3.shared.set w.shared.length none, w.weak,
              w.log⟩) ∧
      (∀ b, a.control_block = some b → o.control_block ≠ some b →
        ∃ blk, w.heap[b]? = some blk ∧ hp[b]? = some blk ∧ 1 ≤ blk.shared_counter ∧
        (weak_ptr_of w blk.kind.payload = none →
          SharedPtr.assign_copy this other w = Result.ok ()
            { w3 with shared := w3.shared.set w.shared.length none,
                      heap := hp.set b
                        ⟨blk.shared_counter - 1, blk.weak_counter, blk.kind,
                         decide (blk.shared_counter = 1 ∧ blk.weak_counter = 0)⟩,
                      log := w.log ++
                        (if blk.shared_counter = 1 then
                          [Event.delete_obj b, blk.kind.destroy_event] ++
                            (if blk.weak_counter = 0 then
                              [Event.delete_block b, Event.deallocate default_alloc b]
                            else [])
                        else []) })) := by
  have hI := inv_of_run hrun
  obtain ⟨hp, e1, hnull, hblk⟩ := SharedPtr_ctor_copy_reach hI ho hroom
  have hI1 := (SharedPtr_ctor_copy_inv other).elim_ok hI e1
  have hlt := get_lt ha
  have hlo := get_lt ho
  have hthis1 : (w.shared ++ [some o])[this]? = some (some a) := by
    rw [List.getElem?_append_left hlt]
    exact ha
  have hcopy1 : (w.shared ++ [some o])[w.shared.length]? = some (some o) :=
    List.getElem?_concat_length _ _
  have e3 : SharedPtr.swap this w.shared.length
      ⟨hp, w.objs, w.shared ++ [some o], w.weak, w.log⟩
      = Result.ok () ⟨hp, w.objs,
          ((w.shared ++ [some o]).set this (some o)).set w.shared.length (some a),
          w.weak, w.log⟩ :=
    SharedPtr_swap_eq hthis1 hcopy1
  have hI3 := (SharedPtr_swap_inv this w.shared.length).elim_ok hI1 e3
  have hs3this : (((w.shared ++ [some o]).set this (some o)).set w.shared.length (some a))[
      this]? = some (some o) := by
    rw [List.getElem?_set_ne (by omega), List.getElem?_set_self (by simp; omega)]
  have hs3other : (((w.shared ++ [some o]).set this (some o)).set w.shared.length (some a))[
      other]? = some (some o) := by
    by_cases hot : other = this
    · rw [hot]
      exact hs3this
    · rw [List.getElem?_set_ne (by omega), List.getElem?_set_ne (Ne.symm hot),
        List.getElem?_append_left hlo]
      exact ho
  have hs3copy : (((w.shared ++ [some o]).set this (some o)).set w.shared.length (some a))[
      w.shared.length]? = some (some a) := by
    rw [List.getElem?_set_self (by simp)]
  have hassign : SharedPtr.assign_copy this other w = SharedPtr.dtor w.shared.length
      ⟨hp, w.objs, ((w.shared ++ [some o]).set this (some o)).set w.shared.length (some a),
        w.weak, w.log⟩ := by
    simp only [SharedPtr.assign_copy, bind_apply, e1, e3]
  refine ⟨hp, _, e1, hnull, hblk, rfl, hassign, hs3this, hs3other, hs3copy, ?_, ?_, ?_, ?_⟩
  · intro w4 hd
    obtain ⟨hobj, _, hsame⟩ := SharedPtr_dtor_frame hd
    refine ⟨?_, ?_, hobj⟩
    · rw [hsame this (by omega)]
      exact hs3this
    · rw [hsame other (by omega)]
      exact hs3other
  · intro hcb
    rw [hassign]
    exact SharedPtr_dtor_null hs3copy hcb
  · intro b hab hob
    obtain ⟨blk, hb, hhp⟩ := hblk b hob
    obtain ⟨blk0, hb0, hf⟩ := hI.block_of_shared ha hab
    rw [hb] at hb0
    cases hb0
    have hc := hI.counts b blk hb
    have hpos : 0 < cntS w b :=
      countP_pos_of_get (refS b) w.shared this (some a) ha (by simp [refS_of hab])
    have hle := cntS_le_liveS w b
    have hlb := heap_lt hb
    obtain ⟨blk3, hdef⟩ : ∃ blk3 : BaseControlBlock,
        blk3 = { blk with shared_counter := blk.shared_counter + 1 } := ⟨_, rfl⟩
    have hb3 : hp[b]? = some blk3 := by
      rw [hhp, hdef]
      exact List.getElem?_set_self hlb
    have hf3 : blk3.freed = false := by rw [hdef]; exact hf
    have h13 : 1 ≤ blk3.shared_counter := by rw [hdef]; simp
    have h23 : blk3.shared_counter < SIZE_MOD := by rw [hdef]; simp only []; omega
    have hne1 : ¬ (blk.shared_counter + 1 = 1) := by omega
    rw [hassign, SharedPtr_dtor_eq hs3copy hab hb3 hf3 h13 h23]
    subst hdef
    simp only [hne1, if_false, pure_apply, Nat.add_sub_cancel, hhp, List.set_set]
    have hsame : w.heap.set b ⟨blk.shared_counter, blk.weak_counter, blk.kind, blk.freed⟩
        = w.heap := set_same hb
    rw [hsame]
  · intro b hab hob
    obtain ⟨blk, hb, hf⟩ := hI.block_of_shared ha hab
    have hb3 : hp[b]? = some blk := by
      cases hcb : o.control_block with
      | none =>
        rw [hnull hcb]
        exact hb
      | some b1 =>
        obtain ⟨blk1, _, hhp⟩ := hblk b1 hcb
        have hne : b1 ≠ b := by
          intro hbb
          rw [hbb] at hcb
          exact hob hcb
        rw [hhp, List.getElem?_set_ne hne]
        exact hb
    have hc := hI3.counts b blk hb3
    have hpos : 0 < cntS
        (⟨hp, w.objs, ((w.shared ++ [some o]).set this (some o)).set w.shared.length (some a),
          w.weak, w.log⟩ : World) b :=
      countP_pos_of_get (refS b) _ w.shared.length (some a) hs3copy (by simp [refS_of hab])
    have hle := cntS_le_liveS
      (⟨hp, w.objs, ((w.shared ++ [some o]).set this (some o)).set w.shared.length (some a),
        w.weak, w.log⟩ : World) b
    have hl := hI3.live_s
    refine ⟨blk, hb, hb3, by omega, ?_⟩
    intro hpl
    rw [hassign]
    exact SharedPtr_dtor_plain_eq hs3copy hab hb3 hf (by omega) (by omega) hpl

/-- Witness of C35: the handle of `world_single` is assigned to itself: no counter
changes, nothing is destroyed, and only the temporary has come and gone. -/
theorem C35_copy_assignment_witness :
    run prog_single World.empty = Except.ok world_single ∧
    SharedPtr.assign_copy 0 0 world_single = Result.ok ()
      ⟨world_single.heap, world_single.objs, [some ⟨some 0, some 0⟩, none],
       world_single.weak, world_single.log⟩ := by
  refine ⟨rfl, ?_⟩
  obtain ⟨hp, w3, _, _, _, hw3, _, _, _, _, _, _, hsame, _⟩ :=
    C35_copy_assignment prog_single world_single 0 0 ⟨some 0, some 0⟩ ⟨some 0, some 0⟩
      rfl rfl rfl (by unfold SIZE_MOD; decide)
  subst hw3
  exact hsame 0 rfl rfl

theorem LogBound_frame (w w1 : World) (hh : w.heap.length ≤ w1.heap.length)
    (hl : w1.log = w.log) (hJ : LogBound w) : LogBound w1 := by
  intro b hb
  rw [hl] at hb
  exact Nat.lt_of_lt_of_le (hJ b hb) hh

theorem set_shared_lb (i : Nat) (h : SharedPtr) :
    Keeps LogBound (set_shared i h) (fun _ => True) := by
  intro w hJ
  exact ⟨LogBound_frame w _ (Nat.le_refl _) rfl hJ, trivial⟩

theorem end_shared_lb (i : Nat) : Keeps LogBound (end_shared i) (fun _ => True) := by
  intro w hJ
  exact ⟨LogBound_frame w _ (Nat.le_refl _) rfl hJ, trivial⟩

theorem new_shared_lb (h : SharedPtr) : Keeps LogBound (new_shared h) (fun _ => True) := by
  intro w hJ
  by_cases hg : liveS w + 1 < SIZE_MOD
  · simp only [new_shared, hg, if_true]
    exact ⟨LogBound_frame w _ (Nat.le_refl _) rfl hJ, trivial⟩
  · simp only [new_shared, hg, if_false]

theorem set_weak_lb (i : Nat) (h : WeakPtr) :
    Keeps LogBound (set_weak i h) (fun _ => True) := by
  intro w hJ
  exact ⟨LogBound_frame w _ (Nat.le_refl _) rfl hJ, trivial⟩

theorem end_weak_lb (i : Nat) : Keeps LogBound (end_weak i) (fun _ => True) := by
  intro w hJ
  exact ⟨LogBound_frame w _ (Nat.le_refl _) rfl hJ, trivial⟩

theorem new_weak_lb (h : WeakPtr) : Keeps LogBound (new_weak h) (fun _ => True) := by
  intro w hJ
  by_cases hg : liveW w + 1 < SIZE_MOD
  · simp only [new_weak, hg, if_true]
    exact ⟨LogBound_frame w _ (Nat.le_refl _) rfl hJ, trivial⟩
  · simp only [new_weak, hg, if_false]

theorem set_block_lb (b : Nat) (blk : BaseControlBlock) :
    Keeps LogBound (set_block b blk) (fun _ => True) := by
  intro w hJ
  refine ⟨LogBound_frame w _ ?_ rfl hJ, trivial⟩
  simp only [List.length_set]
  exact Nat.le_refl _

theorem emit_lb {e : Event} (he : ∀ b, e ≠ Event.delete_obj b) :
    Keeps LogBound (emit e) (fun _ => True) := by
  intro w hJ
  refine ⟨?_, trivial⟩
  intro b hb
  simp only [List.mem_append, List.mem_singleton] at hb
  cases hb with
  | inl hm => exact hJ b hm
  | inr h1 => exact False.elim (he b h1.symm)

theorem allocate_block_lb (alloc_ok : Bool) (kind : BlockKind) :
    Keeps LogBound (allocate_block alloc_ok kind) (fun _ => True) := by
  intro w hJ
  cases alloc_ok with
  | false => exact hJ
  | true =>
    refine ⟨?_, trivial⟩
    intro b hb
    simp only [List.mem_append, List.mem_singleton] at hb
    simp only [List.length_append, List.length_singleton]
    cases hb with
    | inl hm => exact Nat.lt_succ_of_lt (hJ b hm)
    | inr h1 => cases h1

theorem delete_block_lb (b : Nat) :
    Keeps LogBound (BaseControlBlock.delete_block b) (fun _ => True) := by
  unfold BaseControlBlock.delete_block
  repeat' first
    | exact get_block_keeps _
    | exact emit_lb (by intro b1 h; cases h)
    | exact set_block_lb _ _
    | apply Keeps_bind
    | intro _ _

theorem WeakPtr_dtor_lb (this : Nat) :
    Keeps LogBound (WeakPtr.dtor this) (fun _ => True) := by
  unfold WeakPtr.dtor
  repeat' first
    | exact Keeps_pure trivial
    | exact get_weak_keeps _
    | exact end_weak_lb _
    | exact get_block_keeps _
    | exact set_block_lb _ _
    | exact delete_block_lb _
    | apply Keeps_bind
    | split
    | intro _ _

theorem WeakPtr_ctor_adopt_lb (ptr : Option Nat) (del alloc : Nat) (alloc_ok : Bool) :
    Keeps LogBound (WeakPtr.ctor_adopt ptr del alloc alloc_ok) (fun _ => True) := by
  unfold WeakPtr.ctor_adopt
  repeat' first
    | exact Keeps_pure trivial
    | exact new_weak_lb _
    | exact get_block_keeps _
    | exact allocate_block_lb _ _
    | exact set_block_lb _ _
    | apply Keeps_bind
    | intro _ _

theorem WeakPtr_ctor_alias_lb (other : Nat) (ptr : Option Nat) :
    Keeps LogBound (WeakPtr.ctor_alias other ptr) (fun _ => True) := by
  unfold WeakPtr.ctor_alias
  repeat' first
    | exact Keeps_pure trivial
    | exact get_weak_keeps _
    | exact new_weak_lb _
    | exact get_block_keeps _
    | exact set_block_lb _ _
    | apply Keeps_bind
    | split
    | intro _ _

theorem WeakPtr_ctor_copy_lb (other : Nat) :
    Keeps LogBound (WeakPtr.ctor_copy other) (fun _ => True) := by
  unfold WeakPtr.ctor_copy
  repeat' first
    | exact Keeps_pure trivial
    | exact get_weak_keeps _
    | exact new_weak_lb _
    | exact get_block_keeps _
    | exact set_block_lb _ _
    | apply Keeps_bind
    | split
    | intro _ _

theorem WeakPtr_ctor_move_lb (other : Nat) :
    Keeps LogBound (WeakPtr.ctor_move other) (fun _ => True) := by
  unfold WeakPtr.ctor_move
  repeat' first
    | exact Keeps_pure trivial
    | exact get_weak_keeps _
    | exact set_weak_lb _ _
    | exact new_weak_lb _
    | apply Keeps_bind
    | intro _ _

theorem WeakPtr_ctor_from_shared_lb (sh_ptr : Nat) :
    Keeps LogBound (WeakPtr.ctor_from_shared sh_ptr) (fun _ => True) := by
  unfold WeakPtr.ctor_from_shared
  repeat' first
    | exact Keeps_pure trivial
    | exact Keeps_fault _
    | exact get_shared_keeps _
    | exact new_weak_lb _
    | exact get_block_keeps _
    | exact set_block_lb _ _
    | apply Keeps_bind
    | split
    | intro _ _

theorem WeakPtr_swap_lb (this other : Nat) :
    Keeps LogBound (WeakPtr.swap this other) (fun _ => True) := by
  unfold WeakPtr.swap
  repeat' first
    | exact get_weak_keeps _
    | exact set_weak_lb _ _
    | apply Keeps_bind
    | intro _ _

theorem WeakPtr_assign_copy_lb (this other : Nat) :
    Keeps LogBound (WeakPtr.assign_copy this other) (fun _ => True) := by
  unfold WeakPtr.assign_copy
  repeat' first
    | exact WeakPtr_dtor_lb _
    | exact WeakPtr_swap_lb _ _
    | exact WeakPtr_ctor_copy_lb _
    | apply Keeps_bind
    | intro _ _

theorem WeakPtr_assign_move_lb (this other : Nat) :
    Keeps LogBound (WeakPtr.assign_move this other) (fun _ => True) := by
  unfold WeakPtr.assign_move
  repeat' first
    | exact WeakPtr_dtor_lb _
    | exact WeakPtr_swap_lb _ _
    | exact WeakPtr_ctor_move_lb _
    | apply Keeps_bind
    | intro _ _

theorem WeakPtr_expired_lb (this : Nat) :
    Keeps LogBound (WeakPtr.expired this) (fun _ => True) := by
  unfold WeakPtr.expired
  repeat' first
    | exact Keeps_pure trivial
    | exact get_weak_keeps _
    | exact get_block_keeps _
    | apply Keeps_bind
    | split
    | intro _ _

theorem WeakPtr_get_lb (this : Nat) :
    Keeps LogBound (WeakPtr.get this) (fun _ => True) := by
  unfold WeakPtr.get
  repeat' first
    | exact Keeps_pure trivial
    | exact get_weak_keeps _
    | apply Keeps_bind
    | intro _ _

theorem WeakPtr_use_count_lb (this : Nat) :
    Keeps LogBound (WeakPtr.use_count this) (fun _ => True) := by
  unfold WeakPtr.use_count
  repeat' first
    | exact Keeps_pure trivial
    | exact get_weak_keeps _
    | exact get_block_keeps _
    | apply Keeps_bind
    | split
    | intro _ _

theorem Payload_dtor_lb (p : Option Nat) :
    Keeps LogBound (Payload.dtor p) (fun _ => True) := by
  unfold Payload.dtor
  repeat' first
    | exact Keeps_pure trivial
    | exact get_world_keeps
    | exact WeakPtr_dtor_lb _
    | apply Keeps_bind
    | split
    | intro _ _

theorem BaseControlBlock_delete_obj_lb (b : Nat) :
    Keeps LogBound (BaseControlBlock.delete_obj b) (fun _ => True) := by
  intro w hJ
  simp only [BaseControlBlock.delete_obj, bind_apply, get_block]
  cases h : w.heap[b]? with
  | none => trivial
  | some blk =>
    cases hf : blk.freed with
    | true => simp only [hf, if_true]
    | false =>
      simp only [hf, Bool.false_eq_true, if_false, emit]
      have hJ1 : LogBound { w with log := w.log ++ [Event.delete_obj b] } := by
        intro b1 hb1
        simp only [List.mem_append, List.mem_singleton] at hb1
        cases hb1 with
        | inl hm => exact hJ b1 hm
        | inr he =>
          cases he
          exact heap_lt h
      have h2 : Keeps LogBound (match blk.kind with
          | BlockKind.ptr p d _ =>
            emit (Event.deleter d p) >>= fun _ =>
              if deleter_destroys d then Payload.dtor p else pure ()
          | BlockKind.object o a =>
            emit (Event.destroy a o) >>= fun _ => Payload.dtor (some o))
          (fun _ => True) := by
        split
        · refine Keeps_bind (emit_lb (by intro b1 h; cases h)) (fun _ _ => ?_)
          split
          · exact Payload_dtor_lb _
          · exact Keeps_pure trivial
        · exact Keeps_bind (emit_lb (by intro b1 h; cases h)) (fun _ _ => Payload_dtor_lb _)
      exact h2 _ hJ1

theorem SharedPtr_ctor_private_lb (pointer control_block : Option Nat) :
    Keeps LogBound (SharedPtr.ctor_private pointer control_block) (fun _ => True) := by
  unfold SharedPtr.ctor_private
  repeat' first
    | exact Keeps_pure trivial
    | exact Keeps_fault _
    | exact new_shared_lb _
    | exact get_block_keeps _
    | exact set_block_lb _ _
    | apply Keeps_bind
    | split
    | intro _ _

theorem WeakPtr_lock_lb (this : Nat) :
    Keeps LogBound (WeakPtr.lock this) (fun _ => True) := by
  unfold WeakPtr.lock
  repeat' first
    | exact get_weak_keeps _
    | exact SharedPtr_ctor_private_lb _ _
    | apply Keeps_bind
    | intro _ _

theorem SharedPtr_assign_weak_ptr_lb (weak_ptr this : Nat) :
    Keeps LogBound (SharedPtr.assign_weak_ptr weak_ptr this) (fun _ => True) := by
  unfold SharedPtr.assign_weak_ptr
  repeat' first
    | exact WeakPtr_dtor_lb _
    | exact WeakPtr_ctor_from_shared_lb _
    | exact WeakPtr_assign_move_lb _ _
    | apply Keeps_bind
    | intro _ _

theorem SharedPtr_ctor_adopt_lb (ptr : Option Nat) (del alloc : Nat) (alloc_ok : Bool) :
    Keeps LogBound (SharedPtr.ctor_adopt ptr del alloc alloc_ok) (fun _ => True) := by
  unfold SharedPtr.ctor_adopt
  repeat' first
    | exact Keeps_pure trivial
    | exact new_shared_lb _
    | exact get_block_keeps _
    | exact get_world_keeps
    | exact allocate_block_lb _ _
    | exact SharedPtr_assign_weak_ptr_lb _ _
    | exact set_block_lb _ _
    | apply Keeps_bind
    | split
    | intro _ _

theorem SharedPtr_ctor_alias_lb (other : Nat) (ptr : Option Nat) :
    Keeps LogBound (SharedPtr.ctor_alias other ptr) (fun _ => True) := by
  unfold SharedPtr.ctor_alias
  repeat' first
    | exact Keeps_pure trivial
    | exact get_shared_keeps _
    | exact new_shared_lb _
    | exact get_block_keeps _
    | exact set_block_lb _ _
    | apply Keeps_bind
    | split
    | intro _ _

theorem SharedPtr_ctor_copy_lb (other : Nat) :
    Keeps LogBound (SharedPtr.ctor_copy other) (fun _ => True) := by
  unfold SharedPtr.ctor_copy
  repeat' first
    | exact Keeps_pure trivial
    | exact get_shared_keeps _
    | exact new_shared_lb _
    | exact get_block_keeps _
    | exact set_block_lb _ _
    | apply Keeps_bind
    | split
    | intro _ _

theorem SharedPtr_ctor_move_lb (other : Nat) :
    Keeps LogBound (SharedPtr.ctor_move other) (fun _ => True) := by
  unfold SharedPtr.ctor_move
  repeat' first
    | exact Keeps_pure trivial
    | exact get_shared_keeps _
    | exact set_shared_lb _ _
    | exact new_shared_lb _
    | apply Keeps_bind
    | intro _ _

theorem SharedPtr_swap_lb (this other : Nat) :
    Keeps LogBound (SharedPtr.swap this other) (fun _ => True) := by
  unfold SharedPtr.swap
  repeat' first
    | exact get_shared_keeps _
    | exact set_shared_lb _ _
    | apply Keeps_bind
    | intro _ _

theorem SharedPtr_dtor_lb (this : Nat) :
    Keeps LogBound (SharedPtr.dtor this) (fun _ => True) := by
  unfold SharedPtr.dtor
  repeat' first
    | exact Keeps_pure trivial
    | exact get_shared_keeps _
    | exact end_shared_lb _
    | exact get_block_keeps _
    | exact delete_block_lb _
    | exact BaseControlBlock_delete_obj_lb _
    | exact set_block_lb _ _
    | apply Keeps_bind
    | split
    | intro _ _

theorem SharedPtr_assign_copy_lb (this other : Nat) :
    Keeps LogBound (SharedPtr.assign_copy this other) (fun _ => True) := by
  unfold SharedPtr.assign_copy
  repeat' first
    | exact SharedPtr_dtor_lb _
    | exact SharedPtr_swap_lb _ _
    | exact SharedPtr_ctor_copy_lb _
    | apply Keeps_bind
    | intro _ _

theorem SharedPtr_assign_move_lb (this other : Nat) :
    Keeps LogBound (SharedPtr.assign_move this other) (fun _ => True) := by
  unfold SharedPtr.assign_move
  repeat' first
    | exact SharedPtr_dtor_lb _
    | exact SharedPtr_swap_lb _ _
    | exact SharedPtr_ctor_move_lb _
    | apply Keeps_bind
    | intro _ _

theorem SharedPtr_use_count_lb (this : Nat) :
    Keeps LogBound (SharedPtr.use_count this) (fun _ => True) := by
  unfold SharedPtr.use_count
  repeat' first
    | exact Keeps_pure trivial
    | exact get_shared_keeps _
    | exact get_block_keeps _
    | apply Keeps_bind
    | split
    | intro _ _

theorem SharedPtr_get_lb (this : Nat) :
    Keeps LogBound (SharedPtr.get this) (fun _ => True) := by
  unfold SharedPtr.get
  repeat' first
    | exact Keeps_pure trivial
    | exact get_shared_keeps _
    | apply Keeps_bind
    | intro _ _

theorem SharedPtr_construct_lb
    (args : SharedPtr.Args) :
    Keeps LogBound (SharedPtr.construct args) (fun _ => True) := by
  cases args with
  | default => exact new_shared_lb _
  | adopt ptr del alloc alloc_ok => exact SharedPtr_ctor_adopt_lb ptr del alloc alloc_ok
  | aliasing other ptr => exact SharedPtr_ctor_alias_lb other ptr
  | copy other => exact SharedPtr_ctor_copy_lb other
  | move other => exact SharedPtr_ctor_move_lb other

theorem WeakPtr_construct_lb
    (args : WeakPtr.Args) :
    Keeps LogBound (WeakPtr.construct args) (fun _ => True) := by
  cases args with
  | default => exact new_weak_lb _
  | adopt ptr del alloc alloc_ok => exact WeakPtr_ctor_adopt_lb ptr del alloc alloc_ok
  | aliasing other ptr => exact WeakPtr_ctor_alias_lb other ptr
  | copy other => exact WeakPtr_ctor_copy_lb other
  | move other => exact WeakPtr_ctor_move_lb other
  | from_shared sh_ptr => exact WeakPtr_ctor_from_shared_lb sh_ptr

theorem SharedPtr_reset_lb (this : Nat) (args : SharedPtr.Args) :
    Keeps LogBound (SharedPtr.reset this args) (fun _ => True) := by
  unfold SharedPtr.reset
  repeat' first
    | exact SharedPtr_dtor_lb _
    | exact SharedPtr_construct_lb _
    | exact SharedPtr_assign_move_lb _ _
    | apply Keeps_bind
    | intro _ _

theorem ControlBlockObject_ctor_lb (esft ctor_ok : Bool) :
    Keeps LogBound (ControlBlockObject.ctor esft ctor_ok) (fun _ => True) := by
  intro w hJ
  cases ctor_ok with
  | false => exact hJ
  | true =>
    cases esft with
    | false => exact ⟨LogBound_frame w _ (Nat.le_refl _) rfl hJ, trivial⟩
    | true =>
      by_cases hg : liveW w + 1 < SIZE_MOD
      · simp only [ControlBlockObject.ctor, if_true, WeakPtr.ctor_default, new_weak, hg]
        exact ⟨LogBound_frame w _ (Nat.le_refl _) rfl hJ, trivial⟩
      · simp only [ControlBlockObject.ctor, if_true, WeakPtr.ctor_default, new_weak, hg,
          if_false]

theorem new_payload_lb (esft : Bool) :
    Keeps LogBound (new_payload esft) (fun _ => True) := by
  intro w hJ
  cases esft with
  | false => exact ⟨LogBound_frame w _ (Nat.le_refl _) rfl hJ, trivial⟩
  | true =>
    by_cases hg : liveW w + 1 < SIZE_MOD
    · simp only [new_payload, if_true, WeakPtr.ctor_default, new_weak, hg]
      exact ⟨LogBound_frame w _ (Nat.le_refl _) rfl hJ, trivial⟩
    · simp only [new_payload, if_true, WeakPtr.ctor_default, new_weak, hg, if_false]

theorem allocateShared_lb (esft : Bool) (alloc : Nat) (alloc_ok ctor_ok : Bool) :
    Keeps LogBound (allocateShared esft alloc alloc_ok ctor_ok) (fun _ => True) := by
  unfold allocateShared
  repeat' first
    | exact get_world_keeps
    | exact allocate_block_lb _ _
    | exact SharedPtr_ctor_private_lb _ _
    | exact ControlBlockObject_ctor_lb _ _
    | apply Keeps_bind
    | intro _ _

theorem EnableSharedFromThis_shared_from_this_lb (p : Nat) :
    Keeps LogBound (EnableSharedFromThis.shared_from_this p) (fun _ => True) := by
  unfold EnableSharedFromThis.shared_from_this
  repeat' first
    | exact Keeps_fault _
    | exact Keeps_throw _
    | exact get_world_keeps
    | exact WeakPtr_expired_lb _
    | exact WeakPtr_lock_lb _
    | apply Keeps_bind
    | split
    | intro _ _

theorem step_lb (op : Op) :
    Keeps LogBound (step op) (fun _ => True) := by
  cases op with
  | new_payload esft => exact Keeps_discard (new_payload_lb esft)
  | sp_construct args => exact Keeps_discard (SharedPtr_construct_lb args)
  | sp_allocate esft alloc alloc_ok ctor_ok =>
    exact Keeps_discard (allocateShared_lb esft alloc alloc_ok ctor_ok)
  | sp_make esft alloc_ok ctor_ok =>
    exact Keeps_discard (allocateShared_lb esft default_alloc alloc_ok ctor_ok)
  | sp_assign_copy this other => exact SharedPtr_assign_copy_lb this other
  | sp_assign_move this other => exact SharedPtr_assign_move_lb this other
  | sp_swap this other => exact SharedPtr_swap_lb this other
  | sp_reset this args => exact SharedPtr_reset_lb this args
  | sp_use_count this => exact Keeps_discard (SharedPtr_use_count_lb this)
  | sp_get this => exact Keeps_discard (SharedPtr_get_lb this)
  | sp_destroy this => exact SharedPtr_dtor_lb this
  | wp_construct args => exact Keeps_discard (WeakPtr_construct_lb args)
  | wp_assign_copy this other => exact WeakPtr_assign_copy_lb this other
  | wp_assign_move this other => exact WeakPtr_assign_move_lb this other
  | wp_swap this other => exact WeakPtr_swap_lb this other
  | wp_expired this => exact Keeps_discard (WeakPtr_expired_lb this)
  | wp_use_count this => exact Keeps_discard (WeakPtr_use_count_lb this)
  | wp_get this => exact Keeps_discard (WeakPtr_get_lb this)
  | wp_lock this => exact Keeps_discard (WeakPtr_lock_lb this)
  | wp_destroy this => exact WeakPtr_dtor_lb this
  | shared_from_this p =>
    exact Keeps_discard (EnableSharedFromThis_shared_from_this_lb p)

/-- Every `delete_obj` a program records is on a block that was allocated. -/
theorem run_lb (ops : List Op) :
    ∀ (w w1 : World), LogBound w → run ops w = Except.ok w1 → LogBound w1 := by
  induction ops with
  | nil =>
    intro w w1 hJ hrun
    simp only [run, Except.ok.injEq] at hrun
    rw [← hrun]
    exact hJ
  | cons op ops ih =>
    intro w w1 hJ hrun
    have hs := step_lb op w hJ
    simp only [run] at hrun
    cases hst : step op w with
    | ok a w2 =>
      rw [hst] at hs hrun
      exact ih w2 w1 hs.1 hrun
    | throw e w2 =>
      rw [hst] at hs hrun
      exact ih w2 w1 hs hrun
    | fault f =>
      rw [hst] at hrun
      cases hrun


theorem LogBound_empty : LogBound World.empty := by
  intro b hb
  cases hb

theorem Unowned_frame {b n : Nat} (w w1 : World) (hh : w1.heap.length = w.heap.length)
    (hs : w1.shared = w.shared) (hl : w1.log = w.log) (hJ : Unowned b n w) :
    Unowned b n w1 := by
  unfold Unowned
  rw [hh, hs, hl]
  exact hJ

theorem get_shared_un {b n : Nat} (i : Nat) :
    Keeps (Unowned b n) (get_shared i) (fun o => o.control_block ≠ some b) := by
  intro w hJ
  simp only [get_shared]
  cases h : w.shared[i]? with
  | none => trivial
  | some s =>
    cases s with
    | none => trivial
    | some x => exact ⟨hJ, hJ.2.1 i x h⟩

theorem set_shared_un {b n : Nat} {h : SharedPtr} (hh : h.control_block ≠ some b) (i : Nat) :
    Keeps (Unowned b n) (set_shared i h) (fun _ => True) := by
  intro w hJ
  refine ⟨⟨hJ.1, ?_, hJ.2.2⟩, trivial⟩
  intro j x hj
  by_cases hij : i = j
  · subst hij
    have hlt : i < w.shared.length := by
      have := get_lt hj
      simpa using this
    simp only [List.getElem?_set_self hlt, Option.some.injEq] at hj
    rw [← hj]
    exact hh
  · simp only [List.getElem?_set_ne hij] at hj
    exact hJ.2.1 j x hj

theorem end_shared_un {b n : Nat} (i : Nat) :
    Keeps (Unowned b n) (end_shared i) (fun _ => True) := by
  intro w hJ
  refine ⟨⟨hJ.1, ?_, hJ.2.2⟩, trivial⟩
  intro j x hj
  by_cases hij : i = j
  · subst hij
    have hlt : i < w.shared.length := by
      have := get_lt hj
      simpa using this
    simp only [List.getElem?_set_self hlt, Option.some.injEq] at hj
    cases hj
  · simp only [List.getElem?_set_ne hij] at hj
    exact hJ.2.1 j x hj

theorem new_shared_un {b n : Nat} {h : SharedPtr} (hh : h.control_block ≠ some b) :
    Keeps (Unowned b n) (new_shared h) (fun _ => True) := by
  intro w hJ
  by_cases hg : liveS w + 1 < SIZE_MOD
  · simp only [new_shared, hg, if_true]
    refine ⟨⟨hJ.1, ?_, hJ.2.2⟩, trivial⟩
    intro j x hj
    by_cases hlt : j < w.shared.length
    · simp only [List.getElem?_append_left hlt] at hj
      exact hJ.2.1 j x hj
    · have hj1 := hj
      simp only [List.getElem?_append_right (Nat.le_of_not_lt hlt)] at hj1
      have hmem := List.getElem?_mem hj1
      simp only [List.mem_singleton, Option.some.injEq] at hmem
      rw [hmem]
      exact hh
  · simp only [new_shared, hg, if_false]

theorem set_weak_un {b n : Nat} (i : Nat) (h : WeakPtr) :
    Keeps (Unowned b n) (set_weak i h) (fun _ => True) := by
  intro w hJ
  exact ⟨Unowned_frame w _ rfl rfl rfl hJ, trivial⟩

theorem end_weak_un {b n : Nat} (i : Nat) :
    Keeps (Unowned b n) (end_weak i) (fun _ => True) := by
  intro w hJ
  exact ⟨Unowned_frame w _ rfl rfl rfl hJ, trivial⟩

theorem new_weak_un {b n : Nat} (h : WeakPtr) :
    Keeps (Unowned b n) (new_weak h) (fun _ => True) := by
  intro w hJ
  by_cases hg : liveW w + 1 < SIZE_MOD
  · simp only [new_weak, hg, if_true]
    exact ⟨Unowned_frame w _ rfl rfl rfl hJ, trivial⟩
  · simp only [new_weak, hg, if_false]

theorem set_block_un {b n : Nat} (b1 : Nat) (blk : BaseControlBlock) :
    Keeps (Unowned b n) (set_block b1 blk) (fun _ => True) := by
  intro w hJ
  exact ⟨Unowned_frame w _ (by simp) rfl rfl hJ, trivial⟩

theorem emit_un {b n : Nat} {e : Event} (he : e ≠ Event.delete_obj b) :
    Keeps (Unowned b n) (emit e) (fun _ => True) := by
  intro w hJ
  refine ⟨⟨hJ.1, hJ.2.1, ?_⟩, trivial⟩
  simp only [List.count_append, hJ.2.2, List.count_singleton, Nat.add_right_eq_self,
    ite_eq_right_iff]
  intro h
  exact absurd (by simpa using h) he

theorem allocate_block_un {b n : Nat} (alloc_ok : Bool) (kind : BlockKind) :
    Keeps (Unowned b n) (allocate_block alloc_ok kind)
      (fun r => (some r : Option Nat) ≠ some b) := by
  intro w hJ
  cases alloc_ok with
  | false => exact hJ
  | true =>
    refine ⟨⟨?_, hJ.2.1, ?_⟩, ?_⟩
    · simp only [List.length_append, List.length_singleton]
      have := hJ.1
      omega
    · simp only [List.count_append, hJ.2.2, List.count_singleton, Nat.add_right_eq_self,
        ite_eq_right_iff]
      intro h
      simp at h
    · intro h
      have := hJ.1
      simp only [Option.some.injEq] at h
      omega


theorem delete_block_un {b n : Nat} (b1 : Nat) :
    Keeps (Unowned b n) (BaseControlBlock.delete_block b1) (fun _ => True) := by
  unfold BaseControlBlock.delete_block
  repeat' first
    | exact get_block_keeps _
    | exact set_block_un _ _
    | exact emit_un (by intro h; cases h)
    | apply Keeps_bind
    | intro _ _

theorem WeakPtr_dtor_un {b n : Nat} (this : Nat) :
    Keeps (Unowned b n) (WeakPtr.dtor this) (fun _ => True) := by
  unfold WeakPtr.dtor
  repeat' first
    | exact Keeps_pure trivial
    | exact get_weak_keeps _
    | exact end_weak_un _
    | exact get_block_keeps _
    | exact set_block_un _ _
    | exact delete_block_un _
    | apply Keeps_bind
    | split
    | intro _ _

theorem WeakPtr_ctor_adopt_un {b n : Nat} (ptr : Option Nat) (del alloc : Nat) (alloc_ok : Bool) :
    Keeps (Unowned b n) (WeakPtr.ctor_adopt ptr del alloc alloc_ok) (fun _ => True) := by
  unfold WeakPtr.ctor_adopt
  repeat' first
    | exact Keeps_pure trivial
    | exact new_weak_un _
    | exact get_block_keeps _
    | exact set_block_un _ _
    | exact allocate_block_un _ _
    | apply Keeps_bind
    | intro _ _

theorem WeakPtr_ctor_alias_un {b n : Nat} (other : Nat) (ptr : Option Nat) :
    Keeps (Unowned b n) (WeakPtr.ctor_alias other ptr) (fun _ => True) := by
  unfold WeakPtr.ctor_alias
  repeat' first
    | exact Keeps_pure trivial
    | exact get_weak_keeps _
    | exact new_weak_un _
    | exact get_block_keeps _
    | exact set_block_un _ _
    | apply Keeps_bind
    | split
    | intro _ _

theorem WeakPtr_ctor_copy_un {b n : Nat} (other : Nat) :
    Keeps (Unowned b n) (WeakPtr.ctor_copy other) (fun _ => True) := by
  unfold WeakPtr.ctor_copy
  repeat' first
    | exact Keeps_pure trivial
    | exact get_weak_keeps _
    | exact new_weak_un _
    | exact get_block_keeps _
    | exact set_block_un _ _
    | apply Keeps_bind
    | split
    | intro _ _

theorem WeakPtr_ctor_move_un {b n : Nat} (other : Nat) :
    Keeps (Unowned b n) (WeakPtr.ctor_move other) (fun _ => True) := by
  unfold WeakPtr.ctor_move
  repeat' first
    | exact Keeps_pure trivial
    | exact get_weak_keeps _
    | exact set_weak_un _ _
    | exact new_weak_un _
    | apply Keeps_bind
    | intro _ _

theorem WeakPtr_ctor_from_shared_un {b n : Nat} (sh_ptr : Nat) :
    Keeps (Unowned b n) (WeakPtr.ctor_from_shared sh_ptr) (fun _ => True) := by
  unfold WeakPtr.ctor_from_shared
  repeat' first
    | exact Keeps_pure trivial
    | exact Keeps_fault _
    | exact get_shared_un _
    | exact new_weak_un _
    | exact get_block_keeps _
    | exact set_block_un _ _
    | apply Keeps_bind
    | split
    | intro _ _

theorem WeakPtr_swap_un {b n : Nat} (this other : Nat) :
    Keeps (Unowned b n) (WeakPtr.swap this other) (fun _ => True) := by
  unfold WeakPtr.swap
  repeat' first
    | exact get_weak_keeps _
    | exact set_weak_un _ _
    | apply Keeps_bind
    | intro _ _

theorem WeakPtr_assign_copy_un {b n : Nat} (this other : Nat) :
    Keeps (Unowned b n) (WeakPtr.assign_copy this other) (fun _ => True) := by
  unfold WeakPtr.assign_copy
  repeat' first
    | exact WeakPtr_dtor_un _
    | exact WeakPtr_swap_un _ _
    | exact WeakPtr_ctor_copy_un _
    | apply Keeps_bind
    | intro _ _

theorem WeakPtr_assign_move_un {b n : Nat} (this other : Nat) :
    Keeps (Unowned b n) (WeakPtr.assign_move this other) (fun _ => True) := by
  unfold WeakPtr.assign_move
  repeat' first
    | exact WeakPtr_dtor_un _
    | exact WeakPtr_swap_un _ _
    | exact WeakPtr_ctor_move_un _
    | apply Keeps_bind
    | intro _ _

theorem WeakPtr_expired_un {b n : Nat} (this : Nat) :
    Keeps (Unowned b n) (WeakPtr.expired this) (fun _ => True) := by
  unfold WeakPtr.expired
  repeat' first
    | exact Keeps_pure trivial
    | exact get_weak_keeps _
    | exact get_block_keeps _
    | apply Keeps_bind
    | split
    | intro _ _

theorem WeakPtr_get_un {b n : Nat} (this : Nat) :
    Keeps (Unowned b n) (WeakPtr.get this) (fun _ => True) := by
  unfold WeakPtr.get
  repeat' first
    | exact Keeps_pure trivial
    | exact get_weak_keeps _
    | apply Keeps_bind
    | intro _ _

theorem WeakPtr_use_count_un {b n : Nat} (this : Nat) :
    Keeps (Unowned b n) (WeakPtr.use_count this) (fun _ => True) := by
  unfold WeakPtr.use_count
  repeat' first
    | exact Keeps_pure trivial
    | exact get_weak_keeps _
    | exact get_block_keeps _
    | apply Keeps_bind
    | split
    | intro _ _

theorem Payload_dtor_un {b n : Nat} (p : Option Nat) :
    Keeps (Unowned b n) (Payload.dtor p) (fun _ => True) := by
  unfold Payload.dtor
  repeat' first
    | exact Keeps_pure trivial
    | exact get_world_keeps
    | exact WeakPtr_dtor_un _
    | apply Keeps_bind
    | split
    | intro _ _

theorem BaseControlBlock_delete_obj_un {b n b1 : Nat} (hb1 : b1 ≠ b) :
    Keeps (Unowned b n) (BaseControlBlock.delete_obj b1) (fun _ => True) := by
  have he : Event.delete_obj b1 ≠ Event.delete_obj b := by
    intro h
    cases h
    exact hb1 rfl
  unfold BaseControlBlock.delete_obj
  refine Keeps_bind (get_block_keeps _) (fun blk _ => ?_)
  refine Keeps_bind (emit_un he) (fun _ _ => ?_)
  split
  · refine Keeps_bind (emit_un (by intro h; cases h)) (fun _ _ => ?_)
    split
    · exact Payload_dtor_un _
    · exact Keeps_pure trivial
  · exact Keeps_bind (emit_un (by intro h; cases h)) (fun _ _ => Payload_dtor_un _)

theorem SharedPtr_ctor_private_un {b n : Nat} (pointer : Option Nat)
    {control_block : Option Nat} (hcb : control_block ≠ some b) :
    Keeps (Unowned b n) (SharedPtr.ctor_private pointer control_block) (fun _ => True) := by
  unfold SharedPtr.ctor_private
  repeat' first
    | exact Keeps_pure trivial
    | exact Keeps_fault _
    | exact new_shared_un (by assumption)
    | exact get_block_keeps _
    | exact set_block_un _ _
    | apply Keeps_bind
    | split
    | intro _ _

theorem SharedPtr_assign_weak_ptr_un {b n : Nat} (weak_ptr this : Nat) :
    Keeps (Unowned b n) (SharedPtr.assign_weak_ptr weak_ptr this) (fun _ => True) := by
  unfold SharedPtr.assign_weak_ptr
  repeat' first
    | exact WeakPtr_dtor_un _
    | exact WeakPtr_ctor_from_shared_un _
    | exact WeakPtr_assign_move_un _ _
    | apply Keeps_bind
    | intro _ _

theorem SharedPtr_ctor_adopt_un {b n : Nat} (ptr : Option Nat) (del alloc : Nat) (alloc_ok : Bool) :
    Keeps (Unowned b n) (SharedPtr.ctor_adopt ptr del alloc alloc_ok) (fun _ => True) := by
  unfold SharedPtr.ctor_adopt
  repeat' first
    | exact Keeps_pure trivial
    | exact new_shared_un (by assumption)
    | exact new_shared_un (by intro h; cases h)
    | exact get_block_keeps _
    | exact set_block_un _ _
    | exact get_world_keeps
    | exact allocate_block_un _ _
    | exact SharedPtr_assign_weak_ptr_un _ _
    | apply Keeps_bind
    | split
    | intro _ _

theorem SharedPtr_ctor_alias_un {b n : Nat} (other : Nat) (ptr : Option Nat) :
    Keeps (Unowned b n) (SharedPtr.ctor_alias other ptr) (fun _ => True) := by
  unfold SharedPtr.ctor_alias
  repeat' first
    | exact Keeps_pure trivial
    | exact get_shared_un _
    | exact new_shared_un (by assumption)
    | exact new_shared_un (by intro h; cases h)
    | exact get_block_keeps _
    | exact set_block_un _ _
    | apply Keeps_bind
    | split
    | intro _ _

theorem SharedPtr_ctor_copy_un {b n : Nat} (other : Nat) :
    Keeps (Unowned b n) (SharedPtr.ctor_copy other) (fun _ => True) := by
  unfold SharedPtr.ctor_copy
  repeat' first
    | exact Keeps_pure trivial
    | exact get_shared_un _
    | exact new_shared_un (by assumption)
    | exact new_shared_un (by intro h; cases h)
    | exact get_block_keeps _
    | exact set_block_un _ _
    | apply Keeps_bind
    | split
    | intro _ _

theorem SharedPtr_ctor_move_un {b n : Nat} (other : Nat) :
    Keeps (Unowned b n) (SharedPtr.ctor_move other) (fun _ => True) := by
  unfold SharedPtr.ctor_move
  repeat' first
    | exact Keeps_pure trivial
    | exact get_shared_un _
    | exact set_shared_un (by assumption) _
    | exact set_shared_un (by intro h; cases h) _
    | exact new_shared_un (by assumption)
    | exact new_shared_un (by intro h; cases h)
    | apply Keeps_bind
    | intro _ _

theorem SharedPtr_swap_un {b n : Nat} (this other : Nat) :
    Keeps (Unowned b n) (SharedPtr.swap this other) (fun _ => True) := by
  unfold SharedPtr.swap
  repeat' first
    | exact get_shared_un _
    | exact set_shared_un (by assumption) _
    | exact set_shared_un (by intro h; cases h) _
    | apply Keeps_bind
    | intro _ _

theorem SharedPtr_dtor_un {b n : Nat} (this : Nat) :
    Keeps (Unowned b n) (SharedPtr.dtor this) (fun _ => True) := by
  unfold SharedPtr.dtor
  repeat' first
    | exact Keeps_pure trivial
    | exact get_shared_un _
    | exact end_shared_un _
    | exact get_block_keeps _
    | exact set_block_un _ _
    | exact delete_block_un _
    | exact BaseControlBlock_delete_obj_un (by intro hbb; subst hbb; contradiction)
    | apply Keeps_bind
    | split
    | intro _ _

theorem SharedPtr_assign_copy_un {b n : Nat} (this other : Nat) :
    Keeps (Unowned b n) (SharedPtr.assign_copy this other) (fun _ => True) := by
  unfold SharedPtr.assign_copy
  repeat' first
    | exact SharedPtr_dtor_un _
    | exact SharedPtr_swap_un _ _
    | exact SharedPtr_ctor_copy_un _
    | apply Keeps_bind
    | intro _ _

theorem SharedPtr_assign_move_un {b n : Nat} (this other : Nat) :
    Keeps (Unowned b n) (SharedPtr.assign_move this other) (fun _ => True) := by
  unfold SharedPtr.assign_move
  repeat' first
    | exact SharedPtr_dtor_un _
    | exact SharedPtr_swap_un _ _
    | exact SharedPtr_ctor_move_un _
    | apply Keeps_bind
    | intro _ _

theorem SharedPtr_use_count_un {b n : Nat} (this : Nat) :
    Keeps (Unowned b n) (SharedPtr.use_count this) (fun _ => True) := by
  unfold SharedPtr.use_count
  repeat' first
    | exact Keeps_pure trivial
    | exact get_shared_un _
    | exact get_block_keeps _
    | apply Keeps_bind
    | split
    | intro _ _

theorem SharedPtr_get_un {b n : Nat} (this : Nat) :
    Keeps (Unowned b n) (SharedPtr.get this) (fun _ => True) := by
  unfold SharedPtr.get
  repeat' first
    | exact Keeps_pure trivial
    | exact get_shared_un _
    | apply Keeps_bind
    | intro _ _

theorem SharedPtr_construct_un {b n : Nat} (args : SharedPtr.Args) :
    Keeps (Unowned b n) (SharedPtr.construct args) (fun _ => True) := by
  cases args with
  | default => exact new_shared_un (by intro h; cases h)
  | adopt ptr del alloc alloc_ok => exact SharedPtr_ctor_adopt_un ptr del alloc alloc_ok
  | aliasing other ptr => exact SharedPtr_ctor_alias_un other ptr
  | copy other => exact SharedPtr_ctor_copy_un other
  | move other => exact SharedPtr_ctor_move_un other

theorem WeakPtr_construct_un {b n : Nat} (args : WeakPtr.Args) :
    Keeps (Unowned b n) (WeakPtr.construct args) (fun _ => True) := by
  cases args with
  | default => exact new_weak_un _
  | adopt ptr del alloc alloc_ok => exact WeakPtr_ctor_adopt_un ptr del alloc alloc_ok
  | aliasing other ptr => exact WeakPtr_ctor_alias_un other ptr
  | copy other => exact WeakPtr_ctor_copy_un other
  | move other => exact WeakPtr_ctor_move_un other
  | from_shared sh_ptr => exact WeakPtr_ctor_from_shared_un sh_ptr

theorem SharedPtr_reset_un {b n : Nat} (this : Nat) (args : SharedPtr.Args) :
    Keeps (Unowned b n) (SharedPtr.reset this args) (fun _ => True) := by
  unfold SharedPtr.reset
  repeat' first
    | exact SharedPtr_dtor_un _
    | exact SharedPtr_construct_un _
    | exact SharedPtr_assign_move_un _ _
    | apply Keeps_bind
    | intro _ _

theorem ControlBlockObject_ctor_un {b n : Nat} (esft ctor_ok : Bool) :
    Keeps (Unowned b n) (ControlBlockObject.ctor esft ctor_ok) (fun _ => True) := by
  intro w hJ
  cases ctor_ok with
  | false => exact hJ
  | true =>
    cases esft with
    | false => exact ⟨Unowned_frame w _ rfl rfl rfl hJ, trivial⟩
    | true =>
      by_cases hg : liveW w + 1 < SIZE_MOD
      · simp only [ControlBlockObject.ctor, if_true, WeakPtr.ctor_default, new_weak, hg]
        exact ⟨Unowned_frame w _ rfl rfl rfl hJ, trivial⟩
      · simp only [ControlBlockObject.ctor, if_true, WeakPtr.ctor_default, new_weak, hg,
          if_false]

theorem new_payload_un {b n : Nat} (esft : Bool) :
    Keeps (Unowned b n) (new_payload esft) (fun _ => True) := by
  intro w hJ
  cases esft with
  | false => exact ⟨Unowned_frame w _ rfl rfl rfl hJ, trivial⟩
  | true =>
    by_cases hg : liveW w + 1 < SIZE_MOD
    · simp only [new_payload, if_true, WeakPtr.ctor_default, new_weak, hg]
      exact ⟨Unowned_frame w _ rfl rfl rfl hJ, trivial⟩
    · simp only [new_payload, if_true, WeakPtr.ctor_default, new_weak, hg, if_false]

theorem allocateShared_un {b n : Nat} (esft : Bool) (alloc : Nat) (alloc_ok ctor_ok : Bool) :
    Keeps (Unowned b n) (allocateShared esft alloc alloc_ok ctor_ok) (fun _ => True) := by
  unfold allocateShared
  repeat' first
    | exact get_world_keeps
    | exact allocate_block_un _ _
    | exact SharedPtr_ctor_private_un _ (by assumption)
    | exact ControlBlockObject_ctor_un _ _
    | apply Keeps_bind
    | intro _ _

theorem step_un {b n : Nat} {op : Op} (hop : op.no_lock) :
    Keeps (Unowned b n) (step op) (fun _ => True) := by
  cases op with
  | new_payload esft => exact Keeps_discard (new_payload_un esft)
  | sp_construct args => exact Keeps_discard (SharedPtr_construct_un args)
  | sp_allocate esft alloc alloc_ok ctor_ok =>
    exact Keeps_discard (allocateShared_un esft alloc alloc_ok ctor_ok)
  | sp_make esft alloc_ok ctor_ok =>
    exact Keeps_discard (allocateShared_un esft default_alloc alloc_ok ctor_ok)
  | sp_assign_copy this other => exact SharedPtr_assign_copy_un this other
  | sp_assign_move this other => exact SharedPtr_assign_move_un this other
  | sp_swap this other => exact SharedPtr_swap_un this other
  | sp_reset this args => exact SharedPtr_reset_un this args
  | sp_use_count this => exact Keeps_discard (SharedPtr_use_count_un this)
  | sp_get this => exact Keeps_discard (SharedPtr_get_un this)
  | sp_destroy this => exact SharedPtr_dtor_un this
  | wp_construct args => exact Keeps_discard (WeakPtr_construct_un args)
  | wp_assign_copy this other => exact WeakPtr_assign_copy_un this other
  | wp_assign_move this other => exact WeakPtr_assign_move_un this other
  | wp_swap this other => exact WeakPtr_swap_un this other
  | wp_expired this => exact Keeps_discard (WeakPtr_expired_un this)
  | wp_use_count this => exact Keeps_discard (WeakPtr_use_count_un this)
  | wp_get this => exact Keeps_discard (WeakPtr_get_un this)
  | wp_lock this => exact False.elim hop
  | wp_destroy this => exact WeakPtr_dtor_un this
  | shared_from_this p => exact False.elim hop

/-- A program without `lock()` and `shared_from_this()` makes no shared handle on a
block that has none, and records no `delete_obj` on it. -/
theorem run_un {b n : Nat} (ops : List Op) :
    ∀ (w w1 : World), (∀ op, op ∈ ops → op.no_lock) → Unowned b n w →
      run ops w = Except.ok w1 → Unowned b n w1 := by
  induction ops with
  | nil =>
    intro w w1 _ hJ hrun
    simp only [run, Except.ok.injEq] at hrun
    rw [← hrun]
    exact hJ
  | cons op ops ih =>
    intro w w1 hops hJ hrun
    have hs := step_un (hops op (List.mem_cons_self _ _)) w hJ
    simp only [run] at hrun
    cases hst : step op w with
    | ok a w2 =>
      rw [hst] at hs hrun
      exact ih w2 w1 (fun o ho => hops o (List.mem_cons_of_mem _ ho)) hs.1 hrun
    | throw e w2 =>
      rw [hst] at hs hrun
      exact ih w2 w1 (fun o ho => hops o (List.mem_cons_of_mem _ ho)) hs hrun
    | fault f =>
      rw [hst] at hrun
      cases hrun

theorem cntS_eq_zero {w : World} {b : Nat}
    (h : ∀ (i : Nat) (x : SharedPtr), w.shared[i]? = some (some x) → x.control_block ≠ some b) :
    cntS w b = 0 := by
  unfold cntS
  rw [List.countP_eq_zero]
  intro a ha
  obtain ⟨i, hi⟩ := List.getElem?_of_mem ha
  cases a with
  | none => simp [refS]
  | some x =>
    have hx := h i x hi
    simp [refS, hx]

/-- C39: a weak handle adopts the raw pointer `p` (with the destruction strategy `d`)
after any program, and a program that makes no shared handle out of a weak one (no
`lock()`, no `shared_from_this()`) runs next.  Then the block of the adoption keeps
the counters `shared_counter = 0` and `weak_counter` = number of weak handles on it, no
`delete_obj` (the only caller of the destruction strategy of the block) has ever been
recorded on it, and destroying the last weak handle on it returns, records
`delete_block` and the deallocation once, and no `delete_obj`: the block is released
exactly once and `d` is never called on `p` through it. -/
theorem C39_adopted_weak_handle_release (ops0 ops : List Op) (w0 w1 w : World)
    (p : Option Nat) (d a s this : Nat) (h : WeakPtr)
    (h0 : run ops0 World.empty = Except.ok w0)
    (hadopt : WeakPtr.ctor_adopt p d a true w0 = Result.ok s w1)
    (hops : ∀ op, op ∈ ops → op.no_lock)
    (hrun : run ops w1 = Except.ok w)
    (hthis : w.weak[this]? = some (some h))
    (hcb : h.control_block = some w0.heap.length)
    (hlast : cntW w w0.heap.length = 1) :
    w1.heap[w0.heap.length]? = some ⟨0, 1, BlockKind.ptr p d a, false⟩ ∧
    w.heap[w0.heap.length]? = some ⟨0, 1, BlockKind.ptr p d a, false⟩ ∧
    w.log.count (Event.delete_obj w0.heap.length) = 0 ∧
    w.log.count (Event.delete_block w0.heap.length) = 0 ∧
    WeakPtr.dtor this w = Result.ok ()
      ⟨w.heap.set w0.heap.length ⟨0, 0, BlockKind.ptr p d a, true⟩, w.objs, w.shared,
       w.weak.set this none,
       w.log ++ [Event.delete_block w0.heap.length,
                 Event.deallocate default_alloc w0.heap.length]⟩ ∧
    (w.log ++ [Event.delete_block w0.heap.length,
               Event.deallocate default_alloc w0.heap.length]).count
      (Event.delete_block w0.heap.length) = 1 ∧
    (w.log ++ [Event.delete_block w0.heap.length,
               Event.deallocate default_alloc w0.heap.length]).count
      (Event.delete_obj w0.heap.length) = 0 := by
  have hI0 := inv_of_run h0
  have hL0 := run_lb ops0 World.empty w0 LogBound_empty h0
  have hI1 : Inv w1 := by
    have ht := WeakPtr_ctor_adopt_inv p d a true w0 hI0
    rw [hadopt] at ht
    exact ht
  -- the state after the adoption
  have hb0 : (w0.heap ++ [(⟨0, 0, BlockKind.ptr p d a, false⟩ : BaseControlBlock)])[
      w0.heap.length]? = some ⟨0, 0, BlockKind.ptr p d a, false⟩ := by
    simp
  have hset : (w0.heap ++ [(⟨0, 0, BlockKind.ptr p d a, false⟩ : BaseControlBlock)]).set
      w0.heap.length ⟨0, 1, BlockKind.ptr p d a, false⟩
      = w0.heap ++ [⟨0, 1, BlockKind.ptr p d a, false⟩] := by
    simp
  have hw1 : w1 = ⟨w0.heap ++ [⟨0, 1, BlockKind.ptr p d a, false⟩], w0.objs, w0.shared,
      w0.weak ++ [some ⟨p, some w0.heap.length⟩],
      w0.log ++ [Event.allocate default_alloc w0.heap.length]⟩ := by
    by_cases hg : List.countP Option.isSome w0.weak + 1 < SIZE_MOD
    · simp only [WeakPtr.ctor_adopt, bind_apply, allocate_block, if_true, new_weak, liveW, hg,
        get_block, hb0, Bool.false_eq_true, if_false, set_block, pure_apply, hset,
        Result.ok.injEq] at hadopt
      exact hadopt.2.symm
    · simp only [WeakPtr.ctor_adopt, bind_apply, allocate_block, if_true, new_weak, liveW, hg,
        if_false] at hadopt
      cases hadopt
  have hb1 : w1.heap[w0.heap.length]? = some ⟨0, 1, BlockKind.ptr p d a, false⟩ := by
    rw [hw1]
    simp
  have hnot0 : Event.delete_obj w0.heap.length ∉ w0.log := by
    intro hm
    exact Nat.lt_irrefl _ (hL0 _ hm)
  have hU1 : Unowned w0.heap.length 0 w1 := by
    refine ⟨heap_lt hb1, ?_, ?_⟩
    · intro i x hi hx
      rw [hw1] at hi
      obtain ⟨blk, hblk, _⟩ := hI0.block_of_shared hi hx
      exact Nat.lt_irrefl _ (heap_lt hblk)
    · rw [hw1]
      simp only [List.count_append, List.count_eq_zero_of_not_mem hnot0]
      rfl
  have hU := run_un ops w1 w hops hU1 hrun
  have hK := run_kind (HasKind_stable w0.heap.length (BlockKind.ptr p d a)) ops w1 w
    ⟨_, hb1, rfl⟩ hrun
  have hI : Inv w := by
    have ht := run_inv ops w1 hI1
    rw [hrun] at ht
    exact ht
  obtain ⟨blk, hb, hk⟩ := hK
  obtain ⟨blk2, hb2, hf⟩ := hI.block_of_weak hthis hcb
  rw [hb] at hb2
  cases hb2
  have hc := hI.counts _ blk hb
  have hs : blk.shared_counter = 0 := by
    rw [hc.1]
    exact cntS_eq_zero hU.2.1
  have hwc : blk.weak_counter = 1 := by
    rw [hc.2]
    exact hlast
  obtain ⟨sc, wc, k, fr⟩ := blk
  simp only at hk hf hs hwc
  subst hk hf hs hwc
  have hrel := hI.released w0.heap.length
  simp only [isFreed, hb, Bool.false_eq_true, if_false] at hrel
  have h2 : (1 : Nat) < SIZE_MOD := by unfold SIZE_MOD; decide
  have hd := WeakPtr_dtor_eq hthis hcb hb rfl (Nat.le_refl 1) h2
  simp only [and_self, decide_True, if_true, Nat.sub_self] at hd
  refine ⟨hb1, hb, hU.2.2, hrel, hd, ?_, ?_⟩
  · simp only [List.count_append, hrel]
    simp [List.count_cons]
  · simp only [List.count_append, hU.2.2]
    simp [List.count_cons]

/-- Witness of C39: a payload is made and a weak handle adopts it with the destruction
strategy 7; the handle is copied, the copy is moved, the original and the moved-from
copy are destroyed.  Destroying the remaining handle 2 releases block 0 and the
record holds no `delete_obj`. -/
theorem C39_adopted_weak_witness :
    WeakPtr.dtor 2
        ⟨[⟨0, 1, BlockKind.ptr (some 0) 7 5, false⟩], [⟨none⟩], [],
         [none, none, some ⟨some 0, some 0⟩], [Event.allocate default_alloc 0]⟩
      = Result.ok ()
        ⟨[⟨0, 0, BlockKind.ptr (some 0) 7 5, true⟩], [⟨none⟩], [],
         [none, none, none],
         [Event.allocate default_alloc 0, Event.delete_block 0,
          Event.deallocate default_alloc 0]⟩ :=
  (C39_adopted_weak_handle_release [Op.new_payload false]
    [Op.wp_construct (WeakPtr.Args.copy 0), Op.wp_construct (WeakPtr.Args.move 1),
     Op.wp_destroy 0, Op.wp_destroy 1]
    ⟨[], [⟨none⟩], [], [], []⟩
    ⟨[⟨0, 1, BlockKind.ptr (some 0) 7 5, false⟩], [⟨none⟩], [],
     [some ⟨some 0, some 0⟩], [Event.allocate default_alloc 0]⟩
    ⟨[⟨0, 1, BlockKind.ptr (some 0) 7 5, false⟩], [⟨none⟩], [],
     [none, none, some ⟨some 0, some 0⟩], [Event.allocate default_alloc 0]⟩
    (some 0) 7 5 0 2 ⟨some 0, some 0⟩ rfl rfl
    (by
      intro op hop
      simp only [List.mem_cons, List.mem_singleton, List.mem_nil_iff, or_false] at hop
      rcases hop with hop | hop | hop | hop <;> subst hop <;> exact trivial)
    rfl rfl rfl rfl).2.2.2.2.1

/-- `~SharedPtr` on a handle with a block where `delete_obj` destroys no stored weak
handle: the payload stores none, or the destruction strategy leaves the payload
alone. -/
theorem SharedPtr_dtor_kept_eq {w : World} {this b : Nat} {h : SharedPtr}
    {blk : BaseControlBlock}
    (hthis : w.shared[this]? = some (some h)) (hcb : h.control_block = some b)
    (hb : w.heap[b]? = some blk) (hf : blk.freed = false)
    (h1 : 1 ≤ blk.shared_counter) (h2 : blk.shared_counter < SIZE_MOD)
    (hp : blk.kind.destroys = true → weak_ptr_of w blk.kind.payload = none) :
    SharedPtr.dtor this w = Result.ok ()
      { w with shared := w.shared.set this none,
               heap := w.heap.set b
                 ⟨blk.shared_counter - 1, blk.weak_counter, blk.kind,
                  decide (blk.shared_counter = 1 ∧ blk.weak_counter = 0)⟩,
               log := w.log ++
                 (if blk.shared_counter = 1 then
                   [Event.delete_obj b, blk.kind.destroy_event] ++
                     (if blk.weak_counter = 0 then
                       [Event.delete_block b, Event.deallocate default_alloc b]
                     else [])
                 else []) } := by
  rw [SharedPtr_dtor_eq hthis hcb hb hf h1 h2]
  obtain ⟨sc, wc, k, fr⟩ := blk
  simp only at hf hp
  subst hf
  have hlt := heap_lt hb
  by_cases hs : sc = 1
  · subst hs
    have hb2 : (⟨w.heap.set b ⟨0, wc, k, false⟩, w.objs, w.shared.set this none, w.weak,
        w.log⟩ : World).heap[b]? = some ⟨0, wc, k, false⟩ :=
      List.getElem?_set_self hlt
    have hp2 : (⟨0, wc, k, false⟩ : BaseControlBlock).kind.destroys = true →
        weak_ptr_of (⟨w.heap.set b ⟨0, wc, k, false⟩, w.objs, w.shared.set this none, w.weak,
          w.log⟩ : World) (⟨0, wc, k, false⟩ : BaseControlBlock).kind.payload = none := hp
    have hdo := delete_obj_plain_eq hb2 rfl hp2
    by_cases hw : wc = 0
    · subst hw
      simp only [if_true, bind_apply, Nat.sub_self, and_self, decide_True]
      rw [hdo]
      simp only []
      have hb3 : (w.heap.set b ⟨0, 0, k, false⟩)[b]? = some ⟨0, 0, k, false⟩ :=
        List.getElem?_set_self hlt
      rw [delete_block_eq hb3 rfl]
      simp only [List.set_set, List.append_assoc, List.cons_append, List.nil_append]
    · simp only [hw, if_true, if_false, Nat.sub_self, and_false, decide_False,
        List.append_nil]
      rw [hdo]
  · simp only [hs, if_false, pure_apply, false_and, decide_False, List.append_nil]

/-- `~WeakPtr` on a live handle in a state satisfying the invariant: it returns, ends
the handle only, and leaves `shared_counter` and `kind` of every block as they are. -/
theorem WeakPtr_dtor_full {w : World} {this : Nat} {h : WeakPtr} (hI : Inv w)
    (hthis : w.weak[this]? = some (some h)) :
    ∃ w1 tail, WeakPtr.dtor this w = Result.ok () w1 ∧ Inv w1 ∧ KeptW w w1 ∧
      w1.weak = w.weak.set this none ∧ w1.shared = w.shared ∧ w1.objs = w.objs ∧
      w1.log = w.log ++ tail ∧ (∀ b, tail.count (Event.delete_obj b) = 0) ∧
      (∀ (b0 : Nat) (blk0 : BaseControlBlock), w.heap[b0]? = some blk0 →
        ∃ blk1, w1.heap[b0]? = some blk1 ∧
          blk1.shared_counter = blk0.shared_counter ∧ blk1.kind = blk0.kind) := by
  obtain ⟨w1, tail, heq, hI1, hk, hwk, hsh, hob, hfr, hlog, hcnt⟩ :=
    WeakPtr_dtor_reach hI hthis
  refine ⟨w1, tail, heq, hI1, hk, hwk, hsh, hob, hlog, hcnt, ?_⟩
  intro b0 blk0 hb0
  by_cases hc : h.control_block = some b0
  · obtain ⟨blk, hb, hf⟩ := hI.block_of_weak hthis hc
    rw [hb0] at hb
    cases hb
    have hc0 := hI.counts b0 blk0 hb0
    have hpos : 0 < cntW w b0 :=
      countP_pos_of_get (refW b0) w.weak this (some h) hthis (by simp [refW_of hc])
    have hle := cntW_le_liveW w b0
    have hl := hI.live_w
    have heq2 := WeakPtr_dtor_eq hthis hc hb0 hf (by omega) (by omega)
    rw [heq2] at heq
    simp only [Result.ok.injEq, true_and] at heq
    rw [← heq]
    exact ⟨_, List.getElem?_set_self (heap_lt hb0), rfl, rfl⟩
  · refine ⟨blk0, ?_, rfl, rfl⟩
    rw [hfr b0 hc]
    exact hb0

/-- `delete_obj` where the payload is destroyed and stores the weak handle `m`: after
the call and the call to the destruction strategy are recorded, `~WeakPtr` runs on
`m`. -/
theorem delete_obj_member_eq {w : World} {b m : Nat} {blk : BaseControlBlock}
    (hb : w.heap[b]? = some blk) (hf : blk.freed = false)
    (hd : blk.kind.destroys = true) (hp : weak_ptr_of w blk.kind.payload = some m) :
    BaseControlBlock.delete_obj b w =
      WeakPtr.dtor m { w with log := w.log ++ [Event.delete_obj b, blk.kind.destroy_event] } := by
  simp only [BaseControlBlock.delete_obj, bind_apply, get_block_ok hb hf, emit]
  cases hkind : blk.kind with
  | ptr p d a =>
    rw [hkind] at hp hd
    simp only [BlockKind.payload, weak_ptr_of] at hp
    simp only [BlockKind.destroys] at hd
    simp only [bind_apply, emit, Payload.dtor, get_world, weak_ptr_of, hp, hd, if_true,
      BlockKind.destroy_event, List.append_assoc, List.singleton_append]
  | object o a =>
    rw [hkind] at hp
    simp only [BlockKind.payload, weak_ptr_of] at hp
    simp only [bind_apply, emit, Payload.dtor, get_world, weak_ptr_of, hp,
      BlockKind.destroy_event, List.append_assoc, List.singleton_append]

/-- `delete_obj` in a state satisfying the invariant, on a block whose payload, if the
call destroys it, has not been destroyed before: it returns, records itself and the
call to the destruction strategy and no further `delete_obj`; the only weak handle
whose lifetime it ends is the one stored in the payload it destroys, and it leaves
`shared_counter` and `kind` of every block as they are. -/
theorem delete_obj_full {w : World} {b : Nat} {blk : BaseControlBlock} (hI : Inv w)
    (hb : w.heap[b]? = some blk) (hf : blk.freed = false)
    (halive : ∀ m, blk.kind.destroys = true → weak_ptr_of w blk.kind.payload = some m →
      ∃ hm, w.weak[m]? = some (some hm)) :
    ∃ w1 tail, BaseControlBlock.delete_obj b w = Result.ok () w1 ∧ Inv w1 ∧ KeptW w w1 ∧
      w1.shared = w.shared ∧
      w1.log = w.log ++ [Event.delete_obj b, blk.kind.destroy_event] ++ tail ∧
      (∀ b1, tail.count (Event.delete_obj b1) = 0) ∧
      (∀ i, (blk.kind.destroys = true → weak_ptr_of w blk.kind.payload ≠ some i) →
        w1.weak[i]? = w.weak[i]?) ∧
      (∀ (b0 : Nat) (blk0 : BaseControlBlock), w.heap[b0]? = some blk0 →
        ∃ blk1, w1.heap[b0]? = some blk1 ∧
          blk1.shared_counter = blk0.shared_counter ∧ blk1.kind = blk0.kind) := by
  by_cases hpl : blk.kind.destroys = true → weak_ptr_of w blk.kind.payload = none
  · have heq := delete_obj_plain_eq hb hf hpl
    have hspec := BaseControlBlock_delete_obj_spec b w hI hb hf
    rw [heq] at hspec
    exact ⟨_, [], heq, hspec.1, hspec.2, rfl, (List.append_nil _).symm, fun _ => rfl,
      fun _ _ => rfl, fun b0 blk0 hb0 => ⟨blk0, hb0, rfl, rfl⟩⟩
  · have hd : blk.kind.destroys = true := by
      by_contra hc
      exact hpl (fun h => False.elim (hc h))
    obtain ⟨m, hp⟩ : ∃ m, weak_ptr_of w blk.kind.payload = some m := by
      cases hq : weak_ptr_of w blk.kind.payload with
      | none => exact False.elim (hpl (fun _ => hq))
      | some m => exact ⟨m, rfl⟩
    obtain ⟨hm, hslot⟩ := halive m hd hp
    have hI1 := (hI.emit (Event.delete_obj b) (by intro b1 h; cases h)).emit
      blk.kind.destroy_event (by
        intro b1 h
        cases hk : blk.kind with
        | ptr p d a => rw [hk] at h; cases h
        | object o a => rw [hk] at h; cases h)
    obtain ⟨w1, tail, heq, hI2, hk, hwk, hsh, _, hlog, hcnt, hheap⟩ :=
      WeakPtr_dtor_full hI1 hslot
    refine ⟨w1, tail, ?_, hI2, hk, hsh, ?_, hcnt, ?_, hheap⟩
    · rw [delete_obj_member_eq hb hf hd hp]
      simp only [List.append_assoc, List.singleton_append] at heq ⊢
      exact heq
    · rw [hlog]
      simp only [List.append_assoc, List.singleton_append]
    · intro i hi
      have hne : m ≠ i := by
        intro hmi
        rw [hmi] at hp
        exact hi hd hp
      rw [hwk]
      exact List.getElem?_set_ne hne

/-- `~SharedPtr` on the last shared handle of a block, in a state satisfying the
invariant: it returns; `strong_count` of the block is 0 afterwards and the `kind` is
kept; what it records starts with `delete_obj` and the call to the destruction
strategy and has no other `delete_obj`; the only weak handle whose lifetime it ends is
the one stored in the payload it destroys. -/
theorem SharedPtr_dtor_last_full {w : World} {this b : Nat} {h : SharedPtr}
    {blk : BaseControlBlock} (hI : Inv w)
    (hthis : w.shared[this]? = some (some h)) (hcb : h.control_block = some b)
    (hb : w.heap[b]? = some blk) (hs : blk.shared_counter = 1)
    (halive : ∀ m, blk.kind.destroys = true → weak_ptr_of w blk.kind.payload = some m →
      ∃ hm, w.weak[m]? = some (some hm)) :
    ∃ w1 tail, SharedPtr.dtor this w = Result.ok () w1 ∧ Inv w1 ∧
      w1.shared = w.shared.set this none ∧
      w1.log = w.log ++ [Event.delete_obj b, blk.kind.destroy_event] ++ tail ∧
      (∀ b1, tail.count (Event.delete_obj b1) = 0) ∧
      (∀ i, (blk.kind.destroys = true → weak_ptr_of w blk.kind.payload ≠ some i) →
        w1.weak[i]? = w.weak[i]?) ∧
      (∃ blk1, w1.heap[b]? = some blk1 ∧ blk1.shared_counter = 0 ∧ blk1.kind = blk.kind) := by
  obtain ⟨blk1, hb1, hf⟩ := hI.block_of_shared hthis hcb
  rw [hb] at hb1
  cases hb1
  have h2 : blk.shared_counter < SIZE_MOD := by
    rw [hs]; unfold SIZE_MOD; decide
  have hinv := SharedPtr_dtor_inv this w hI
  rw [SharedPtr_dtor_eq hthis hcb hb hf (by omega) h2] at hinv ⊢
  have hI2 := hI.dec_shared hthis hcb hb
  obtain ⟨sc, wc, k, fr⟩ := blk
  simp only at hf hs halive
  subst hf
  subst hs
  have hlt := heap_lt hb
  have hb2 : (⟨w.heap.set b ⟨0, wc, k, false⟩, w.objs, w.shared.set this none, w.weak,
      w.log⟩ : World).heap[b]? = some ⟨0, wc, k, false⟩ :=
    List.getElem?_set_self hlt
  simp only [Nat.sub_self] at hI2 hinv
  obtain ⟨w1, tail, heq, hI3, hk, hsh, hlog, hcnt, hweak, hheap⟩ :=
    delete_obj_full hI2 hb2 rfl halive
  obtain ⟨blk1, hb1, hs1, hk1⟩ := hheap b _ hb2
  by_cases hw : wc = 0
  · subst hw
    simp only [if_true, bind_apply, Nat.sub_self, heq] at hinv ⊢
    have hz := (hI2.counts b _ hb2).2
    have hb3 := hk b _ hb2 hz.symm
    rw [delete_block_eq hb3 rfl] at hinv ⊢
    refine ⟨_, tail ++ [Event.delete_block b, Event.deallocate default_alloc b], rfl, hinv,
      hsh, ?_, ?_, hweak, ?_⟩
    · simp only [hlog, List.append_assoc]
    · intro b1
      simp only [List.count_append, hcnt b1, Nat.zero_add]
      simp [List.count_cons]
    · exact ⟨_, List.getElem?_set_self (heap_lt hb3), rfl, rfl⟩
  · simp only [hw, if_true, if_false, Nat.sub_self, heq] at hinv ⊢
    exact ⟨w1, tail, rfl, hinv, hsh, hlog, hcnt, hweak, blk1, hb1, hs1, hk1⟩

/-- C10 amended: in every reachable state, destroying a shared handle without a block
changes nothing but the handle.  With a block, for every payload: `strong_count` is
at least 1 and goes down by exactly 1; if it does not reach 0 nothing else happens;
if it reaches 0 `delete_obj` (and through it the destruction strategy) is called
once.  Where `delete_obj` destroys no stored weak handle (the payload stores none,
or the destruction strategy leaves the payload alone), `delete_block` is then called
if and only if `weak_count` is 0, and `weak_count` is not modified.  Where `delete_obj`
destroys the payload and the payload stores the weak handle `m`, the destructor is:
the decrement, the two recorded calls, `~WeakPtr` on `m`, then `delete_block` if and
only if `weak_count` was 0 when `delete_obj` was called; with `m` alive it returns with
`strong_count` 0; with `m` on this block `weak_count` has gone down by 1 and the
block is released by `~WeakPtr` if and only if it reached 0; with `m` on another block
or on none, `weak_count` of this block is not modified and `delete_block` is called on
it if and only if `weak_count` is 0. -/
theorem C10_destroy_shared_handle (ops : List Op) (w : World) (this : Nat) (h : SharedPtr)
    (hrun : run ops World.empty = Except.ok w)
    (hthis : w.shared[this]? = some (some h)) :
    (h.control_block = none →
      SharedPtr.dtor this w = Result.ok () { w with shared := w.shared.set this none }) ∧
    (∀ b, h.control_block = some b → ∃ blk, w.heap[b]? = some blk ∧
      1 ≤ blk.shared_counter ∧
      (blk.shared_counter ≠ 1 →
        SharedPtr.dtor this w = Result.ok ()
          { w with shared := w.shared.set this none,
                   heap := w.heap.set b
                     { blk with shared_counter := blk.shared_counter - 1 } }) ∧
      ((blk.kind.destroys = true → weak_ptr_of w blk.kind.payload = none) →
        SharedPtr.dtor this w = Result.ok ()
          { w with shared := w.shared.set this none,
                   heap := w.heap.set b
                     ⟨blk.shared_counter - 1, blk.weak_counter, blk.kind,
                      decide (blk.shared_counter = 1 ∧ blk.weak_counter = 0)⟩,
                   log := w.log ++
                     (if blk.shared_counter = 1 then
                       [Event.delete_obj b, blk.kind.destroy_event] ++
                         (if blk.weak_counter = 0 then
                           [Event.delete_block b, Event.deallocate default_alloc b]
                         else [])
                     else []) }) ∧
      (∀ m, blk.shared_counter = 1 → blk.kind.destroys = true →
        weak_ptr_of w blk.kind.payload = some m →
        SharedPtr.dtor this w =
          (WeakPtr.dtor m >>= fun _ =>
            if blk.weak_counter = 0 then BaseControlBlock.delete_block b else pure ())
          ⟨w.heap.set b ⟨0, blk.weak_counter, blk.kind, false⟩, w.objs,
           w.shared.set this none, w.weak,
           w.log ++ [Event.delete_obj b, blk.kind.destroy_event]⟩ ∧
        (∀ hm, w.weak[m]? = some (some hm) →
          (∃ w1 tail, SharedPtr.dtor this w = Result.ok () w1 ∧
            w1.shared = w.shared.set this none ∧
            (∃ blk1, w1.heap[b]? = some blk1 ∧ blk1.shared_counter = 0 ∧
              blk1.kind = blk.kind) ∧
            w1.log = w.log ++ [Event.delete_obj b, blk.kind.destroy_event] ++ tail ∧
            (∀ b1, tail.count (Event.delete_obj b1) = 0)) ∧
          (hm.control_block = some b →
            SharedPtr.dtor this w = Result.ok ()
              ⟨w.heap.set b ⟨0, blk.weak_counter - 1, blk.kind,
                 decide (blk.weak_counter = 1)⟩,
               w.objs, w.shared.set this none, w.weak.set m none,
               w.log ++ [Event.delete_obj b, blk.kind.destroy_event] ++
                 (if blk.weak_counter = 1 then
                   [Event.delete_block b, Event.deallocate default_alloc b]
                 else [])⟩) ∧
          (hm.control_block ≠ some b →
            ∃ w1 tail, SharedPtr.dtor this w = Result.ok () w1 ∧
              w1.heap[b]? = some ⟨0, blk.weak_counter, blk.kind,
                decide (blk.weak_counter = 0)⟩ ∧
              w1.log = w.log ++ [Event.delete_obj b, blk.kind.destroy_event] ++ tail ++
                (if blk.weak_counter = 0 then
                  [Event.delete_block b, Event.deallocate default_alloc b]
                else []) ∧
              tail.count (Event.delete_block b) = 0 ∧
              (∀ b1, tail.count (Event.delete_obj b1) = 0))))) := by
  have hI := inv_of_run hrun
  refine ⟨fun hcb => SharedPtr_dtor_null hthis hcb, ?_⟩
  intro b hcb
  obtain ⟨blk, hb, hf⟩ := hI.block_of_shared hthis hcb
  have hc := hI.counts b blk hb
  have hpos : 0 < cntS w b :=
    countP_pos_of_get (refS b) w.shared this (some h) hthis (by simp [refS_of hcb])
  have hle := cntS_le_liveS w b
  have hl := hI.live_s
  have h1 : 1 ≤ blk.shared_counter := by omega
  have h2 : blk.shared_counter < SIZE_MOD := by omega
  refine ⟨blk, hb, h1, ?_, ?_, ?_⟩
  · intro hs
    rw [SharedPtr_dtor_eq hthis hcb hb hf h1 h2]
    simp only [hs, if_false, pure_apply]
  · intro hp
    exact SharedPtr_dtor_kept_eq hthis hcb hb hf h1 h2 hp
  · intro m hs hd hp
    have heqn : SharedPtr.dtor this w =
        (WeakPtr.dtor m >>= fun _ =>
          if blk.weak_counter = 0 then BaseControlBlock.delete_block b else pure ())
        ⟨w.heap.set b ⟨0, blk.weak_counter, blk.kind, false⟩, w.objs,
         w.shared.set this none, w.weak,
         w.log ++ [Event.delete_obj b, blk.kind.destroy_event]⟩ := by
      rw [SharedPtr_dtor_eq hthis hcb hb hf h1 h2]
      obtain ⟨sc, wc, k, fr⟩ := blk
      simp only at hf hs hd hp
      subst hf
      subst hs
      have hb2 : (⟨w.heap.set b ⟨0, wc, k, false⟩, w.objs, w.shared.set this none, w.weak,
          w.log⟩ : World).heap[b]? = some ⟨0, wc, k, false⟩ :=
        List.getElem?_set_self (heap_lt hb)
      have hd2 : (⟨0, wc, k, false⟩ : BaseControlBlock).kind.destroys = true := hd
      have hp2 : weak_ptr_of (⟨w.heap.set b ⟨0, wc, k, false⟩, w.objs, w.shared.set this none,
          w.weak, w.log⟩ : World) (⟨0, wc, k, false⟩ : BaseControlBlock).kind.payload
          = some m := hp
      have hdo := delete_obj_member_eq hb2 rfl hd2 hp2
      by_cases hw : wc = 0
      · simp only [hw, if_true, bind_apply, Nat.sub_self] at hdo ⊢
        rw [hdo]
      · simp only [hw, if_true, if_false, bind_apply, Nat.sub_self] at hdo ⊢
        rw [hdo]
        cases WeakPtr.dtor m _ <;> rfl
    refine ⟨heqn, ?_⟩
    intro hm hslot
    refine ⟨?_, ?_, ?_⟩
    · obtain ⟨w1, tail, heq, _, hsh, hlog, hcnt, _, hblk⟩ :=
        SharedPtr_dtor_last_full hI hthis hcb hb hs (fun m1 _ hp1 => by
          rw [hp] at hp1
          cases hp1
          exact ⟨hm, hslot⟩)
      exact ⟨w1, tail, heq, hsh, hblk, hlog, hcnt⟩
    · intro hmb
      rw [heqn]
      have hposw : 0 < cntW w b :=
        countP_pos_of_get (refW b) w.weak m (some hm) hslot (by simp [refW_of hmb])
      have hlew := cntW_le_liveW w b
      have hlw := hI.live_w
      obtain ⟨sc, wc, k, fr⟩ := blk
      simp only at hf hs hd hp hc
      subst hf
      subst hs
      have hw1 : 1 ≤ wc := by omega
      have hw2 : wc < SIZE_MOD := by omega
      have hw0 : ¬ (wc = 0) := by omega
      have hb2 : (⟨w.heap.set b ⟨0, wc, k, false⟩, w.objs, w.shared.set this none, w.weak,
          w.log ++ [Event.delete_obj b, k.destroy_event]⟩ : World).heap[b]?
          = some ⟨0, wc, k, false⟩ :=
        List.getElem?_set_self (heap_lt hb)
      have hslot2 : (⟨w.heap.set b ⟨0, wc, k, false⟩, w.objs, w.shared.set this none, w.weak,
          w.log ++ [Event.delete_obj b, k.destroy_event]⟩ : World).weak[m]?
          = some (some hm) := hslot
      have hwd := WeakPtr_dtor_eq hslot2 hmb hb2 rfl hw1 hw2
      simp only [bind_apply, hwd, hw0, if_false, pure_apply, true_and, List.set_set]
    · intro hmb
      rw [heqn]
      have hId := hI.dec_shared hthis hcb hb
      obtain ⟨sc, wc, k, fr⟩ := blk
      simp only at hf hs hd hp hc hId
      subst hf
      subst hs
      simp only [Nat.sub_self] at hId
      have hImid := (hId.emit (Event.delete_obj b) (by intro b1 h; cases h)).emit
        k.destroy_event (by
          intro b1 h
          cases hk : k with
          | ptr p d a => rw [hk] at h; cases h
          | object o a => rw [hk] at h; cases h)
      have hb2 : (⟨w.heap.set b ⟨0, wc, k, false⟩, w.objs, w.shared.set this none, w.weak,
          w.log ++ [Event.delete_obj b] ++ [k.destroy_event]⟩ : World).heap[b]?
          = some ⟨0, wc, k, false⟩ :=
        List.getElem?_set_self (heap_lt hb)
      have hslot2 : (⟨w.heap.set b ⟨0, wc, k, false⟩, w.objs, w.shared.set this none, w.weak,
          w.log ++ [Event.delete_obj b] ++ [k.destroy_event]⟩ : World).weak[m]?
          = some (some hm) := hslot
      obtain ⟨w1, tail, heq, hI2, _, _, _, _, hfr, hlog, hcnt⟩ :=
        WeakPtr_dtor_reach hImid hslot2
      obtain ⟨w1b, tailb, heqb, _, _, _, hlogb, hshape⟩ := WeakPtr_dtor_log hImid hslot2
      have hw1 : w1b = w1 := by
        rw [heq] at heqb
        simp only [Result.ok.injEq, true_and] at heqb
        exact heqb.symm
      subst hw1
      have htl : tailb = tail := by
        rw [hlog] at hlogb
        exact (List.append_cancel_left hlogb).symm
      subst htl
      have hbw1 : w1b.heap[b]? = some ⟨0, wc, k, false⟩ := by
        rw [hfr b hmb]
        exact hb2
      have hcb0 : tailb.count (Event.delete_block b) = 0 := by
        rcases hshape with ht | ⟨bm, hbm, ht⟩
        · rw [ht]; rfl
        · have hne : bm ≠ b := by
            intro hbb
            rw [hbb] at hbm
            exact hmb hbm
          rw [ht]
          simp [List.count_cons, hne]
      have hmid : (w.log ++ [Event.delete_obj b, k.destroy_event])
          = w.log ++ [Event.delete_obj b] ++ [k.destroy_event] := by
        simp only [List.append_assoc, List.singleton_append]
      simp only [hmid, bind_apply, heq]
      by_cases hw : wc = 0
      · subst hw
        simp only [if_true]
        rw [delete_block_eq hbw1 rfl]
        refine ⟨_, tailb, rfl, ?_, ?_, hcb0, hcnt⟩
        · simp only [decide_True]
          exact List.getElem?_set_self (heap_lt hbw1)
        · simp only [hlog, List.append_assoc, List.singleton_append]
      · simp only [hw, if_false, pure_apply, List.append_nil, decide_False]
        exact ⟨w1b, tailb, rfl, hbw1, hlog, hcb0, hcnt⟩

/-- Witness of C10: the last shared handle of `world_single` is destroyed; the
payload is destroyed and, `weak_count` being 0, the block is released. -/
theorem C10_destroy_shared_handle_witness :
    run prog_single World.empty = Except.ok world_single ∧
    SharedPtr.dtor 0 world_single = Result.ok ()
      { heap := [⟨0, 0, BlockKind.ptr (some 0) default_delete default_alloc, true⟩],
        objs := [⟨none⟩], shared := [none], weak := [],
        log := [Event.allocate default_alloc 0, Event.delete_obj 0,
                Event.deleter default_delete (some 0), Event.delete_block 0,
                Event.deallocate default_alloc 0] } := by
  refine ⟨rfl, ?_⟩
  obtain ⟨blk, hb, _, _, hd, _⟩ := (C10_destroy_shared_handle prog_single world_single 0
    ⟨some 0, some 0⟩ rfl rfl).2 0 rfl
  have hblk : blk = ⟨1, 0, BlockKind.ptr (some 0) default_delete default_alloc, false⟩ := by
    have h0 : world_single.heap[0]? =
        some ⟨1, 0, BlockKind.ptr (some 0) default_delete default_alloc, false⟩ := rfl
    rw [h0] at hb
    exact (Option.some.inj hb).symm
  subst hblk
  exact hd (fun _ => rfl)

/-- C13 amended: in every reachable state, a block with a live weak handle on it has
not been released.  For a block with a live weak handle `i` on it that is not
destroyed with the payload (`i` is not the weak handle stored in the payload, or the
destruction strategy leaves the payload alone), destroying the last shared handle
returns, calls `delete_obj` (and the destruction strategy) at once and does not
release the block: no `delete_block` on it is recorded, the block is unreleased with
`strong_count` 0 and `weak_count` at least 1, and `i` is alive as before.  Where
`delete_obj` destroys no stored weak handle at all, the state reached is given in
closed form: `weak_count` is not modified. -/
theorem C13_weak_handles_keep_block_only (ops : List Op) (w : World)
    (hrun : run ops World.empty = Except.ok w) :
    (∀ (i : Nat) (hw : WeakPtr) (b : Nat), w.weak[i]? = some (some hw) →
      hw.control_block = some b → ∃ blk, w.heap[b]? = some blk ∧ blk.freed = false) ∧
    (∀ (this : Nat) (h : SharedPtr) (b : Nat) (blk : BaseControlBlock) (i : Nat)
      (hw : WeakPtr),
      w.shared[this]? = some (some h) → h.control_block = some b →
      w.heap[b]? = some blk → blk.shared_counter = 1 →
      w.weak[i]? = some (some hw) → hw.control_block = some b →
      (blk.kind.destroys = true → weak_ptr_of w blk.kind.payload ≠ some i) →
      (∀ m, blk.kind.destroys = true → weak_ptr_of w blk.kind.payload = some m →
        ∃ hm, w.weak[m]? = some (some hm)) →
      ∃ w1 tail, SharedPtr.dtor this w = Result.ok () w1 ∧
        w1.log = w.log ++ [Event.delete_obj b, blk.kind.destroy_event] ++ tail ∧
        (∀ b1, tail.count (Event.delete_obj b1) = 0) ∧
        tail.count (Event.delete_block b) = 0 ∧
        w1.weak[i]? = some (some hw) ∧
        ∃ blk1, w1.heap[b]? = some blk1 ∧ blk1.freed = false ∧
          blk1.shared_counter = 0 ∧ 1 ≤ blk1.weak_counter ∧ blk1.kind = blk.kind) ∧
    (∀ (this : Nat) (h : SharedPtr) (b : Nat) (blk : BaseControlBlock),
      w.shared[this]? = some (some h) → h.control_block = some b →
      w.heap[b]? = some blk → blk.shared_counter = 1 → 1 ≤ blk.weak_counter →
      (blk.kind.destroys = true → weak_ptr_of w blk.kind.payload = none) →
      SharedPtr.dtor this w = Result.ok ()
        { w with shared := w.shared.set this none,
                 heap := w.heap.set b ⟨0, blk.weak_counter, blk.kind, false⟩,
                 log := w.log ++ [Event.delete_obj b, blk.kind.destroy_event] }) := by
  have hI := inv_of_run hrun
  refine ⟨fun i hw b hi hcb => hI.block_of_weak hi hcb, ?_, ?_⟩
  · intro this h b blk i hw hthis hcb hb hs hi hwb hne halive
    obtain ⟨w1, tail, heq, hI1, _, hlog, hcnt, hweak, blk1, hb1, hs1, hk1⟩ :=
      SharedPtr_dtor_last_full hI hthis hcb hb hs halive
    have hi1 : w1.weak[i]? = some (some hw) := by
      rw [hweak i hne]
      exact hi
    obtain ⟨blk2, hb2, hf2⟩ := hI1.block_of_weak hi1 hwb
    rw [hb1] at hb2
    cases hb2
    have hc1 := hI1.counts b blk1 hb1
    have hposw : 0 < cntW w1 b :=
      countP_pos_of_get (refW b) w1.weak i (some hw) hi1 (by simp [refW_of hwb])
    have hrel := hI1.released b
    simp only [isFreed, hb1, hf2, Bool.false_eq_true, if_false] at hrel
    rw [hlog] at hrel
    simp only [List.count_append] at hrel
    exact ⟨w1, tail, heq, hlog, hcnt, by omega, hi1, blk1, hb1, hf2, hs1, by omega, hk1⟩
  · intro this h b blk hthis hcb hb hs hwc hp
    obtain ⟨blk1, hb1, hf⟩ := hI.block_of_shared hthis hcb
    rw [hb] at hb1
    cases hb1
    have hne : ¬ (blk.weak_counter = 0) := by omega
    have h2 : blk.shared_counter < SIZE_MOD := by
      rw [hs]; unfold SIZE_MOD; decide
    have h := SharedPtr_dtor_kept_eq hthis hcb hb hf (by omega) h2 hp
    simp only [hs, hne, if_true, if_false, and_false, decide_False, Nat.sub_self,
      List.append_nil] at h
    exact h

/-- Witness of C13: the payload of `world_esft_observed` stores the weak handle 0 and
the client observes the block by the weak handle 3.  The shared handle is destroyed:
the payload and its member are destroyed, the block stays, kept by the weak handle 3. -/
theorem C13_weak_handles_witness :
    run prog_esft_observed World.empty = Except.ok world_esft_observed ∧
    SharedPtr.dtor 0 world_esft_observed = Result.ok () world_esft_observed_end ∧
    (∃ w1 tail, SharedPtr.dtor 0 world_esft_observed = Result.ok () w1 ∧
      w1.log = world_esft_observed.log ++
        [Event.delete_obj 0, Event.deleter default_delete (some 0)] ++ tail ∧
      (∀ b1, tail.count (Event.delete_obj b1) = 0) ∧
      tail.count (Event.delete_block 0) = 0 ∧
      w1.weak[3]? = some (some ⟨some 0, some 0⟩) ∧
      ∃ blk1, w1.heap[0]? = some blk1 ∧ blk1.freed = false ∧
        blk1.shared_counter = 0 ∧ 1 ≤ blk1.weak_counter ∧
        blk1.kind = BlockKind.ptr (some 0) default_delete default_alloc) :=
  ⟨rfl, rfl,
   (C13_weak_handles_keep_block_only prog_esft_observed world_esft_observed rfl).2.1 0
     ⟨some 0, some 0⟩ 0 ⟨1, 2, BlockKind.ptr (some 0) default_delete default_alloc, false⟩ 3
     ⟨some 0, some 0⟩ rfl rfl rfl rfl rfl rfl (fun _ => by decide)
     (fun m _ hm => by
       have h0 : m = 0 := by
         have h1 : (some 0 : Option Nat) = some m := hm
         exact (Option.some.inj h1).symm
       subst h0
       exact ⟨⟨some 0, some 0⟩, rfl⟩)⟩

end Shared_ptr
